import Mathlib

/-!
ShadowHeap: metadata stores, the pre-free pointer check and the shadow snapshots.

Shallow embedding of the metadata store back-ends (`src/store/*.h`), of the
stored metadata entry (`src/common/malloc_meta.h`), of the parts of the
interceptor facade and wrapper that drive the store
(`src/facade/ShadowHeapFacade.h`, `src/wrapper/ShadowHeapWrapper.h`), of the
verify and record halves of the three snapshots (top chunk, unsorted bin, tcache)
with the order in which an intercepted call runs them, of the initialisation:
the reading of the environment (`src/tools/ModeReader.h`) and the probe of the
allocator (`src/leak/leak.cxx`, `src/leak/leak.h`), and of the guarded raw `calloc`
of the hooks (`src/hook/hookinfo.h`).

Conventions.
* `void*` and `size_t` are 64-bit words, embedded as `Nat`; the null pointer is `0`.
  Arithmetic that can wrap in the source is written with an explicit `% WORD`.
* An object with methods becomes a structure; a mutating method returns the new
  object next to its result.
* A call that raises `SIGILL`, that runs into undefined behaviour or that does not
  return is `none`; where the process can also end by `exit` or `abort`, the result
  is an `Except Failure`.
-/

namespace ShadowHeap

/-! ## Definitions -/

/-- Number of values of a 64-bit word (`size_t`, `void*`). -/
def WORD : Nat := 2 ^ 64

/-- Flag `PREV_INUSE` of `malloc_meta.h`. -/
def PREV_INUSE : Nat := 0x1

/-- Flag `IS_MMAPPED` of `malloc_meta.h`. -/
def IS_MMAPPED : Nat := 0x2

/-- Flag `NON_MAIN_ARENA` of `malloc_meta.h`. -/
def NON_MAIN_ARENA : Nat := 0x4

/-- The three flag bits: `PREV_INUSE | IS_MMAPPED | NON_MAIN_ARENA`. -/
def SIZE_BITS : Nat := PREV_INUSE ||| IS_MMAPPED ||| NON_MAIN_ARENA

/-- The metadata format that is used internally: `struct MALLOC_META`. -/
structure MALLOC_META where
  ptr : Nat
  size : Nat
deriving DecidableEq

namespace MALLOC_META

/-- The value-initialised object `MALLOC_META{}`: null pointer, size word 0. -/
def empty : MALLOC_META := { ptr := 0, size := 0 }

/-- Embeds `is_some`: `ptr && size`. -/
def is_some (m : MALLOC_META) : Bool := m.ptr != 0 && m.size != 0

/-- Embeds `chunksize`: `size & ~(SIZE_BITS)` on a 64-bit word. -/
def chunksize (m : MALLOC_META) : Nat := m.size &&& (WORD - 1 - SIZE_BITS)

/-- Embeds `equals_ptr_size`: same pointer and same size with the flag bits stripped. -/
def equals_ptr_size (m other : MALLOC_META) : Bool :=
  m.ptr == other.ptr && m.chunksize == other.chunksize

/-- Embeds `equals_ptr_size_flags`: same pointer and same raw size word. -/
def equals_ptr_size_flags (m other : MALLOC_META) : Bool :=
  m.ptr == other.ptr && m.size == other.size

/-- Embeds `operator!=`, the negation of `operator==`, which is `equals_ptr_size`. -/
def ne (left right : MALLOC_META) : Bool := !(left.equals_ptr_size right)

end MALLOC_META

/-! ### The standard associative container

`std::map<void*, V>` and `std::unordered_map<void*, V>` are used through `find`,
`emplace`, `erase(iterator)` and `size` only; the iteration order is never
observed.  Both are embedded as a list of key/value pairs. -/

/-- A list of key/value pairs standing for `std::map` / `std::unordered_map`. -/
abbrev StdMap (V : Type) := List (Nat × V)

namespace StdMap

/-- The member `find(key)`: the mapped value, `none` for `end()`. -/
def find {V : Type} : StdMap V → Nat → Option V
  | [], _ => none
  | (k, v) :: m, key => if k = key then some v else find m key

/-- The member `emplace(key, v)`: inserts unless the key is present; the flag is `.second`. -/
def emplace {V : Type} (m : StdMap V) (key : Nat) (v : V) : StdMap V × Bool :=
  match find m key with
  | some _ => (m, false)
  | none => (m ++ [(key, v)], true)

/-- The member `erase(it)` for the iterator returned by `find(key)`. -/
def erase {V : Type} : StdMap V → Nat → StdMap V
  | [], _ => []
  | (k, v) :: m, key => if k = key then m else (k, v) :: erase m key

/-- The assignment `it->second = v` for the iterator returned by `find(key)`. -/
def assign {V : Type} : StdMap V → Nat → V → StdMap V
  | [], _, _ => []
  | (k, w) :: m, key, v => if k = key then (k, v) :: m else (k, w) :: assign m key v

end StdMap

/-! ### `VectorMetaStore` -/

/-- The class `VectorMetaStore`: a `std::vector<MALLOC_META>`. -/
structure VectorMetaStore where
  elements : List MALLOC_META
deriving DecidableEq

namespace VectorMetaStore

/-- The store after construction. -/
def init : VectorMetaStore := { elements := [] }

/-- Embeds `get`: the first element with the pointer `key`, else `{}`. -/
def get (s : VectorMetaStore) (key : Nat) : MALLOC_META :=
  (s.elements.find? (fun chunk => chunk.ptr == key)).getD MALLOC_META.empty

/-- Embeds `put`: `if (chunk.ptr && !get(chunk.ptr).ptr) { emplace_back; return true; } return false;`. -/
def put (s : VectorMetaStore) (chunk : MALLOC_META) : Bool × VectorMetaStore :=
  if chunk.ptr ≠ 0 ∧ (s.get chunk.ptr).ptr = 0 then
    (true, { elements := s.elements ++ [chunk] })
  else
    (false, s)

/-- Embeds `remove`: `find_if` on the pointer, compare with `!=`, swap with the last element,
`pop_back`. -/
def remove (s : VectorMetaStore) (key : MALLOC_META) : Bool × VectorMetaStore :=
  let it := s.elements.findIdx (fun el => el.ptr == key.ptr)
  match s.elements[it]? with
  | none => (false, s)
  | some el =>
    if el.ne key then (false, s)
    else
      match s.elements.getLast? with
      | none => (false, s)
      | some back => (true, { elements := (s.elements.set it back).dropLast })

/-- Embeds `IMetaStore::update`: `old = get(key.ptr); old.is_some() && remove(old) && put(key)`. -/
def update (s : VectorMetaStore) (key : MALLOC_META) : Bool × VectorMetaStore :=
  let old := s.get key.ptr
  if old.is_some then
    let r := s.remove old
    if r.1 then r.2.put key else (false, r.2)
  else (false, s)

/-- Embeds `size`. -/
def size (s : VectorMetaStore) : Nat := s.elements.length

/-- Embeds `clear`. -/
def clear (_s : VectorMetaStore) : VectorMetaStore := { elements := [] }

end VectorMetaStore

/-! ### `MapMetaStore` -/

/-- The class `MapMetaStore`: a `std::map<void*, MALLOC_META>`. -/
structure MapMetaStore where
  elements : StdMap MALLOC_META
deriving DecidableEq

namespace MapMetaStore

/-- The store after construction. -/
def init : MapMetaStore := { elements := [] }

/-- Embeds `put`: `chunk.ptr && elements.emplace(chunk.ptr, chunk).second`. -/
def put (s : MapMetaStore) (chunk : MALLOC_META) : Bool × MapMetaStore :=
  if chunk.ptr ≠ 0 then
    let r := StdMap.emplace s.elements chunk.ptr chunk
    (r.2, { elements := r.1 })
  else (false, s)

/-- Embeds `get`: `find(key)`, `{}` for `end()`, else `it->second`. -/
def get (s : MapMetaStore) (key : Nat) : MALLOC_META :=
  match StdMap.find s.elements key with
  | none => MALLOC_META.empty
  | some v => v

/-- Embeds `remove`: `find(key.ptr)`; `false` for `end()` or `it->second != key`; else erase. -/
def remove (s : MapMetaStore) (key : MALLOC_META) : Bool × MapMetaStore :=
  match StdMap.find s.elements key.ptr with
  | none => (false, s)
  | some v =>
    if v.ne key then (false, s)
    else (true, { elements := StdMap.erase s.elements key.ptr })

/-- Embeds `IMetaStore::update`: `old = get(key.ptr); old.is_some() && remove(old) && put(key)`. -/
def update (s : MapMetaStore) (key : MALLOC_META) : Bool × MapMetaStore :=
  let old := s.get key.ptr
  if old.is_some then
    let r := s.remove old
    if r.1 then r.2.put key else (false, r.2)
  else (false, s)

/-- Embeds `size`. -/
def size (s : MapMetaStore) : Nat := s.elements.length

/-- Embeds `clear`. -/
def clear (_s : MapMetaStore) : MapMetaStore := { elements := [] }

end MapMetaStore

/-! ### `UnorderedMapMetaStore` -/

/-- The class `UnorderedMapMetaStore`: a `std::unordered_map<void*, MALLOC_META>`. -/
structure UnorderedMapMetaStore where
  elements : StdMap MALLOC_META
deriving DecidableEq

namespace UnorderedMapMetaStore

/-- The store after construction. -/
def init : UnorderedMapMetaStore := { elements := [] }

/-- Embeds `put`: `chunk.ptr && elements.emplace(chunk.ptr, chunk).second`. -/
def put (s : UnorderedMapMetaStore) (chunk : MALLOC_META) : Bool × UnorderedMapMetaStore :=
  if chunk.ptr ≠ 0 then
    let r := StdMap.emplace s.elements chunk.ptr chunk
    (r.2, { elements := r.1 })
  else (false, s)

/-- Embeds `get`: `find(key)`, `{}` for `end()`, else `it->second`. -/
def get (s : UnorderedMapMetaStore) (key : Nat) : MALLOC_META :=
  match StdMap.find s.elements key with
  | none => MALLOC_META.empty
  | some v => v

/-- Embeds `remove`: `find(key.ptr)`; `false` for `end()` or `it->second != key`; else erase. -/
def remove (s : UnorderedMapMetaStore) (key : MALLOC_META) : Bool × UnorderedMapMetaStore :=
  match StdMap.find s.elements key.ptr with
  | none => (false, s)
  | some v =>
    if v.ne key then (false, s)
    else (true, { elements := StdMap.erase s.elements key.ptr })

/-- Embeds `IMetaStore::update`: `old = get(key.ptr); old.is_some() && remove(old) && put(key)`. -/
def update (s : UnorderedMapMetaStore) (key : MALLOC_META) : Bool × UnorderedMapMetaStore :=
  let old := s.get key.ptr
  if old.is_some then
    let r := s.remove old
    if r.1 then r.2.put key else (false, r.2)
  else (false, s)

/-- Embeds `size`. -/
def size (s : UnorderedMapMetaStore) : Nat := s.elements.length

/-- Embeds `clear`. -/
def clear (_s : UnorderedMapMetaStore) : UnorderedMapMetaStore := { elements := [] }

end UnorderedMapMetaStore

/-! ### `HashMetaStore` -/

/-- The class `HashMetaStore`: a `std::unordered_map<void*, size_t>`. -/
structure HashMetaStore where
  elements : StdMap Nat
deriving DecidableEq

namespace HashMetaStore

/-- The store after construction. -/
def init : HashMetaStore := { elements := [] }

/-- Embeds `put`: `chunk.ptr && elements.emplace(chunk.ptr, chunk.size).second`. -/
def put (s : HashMetaStore) (chunk : MALLOC_META) : Bool × HashMetaStore :=
  if chunk.ptr ≠ 0 then
    let r := StdMap.emplace s.elements chunk.ptr chunk.size
    (r.2, { elements := r.1 })
  else (false, s)

/-- Embeds `get`: `find(key)`, `{}` for `end()`, else `{ key, it->second }`. -/
def get (s : HashMetaStore) (key : Nat) : MALLOC_META :=
  match StdMap.find s.elements key with
  | none => MALLOC_META.empty
  | some sz => { ptr := key, size := sz }

/-- Embeds `remove`: `find(key.ptr)`; `false` for `end()` or
`MALLOC_META{ key.ptr, it->second } != key`; else erase. -/
def remove (s : HashMetaStore) (key : MALLOC_META) : Bool × HashMetaStore :=
  match StdMap.find s.elements key.ptr with
  | none => (false, s)
  | some sz =>
    if MALLOC_META.ne { ptr := key.ptr, size := sz } key then (false, s)
    else (true, { elements := StdMap.erase s.elements key.ptr })

/-- Embeds `update` (overridden): `find(key.ptr)`; `false` for `end()`; else `it->second = key.size`. -/
def update (s : HashMetaStore) (key : MALLOC_META) : Bool × HashMetaStore :=
  match StdMap.find s.elements key.ptr with
  | none => (false, s)
  | some _ => (true, { elements := StdMap.assign s.elements key.ptr key.size })

/-- Embeds `size`. -/
def size (s : HashMetaStore) : Nat := s.elements.length

/-- Embeds `clear`. -/
def clear (_s : HashMetaStore) : HashMetaStore := { elements := [] }

end HashMetaStore

/-! ### `CachedMetaStore` and its cache `details::ResizeableHashMap` -/

namespace details

/-- Embeds `details::hash`: the SplitMix64-style finaliser over the pointer bits; the two
multiplications wrap at 64 bits. -/
def hash (ptr : Nat) : Nat :=
  let x := ptr
  let x := x ^^^ (x >>> 30)
  let x := (x * 0xbf58476d1ce4e5b9) % WORD
  let x := x ^^^ (x >>> 27)
  let x := (x * 0x94d049bb133111eb) % WORD
  x ^^^ (x >>> 31)

/-- Embeds `ResizeableHashMap::ENTRIES_PER_BIN`. -/
def ENTRIES_PER_BIN : Nat := 4

/-- Embeds `ResizeableHashMap::Bin`, a `std::array<MALLOC_META, 4>`. -/
structure Bin where
  e0 : MALLOC_META
  e1 : MALLOC_META
  e2 : MALLOC_META
  e3 : MALLOC_META
deriving DecidableEq

namespace Bin

/-- The value-initialised bin: four empty cells. -/
def empty : Bin :=
  { e0 := MALLOC_META.empty, e1 := MALLOC_META.empty,
    e2 := MALLOC_META.empty, e3 := MALLOC_META.empty }

/-- Read `bin[i]` (`i < 4`). -/
def get (b : Bin) : Nat → MALLOC_META
  | 0 => b.e0
  | 1 => b.e1
  | 2 => b.e2
  | _ => b.e3

/-- Write `bin[i] = v` (`i < 4`). -/
def set (b : Bin) (i : Nat) (v : MALLOC_META) : Bin :=
  match i with
  | 0 => { b with e0 := v }
  | 1 => { b with e1 := v }
  | 2 => { b with e2 := v }
  | _ => { b with e3 := v }

/-- The loop `for (auto& entry : bin) if (p(entry)) return entry;`: index of the first
cell that satisfies `p`. -/
def findIdx (p : MALLOC_META → Bool) (b : Bin) : Option Nat :=
  if p b.e0 then some 0
  else if p b.e1 then some 1
  else if p b.e2 then some 2
  else if p b.e3 then some 3
  else none

end Bin

/-- Run `f 0`, `f 1`, ..., `f (n-1)` in this order: `for (size_t i = 0; i < n; ++i)`. -/
def forLoop {σ : Type} (f : Nat → σ → σ) : Nat → σ → σ
  | 0, s => s
  | n + 1, s => f n (forLoop f n s)

/-- The class `details::ResizeableHashMap`: a `std::vector<Bin>`. -/
structure ResizeableHashMap where
  bins : List Bin
deriving DecidableEq

/-- A reference to a cell of the table: bin index and index within the bin. -/
abbrev CellRef := Nat × Nat

namespace ResizeableHashMap

/-- The constructor: `bins(capacity / ENTRIES_PER_BIN)`. -/
def init (capacity : Nat) : ResizeableHashMap :=
  { bins := List.replicate (capacity / ENTRIES_PER_BIN) Bin.empty }

/-- Read `bins[b]`; an index outside the vector is not reached while `bins` is non-empty. -/
def bin (m : ResizeableHashMap) (b : Nat) : Bin := m.bins.getD b Bin.empty

/-- Read the cell `bins[c.1][c.2]`. -/
def cell (m : ResizeableHashMap) (c : CellRef) : MALLOC_META := (m.bin c.1).get c.2

/-- Write the cell `bins[c.1][c.2] = v`. -/
def setCell (m : ResizeableHashMap) (c : CellRef) (v : MALLOC_META) : ResizeableHashMap :=
  { bins := m.bins.set c.1 ((m.bin c.1).set c.2 v) }

/-- The call `std::swap(bins[c.1][c.2], bins[d.1][d.2])`. -/
def swapCells (m : ResizeableHashMap) (c d : CellRef) : ResizeableHashMap :=
  (m.setCell c (m.cell d)).setCell d (m.cell c)

/-- The index computed by `get_bin`: `hash(key) & (bins.size() - 1)`. -/
def get_bin (m : ResizeableHashMap) (key : Nat) : Nat :=
  hash key &&& (m.bins.length - 1)

/-- Embeds `get_entry`: the first cell of the key's bin with `entry.ptr == key`, `none` for
`nullptr`. -/
def get_entry (m : ResizeableHashMap) (key : Nat) : Option CellRef :=
  let b := m.get_bin key
  match (m.bin b).findIdx (fun entry => entry.ptr == key) with
  | some i => some (b, i)
  | none => none

/-- Embeds `get_insertion_point`: the first cell of the key's bin with a null pointer; if there is
none, the cell chosen by the two topmost bits of the raw hash. -/
def get_insertion_point (m : ResizeableHashMap) (key : Nat) : CellRef :=
  let raw_hash := hash key
  let mask := m.bins.length - 1
  let b := raw_hash &&& mask
  match (m.bin b).findIdx (fun entry => entry.ptr == 0) with
  | some i => (b, i)
  | none =>
    let entry_mask := ENTRIES_PER_BIN - 1
    (b, (raw_hash >>> (64 - 2)) &&& entry_mask)

/-- Embeds `clear`: every bin becomes `{}`. -/
def clear (m : ResizeableHashMap) : ResizeableHashMap :=
  { bins := m.bins.map (fun _ => Bin.empty) }

/-- Embeds `capacity`: `bins.size() * ENTRIES_PER_BIN` (a vector of 64-byte bins has fewer than
`2^58` elements, so the product does not wrap). -/
def capacity (m : ResizeableHashMap) : Nat := m.bins.length * ENTRIES_PER_BIN

/-- The member `bins.resize(n)` of `std::vector`: new bins are value-initialised. -/
def resize (bins : List Bin) (n : Nat) : List Bin :=
  bins.take n ++ List.replicate (n - bins.length) Bin.empty

/-- The body of the inner loop of `reserve_double` for the cell `bins[bin_i][entry_i]`. -/
def rehash_entry (newmask bin_i entry_i : Nat) (m : ResizeableHashMap) : ResizeableHashMap :=
  let entry := m.cell (bin_i, entry_i)
  if entry.ptr = 0 then m
  else
    let raw_hash := hash entry.ptr
    let newbin_i := raw_hash &&& newmask
    if bin_i = newbin_i then m
    else if entry_i = 0 then m.swapCells (bin_i, entry_i) (newbin_i, 0)
    else
      match (m.bin newbin_i).findIdx (fun target => target.ptr == 0) with
      | some j => m.swapCells (bin_i, entry_i) (newbin_i, j)
      | none => m

/-- The body of the outer loop of `reserve_double` for the bin `bins[bin_i]`. -/
def rehash_bin (newmask bin_i : Nat) (m : ResizeableHashMap) : ResizeableHashMap :=
  forLoop (rehash_entry newmask bin_i) ENTRIES_PER_BIN m

/-- Embeds `reserve_double`: resize to `factor * oldsize` bins and move every entry whose bin
index changed. -/
def reserve_double (m : ResizeableHashMap) (factor : Nat) : ResizeableHashMap :=
  let oldsize := m.bins.length
  let newsize := (factor * oldsize) % WORD
  let newmask := newsize - 1
  forLoop (rehash_bin newmask) oldsize { bins := resize m.bins newsize }

/-- The loop `while (required > newcap) { factor *= 2; newcap *= 2; }` of `ensure_capacity`.
`factor` is an `int`: doubling it to `2^31` overflows, which is undefined behaviour, so the
loop has at most 30 defined iterations; `newcap` is a `size_t` and wraps. -/
def grow_factor (required : Nat) : Nat → Nat → Nat → Option Nat
  | 0, _, _ => none
  | fuel + 1, factor, newcap =>
    if required > newcap then
      if factor * 2 < 2 ^ 31 then grow_factor required fuel (factor * 2) ((newcap * 2) % WORD)
      else none
    else some factor

/-- Embeds `ensure_capacity`. -/
def ensure_capacity (m : ResizeableHashMap) (required : Nat) : Option ResizeableHashMap :=
  let cap := m.capacity
  if required ≤ cap then some m
  else
    match grow_factor required 31 2 ((2 * cap) % WORD) with
    | none => none
    | some factor => some (m.reserve_double factor)

end ResizeableHashMap

end details

/-- The class `CachedMetaStore<MapMetaStore>` (the default `FallbackStore`). -/
structure CachedMetaStore where
  cache_entries : Nat
  cache : details.ResizeableHashMap
  fallback_store : MapMetaStore
deriving DecidableEq

namespace CachedMetaStore

/-- The public constructor: `CachedMetaStore(128)`. -/
def init : CachedMetaStore :=
  { cache_entries := 0, cache := details.ResizeableHashMap.init 128,
    fallback_store := MapMetaStore.init }

/-- Embeds `size`: `cache_entries + fallback_store.size()`. -/
def size (s : CachedMetaStore) : Nat := (s.cache_entries + s.fallback_store.size) % WORD

/-- Embeds `capacity`. -/
def capacity (s : CachedMetaStore) : Nat := s.cache.capacity

/-- Embeds `put`: grow if needed, swap the chunk into its insertion point, and hand an evicted
entry to the fallback store. -/
def put (s : CachedMetaStore) (chunk : MALLOC_META) : Option (Bool × CachedMetaStore) :=
  match s.cache.ensure_capacity ((s.size + 1) % WORD) with
  | none => none
  | some cache =>
    let c := cache.get_insertion_point chunk.ptr
    let old := cache.cell c
    let cache1 := cache.setCell c chunk
    if old.ptr = 0 then
      some (true, { cache_entries := (s.cache_entries + 1) % WORD, cache := cache1,
                    fallback_store := s.fallback_store })
    else
      let r := s.fallback_store.put old
      some (r.1, { cache_entries := s.cache_entries, cache := cache1, fallback_store := r.2 })

/-- Embeds `get`: the cached entry, else the fallback store's answer. -/
def get (s : CachedMetaStore) (key : Nat) : MALLOC_META :=
  match s.cache.get_entry key with
  | some c => s.cache.cell c
  | none => s.fallback_store.get key

/-- Embeds `remove`: reset a matching cached entry, else ask the fallback store. -/
def remove (s : CachedMetaStore) (key : MALLOC_META) : Bool × CachedMetaStore :=
  match s.cache.get_entry key.ptr with
  | some c =>
    if (s.cache.cell c).ne key then (false, s)
    else
      (true, { cache_entries := (s.cache_entries + (WORD - 1)) % WORD,
               cache := s.cache.setCell c MALLOC_META.empty,
               fallback_store := s.fallback_store })
  | none =>
    let r := s.fallback_store.remove key
    (r.1, { cache_entries := s.cache_entries, cache := s.cache, fallback_store := r.2 })

/-- Embeds `update`: overwrite the cached entry, else `fallback_store.update(key)`. -/
def update (s : CachedMetaStore) (key : MALLOC_META) : Bool × CachedMetaStore :=
  match s.cache.get_entry key.ptr with
  | none =>
    let r := s.fallback_store.update key
    (r.1, { cache_entries := s.cache_entries, cache := s.cache, fallback_store := r.2 })
  | some c =>
    (true, { cache_entries := s.cache_entries, cache := s.cache.setCell c key,
             fallback_store := s.fallback_store })

/-- Embeds `reserve`: `cache.ensure_capacity(request)`. -/
def reserve (s : CachedMetaStore) (request : Nat) : Option CachedMetaStore :=
  match s.cache.ensure_capacity request with
  | none => none
  | some cache =>
    some { cache_entries := s.cache_entries, cache := cache, fallback_store := s.fallback_store }

/-- Embeds `clear`. -/
def clear (s : CachedMetaStore) : CachedMetaStore :=
  { cache_entries := 0, cache := s.cache.clear, fallback_store := s.fallback_store.clear }

end CachedMetaStore

/-! ### The interface `IMetaStore` -/

/-- An object behind the interface `IMetaStore`: one of the five store classes. -/
inductive IMetaStore where
  | vector (s : VectorMetaStore)
  | map (s : MapMetaStore)
  | unordered (s : UnorderedMapMetaStore)
  | hash (s : HashMetaStore)
  | cached (s : CachedMetaStore)
deriving DecidableEq

namespace IMetaStore

/-- Virtual `put`. -/
def put : IMetaStore → MALLOC_META → Option (Bool × IMetaStore)
  | vector s, chunk => some ((s.put chunk).1, vector (s.put chunk).2)
  | map s, chunk => some ((s.put chunk).1, map (s.put chunk).2)
  | unordered s, chunk => some ((s.put chunk).1, unordered (s.put chunk).2)
  | hash s, chunk => some ((s.put chunk).1, hash (s.put chunk).2)
  | cached s, chunk => (s.put chunk).map (fun r => (r.1, cached r.2))

/-- Virtual `get`. -/
def get : IMetaStore → Nat → MALLOC_META
  | vector s, key => s.get key
  | map s, key => s.get key
  | unordered s, key => s.get key
  | hash s, key => s.get key
  | cached s, key => s.get key

/-- Virtual `remove`. -/
def remove : IMetaStore → MALLOC_META → Bool × IMetaStore
  | vector s, key => ((s.remove key).1, vector (s.remove key).2)
  | map s, key => ((s.remove key).1, map (s.remove key).2)
  | unordered s, key => ((s.remove key).1, unordered (s.remove key).2)
  | hash s, key => ((s.remove key).1, hash (s.remove key).2)
  | cached s, key => ((s.remove key).1, cached (s.remove key).2)

/-- Virtual `update`. -/
def update : IMetaStore → MALLOC_META → Bool × IMetaStore
  | vector s, key => ((s.update key).1, vector (s.update key).2)
  | map s, key => ((s.update key).1, map (s.update key).2)
  | unordered s, key => ((s.update key).1, unordered (s.update key).2)
  | hash s, key => ((s.update key).1, hash (s.update key).2)
  | cached s, key => ((s.update key).1, cached (s.update key).2)

/-- Virtual `size`. -/
def size : IMetaStore → Nat
  | vector s => s.size
  | map s => s.size
  | unordered s => s.size
  | hash s => s.size
  | cached s => s.size

end IMetaStore

/-- Embeds `reserve` of the interface: the cached store grows its table; for the other stores
the call (`elements.reserve(size)` or the empty default) leaves the entries as they are. -/
def IMetaStore.reserve : IMetaStore → Nat → Option IMetaStore
  | .cached s, request => (s.reserve request).map IMetaStore.cached
  | s, _ => some s

/-! ### Stored entries and class invariants

For each store class: the list of entries it holds (`entries`) and the invariant of its
representation (`WF`), which holds after construction. The member functions of the four
plain stores keep it; those of `CachedMetaStore` keep it when `put` is called with non-null
pointers that are not stored. -/

/-- The entry of a list of entries that has the pointer `key`, `{}` if there is none. -/
def lookup (l : List MALLOC_META) (key : Nat) : MALLOC_META :=
  (l.find? (fun e => e.ptr == key)).getD MALLOC_META.empty

/-- A list of entries has pairwise different, non-null pointers. -/
def KeysOk (l : List MALLOC_META) : Prop :=
  (l.map MALLOC_META.ptr).Nodup ∧ ∀ e ∈ l, e.ptr ≠ 0

/-- The entries held by a `VectorMetaStore`. -/
def VectorMetaStore.entries (s : VectorMetaStore) : List MALLOC_META := s.elements

/-- Invariant of `VectorMetaStore`: pairwise different, non-null pointers. -/
def VectorMetaStore.WF (s : VectorMetaStore) : Prop := KeysOk s.elements

/-- Invariant of a `std::map<void*, MALLOC_META>` filled by `put`: unique non-null keys,
and every mapped entry carries its key as pointer. -/
def StdMap.MetaWF (m : StdMap MALLOC_META) : Prop :=
  (m.map Prod.fst).Nodup ∧ ∀ p ∈ m, p.2.ptr = p.1 ∧ p.1 ≠ 0

/-- The entries held by a `MapMetaStore`. -/
def MapMetaStore.entries (s : MapMetaStore) : List MALLOC_META := s.elements.map Prod.snd

/-- Invariant of `MapMetaStore`. -/
def MapMetaStore.WF (s : MapMetaStore) : Prop := StdMap.MetaWF s.elements

/-- The entries held by an `UnorderedMapMetaStore`. -/
def UnorderedMapMetaStore.entries (s : UnorderedMapMetaStore) : List MALLOC_META :=
  s.elements.map Prod.snd

/-- Invariant of `UnorderedMapMetaStore`. -/
def UnorderedMapMetaStore.WF (s : UnorderedMapMetaStore) : Prop := StdMap.MetaWF s.elements

/-- The entries held by a `HashMetaStore`. -/
def HashMetaStore.entries (s : HashMetaStore) : List MALLOC_META :=
  s.elements.map (fun p => { ptr := p.1, size := p.2 })

/-- Invariant of `HashMetaStore`: unique non-null keys. -/
def HashMetaStore.WF (s : HashMetaStore) : Prop :=
  (s.elements.map Prod.fst).Nodup ∧ ∀ p ∈ s.elements, p.1 ≠ 0

/-- The four cells of a bin, in order. -/
def details.Bin.toList (b : details.Bin) : List MALLOC_META := [b.e0, b.e1, b.e2, b.e3]

/-- All cells of the table, bin after bin. -/
def details.ResizeableHashMap.cells (m : details.ResizeableHashMap) : List MALLOC_META :=
  m.bins.flatMap details.Bin.toList

/-- The entries held by the cache: the cells with a non-null pointer. -/
def details.ResizeableHashMap.entries (m : details.ResizeableHashMap) : List MALLOC_META :=
  m.cells.filter (fun e => e.ptr != 0)

/-- Invariant of `ResizeableHashMap`: the number of bins is a power of two, every occupied
cell lies in the bin selected by its hash, and every unoccupied cell is `{}`. -/
def details.ResizeableHashMap.WF (m : details.ResizeableHashMap) : Prop :=
  (∃ n, m.bins.length = 2 ^ n) ∧
  ∀ b i, b < m.bins.length → i < details.ENTRIES_PER_BIN →
    ((m.cell (b, i)).ptr ≠ 0 → m.get_bin (m.cell (b, i)).ptr = b) ∧
    ((m.cell (b, i)).ptr = 0 → (m.cell (b, i)).size = 0)

/-- The entries held by a `CachedMetaStore`: those of the cache and of the fallback store. -/
def CachedMetaStore.entries (s : CachedMetaStore) : List MALLOC_META :=
  s.cache.entries ++ s.fallback_store.entries

/-- Invariant of `CachedMetaStore`: cache and fallback store are well formed, no pointer is
held twice, `cache_entries` counts the occupied cells, the entries do not outnumber the
capacity, and the capacity is a `size_t`. -/
def CachedMetaStore.WF (s : CachedMetaStore) : Prop :=
  s.cache.WF ∧ s.fallback_store.WF ∧ KeysOk s.entries ∧
  s.cache_entries = s.cache.entries.length ∧
  s.entries.length ≤ s.capacity ∧ s.capacity < WORD

/-- The cache can double once more: twice its capacity is still a `size_t`. -/
def CachedMetaStore.Growable (s : CachedMetaStore) : Prop := 2 * s.capacity < WORD

/-- The entries held by a store. -/
def IMetaStore.entries : IMetaStore → List MALLOC_META
  | .vector s => s.entries
  | .map s => s.entries
  | .unordered s => s.entries
  | .hash s => s.entries
  | .cached s => s.entries

/-- The class invariant of a store. -/
def IMetaStore.WF : IMetaStore → Prop
  | .vector s => s.WF
  | .map s => s.WF
  | .unordered s => s.WF
  | .hash s => s.WF
  | .cached s => s.WF

/-- An entry is stored at the pointer `key`. -/
def IMetaStore.holds (s : IMetaStore) (key : Nat) : Prop := ∃ e ∈ s.entries, e.ptr = key

/-- The store can take one more entry without exhausting the `size_t` range (only the
cached store grows a table). -/
def IMetaStore.Growable : IMetaStore → Prop
  | .cached s => s.Growable
  | _ => True

/-! ### Invariants used in the proofs -/

/-- The part of the invariant of `CachedMetaStore` that also survives a `put` of a pointer
that is already stored: the counter and the capacity are right. -/
def CachedMetaStore.Inv (s : CachedMetaStore) : Prop :=
  0 < s.cache.bins.length ∧ s.fallback_store.WF ∧
  s.cache_entries = s.cache.entries.length ∧
  s.entries.length ≤ s.capacity ∧ s.capacity < WORD

namespace details

/-- Invariant of one cell during `reserve_double`, `b` bins and `i` cells of bin `b` done. -/
def CellInv (N M b i t j : Nat) (e : MALLOC_META) : Prop :=
  (e.ptr = 0 → e.size = 0) ∧
  (e.ptr ≠ 0 → hash e.ptr % N = t % N) ∧
  (e.ptr ≠ 0 → (t < b ∨ N ≤ t ∨ (t = b ∧ j < i)) → hash e.ptr % M = t) ∧
  (N ≤ t → (b < t % N ∨ (t % N = b ∧ i ≤ j)) → e.ptr = 0)

/-- Invariant of the table during `reserve_double`. -/
def RehashInv (N M b i : Nat) (m : ResizeableHashMap) : Prop :=
  m.bins.length = M ∧ ∀ t j, t < M → j < 4 → CellInv N M b i t j (m.cell (t, j))

end details

/-- The invariant that every sequence of calls with non-null keys keeps (for the cached store
it allows a pointer to be held twice). -/
def IMetaStore.Inv : IMetaStore → Prop
  | .cached s => s.Inv
  | s => s.WF

/-- The capacity of the cache of a cached store, `0` for the other stores. -/
def IMetaStore.cap : IMetaStore → Nat
  | .cached s => s.capacity
  | _ => 0

/-! ### Sequences of calls on a store -/

/-- One call of the store interface that changes the store. -/
inductive Op where
  | put (e : MALLOC_META)
  | remove (e : MALLOC_META)
  | update (e : MALLOC_META)
deriving DecidableEq

namespace Op

/-- The argument of the call. -/
def entry : Op → MALLOC_META
  | put e => e
  | remove e => e
  | update e => e

/-- The call is a `put`. -/
def isPut : Op → Bool
  | put _ => true
  | _ => false

/-- The call is a `remove`. -/
def isRemove : Op → Bool
  | remove _ => true
  | _ => false

/-- The call is an `update`. -/
def isUpdate : Op → Bool
  | update _ => true
  | _ => false

end Op

namespace IMetaStore

/-- The store is a `CachedMetaStore`. -/
def isCached : IMetaStore → Bool
  | cached _ => true
  | _ => false

/-- The five stores right after construction. -/
def initial : List IMetaStore :=
  [vector VectorMetaStore.init, map MapMetaStore.init, unordered UnorderedMapMetaStore.init,
   hash HashMetaStore.init, cached CachedMetaStore.init]

/-- Perform one call: its return value and the store afterwards. -/
def step (s : IMetaStore) : Op → Option (Bool × IMetaStore)
  | .put e => s.put e
  | .remove e => some (s.remove e)
  | .update e => some (s.update e)

/-- Perform a sequence of calls: the return values, in order, and the final store. -/
def run : IMetaStore → List Op → Option (List Bool × IMetaStore)
  | s, [] => some ([], s)
  | s, o :: ops =>
    match s.step o with
    | none => none
    | some r =>
      match run r.2 ops with
      | none => none
      | some rest => some (r.1 :: rest.1, rest.2)

end IMetaStore

/-- The number of calls of one kind that returned true. -/
def okCount (kind : Op → Bool) : List Op → List Bool → Nat
  | o :: ops, r :: rs => (if kind o && r then 1 else 0) + okCount kind ops rs
  | _, _ => 0

/-- The entries that are stored after a sequence of `put` and `remove` calls with the given
return values: a successful `put` adds its entry, a successful `remove` takes out the entry
with its pointer. -/
def live : List MALLOC_META → List Op → List Bool → List MALLOC_META
  | acc, .put e :: ops, r :: rs => live (if r then e :: acc else acc) ops rs
  | acc, .remove e :: ops, r :: rs =>
    live (if r then acc.filter (fun x => x.ptr != e.ptr) else acc) ops rs
  | acc, .update _ :: ops, _ :: rs => live acc ops rs
  | acc, _, _ => acc

/-- The entries passed to the `put` calls of a sequence. -/
def putEntries : List Op → List MALLOC_META
  | [] => []
  | .put e :: ops => e :: putEntries ops
  | _ :: ops => putEntries ops

/-- Bound on the cache capacity and the number of entries after `n` calls. -/
def IMetaStore.Bound (n : Nat) (s : IMetaStore) : Prop :=
  s.cap ≤ 128 + 2 * n ∧ s.entries.length ≤ n

/-! ### Chunk headers in memory -/

/-- The memory of the process: the 64-bit word stored at each address. -/
abbrev Memory := Nat → Nat

/-- Embeds `struct CHUNK_HEADER`: the four words that the view `*header` reads. -/
structure CHUNK_HEADER where
  prev_size : Nat
  size : Nat
  fd : Nat
  bk : Nat

namespace CHUNK_HEADER

/-- Embeds `from_memory`: null for null, else the address `ptr - 2 * sizeof(size_t)`. -/
def from_memory (ptr : Nat) : Nat :=
  if ptr = 0 then 0 else (ptr + (WORD - 16)) % WORD

/-- Embeds `to_memory`: the address `header + 2 * sizeof(size_t)`. -/
def to_memory (header : Nat) : Nat := (header + 16) % WORD

/-- The header stored at the address `header`. -/
def read (mem : Memory) (header : Nat) : CHUNK_HEADER :=
  { prev_size := mem header, size := mem ((header + 8) % WORD),
    fd := mem ((header + 16) % WORD), bk := mem ((header + 24) % WORD) }

/-- Embeds `chunksize`: `size & ~(SIZE_BITS)`. -/
def chunksize (h : CHUNK_HEADER) : Nat := h.size &&& (WORD - 1 - SIZE_BITS)

/-- Embeds `is_mmapped`: `size & IS_MMAPPED`. -/
def is_mmapped (h : CHUNK_HEADER) : Bool := h.size &&& IS_MMAPPED != 0

/-- Embeds `useable_size`: the chunk size minus one word, minus two words for a mmapped chunk. -/
def useable_size (h : CHUNK_HEADER) : Nat :=
  if h.is_mmapped then (h.chunksize + (WORD - 16)) % WORD
  else (h.chunksize + (WORD - 8)) % WORD

end CHUNK_HEADER

/-- Embeds `MALLOC_META::from_chunk_header`: `{ chunk.to_memory(), chunk.size }` for the header at
the address `header`. -/
def MALLOC_META.from_chunk_header (mem : Memory) (header : Nat) : MALLOC_META :=
  { ptr := CHUNK_HEADER.to_memory header, size := (CHUNK_HEADER.read mem header).size }

/-! ### The interceptor facade and the wrapper

The facade is embedded as compiled with `SHADOW` and `PTR_CHECK`.  The verify and record
halves of the three snapshot surfaces (top chunk, unsorted bin, tcache) neither read nor
write the metadata store; they are parameters of the embedding, acting on the rest of the
shadow data. `raise(SIGILL)` ends the call: `none`. -/

/-- The mode flags of `class ModeReader`. -/
structure ModeReader where
  ptrMode : Bool
  usbMode : Bool
  topMode : Bool
  leakMode : Bool
  tcaMode : Bool

/-- The snapshot surfaces of the facade, on shadow data of type `σ`: the three `check_*`
members (`none` when they raise `SIGILL`) and the three `store_*` members. -/
structure Snapshots (σ : Type) where
  check_topchunk : ModeReader → Memory → σ → Option σ
  check_unsorted : ModeReader → Memory → σ → Option σ
  check_tcache : ModeReader → Memory → σ → Option σ
  store_tcache : ModeReader → Memory → σ → σ
  store_unsorted : ModeReader → Memory → σ → σ
  store_topchunk : ModeReader → Memory → σ → σ

/-- Embeds `ShadowHeapData::ensure_initialized` as compiled with `PTR_CHECK`:
`store = new ConcreteMetaStore{}; if (capacity) store->reserve(capacity);` for the freshly
constructed store `fresh` of the configured class. -/
def ShadowHeapData.ensure_initialized (fresh : IMetaStore) (capacity : Nat) :
    Option IMetaStore :=
  if capacity ≠ 0 then fresh.reserve capacity else some fresh

/-- Embeds `class ShadowHeapFacade`: `store` is `data.store`, `shadow` the rest of `data`. -/
structure ShadowHeapFacade (σ : Type) where
  isInitialized : Bool
  modes : ModeReader
  store : IMetaStore
  shadow : σ

/-- What the surroundings contribute to one intercepted call: the result of the raw
allocation and the memory at each point where the call reads it. -/
structure Env where
  /-- The memory when the call is entered (read by the verifications). -/
  memPre : Memory
  /-- The result of the raw `malloc` / `calloc`. -/
  ret : Nat
  /-- The memory right after the raw allocation (read by `store_pointer`). -/
  memRet : Memory
  /-- The memory after the `memcpy` of `realloc` (read by its pre-free check). -/
  memCopy : Memory
  /-- The memory when the snapshots are taken. -/
  memPost : Memory

namespace ShadowHeapFacade

variable {σ : Type}

/-- The calls `check_topchunk(); check_unsorted(); check_tcache();`. -/
def verify_snapshots (S : Snapshots σ) (f : ShadowHeapFacade σ) (mem : Memory) :
    Option (ShadowHeapFacade σ) :=
  match S.check_topchunk f.modes mem f.shadow with
  | none => none
  | some d1 =>
    match S.check_unsorted f.modes mem d1 with
    | none => none
    | some d2 =>
      match S.check_tcache f.modes mem d2 with
      | none => none
      | some d3 => some { f with shadow := d3 }

/-- The calls `store_tcache(); store_unsorted(); store_topchunk();`. -/
def take_snapshots (S : Snapshots σ) (f : ShadowHeapFacade σ) (mem : Memory) :
    ShadowHeapFacade σ :=
  let d1 := S.store_tcache f.modes mem f.shadow
  let d2 := S.store_unsorted f.modes mem d1
  let d3 := S.store_topchunk f.modes mem d2
  { f with shadow := d3 }

/-- Embeds `store_pointer`: with `ptrMode`, `data.store->put(from_chunk_header(*header))`; the
result of `put` is dropped. -/
def store_pointer (f : ShadowHeapFacade σ) (mem : Memory) (ret : Nat) :
    Option (ShadowHeapFacade σ) :=
  if f.modes.ptrMode = false then some f
  else
    let header := CHUNK_HEADER.from_memory ret
    match f.store.put (MALLOC_META.from_chunk_header mem header) with
    | none => none
    | some r => some { f with store := r.2 }

/-- Embeds `check_pointer_before_free`: compare the stored entry with the header, then remove the
entry; a mismatch and a failed `remove` both raise `SIGILL`. -/
def check_pointer_before_free (f : ShadowHeapFacade σ) (mem : Memory) (ptr : Nat) :
    Option (ShadowHeapFacade σ) :=
  if f.modes.ptrMode = false then some f
  else
    let header := CHUNK_HEADER.from_memory ptr
    let meta := MALLOC_META.from_chunk_header mem header
    let stored := f.store.get ptr
    let headerMatchesShadowCopy := stored.equals_ptr_size meta
    if headerMatchesShadowCopy = false then none
    else
      let r := f.store.remove meta
      if r.1 = false then none
      else some { f with store := r.2 }

/-- Embeds `free_pre`. -/
def free_pre (S : Snapshots σ) (f : ShadowHeapFacade σ) (mem : Memory) (ptr : Nat) :
    Option (ShadowHeapFacade σ) :=
  if f.isInitialized = false then some f
  else
    match f.verify_snapshots S mem with
    | none => none
    | some f1 => f1.check_pointer_before_free mem ptr

/-- Embeds `free_post`. -/
def free_post (S : Snapshots σ) (f : ShadowHeapFacade σ) (mem : Memory) :
    ShadowHeapFacade σ :=
  if f.isInitialized = false then f else f.take_snapshots S mem

/-- Embeds `malloc_pre`, `calloc_pre` and `realloc_pre`: the three verifications. -/
def malloc_pre (S : Snapshots σ) (f : ShadowHeapFacade σ) (mem : Memory) :
    Option (ShadowHeapFacade σ) :=
  if f.isInitialized = false then some f else f.verify_snapshots S mem

/-- Embeds `malloc_post` and `calloc_post`: nothing for a null result, else `store_pointer` and the
three snapshots. -/
def malloc_post (S : Snapshots σ) (f : ShadowHeapFacade σ) (memRet memPost : Memory)
    (ret : Nat) : Option (ShadowHeapFacade σ) :=
  if f.isInitialized = false then some f
  else if ret = 0 then some f
  else
    match f.store_pointer memRet ret with
    | none => none
    | some f1 => some (f1.take_snapshots S memPost)

/-- Embeds `realloc_post`: the three snapshots. -/
def realloc_post (S : Snapshots σ) (f : ShadowHeapFacade σ) (mem : Memory) :
    ShadowHeapFacade σ :=
  if f.isInitialized = false then f else f.take_snapshots S mem

/-- Embeds `realloc_mallochandler`: `store_pointer` unless the result is null. -/
def realloc_mallochandler (f : ShadowHeapFacade σ) (mem : Memory) (ret : Nat) :
    Option (ShadowHeapFacade σ) :=
  if f.isInitialized = false then some f
  else if ret = 0 then some f
  else f.store_pointer mem ret

/-- Embeds `realloc_freehandler`: `check_pointer_before_free(ptr)`, then the raw `free`. -/
def realloc_freehandler (f : ShadowHeapFacade σ) (mem : Memory) (ptr : Nat) :
    Option (ShadowHeapFacade σ) :=
  if f.isInitialized = false then some f
  else f.check_pointer_before_free mem ptr

end ShadowHeapFacade

/-- One intercepted call of `class ShadowHeapWrapper`. -/
inductive Call where
  | malloc (len : Nat)
  | calloc (cnt len : Nat)
  | realloc (ptr len : Nat)
  | free (ptr : Nat)
deriving DecidableEq

namespace ShadowHeapWrapper

variable {σ : Type}

/-- Embeds `free`: nothing for null, else `free_pre`, the raw `free`, `free_post`. The result is
reported as null. -/
def free (S : Snapshots σ) (f : ShadowHeapFacade σ) (env : Env) (ptr : Nat) :
    Option (Nat × ShadowHeapFacade σ) :=
  if ptr = 0 then some (0, f)
  else
    match f.free_pre S env.memPre ptr with
    | none => none
    | some f1 => some (0, f1.free_post S env.memPost)

/-- Embeds `malloc`: `malloc_pre`, the raw `malloc` (result `env.ret`), `malloc_post`. -/
def malloc (S : Snapshots σ) (f : ShadowHeapFacade σ) (env : Env) (_len : Nat) :
    Option (Nat × ShadowHeapFacade σ) :=
  match f.malloc_pre S env.memPre with
  | none => none
  | some f1 =>
    match f1.malloc_post S env.memRet env.memPost env.ret with
    | none => none
    | some f2 => some (env.ret, f2)

/-- Embeds `calloc`: `calloc_pre`, the raw `calloc` (result `env.ret`), `calloc_post`. -/
def calloc (S : Snapshots σ) (f : ShadowHeapFacade σ) (env : Env) (_cnt _len : Nat) :
    Option (Nat × ShadowHeapFacade σ) :=
  match f.malloc_pre S env.memPre with
  | none => none
  | some f1 =>
    match f1.malloc_post S env.memRet env.memPost env.ret with
    | none => none
    | some f2 => some (env.ret, f2)

/-- Embeds `malloc_memcpy_free_approach`: raw `malloc`, `realloc_mallochandler`, `memcpy` of
`min(len, useable_size)` bytes, `realloc_freehandler`. A `memcpy` to a null destination is
undefined behaviour. -/
def malloc_memcpy_free_approach (f : ShadowHeapFacade σ) (env : Env) (ptr _len : Nat) :
    Option (Nat × ShadowHeapFacade σ) :=
  let ret := env.ret
  match f.realloc_mallochandler env.memRet ret with
  | none => none
  | some f1 =>
    if ret = 0 then none
    else
      match f1.realloc_freehandler env.memCopy ptr with
      | none => none
      | some f2 => some (ret, f2)

/-- Embeds `realloc`: `malloc` for a null pointer, `free` for a zero length, else `realloc_pre`,
`malloc_memcpy_free_approach`, `realloc_post`. -/
def realloc (S : Snapshots σ) (f : ShadowHeapFacade σ) (env : Env) (ptr len : Nat) :
    Option (Nat × ShadowHeapFacade σ) :=
  if ptr = 0 then malloc S f env len
  else if len = 0 then free S f env ptr
  else
    match f.malloc_pre S env.memPre with
    | none => none
    | some f1 =>
      match malloc_memcpy_free_approach f1 env ptr len with
      | none => none
      | some r => some (r.1, r.2.realloc_post S env.memPost)

/-- One intercepted call in its surroundings. -/
def call (S : Snapshots σ) (f : ShadowHeapFacade σ) : Call × Env →
    Option (Nat × ShadowHeapFacade σ)
  | (.malloc len, env) => malloc S f env len
  | (.calloc cnt len, env) => calloc S f env cnt len
  | (.realloc ptr len, env) => realloc S f env ptr len
  | (.free ptr, env) => free S f env ptr

/-- A sequence of intercepted calls: the results and the final facade, `none` if one of the
calls does not return. -/
def run (S : Snapshots σ) : ShadowHeapFacade σ → List (Call × Env) →
    Option (List Nat × ShadowHeapFacade σ)
  | f, [] => some ([], f)
  | f, c :: cs =>
    match call S f c with
    | none => none
    | some r =>
      match run S r.2 cs with
      | none => none
      | some rest => some (r.1 :: rest.1, rest.2)

end ShadowHeapWrapper

/-! ### The live allocations of a sequence of intercepted calls -/

/-- The entry that `store_pointer` records for the result of an allocating call: the pointer
and the size word of its chunk header right after the raw allocation. -/
def recorded (env : Env) : MALLOC_META :=
  { ptr := env.ret,
    size := (CHUNK_HEADER.read env.memRet (CHUNK_HEADER.from_memory env.ret)).size }

/-- The live allocations after one more intercepted call: a non-null result is added with
its recorded entry, a freed or reallocated pointer is taken out. -/
def trackCall (acc : List MALLOC_META) : Call × Env → List MALLOC_META
  | (.malloc _, env) => if env.ret = 0 then acc else recorded env :: acc
  | (.calloc _ _, env) => if env.ret = 0 then acc else recorded env :: acc
  | (.free ptr, _) => acc.filter (fun x => x.ptr != ptr)
  | (.realloc ptr len, env) =>
    if ptr = 0 then (if env.ret = 0 then acc else recorded env :: acc)
    else if len = 0 then acc.filter (fun x => x.ptr != ptr)
    else (recorded env :: acc).filter (fun x => x.ptr != ptr)

/-- The live allocations after a sequence of intercepted calls. -/
def tracked : List MALLOC_META → List (Call × Env) → List MALLOC_META
  | acc, [] => acc
  | acc, c :: cs => tracked (trackCall acc c) cs

/-- The assumption on one call: pointers are 64-bit words, and the raw allocator does not
return a pointer that is live. -/
def callFresh (acc : List MALLOC_META) : Call × Env → Prop
  | (.free ptr, _) => ptr < WORD
  | (.malloc _, env) => env.ret < WORD ∧ ∀ x ∈ acc, x.ptr ≠ env.ret
  | (.calloc _ _, env) => env.ret < WORD ∧ ∀ x ∈ acc, x.ptr ≠ env.ret
  | (.realloc ptr _, env) => ptr < WORD ∧ env.ret < WORD ∧ ∀ x ∈ acc, x.ptr ≠ env.ret

/-- The assumption on a sequence of calls. -/
def Fresh : List MALLOC_META → List (Call × Env) → Prop
  | _, [] => True
  | acc, c :: cs => callFresh acc c ∧ Fresh (trackCall acc c) cs

/-- The size word of the chunk header that belongs to the user pointer `ptr`. -/
def CHUNK_HEADER.size_at (mem : Memory) (ptr : Nat) : Nat :=
  (CHUNK_HEADER.read mem (CHUNK_HEADER.from_memory ptr)).size

/-- The invariant of the facade along a sequence of intercepted calls: initialised, pointer
checks on, and the store holds exactly the entries `acc`. -/
def ShadowHeapFacade.Tracks {σ : Type} (f : ShadowHeapFacade σ) (acc : List MALLOC_META)
    (n : Nat) : Prop :=
  f.isInitialized = true ∧ f.modes.ptrMode = true ∧ f.store.WF ∧ f.store.Bound n ∧
  f.store.entries.Perm acc

/-! ### Shadow snapshots

The snapshot halves of the facade, embedded as compiled with `TOP_CHECK`, `USB_CHECK` and
`TCA_CHECK`. They act on the members of `ShadowHeapData` other than the store, read the
heap through the addresses of `ARENA_INFO`, and `raise(SIGILL)` ends the call: `none`.
A byte or a 16-bit value at an address is the low part of the word read there. -/

/-- Embeds `USB_ENTRIES_MAX`. -/
def USB_ENTRIES_MAX : Nat := 128

/-- Embeds `TCACHE_ENTRIES`. -/
def TCACHE_ENTRIES : Nat := 64

/-- Embeds `TCA_BIN_SIZE`. -/
def TCA_BIN_SIZE : Nat := 7

/-- Embeds `struct LINKED_LIST_META`: the stored metadata of a doubly linked list entry. -/
structure LINKED_LIST_META where
  ptr : Nat
  chunksize : Nat
  fd : Nat
  bk : Nat
deriving DecidableEq

namespace LINKED_LIST_META

/-- Embeds `from_chunk_header`: `{ header.to_memory(), header.chunksize(), header.fd, header.bk }`
for the header at the address `header`. -/
def from_chunk_header (mem : Memory) (header : Nat) : LINKED_LIST_META :=
  { ptr := CHUNK_HEADER.to_memory header,
    chunksize := (CHUNK_HEADER.read mem header).chunksize,
    fd := (CHUNK_HEADER.read mem header).fd,
    bk := (CHUNK_HEADER.read mem header).bk }

/-- Embeds `operator==`: all four fields agree. -/
def eq (a other : LINKED_LIST_META) : Bool :=
  a.ptr == other.ptr && a.chunksize == other.chunksize && a.fd == other.fd && a.bk == other.bk

/-- Embeds `operator!=`. -/
def ne (a other : LINKED_LIST_META) : Bool := !(a.eq other)

end LINKED_LIST_META

/-- Embeds `struct TcacheMetaEntry`. -/
structure TcacheMetaEntry where
  orig_ptr : Nat
  size : Nat
  next : Nat
deriving DecidableEq

/-- Embeds `class ShadowHeapData` without its member `store`: the saved top chunk size, the
array `unsorted[USB_ENTRIES_MAX]` with the `int unsorted_size`, and the array
`tcache[TCACHE_ENTRIES][TCA_BIN_SIZE]` with `tcacheHasData`. -/
structure ShadowHeapData where
  topchunksize : Nat
  unsorted : Nat → LINKED_LIST_META
  unsorted_size : Int
  tcache : Nat → Nat → TcacheMetaEntry
  tcacheHasData : Bool

/-- The object after construction: `topchunksize = 0`, `unsorted_size = -1`,
`tcacheHasData = false`, zeroed arrays. -/
def ShadowHeapData.init : ShadowHeapData :=
  { topchunksize := 0, unsorted := fun _ => ⟨0, 0, 0, 0⟩, unsorted_size := -1,
    tcache := fun _ _ => ⟨0, 0, 0⟩, tcacheHasData := false }

/-- The members of `struct ARENA_INFO` that the snapshots read: the addresses `topchunk` and
`unsorted_bin` of the arena's pointers to the top chunk and to the head of the unsorted
bin, and the address `tcache` of the thread cache. -/
structure ARENA_INFO where
  topchunk : Nat
  unsorted_bin : Nat
  tcache : Nat

/-- Read `tcache->counts[i]`, converted to `int`: a `char` at `tcache + i` in the layout
before 2.30 (signed on the target), a `uint16_t` at `tcache + 2 * i` in the layout of
2.30. -/
def tcache_counts (v230 : Bool) (mem : Memory) (tcache i : Nat) : Int :=
  if v230 then ((mem ((tcache + 2 * i) % WORD) % 65536 : Nat) : Int)
  else
    let c := mem ((tcache + i) % WORD) % 256
    if c < 128 then (c : Int) else (c : Int) - 256

/-- Read `tcache->entries[i]`: the pointers follow the 64 counts. -/
def tcache_entries (v230 : Bool) (mem : Memory) (tcache i : Nat) : Nat :=
  if v230 then mem ((tcache + 128 + 8 * i) % WORD) else mem ((tcache + 64 + 8 * i) % WORD)

namespace ShadowHeapFacade

/-- Embeds `_store_topchunk_impl`. -/
def _store_topchunk_impl (isInitialized : Bool) (modes : ModeReader) (info : ARENA_INFO)
    (mem : Memory) (data : ShadowHeapData) : ShadowHeapData :=
  if isInitialized = false then data
  else if modes.topMode = false then data
  else { data with topchunksize := (CHUNK_HEADER.read mem (mem info.topchunk)).size }

/-- Embeds `_check_topchunk_impl`. -/
def _check_topchunk_impl (isInitialized : Bool) (modes : ModeReader) (info : ARENA_INFO)
    (mem : Memory) (data : ShadowHeapData) : Option ShadowHeapData :=
  if isInitialized = false then some data
  else if modes.topMode = false then some data
  else if data.topchunksize = 0 then some data
  else
    let expected_topchunk_size := (CHUNK_HEADER.read mem (mem info.topchunk)).size
    if data.topchunksize ≠ expected_topchunk_size then none else some data

/-- The loop `while (true)` of `_store_unsorted_impl`; `fuel` bounds the number of
iterations. A write outside the array is undefined behaviour: `none`. -/
def store_unsorted_loop (mem : Memory) (unsorted_start : Nat) :
    Nat → Nat → ShadowHeapData → Option ShadowHeapData
  | 0, _, _ => none
  | fuel + 1, single, data =>
    if 0 ≤ data.unsorted_size ∧ data.unsorted_size < (USB_ENTRIES_MAX : Int) then
      let data1 : ShadowHeapData :=
        { data with
          unsorted := Function.update data.unsorted data.unsorted_size.toNat
            (LINKED_LIST_META.from_chunk_header mem single),
          unsorted_size := data.unsorted_size + 1 }
      if (CHUNK_HEADER.read mem single).fd = unsorted_start then some data1
      else if data1.unsorted_size ≥ (USB_ENTRIES_MAX : Int) then some data1
      else store_unsorted_loop mem unsorted_start fuel (CHUNK_HEADER.read mem single).fd data1
    else none

/-- Embeds `_store_unsorted_impl`, with `fuel` for its loop. -/
def _store_unsorted_impl (fuel : Nat) (isInitialized : Bool) (modes : ModeReader)
    (info : ARENA_INFO) (mem : Memory) (data : ShadowHeapData) : Option ShadowHeapData :=
  if isInitialized = false then some data
  else if modes.usbMode = false then some data
  else
    let data0 : ShadowHeapData := { data with unsorted_size := 0 }
    let unsorted_start := mem info.unsorted_bin
    store_unsorted_loop mem unsorted_start fuel unsorted_start data0

/-- The loop of `_check_unsorted_impl` from index `i` on, `n` iterations: false when an
element differs (`SIGILL`) or the index leaves the array. -/
def check_unsorted_loop (mem : Memory) (data : ShadowHeapData) : Nat → Nat → Nat → Bool
  | 0, _, _ => true
  | n + 1, i, single =>
    if USB_ENTRIES_MAX ≤ i then false
    else
      let stored := data.unsorted i
      let actual := LINKED_LIST_META.from_chunk_header mem single
      if actual.ne stored then false
      else check_unsorted_loop mem data n (i + 1) (CHUNK_HEADER.read mem single).fd

/-- Embeds `_check_unsorted_impl`. -/
def _check_unsorted_impl (isInitialized : Bool) (modes : ModeReader) (info : ARENA_INFO)
    (mem : Memory) (data : ShadowHeapData) : Option ShadowHeapData :=
  if isInitialized = false then some data
  else if modes.usbMode = false then some data
  else
    let single := mem info.unsorted_bin
    if check_unsorted_loop mem data data.unsorted_size.toNat 0 single then some data
    else none

/-- The loop over the slots `b` of bin `i` in `_store_tcache_impl`, `n` iterations. -/
def store_tcache_bin (mem : Memory) (i : Nat) : Nat → Nat → Nat → ShadowHeapData →
    ShadowHeapData
  | 0, _, _, data => data
  | n + 1, b, entry, data =>
    let hdr := CHUNK_HEADER.from_memory entry
    let bucket : TcacheMetaEntry :=
      { orig_ptr := entry, size := (CHUNK_HEADER.read mem hdr).chunksize,
        next := (CHUNK_HEADER.read mem hdr).fd }
    let data1 : ShadowHeapData :=
      { data with
        tcache := Function.update data.tcache i (Function.update (data.tcache i) b bucket),
        tcacheHasData := true }
    if mem entry ≠ 0 then store_tcache_bin mem i n (b + 1) (mem entry) data1
    else data1

/-- Embeds `_store_tcache_impl` for the layout selected by `v230`. -/
def _store_tcache_impl (v230 : Bool) (isInitialized : Bool) (modes : ModeReader)
    (info : ARENA_INFO) (mem : Memory) (data : ShadowHeapData) : ShadowHeapData :=
  if isInitialized = false then data
  else if modes.tcaMode = false then data
  else if info.tcache = 0 then data
  else
    details.forLoop (fun i d =>
      let entry := tcache_entries v230 mem info.tcache i
      if entry = 0 then d
      else if tcache_counts v230 mem info.tcache i ≤ 0 then d
      else store_tcache_bin mem i TCA_BIN_SIZE 0 entry d) TCACHE_ENTRIES data

/-- The loop over the slots `b` of bin `i` in `_check_tcache_impl`, `n` iterations: false
when one of the three comparisons fails (`SIGILL`). -/
def check_tcache_bin (mem : Memory) (data : ShadowHeapData) (i : Nat) : Nat → Nat → Nat → Bool
  | 0, _, _ => true
  | n + 1, b, entryList =>
    let hdr := CHUNK_HEADER.from_memory entryList
    let bucket := data.tcache i b
    if bucket.next ≠ (CHUNK_HEADER.read mem hdr).fd then false
    else if bucket.orig_ptr ≠ entryList then false
    else if bucket.size ≠ (CHUNK_HEADER.read mem hdr).chunksize then false
    else if mem entryList ≠ 0 then check_tcache_bin mem data i n (b + 1) (mem entryList)
    else true

/-- Embeds `_check_tcache_impl` for the layout selected by `v230`. -/
def _check_tcache_impl (v230 : Bool) (isInitialized : Bool) (modes : ModeReader)
    (info : ARENA_INFO) (mem : Memory) (data : ShadowHeapData) : Option ShadowHeapData :=
  if isInitialized = false then some data
  else if modes.tcaMode = false then some data
  else if data.tcacheHasData = false then some data
  else if info.tcache = 0 then some data
  else if (List.range TCACHE_ENTRIES).all (fun i =>
      let entryList := tcache_entries v230 mem info.tcache i
      if entryList = 0 then true
      else if tcache_counts v230 mem info.tcache i ≤ 0 then true
      else check_tcache_bin mem data i TCA_BIN_SIZE 0 entryList)
    then some { data with tcacheHasData := false }
  else none

end ShadowHeapFacade

/-! ### Ghost walks used to state the snapshot properties -/

/-- The `i`-th node reached from `start` via `fd` links. -/
def fd_node (mem : Memory) (start : Nat) : Nat → Nat
  | 0 => start
  | i + 1 => (CHUNK_HEADER.read mem (fd_node mem start i)).fd

/-- The `b`-th entry reached from `head` via `next` links. -/
def next_entry (mem : Memory) (head : Nat) : Nat → Nat
  | 0 => head
  | b + 1 => mem (next_entry mem head b)

/-- The number of cells of a tcache bin that a walk from `head` traverses: it stops after a
cell whose `next` is null, and after `n` cells. -/
def tcache_walk_length (mem : Memory) : Nat → Nat → Nat
  | 0, _ => 0
  | n + 1, entry => if mem entry ≠ 0 then tcache_walk_length mem n (mem entry) + 1 else 1

/-- The bin `i` of the thread cache is walked: its head is non-null and its count is
positive. -/
def tcache_bin_active (v230 : Bool) (mem : Memory) (tcache i : Nat) : Prop :=
  tcache_entries v230 mem tcache i ≠ 0 ∧ 0 < tcache_counts v230 mem tcache i

/-- One of the three comparisons of `_check_tcache_impl` fails for the recorded `bucket` and
the traversed entry. -/
def TcacheMetaEntry.mismatch (mem : Memory) (bucket : TcacheMetaEntry) (entry : Nat) : Prop :=
  bucket.next ≠ (CHUNK_HEADER.read mem (CHUNK_HEADER.from_memory entry)).fd ∨
  bucket.orig_ptr ≠ entry ∨
  bucket.size ≠ (CHUNK_HEADER.read mem (CHUNK_HEADER.from_memory entry)).chunksize

/-! ### The steps of an intercepted call

The order in which an intercepted call reaches the snapshot halves, the per-pointer check,
`store_pointer`, the raw allocator and `memcpy`, embedded as the list of these steps for a
call in which no check aborts (an abort ends the call after a prefix of the list). -/

/-- A step of an intercepted call. -/
inductive Step where
  | check_topchunk
  | check_unsorted
  | check_tcache
  | check_pointer_before_free
  | store_pointer
  | call_malloc_recursive_checked
  | call_calloc_recursive_checked
  | call_malloc_raw
  | call_free_raw
  | memcpy
  | store_tcache
  | store_unsorted
  | store_topchunk
deriving DecidableEq

namespace Step

end Step

namespace ShadowHeapFacade

/-- The steps of `free_pre`. -/
def free_pre_steps (isInitialized : Bool) : List Step :=
  if isInitialized = false then []
  else [.check_topchunk, .check_unsorted, .check_tcache, .check_pointer_before_free]

/-- The steps of `free_post`. -/
def free_post_steps (isInitialized : Bool) : List Step :=
  if isInitialized = false then []
  else [.store_tcache, .store_unsorted, .store_topchunk]

/-- The steps of `malloc_pre`. -/
def malloc_pre_steps (isInitialized : Bool) : List Step :=
  if isInitialized = false then []
  else [.check_topchunk, .check_unsorted, .check_tcache]

/-- The steps of `malloc_post`. -/
def malloc_post_steps (isInitialized : Bool) (ret : Nat) : List Step :=
  if isInitialized = false then []
  else if ret = 0 then []
  else [.store_pointer, .store_tcache, .store_unsorted, .store_topchunk]

/-- The steps of `calloc_pre`. -/
def calloc_pre_steps (isInitialized : Bool) : List Step :=
  if isInitialized = false then []
  else [.check_topchunk, .check_unsorted, .check_tcache]

/-- The steps of `calloc_post`. -/
def calloc_post_steps (isInitialized : Bool) (ret : Nat) : List Step :=
  if isInitialized = false then []
  else if ret = 0 then []
  else [.store_pointer, .store_tcache, .store_unsorted, .store_topchunk]

/-- The steps of `realloc_pre`. -/
def realloc_pre_steps (isInitialized : Bool) : List Step :=
  if isInitialized = false then []
  else [.check_topchunk, .check_unsorted, .check_tcache]

/-- The steps of `realloc_post`. -/
def realloc_post_steps (isInitialized : Bool) : List Step :=
  if isInitialized = false then []
  else [.store_tcache, .store_unsorted, .store_topchunk]

/-- The steps of `realloc_mallochandler`. -/
def realloc_mallochandler_steps (isInitialized : Bool) (ret : Nat) : List Step :=
  if isInitialized = false then []
  else if ret = 0 then []
  else [.store_pointer]

/-- The steps of `realloc_freehandler`. -/
def realloc_freehandler_steps (isInitialized : Bool) : List Step :=
  if isInitialized = false then []
  else [.check_pointer_before_free, .call_free_raw]

end ShadowHeapFacade

namespace ShadowHeapWrapper

/-- The steps of `free` (compiled with `SHADOW`). -/
def free_steps (isInitialized : Bool) (ptr : Nat) : List Step :=
  if ptr = 0 then []
  else ShadowHeapFacade.free_pre_steps isInitialized ++ [.call_free_raw] ++
    ShadowHeapFacade.free_post_steps isInitialized

/-- The steps of `malloc`, whose raw allocation returns `ret`. -/
def malloc_steps (isInitialized : Bool) (ret : Nat) : List Step :=
  ShadowHeapFacade.malloc_pre_steps isInitialized ++ [.call_malloc_recursive_checked] ++
    ShadowHeapFacade.malloc_post_steps isInitialized ret

/-- The steps of `calloc`, whose raw allocation returns `ret`. -/
def calloc_steps (isInitialized : Bool) (ret : Nat) : List Step :=
  ShadowHeapFacade.calloc_pre_steps isInitialized ++ [.call_calloc_recursive_checked] ++
    ShadowHeapFacade.calloc_post_steps isInitialized ret

/-- The steps of `malloc_memcpy_free_approach`, whose raw `malloc` returns `ret`. -/
def malloc_memcpy_free_approach_steps (isInitialized : Bool) (ret : Nat) : List Step :=
  [.call_malloc_raw] ++ ShadowHeapFacade.realloc_mallochandler_steps isInitialized ret ++
    [.memcpy] ++ ShadowHeapFacade.realloc_freehandler_steps isInitialized

/-- The steps of `realloc`, whose raw `malloc` returns `ret`. -/
def realloc_steps (isInitialized : Bool) (ptr len ret : Nat) : List Step :=
  if ptr = 0 then malloc_steps isInitialized ret
  else if len = 0 then free_steps isInitialized ptr
  else ShadowHeapFacade.realloc_pre_steps isInitialized ++
    malloc_memcpy_free_approach_steps isInitialized ret ++
    ShadowHeapFacade.realloc_post_steps isInitialized

/-- The steps of an intercepted call whose raw allocation, if any, returns `ret`. -/
def call_steps (isInitialized : Bool) : Call → Nat → List Step
  | .malloc _, ret => malloc_steps isInitialized ret
  | .calloc _ _, ret => calloc_steps isInitialized ret
  | .realloc ptr len, ret => realloc_steps isInitialized ptr len ret
  | .free ptr, _ => free_steps isInitialized ptr

end ShadowHeapWrapper

/-- Trivial snapshot surfaces on no shadow data: every verification passes. -/
def Snapshots.none : Snapshots Unit :=
  { check_topchunk := fun _ _ d => some d, check_unsorted := fun _ _ d => some d,
    check_tcache := fun _ _ d => some d, store_tcache := fun _ _ d => d,
    store_unsorted := fun _ _ d => d, store_topchunk := fun _ _ d => d }

/-- An example memory: chunk headers with size words `0x21`, `0x21`, `0x31` in front of the
user pointers `4096`, `8192`, `12288`. -/
def exampleMemory : Memory := fun a =>
  if a = 4088 then 33 else if a = 8184 then 33 else if a = 12280 then 49 else 0

/-- The surroundings of an example call: the raw allocation returns `ret`, the memory is
`exampleMemory` throughout. -/
def exampleEnv (ret : Nat) : Env :=
  { memPre := exampleMemory, ret := ret, memRet := exampleMemory, memCopy := exampleMemory,
    memPost := exampleMemory }

/-- An initialised example facade with pointer checks on and the given store. -/
def exampleFacade (store : IMetaStore) : ShadowHeapFacade Unit :=
  { isInitialized := true,
    modes := { ptrMode := true, usbMode := false, topMode := false, leakMode := false,
               tcaMode := false },
    store := store, shadow := () }

/-- The store of the example facade: the cached store after `ensure_initialized(200)`, a
table of 64 empty bins. -/
def exampleStore : IMetaStore :=
  .cached { cache_entries := 0, cache := { bins := List.replicate 64 details.Bin.empty },
            fallback_store := MapMetaStore.init }

/-- The example sequence of calls: `malloc` returns 4096, `calloc` returns 8192,
`realloc(4096, 40)` moves the block to 12288, `malloc` returns null, `free(8192)`. -/
def exampleCalls : List (Call × Env) :=
  [(.malloc 24, exampleEnv 4096), (.calloc 1 24, exampleEnv 8192),
   (.realloc 4096 40, exampleEnv 12288), (.malloc 24, exampleEnv 0),
   (.free 8192, exampleEnv 0)]

/-- The chunks of the rehash test: `{ 32 + 8 * i, 13 + i }` for `i < n`. -/
def exampleChunks (n : Nat) : List MALLOC_META :=
  (List.range n).map (fun i => ⟨32 + 8 * i, 13 + i⟩)

/-- The cached store after `put` of the first `n` chunks of the rehash test. -/
def exampleCached (n : Nat) : CachedMetaStore :=
  match (IMetaStore.cached CachedMetaStore.init).run ((exampleChunks n).map Op.put) with
  | some (_, .cached c) => c
  | _ => CachedMetaStore.init

/-- Example mode flags: every check enabled. -/
def exampleModes : ModeReader :=
  { ptrMode := true, usbMode := true, topMode := true, leakMode := true, tcaMode := true }

/-- Example arena record: the arena's top pointer at 100, its unsorted bin head at 200, the
thread cache (layout before 2.30) at 4000. -/
def exampleInfo : ARENA_INFO := { topchunk := 100, unsorted_bin := 200, tcache := 4000 }

/-- An example heap: the top chunk at 20000 with size word `0x20d31`; an unsorted bin ring
of the two chunks at 5000 and 6000; tcache bin 0 with count 2, holding the user pointers
7016 and 8016. -/
def exampleHeap : Memory := fun a =>
  if a = 100 then 20000 else if a = 20008 then 134449
  else if a = 200 then 5000
  else if a = 5008 then 145 else if a = 5016 then 6000 else if a = 5024 then 6000
  else if a = 6008 then 161 else if a = 6016 then 5000 else if a = 6024 then 5000
  else if a = 4000 then 2 else if a = 4064 then 7016
  else if a = 7008 then 33 else if a = 7016 then 8016
  else if a = 8008 then 33
  else 0

/-! ### The copy of `realloc` and the neighbours of a chunk

`malloc_memcpy_free_approach` copies bytes; the bytes of the memory and the words that the
chunk headers are read from are two views of the same memory. -/

/-- The bytes of the memory of the process: the byte stored at each address. -/
abbrev Bytes := Nat → Nat

/-- The 64-bit words that the bytes hold (little endian): the view `Memory` of the bytes. -/
def wordsOf (bytes : Bytes) : Memory := fun a =>
  (List.range 8).foldr (fun i acc => bytes ((a + i) % WORD) % 256 + 256 * acc) 0

/-- The C library's `memcpy(dst, src, n)` on the bytes of the memory: undefined for a null
pointer and for areas that overlap (`none`); else the `n` bytes at `src` are copied to
`dst`. -/
def memcpy (bytes : Bytes) (dst src n : Nat) : Option Bytes :=
  if dst = 0 ∨ src = 0 then none
  else if dst < src + n ∧ src < dst + n then none
  else some (fun a => if dst ≤ a ∧ a < dst + n then bytes (src + (a - dst)) else bytes a)

/-- Embeds `next_chunk`: the address `header + chunksize()`. The member `prev_size` of a
header is its first word, so this is also the address of `next_chunk()->prev_size`. -/
def CHUNK_HEADER.next_chunk (mem : Memory) (header : Nat) : Nat :=
  (header + (CHUNK_HEADER.read mem header).chunksize) % WORD

namespace ShadowHeapWrapper

variable {σ : Type}

/-- The local `copy_this_much` of `malloc_memcpy_free_approach`: `header->useable_size()` of
the old block, or `len` if that is less. -/
def copy_this_much (mem : Memory) (ptr len : Nat) : Nat :=
  let header := CHUNK_HEADER.from_memory ptr
  let copy_this_much := (CHUNK_HEADER.read mem header).useable_size
  if len < copy_this_much then len else copy_this_much

/-- Embeds `malloc_memcpy_free_approach` with its `memcpy`: `bytes` is the memory when the
header of the old block is read and the copy is made; the pre-free check reads the memory
that the copy leaves. The result carries that memory. -/
def malloc_memcpy_free_approach_bytes (f : ShadowHeapFacade σ) (env : Env) (bytes : Bytes)
    (ptr len : Nat) : Option (Nat × ShadowHeapFacade σ × Bytes) :=
  let ret := env.ret
  match f.realloc_mallochandler env.memRet ret with
  | none => none
  | some f1 =>
    let copy := copy_this_much (wordsOf bytes) ptr len
    match memcpy bytes ret ptr copy with
    | none => none
    | some copied =>
      match f1.realloc_freehandler (wordsOf copied) ptr with
      | none => none
      | some f2 => some (ret, f2, copied)

end ShadowHeapWrapper

/-! ### Reading the environment: `ModeReader`

A C string is the list of its characters before the terminator. `std::exit` and
`std::abort` end the process: the functions that can reach them return `Except Failure`. -/

/-- How initialisation can end the process: `std::exit(status)` or `std::abort()`, each after
a diagnostic on `stderr`, or undefined behaviour. -/
inductive Failure where
  | exit (status : Nat) (diagnostic : String)
  | abort (diagnostic : String)
  | undefined
deriving DecidableEq

/-- The functions of the C library that `getenv_parsed<unsigned long>` calls: `strtoul` with
base 0 gives the parsed value, the rest of the string at `*end` and the value of `errno`;
`strerror` gives the message of an error number. -/
structure CLibrary where
  strtoul : List Char → Nat × List Char × Nat
  strerror : Nat → String

/-- The C library's `getenv` on the entries of `environ`: the value of the first entry
`name=value`. -/
def getenv : List (List Char) → List Char → Option (List Char)
  | [], _ => none
  | kv :: environ, name =>
    if (name ++ ['=']).isPrefixOf kv then some (kv.drop (name.length + 1))
    else getenv environ name

/-- Embeds `getenv_parsed<bool>`: the problem it reports, if any, and the out-parameter
`value` as the call leaves it. -/
def getenv_parsed_bool (environ : List (List Char)) (name : List Char) (value : Bool) :
    Option String × Bool :=
  match getenv environ name with
  | none => (none, value)
  | some str =>
    if str = [] then (none, value)
    else if str = ['1'] then (none, true)
    else if str = ['0'] then (none, false)
    else (some "value must be '1' or '0'", value)

/-- Embeds `getenv_parsed<unsigned long>`. -/
def getenv_parsed_unsigned_long (lib : CLibrary) (environ : List (List Char))
    (name : List Char) (value : Nat) : Option String × Nat :=
  match getenv environ name with
  | none => (none, value)
  | some str =>
    if str = [] then (none, value)
    else
      let parsed := lib.strtoul str
      if parsed.2.2 ≠ 0 then (some (lib.strerror parsed.2.2), value)
      else if parsed.2.1 ≠ [] then (some "contains non-numeric chars", value)
      else (none, parsed.1)

namespace ModeReader

/-- Embeds the lambda `disable_via_env` of `ensure_initialized`. -/
def disable_via_env (environ : List (List Char)) (name : List Char) : Except Failure Bool :=
  let r := getenv_parsed_bool environ name false
  match r.1 with
  | some problem =>
    .error (.exit 1 ("ShadowHeap: ERROR: variable " ++ String.mk name ++ ": " ++ problem))
  | none => .ok r.2

/-- Embeds the lambda `consume` of `ensure_initialized`: `none` is the null pointer, else
the rest of `p` after the loop, which ends when `p` or `pre` is exhausted. -/
def consume : List Char → List Char → Option (List Char)
  | p, [] => some p
  | [], _ :: _ => some []
  | c :: p, d :: pre => if c = d then consume p pre else none

/-- Embeds the lambda `is_allowed_env_var` of `ensure_initialized`. -/
def is_allowed_env_var (kv : List Char) : Bool :=
  match consume kv "SHADOWHEAP_".toList with
  | some s =>
    (consume s "DISABLE_PTRCHECKS=".toList).isSome ||
    (consume s "DISABLE_USBCHECKS=".toList).isSome ||
    (consume s "DISABLE_TOPCHECKS=".toList).isSome ||
    (consume s "DISABLE_TCACHECKS=".toList).isSome ||
    (consume s "DISABLE_LEAKCHECKS=".toList).isSome ||
    (consume s "SIZE_INITIAL=".toList).isSome
  | none => true

/-- One statement `if (mode && disable_via_env(name)) mode = false;` of
`ensure_initialized`: the variable is read only if the mode is on. -/
def disable_mode (environ : List (List Char)) (mode : Bool) (name : List Char) :
    Except Failure Bool :=
  if mode = false then .ok false
  else
    match disable_via_env environ name with
    | .error e => .error e
    | .ok disable => .ok (!disable)

/-- The part of `ensure_initialized` that reads the six variables: the five flags, in the
order `ptr`, `usb`, `top`, `leak`, `tca`, then `initialStoreSize`. -/
def read_variables (lib : CLibrary) (environ : List (List Char)) (modes : ModeReader)
    (initialStoreSize : Nat) : Except Failure (ModeReader × Nat) :=
  match disable_mode environ modes.ptrMode "SHADOWHEAP_DISABLE_PTRCHECKS".toList with
  | .error e => .error e
  | .ok ptrMode =>
    match disable_mode environ modes.usbMode "SHADOWHEAP_DISABLE_USBCHECKS".toList with
    | .error e => .error e
    | .ok usbMode =>
      match disable_mode environ modes.topMode "SHADOWHEAP_DISABLE_TOPCHECKS".toList with
      | .error e => .error e
      | .ok topMode =>
        match disable_mode environ modes.leakMode "SHADOWHEAP_DISABLE_LEAKCHECKS".toList with
        | .error e => .error e
        | .ok leakMode =>
          match disable_mode environ modes.tcaMode "SHADOWHEAP_DISABLE_TCACHECKS".toList with
          | .error e => .error e
          | .ok tcaMode =>
            let r := getenv_parsed_unsigned_long lib environ
              "SHADOWHEAP_SIZE_INITIAL".toList initialStoreSize
            match r.1 with
            | some problem =>
              .error (.exit 1
                ("ShadowHeap: ERROR: variable SHADOWHEAP_SIZE_INITIAL: " ++ problem))
            | none =>
              .ok ({ ptrMode := ptrMode, usbMode := usbMode, topMode := topMode,
                     leakMode := leakMode, tcaMode := tcaMode }, r.2)

/-- Embeds `ensure_initialized`: `modes` holds the flags before the call (the compiled-in
checks, for the first call), the result the flags and `initialStoreSize` after it. -/
def ensure_initialized (lib : CLibrary) (environ : List (List Char)) (isInitialized : Bool)
    (modes : ModeReader) (initialStoreSize : Nat) : Except Failure (ModeReader × Nat) :=
  if isInitialized then .ok (modes, initialStoreSize)
  else
    match read_variables lib environ modes initialStoreSize with
    | .error e => .error e
    | .ok r =>
      match environ.find? (fun kv => !is_allowed_env_var kv) with
      | some kv =>
        .error (.exit 1
          ("ShadowHeap: ERROR: unrecognized environment variable: " ++ String.mk kv))
      | none => .ok r

end ModeReader

/-! ### The probe of the allocator: `GLIBC_INFO`, `ARENA_INFO`, `ArenaLeak` -/

/-- The C library's `strncmp` on two C strings: the difference of the first two characters
that differ among the first `n`, the end of a string counting as the character 0. -/
def strncmp : List Char → List Char → Nat → Int
  | _, _, 0 => 0
  | [], [], _ + 1 => 0
  | [], d :: _, _ + 1 => -(d.toNat : Int)
  | c :: _, [], _ + 1 => (c.toNat : Int)
  | c :: a, d :: b, n + 1 => if c = d then strncmp a b n else (c.toNat : Int) - (d.toNat : Int)

/-- Embeds `struct GLIBC_INFO` without `progname`. A member of type `int` that has not been
assigned holds no determinate value: `none`. -/
structure GLIBC_INFO where
  version : List Char
  tcache_present : Nat
  offset_sb0_to_main_arena : Option Nat
  offset_adjust_references : Option Nat
  valid : Bool
deriving DecidableEq

/-- Embeds the constructor `GLIBC_INFO::GLIBC_INFO`: `version` is the result of
`gnu_get_libc_version()`, `test_tcache` the result of `malloc_leak::test_tcache(hook)`,
which is called for the versions from 2.26 on only. -/
def GLIBC_INFO.construct (version : List Char) (test_tcache : Nat) : GLIBC_INFO :=
  if strncmp version "2.24".toList 4 ≥ 0 ∧ strncmp version "2.25".toList 4 ≤ 0 then
    { version := version.take 99, tcache_present := 0, offset_adjust_references := some 0,
      offset_sb0_to_main_arena := some (0x68 + 0), valid := true }
  else if strncmp version "2.26".toList 4 ≥ 0 ∧ strncmp version "2.28".toList 4 < 0 then
    { version := version.take 99, tcache_present := if test_tcache ≠ 0 then 1 else 0,
      offset_adjust_references := some 0x8, offset_sb0_to_main_arena := some (0x68 + 0x8),
      valid := true }
  else if strncmp version "2.28".toList 4 ≥ 0 ∧ strncmp version "2.30".toList 4 ≤ 0 then
    { version := version.take 99, tcache_present := test_tcache,
      offset_adjust_references := some 0x8, offset_sb0_to_main_arena := some (0x68 + 0x8),
      valid := true }
  else
    { version := version.take 99, tcache_present := 0, offset_adjust_references := none,
      offset_sb0_to_main_arena := none, valid := false }

/-- What the probe of the allocator finds in the process: the version string, the results
of the two calls of `test_tcache` (one for each `GLIBC_INFO` that is constructed), the `fd`
word of the chunk freed by `leak_arena`, the results of `mallopt(-11, 0)` and
`mallopt(-12, 0)`, and the memory when the arena record is built. -/
structure LeakProbe where
  version : List Char
  test_tcache : Nat
  test_tcache_again : Nat
  fd : Nat
  mallopt_lower : Nat
  mallopt_upper : Nat
  mem : Memory

/-- Embeds `struct ARENA_INFO` in full: the addresses that the snapshots read (`info`), and
the members `arena`, `next`, `last_remainder`, `valid` and `version`. -/
structure ArenaRecord where
  info : ARENA_INFO
  arena : Nat
  next : Nat
  last_remainder : Nat
  valid : Bool
  version : GLIBC_INFO

/-- Embeds `plus_offset`. -/
def plus_offset (original offset : Nat) : Nat := (original + offset) % WORD

/-- Embeds the constructor `ARENA_INFO::ARENA_INFO(libc_info, arena)`, with `leak_check` for
a build with `LEAK_CHECK`. The members of `struct AR_MAIN` lie at the offsets `top` 88,
`last_remainder` 96, `bins` 104, `next` 2152, `next_free` 2160. Reading an offset of
`libc_info` that was never assigned is undefined behaviour: `none`. -/
def ArenaRecord.construct (leak_check : Bool) (probe : LeakProbe) (libc_info : GLIBC_INFO)
    (arena : Nat) : Option ArenaRecord :=
  match libc_info.offset_adjust_references, libc_info.offset_sb0_to_main_arena with
  | some adjust, some sb0 =>
    let next := plus_offset ((arena + 2152) % WORD) adjust
    let topchunk := plus_offset ((arena + 88) % WORD) adjust
    let last_remainder := plus_offset ((arena + 96) % WORD) adjust
    let unsorted_bin := plus_offset ((arena + 104) % WORD) adjust
    let tcache :=
      if libc_info.tcache_present > 1 then libc_info.tcache_present
      else if leak_check = true ∧ libc_info.tcache_present = 1 then
        let retTcacheLower := probe.mallopt_lower % 2 ^ 32
        let retTcacheUpper := probe.mallopt_upper % 2 ^ 32
        if retTcacheLower ≠ 1 ∧ retTcacheUpper ≠ 1 then
          (retTcacheUpper * 2 ^ 32 % WORD / 2 ^ 32 * 2 ^ 32 % WORD + retTcacheLower) % WORD
        else 0
      else 0
    let checkVal := (arena + sb0) % WORD % 2 ^ 32
    if next ≠ 0 ∧ checkVal ≠ 0 ∧ arena = probe.mem next then
      some { info := { topchunk := topchunk, unsorted_bin := unsorted_bin, tcache := tcache },
             arena := arena, next := next, last_remainder := last_remainder, valid := true,
             version := libc_info }
    else
      let arena2 := (arena + (WORD - 0x20)) % WORD
      if next ≠ 0 ∧ checkVal ≠ 0 ∧ arena2 = probe.mem ((arena2 + 2160) % WORD) then
        some { info := { topchunk := topchunk, unsorted_bin := unsorted_bin,
                         tcache := tcache },
               arena := arena2, next := next, last_remainder := last_remainder,
               valid := true, version := libc_info }
      else
        some { info := { topchunk := topchunk, unsorted_bin := unsorted_bin,
                         tcache := tcache },
               arena := arena2, next := next, last_remainder := last_remainder,
               valid := false, version := libc_info }
  | _, _ => none

namespace malloc_leak

/-- Embeds `leak_arena`: null for an invalid version record, else the address
`ptr_a->fd - offset_sb0_to_main_arena`. -/
def leak_arena (libc_info : GLIBC_INFO) (probe : LeakProbe) : Nat :=
  if libc_info.valid = false then 0
  else (probe.fd + (WORD - libc_info.offset_sb0_to_main_arena.getD 0 % WORD)) % WORD

/-- Embeds `get_arenainfo`: `none` is the null pointer. The argument `hook` of
`new ARENA_INFO(hook, arena)` is converted to a second `GLIBC_INFO`; a record whose
construction runs into undefined behaviour is reported as null. -/
def get_arenainfo (leak_check : Bool) (probe : LeakProbe) : Option ArenaRecord :=
  let libc_info := GLIBC_INFO.construct probe.version probe.test_tcache
  if libc_info.valid = false then none
  else
    let arena := leak_arena libc_info probe
    if arena = 0 then none
    else
      ArenaRecord.construct leak_check probe
        (GLIBC_INFO.construct probe.version probe.test_tcache_again) arena

end malloc_leak

/-- Embeds `struct ArenaLeak`: the pointer `info` (`none` for null) and `isInitialized`. -/
structure ArenaLeak where
  info : Option ArenaRecord
  isInitialized : Bool

/-- The object after construction. -/
def ArenaLeak.init : ArenaLeak := { info := none, isInitialized := false }

/-- Embeds `ArenaLeak::ensure_initialized`: a null or invalid arena record ends the process
with `std::abort()`. The allocations of `cleanHeap` change the heap only. -/
def ArenaLeak.ensure_initialized (leak_check : Bool) (probe : LeakProbe) (leak : ArenaLeak) :
    Except Failure ArenaLeak :=
  if leak.isInitialized then .ok leak
  else
    match malloc_leak.get_arenainfo leak_check probe with
    | some info =>
      if info.valid then .ok { info := some info, isInitialized := true }
      else .error (.abort "ShadowHeap: Error: ArenaLeak was not initialized correctly!\nAborting...\n")
    | none =>
      .error (.abort "ShadowHeap: Error: ArenaLeak was not initialized correctly!\nAborting...\n")

/-- What `ShadowHeapFacade::ensure_initialized` leaves: the facade with its modes, store and
shadow data, the member `running_under_2_30_or_later`, and the member `leak`. -/
structure InitializedFacade where
  facade : ShadowHeapFacade ShadowHeapData
  running_under_2_30_or_later : Bool
  leak : ArenaLeak

/-- Embeds `ShadowHeapFacade::ensure_initialized` on the freshly constructed facade: `build`
holds the checks that are compiled in (the initial flags of `ModeReader`), `fresh` is the
freshly constructed store of the configured class. Without `PTR_CHECK` no store is created
and none is used. -/
def ShadowHeapFacade.ensure_initialized (lib : CLibrary) (environ : List (List Char))
    (build : ModeReader) (fresh : IMetaStore) (probe : LeakProbe) :
    Except Failure InitializedFacade :=
  match ModeReader.ensure_initialized lib environ false build 0 with
  | .error e => .error e
  | .ok (modes, initialStoreSize) =>
    match (if build.ptrMode then ShadowHeapData.ensure_initialized fresh initialStoreSize
           else some fresh) with
    | none => .error .undefined
    | some store =>
      match ArenaLeak.ensure_initialized build.leakMode probe ArenaLeak.init with
      | .error e => .error e
      | .ok leak =>
        match leak.info with
        | none => .error .undefined
        | some info =>
          let running_under_2_30_or_later :=
            decide (strncmp info.version.version "2.30".toList 4 ≥ 0)
          let modes1 : ModeReader :=
            if modes.tcaMode then
              (if !modes.leakMode then { modes with tcaMode := false } else modes)
            else modes
          .ok { facade := { isInitialized := true, modes := modes1, store := store,
                            shadow := ShadowHeapData.init },
                running_under_2_30_or_later := running_under_2_30_or_later,
                leak := leak }

/-! ### Notions of the claims on the initialisation -/

/-- The six names that the validation of the environment recognises, as the documentation
lists them. -/
def recognisedNames : List (List Char) :=
  ["SHADOWHEAP_DISABLE_PTRCHECKS".toList, "SHADOWHEAP_DISABLE_USBCHECKS".toList,
   "SHADOWHEAP_DISABLE_TOPCHECKS".toList, "SHADOWHEAP_DISABLE_TCACHECKS".toList,
   "SHADOWHEAP_DISABLE_LEAKCHECKS".toList, "SHADOWHEAP_SIZE_INITIAL".toList]

/-- The variable `name` is set to a value that is non-empty and different from `0` and
`1`. -/
def badValue (environ : List (List Char)) (name : List Char) : Bool :=
  match getenv environ name with
  | some v => v != [] && v != ['0'] && v != ['1']
  | none => false

/-- The variable `name` is set to `1`. -/
def isOne (environ : List (List Char)) (name : List Char) : Bool :=
  getenv environ name == some ['1']

/-- The decimal digit `d` as a character. -/
def digitChar (d : Fin 10) : Char := Char.ofNat (48 + d.val)

/-- The version string `major.minor` of the version numbers `major` and `minor`. -/
def versionString (major minor : Nat) : List Char :=
  (Nat.repr major).toList ++ '.' :: (Nat.repr minor).toList

/-! ### Example inputs of the initialisation -/

/-- Example bytes: the size word `0x21` in front of the block `4096`, whose 24 usable bytes
hold `0x23`. -/
def exampleBytes : Bytes := fun a =>
  if a = 4088 then 33 else if 4096 ≤ a ∧ a < 4120 then 35 else 0

/-- An example C library: `strtoul` reads decimal digits and reports `ERANGE` (34) for a
value that does not fit 64 bits. -/
def exampleLibrary : CLibrary :=
  { strtoul := fun s =>
      let digits := s.takeWhile Char.isDigit
      let value := digits.foldl (fun acc c => 10 * acc + (c.toNat - 48)) 0
      if value < WORD then (value, s.dropWhile Char.isDigit, 0)
      else (WORD - 1, s.dropWhile Char.isDigit, 34),
    strerror := fun _ => "Numerical result out of range" }

/-- An example build: every check compiled in. -/
def exampleBuild : ModeReader :=
  { ptrMode := true, usbMode := true, topMode := true, leakMode := true, tcaMode := true }

/-- An example probe under the version 2.27: the freed chunk's `fd` is 70000 + 0x70, and
the word `next` of the arena at 70000 points to the arena itself. -/
def exampleProbe : LeakProbe :=
  { version := "2.27".toList, test_tcache := 1, test_tcache_again := 1, fd := 70112,
    mallopt_lower := 1, mallopt_upper := 1,
    mem := fun a => if a = 72160 then 70000 else 0 }

/-! ### Calls of the store interface with their results

The comparison of `CachedMetaStore` with a plain `MapMetaStore` runs the same sequence of
calls of the whole interface on both and compares what the calls return. -/

/-- One call of the interface `IMetaStore`, or of `reserve` and `clear`. -/
inductive StoreCall where
  | put (e : MALLOC_META)
  | get (key : Nat)
  | remove (e : MALLOC_META)
  | update (e : MALLOC_META)
  | size
  | reserve (request : Nat)
  | clear
deriving DecidableEq

/-- What a call of the interface returns: a `bool`, a `MALLOC_META`, a `size_t`, or nothing
(`void`). -/
inductive StoreResult where
  | flag (b : Bool)
  | entry (e : MALLOC_META)
  | count (n : Nat)
  | done
deriving DecidableEq

/-- Virtual `clear`. -/
def IMetaStore.clear : IMetaStore → IMetaStore
  | .vector s => .vector s.clear
  | .map s => .map s.clear
  | .unordered s => .unordered s.clear
  | .hash s => .hash s.clear
  | .cached s => .cached s.clear

namespace IMetaStore

/-- Perform one call: what it returns and the store afterwards, `none` if the call does not
return. -/
def perform (s : IMetaStore) : StoreCall → Option (StoreResult × IMetaStore)
  | .put e => (s.put e).map (fun r => (.flag r.1, r.2))
  | .get key => some (.entry (s.get key), s)
  | .remove e => some (.flag (s.remove e).1, (s.remove e).2)
  | .update e => some (.flag (s.update e).1, (s.update e).2)
  | .size => some (.count s.size, s)
  | .reserve request => (s.reserve request).map (fun s' => (.done, s'))
  | .clear => some (.done, s.clear)

/-- Perform a sequence of calls: what they return, in order, and the final store. -/
def performAll : IMetaStore → List StoreCall → Option (List StoreResult × IMetaStore)
  | s, [] => some ([], s)
  | s, c :: cs =>
    match s.perform c with
    | none => none
    | some r =>
      match performAll r.2 cs with
      | none => none
      | some rest => some (r.1 :: rest.1, rest.2)

end IMetaStore

/-- The condition of the comparison on one call, for a store that holds the entries
`stored`: the key is non-null, the size word of an entry is non-zero, and `put` is applied
to a key that is not stored. -/
def StoreCall.admissible (stored : List MALLOC_META) : StoreCall → Bool
  | .put e => e.ptr != 0 && e.size != 0 && stored.all (fun x => x.ptr != e.ptr)
  | .get key => key != 0
  | .remove e => e.ptr != 0 && e.size != 0
  | .update e => e.ptr != 0 && e.size != 0
  | .size => true
  | .reserve _ => true
  | .clear => true

/-- The condition of the comparison on a sequence of calls, followed on the store `s` that
the sequence is run on. -/
def Admissible : IMetaStore → List StoreCall → Bool
  | _, [] => true
  | s, c :: cs =>
    c.admissible s.entries &&
      match s.perform c with
      | none => true
      | some r => Admissible r.2 cs

/-- A call within the range that the growth of the cache handles: a `reserve` asks for at
most `2^32` entries. -/
def StoreCall.moderate : StoreCall → Bool
  | .reserve request => decide (request ≤ 2 ^ 32)
  | _ => true

/-- The invariant of the comparison: the cached store and the plain map store are well
formed and hold the same entries, all with a non-zero size word, and the capacity of the
cache is at most `2^32`. -/
def StoresAgree (s : CachedMetaStore) (m : MapMetaStore) : Prop :=
  s.WF ∧ m.WF ∧ s.entries.Perm m.entries ∧ (∀ x ∈ m.entries, x.size ≠ 0) ∧
  s.capacity ≤ 2 ^ 32

/-! ### The table during `reserve_double` -/

/-- The table when `reserve_double` reaches the cell `bins[bin_i][entry_i]`: the vector is
resized, and the loops have handled the bins before `bin_i` and the cells of the bin `bin_i`
before `entry_i`. -/
def details.ResizeableHashMap.reserve_double_at (m : details.ResizeableHashMap)
    (factor bin_i entry_i : Nat) : details.ResizeableHashMap :=
  let oldsize := m.bins.length
  let newsize := (factor * oldsize) % WORD
  let newmask := newsize - 1
  details.forLoop (details.ResizeableHashMap.rehash_entry newmask bin_i) entry_i
    (details.forLoop (details.ResizeableHashMap.rehash_bin newmask) bin_i
      { bins := details.ResizeableHashMap.resize m.bins newsize })

/-! ### The raw allocator behind the hooks: `hookinfo.h`

`HookInfo` reaches the allocator of the C library through function pointers that
`setupPointers` resolves; `recursive` counts, per thread, the nested regions in which a
raw call is under way. The resolution of the four symbols is taken to succeed. -/

/-- A call of the raw `calloc` through `callocp`, with the value that the thread's counter
`recursive` has while the call runs. -/
structure RawCalloc where
  cnt : Nat
  len : Nat
  recursive : Int
deriving DecidableEq

/-- What the surroundings contribute to a call of the hooks: the address of the static
array `callocbase`, and the result of the raw `calloc`. -/
structure HookEnv where
  callocbase : Nat
  callocp : Nat → Nat → Nat

/-- Embeds `struct HookInfo` with the thread's counter `recursive`: the member
`isInitialized`, the counter, and the calls of the raw `calloc` made so far. -/
structure HookInfo where
  isInitialized : Bool
  recursive : Int
  callocs : List RawCalloc
deriving DecidableEq

namespace HookInfo

/-- The object after construction, in a thread that is in no region. -/
def init : HookInfo := { isInitialized := false, recursive := 0, callocs := [] }

/-- Embeds `setupPointers`. -/
def setupPointers (h : HookInfo) : HookInfo :=
  if h.isInitialized then h else { h with isInitialized := true }

/-- Embeds `call_calloc_raw`. -/
def call_calloc_raw (env : HookEnv) (h : HookInfo) (cnt len : Nat) : Nat × HookInfo :=
  let h1 := if h.isInitialized = false then h.setupPointers else h
  (env.callocp cnt len,
   { h1 with callocs := h1.callocs ++ [{ cnt := cnt, len := len, recursive := h1.recursive }] })

/-- Embeds `call_calloc_recursive`: the constructor of `RecursiveRegion lock` raises the
counter, its destructor lowers it when the function returns. The counter is an `int`; the
checked entry point enters the region with the counter at 0 only, far from its ends. -/
def call_calloc_recursive (env : HookEnv) (h : HookInfo) (cnt len : Nat) : Nat × HookInfo :=
  let h1 : HookInfo := { h with recursive := h.recursive + 1 }
  let h2 := if h1.isInitialized = false then h1.setupPointers else h1
  let r := call_calloc_raw env h2 cnt len
  (r.1, { r.2 with recursive := r.2.recursive - 1 })

/-- Embeds `call_calloc_recursive_checked`. -/
def call_calloc_recursive_checked (env : HookEnv) (h : HookInfo) (cnt len : Nat) :
    Nat × HookInfo :=
  if h.recursive ≠ 0 then
    if h.isInitialized = false then (env.callocbase, h) else (0, h)
  else call_calloc_recursive env h cnt len

end HookInfo

/-! ### Bins of the thread cache that read the same in two memories -/

/-- The cell `entry` of a tcache bin reads the same in `mem` as in `mem0`: its `next`
pointer, and the `fd` word and the chunk size of its header. -/
def tcache_cell_same (mem0 mem : Memory) (entry : Nat) : Prop :=
  mem entry = mem0 entry ∧
  (CHUNK_HEADER.read mem (CHUNK_HEADER.from_memory entry)).fd =
    (CHUNK_HEADER.read mem0 (CHUNK_HEADER.from_memory entry)).fd ∧
  (CHUNK_HEADER.read mem (CHUNK_HEADER.from_memory entry)).chunksize =
    (CHUNK_HEADER.read mem0 (CHUNK_HEADER.from_memory entry)).chunksize

/-- The bin `i` of the thread cache is unchanged from `mem0` to `mem`: same head, same
count, and the cells that a walk traverses in `mem0` read the same. -/
def tcache_bin_same (v230 : Bool) (mem0 mem : Memory) (tcache i : Nat) : Prop :=
  tcache_entries v230 mem tcache i = tcache_entries v230 mem0 tcache i ∧
  tcache_counts v230 mem tcache i = tcache_counts v230 mem0 tcache i ∧
  ∀ b, b < tcache_walk_length mem0 TCA_BIN_SIZE (tcache_entries v230 mem0 tcache i) →
    tcache_cell_same mem0 mem (next_entry mem0 (tcache_entries v230 mem0 tcache i) b)

/-- The entry that `_store_tcache_impl` records for the traversed cell `entry`. -/
def TcacheMetaEntry.record (mem : Memory) (entry : Nat) : TcacheMetaEntry :=
  { orig_ptr := entry,
    size := (CHUNK_HEADER.read mem (CHUNK_HEADER.from_memory entry)).chunksize,
    next := (CHUNK_HEADER.read mem (CHUNK_HEADER.from_memory entry)).fd }

/-! ### Example inputs of the comparisons -/

/-- An example sequence of calls of the whole store interface. -/
def exampleStoreCalls : List StoreCall :=
  [.put ⟨4096, 33⟩, .put ⟨8192, 49⟩, .size, .get 4096, .update ⟨4096, 65⟩, .get 4096,
   .remove ⟨8192, 52⟩, .remove ⟨8192, 33⟩, .reserve 200, .get 8192, .update ⟨8192, 33⟩,
   .size, .clear, .size, .put ⟨4096, 33⟩, .get 4096]

/-- An example table of one bin that holds the chunks 32, 40 and 48 (the hashes of 32 and 40
are odd, that of 48 is even). -/
def exampleTable : details.ResizeableHashMap :=
  { bins := [{ e0 := ⟨32, 13⟩, e1 := ⟨40, 14⟩, e2 := ⟨48, 15⟩, e3 := MALLOC_META.empty }] }

/-- Example surroundings of the hooks: `callocbase` lies at 24576; the raw `calloc` returns
4096. -/
def exampleHookEnv : HookEnv := { callocbase := 24576, callocp := fun _ _ => 4096 }

/-- The example heap after the application emptied tcache bin 0: the count is 0 and the head
is null; the rest reads as in `exampleHeap`. -/
def exampleHeapEmptied : Memory := fun a =>
  if a = 4000 then 0 else if a = 4064 then 0 else exampleHeap a

/-! ## Theorems -/

/-! ## Lemmas on lists of entries -/

theorem lookup_nil (k : Nat) : lookup [] k = MALLOC_META.empty := rfl

theorem lookup_cons (x : MALLOC_META) (l : List MALLOC_META) (k : Nat) :
    lookup (x :: l) k = if x.ptr = k then x else lookup l k := by
  unfold lookup
  by_cases h : x.ptr = k
  · simp [List.find?, h]
  · have hb : (x.ptr == k) = false := by simpa using h
    simp [List.find?, hb, h]

theorem lookup_of_not_mem {l : List MALLOC_META} {k : Nat} (h : ∀ x ∈ l, x.ptr ≠ k) :
    lookup l k = MALLOC_META.empty := by
  induction l with
  | nil => rfl
  | cons y l ih =>
    rw [lookup_cons, if_neg (h y (List.mem_cons_self _ _))]
    exact ih (fun x hx => h x (List.mem_cons_of_mem _ hx))

theorem lookup_of_mem {l : List MALLOC_META} {x : MALLOC_META}
    (hn : (l.map MALLOC_META.ptr).Nodup) (hx : x ∈ l) : lookup l x.ptr = x := by
  induction l with
  | nil => cases hx
  | cons y l ih =>
    rw [lookup_cons]
    rw [List.map_cons, List.nodup_cons] at hn
    rcases List.mem_cons.1 hx with rfl | hx
    · simp
    · have : y.ptr ≠ x.ptr := fun h => hn.1 (h ▸ List.mem_map_of_mem _ hx)
      rw [if_neg this]
      exact ih hn.2 hx

theorem lookup_mem_or_empty (l : List MALLOC_META) (k : Nat) :
    lookup l k = MALLOC_META.empty ∨ (lookup l k ∈ l ∧ (lookup l k).ptr = k) := by
  induction l with
  | nil => exact Or.inl rfl
  | cons y l ih =>
    rw [lookup_cons]
    by_cases h : y.ptr = k
    · rw [if_pos h]; exact Or.inr ⟨List.mem_cons_self _ _, h⟩
    · rw [if_neg h]
      rcases ih with h1 | h1
      · exact Or.inl h1
      · exact Or.inr ⟨List.mem_cons_of_mem _ h1.1, h1.2⟩

theorem KeysOk.perm {l₁ l₂ : List MALLOC_META} (h : l₁.Perm l₂) (hk : KeysOk l₁) : KeysOk l₂ :=
  ⟨(h.map MALLOC_META.ptr).nodup_iff.1 hk.1, fun e he => hk.2 e (h.mem_iff.2 he)⟩

theorem lookup_perm {l₁ l₂ : List MALLOC_META} (h : l₁.Perm l₂)
    (hn : (l₁.map MALLOC_META.ptr).Nodup) (k : Nat) : lookup l₁ k = lookup l₂ k := by
  have hn2 : (l₂.map MALLOC_META.ptr).Nodup := (h.map MALLOC_META.ptr).nodup_iff.1 hn
  rcases lookup_mem_or_empty l₁ k with h1 | ⟨h1, h1k⟩
  · rw [h1]
    rcases lookup_mem_or_empty l₂ k with h2 | ⟨h2, h2k⟩
    · rw [h2]
    · have := lookup_of_mem hn (h.mem_iff.2 h2)
      rw [h2k, h1] at this
      exact this
  · have := lookup_of_mem hn2 (h.mem_iff.1 h1)
    rw [h1k] at this
    exact this.symm

theorem KeysOk.cons {x : MALLOC_META} {l : List MALLOC_META} (hk : KeysOk l)
    (hx : x.ptr ≠ 0) (hf : ∀ y ∈ l, y.ptr ≠ x.ptr) : KeysOk (x :: l) := by
  refine ⟨?_, ?_⟩
  · rw [List.map_cons, List.nodup_cons]
    refine ⟨?_, hk.1⟩
    intro hm
    rcases List.mem_map.1 hm with ⟨y, hy, hyx⟩
    exact hf y hy hyx
  · intro e he
    rcases List.mem_cons.1 he with rfl | he
    · exact hx
    · exact hk.2 e he

theorem KeysOk.tail {x : MALLOC_META} {l : List MALLOC_META} (hk : KeysOk (x :: l)) :
    KeysOk l ∧ x.ptr ≠ 0 ∧ ∀ y ∈ l, y.ptr ≠ x.ptr := by
  have h1 := hk.1
  rw [List.map_cons, List.nodup_cons] at h1
  refine ⟨⟨h1.2, fun e he => hk.2 e (List.mem_cons_of_mem _ he)⟩,
    hk.2 x (List.mem_cons_self _ _), ?_⟩
  intro y hy hyx
  exact h1.1 (hyx ▸ List.mem_map_of_mem _ hy)

theorem set_perm (l : List MALLOC_META) (i : Nat) (hi : i < l.length) (v : MALLOC_META) :
    (l[i] :: l.set i v).Perm (v :: l) := by
  induction l generalizing i with
  | nil => simp at hi
  | cons y t ih =>
    cases i with
    | zero => simpa using List.Perm.swap v y t
    | succ i =>
      have hi2 : i < t.length := by simpa using hi
      have h1 := ih i hi2
      simp only [List.set_cons_succ, List.getElem_cons_succ]
      exact (List.Perm.swap y t[i] (t.set i v)).trans
        ((h1.cons y).trans (List.Perm.swap v y t))

/-- Swapping an element with the last one and dropping the last one removes that element. -/
theorem perm_swap_pop (l : List MALLOC_META) (i : Nat) (hi : i < l.length) (back : MALLOC_META)
    (hb : l.getLast? = some back) :
    l.Perm (l[i] :: (l.set i back).dropLast) := by
  have hne : l ≠ [] := by intro h; simp [h] at hi
  have hlast : l.getLast hne = back := by
    rw [List.getLast?_eq_getLast _ hne] at hb; exact Option.some.inj hb
  obtain ⟨d, rfl⟩ : ∃ d, l = d ++ [back] := ⟨l.dropLast, by
    rw [← hlast]; exact (List.dropLast_append_getLast hne).symm⟩
  by_cases hid : i < d.length
  · have h1 : (d ++ [back]).set i back = d.set i back ++ [back] := by
      rw [List.set_append]; simp [hid]
    have h2 : (d ++ [back])[i] = d[i] := by
      rw [List.getElem_append_left hid]
    rw [h1, h2, List.dropLast_concat]
    exact (List.perm_append_singleton back d).trans (set_perm d i hid back).symm
  · have hie : i = d.length := by simp at hi; omega
    subst hie
    have h1 : (d ++ [back]).set d.length back = d ++ [back] := by
      rw [List.set_append]; simp
    have h2 : (d ++ [back])[d.length] = back := by simp
    rw [h1, h2, List.dropLast_concat]
    exact List.perm_append_singleton back d

theorem eq_of_mem_of_ptr_eq {l : List MALLOC_META} (hn : (l.map MALLOC_META.ptr).Nodup)
    {x y : MALLOC_META} (hx : x ∈ l) (hy : y ∈ l) (h : x.ptr = y.ptr) : x = y := by
  have h1 := lookup_of_mem hn hx
  have h2 := lookup_of_mem hn hy
  rw [h] at h1
  exact h1.symm.trans h2

theorem MALLOC_META.ne_eq_false_iff (a b : MALLOC_META) :
    a.ne b = false ↔ a.ptr = b.ptr ∧ a.chunksize = b.chunksize := by
  simp [MALLOC_META.ne, MALLOC_META.equals_ptr_size]

theorem MALLOC_META.ne_eq_true_iff (a b : MALLOC_META) :
    a.ne b = true ↔ ¬ (a.ptr = b.ptr ∧ a.chunksize = b.chunksize) := by
  rw [← MALLOC_META.ne_eq_false_iff, Bool.not_eq_false]

theorem MALLOC_META.ne_self (a : MALLOC_META) : a.ne a = false := by
  simp [MALLOC_META.ne, MALLOC_META.equals_ptr_size]

/-! ## `VectorMetaStore` -/

namespace VectorMetaStore

theorem vector_WF_init : init.WF := by
  simp [init, WF, KeysOk]

theorem vector_get_eq_lookup (s : VectorMetaStore) (k : Nat) : s.get k = lookup s.entries k := rfl

theorem vector_put_ok {s : VectorMetaStore} {e : MALLOC_META} (hs : s.WF) (he : e.ptr ≠ 0)
    (hf : ∀ x ∈ s.entries, x.ptr ≠ e.ptr) :
    (s.put e).1 = true ∧ (s.put e).2.WF ∧ (s.put e).2.entries.Perm (e :: s.entries) := by
  have hg : (s.get e.ptr).ptr = 0 := by
    rw [vector_get_eq_lookup, lookup_of_not_mem hf]; rfl
  have hp : s.put e = (true, { elements := s.elements ++ [e] }) := by
    unfold put; rw [if_pos ⟨he, hg⟩]
  rw [hp]
  have hperm : (s.elements ++ [e]).Perm (e :: s.elements) := List.perm_append_singleton e _
  exact ⟨rfl, KeysOk.perm hperm.symm (KeysOk.cons hs he hf), hperm⟩

theorem vector_put_rej {s : VectorMetaStore} {e : MALLOC_META}
    (h : e.ptr = 0 ∨ ∃ x ∈ s.entries, x.ptr = e.ptr) : s.put e = (false, s) := by
  unfold put
  rw [if_neg]
  rintro ⟨he, hg⟩
  rcases h with h | ⟨x, hx, hxe⟩
  · exact he h
  · rw [vector_get_eq_lookup] at hg
    rcases lookup_mem_or_empty s.entries e.ptr with h1 | ⟨_, h1⟩
    · have : s.entries.find? (fun y => y.ptr == e.ptr) = none := by
        by_contra hc
        obtain ⟨y, hy⟩ := Option.ne_none_iff_exists'.1 hc
        have hy2 := List.find?_some hy
        have : lookup s.entries e.ptr = y := by unfold lookup; rw [hy]; rfl
        rw [h1] at this
        have h3 : y.ptr = e.ptr := by simpa using hy2
        rw [← this] at h3
        exact he h3.symm
      rw [List.find?_eq_none] at this
      exact this x hx (by simpa using hxe)
    · rw [h1] at hg; exact he hg

theorem vector_remove_ok {s : VectorMetaStore} {e x : MALLOC_META} (hs : s.WF) (hx : x ∈ s.entries)
    (hp : x.ptr = e.ptr) (hc : x.chunksize = e.chunksize) :
    (s.remove e).1 = true ∧ (s.remove e).2.WF ∧ s.entries.Perm (x :: (s.remove e).2.entries) := by
  have hex : ∃ y ∈ s.elements, (fun el : MALLOC_META => el.ptr == e.ptr) y = true :=
    ⟨x, hx, by simpa using hp⟩
  have hlt : s.elements.findIdx (fun el => el.ptr == e.ptr) < s.elements.length :=
    List.findIdx_lt_length.2 hex
  have hpt : (s.elements[s.elements.findIdx (fun el => el.ptr == e.ptr)]).ptr = e.ptr := by
    have := List.findIdx_getElem (w := hlt)
    simpa using this
  have hxe : s.elements[s.elements.findIdx (fun el => el.ptr == e.ptr)] = x :=
    eq_of_mem_of_ptr_eq hs.1 (List.getElem_mem _) hx (hpt.trans hp.symm)
  have hne : s.elements ≠ [] := List.ne_nil_of_mem hx
  have hlast : s.elements.getLast? = some (s.elements.getLast hne) :=
    List.getLast?_eq_getLast _ hne
  have hr : s.remove e = (true, { elements :=
      (s.elements.set (s.elements.findIdx (fun el => el.ptr == e.ptr))
        (s.elements.getLast hne)).dropLast }) := by
    unfold remove
    simp only [List.getElem?_eq_getElem hlt, hxe, hlast]
    rw [if_neg]
    rw [Bool.not_eq_true, MALLOC_META.ne_eq_false_iff]
    exact ⟨hp, hc⟩
  rw [hr]
  have hperm := perm_swap_pop s.elements _ hlt _ hlast
  rw [hxe] at hperm
  exact ⟨rfl, (KeysOk.tail (KeysOk.perm hperm hs)).1, hperm⟩

theorem vector_remove_rej {s : VectorMetaStore} {e : MALLOC_META}
    (h : ∀ x ∈ s.entries, x.ptr = e.ptr → x.chunksize ≠ e.chunksize) :
    s.remove e = (false, s) := by
  unfold remove
  cases hg : s.elements[s.elements.findIdx (fun el => el.ptr == e.ptr)]? with
  | none => simp only [hg]
  | some el =>
    have hlt : s.elements.findIdx (fun el => el.ptr == e.ptr) < s.elements.length := by
      by_contra hc
      rw [List.getElem?_eq_none (by omega)] at hg
      cases hg
    have hg2 := hg
    rw [List.getElem?_eq_getElem hlt] at hg2
    have hel := Option.some.inj hg2
    have hpt : el.ptr = e.ptr := by
      have := List.findIdx_getElem (w := hlt)
      rw [hel] at this
      simpa using this
    have hmem : el ∈ s.elements := hel ▸ List.getElem_mem _
    have hne : el.ne e = true := by
      rw [MALLOC_META.ne_eq_true_iff]
      exact fun hh => h el hmem hpt hh.2
    simp only [hg, hne, if_true]

theorem vector_size_eq (s : VectorMetaStore) : s.size = s.entries.length := rfl

theorem vector_update_ok {s : VectorMetaStore} {e x : MALLOC_META} (hs : s.WF) (hx : x ∈ s.entries)
    (hp : x.ptr = e.ptr) (hz : x.size ≠ 0) :
    (s.update e).1 = true ∧ (s.update e).2.WF ∧
      ∃ r, s.entries.Perm (x :: r) ∧ (s.update e).2.entries.Perm (e :: r) := by
  have hold : s.get e.ptr = x := by
    rw [vector_get_eq_lookup, ← hp]; exact lookup_of_mem hs.1 hx
  have hx0 : x.ptr ≠ 0 := hs.2 x hx
  have hsome : x.is_some = true := by simp [MALLOC_META.is_some, hx0, hz]
  obtain ⟨h1, h2, h3⟩ := vector_remove_ok hs hx rfl rfl
  have hk := KeysOk.tail (KeysOk.perm h3 hs)
  obtain ⟨h4, h5, h6⟩ := vector_put_ok (e := e) h2 (hp ▸ hx0) (fun y hy => hp ▸ hk.2.2 y hy)
  have hu : s.update e = (s.remove x).2.put e := by
    unfold update; simp only [hold, hsome, h1, if_true]
  rw [hu]
  exact ⟨h4, h5, _, h3, h6⟩

theorem vector_update_rej {s : VectorMetaStore} {e : MALLOC_META}
    (h : ∀ x ∈ s.entries, x.ptr ≠ e.ptr) : s.update e = (false, s) := by
  have hold : s.get e.ptr = MALLOC_META.empty := by
    rw [vector_get_eq_lookup]; exact lookup_of_not_mem h
  unfold update
  simp [hold, MALLOC_META.is_some, MALLOC_META.empty]

theorem vector_update_zero {s : VectorMetaStore} {e x : MALLOC_META} (hs : s.WF) (hx : x ∈ s.entries)
    (hp : x.ptr = e.ptr) (hz : x.size = 0) : s.update e = (false, s) := by
  have hold : s.get e.ptr = x := by
    rw [vector_get_eq_lookup, ← hp]; exact lookup_of_mem hs.1 hx
  unfold update
  simp [hold, MALLOC_META.is_some, hz]

end VectorMetaStore

/-! ## The associative container -/

namespace StdMap

theorem find_eq_none {V : Type} {m : StdMap V} {k : Nat} :
    find m k = none ↔ ∀ p ∈ m, p.1 ≠ k := by
  induction m with
  | nil => simp [find]
  | cons p m ih =>
    obtain ⟨k', v⟩ := p
    unfold find
    by_cases h : k' = k
    · simp [h]
    · simp [h, ih]

theorem find_of_mem {V : Type} {m : StdMap V} {k : Nat} {v : V}
    (hn : (m.map Prod.fst).Nodup) (h : (k, v) ∈ m) : find m k = some v := by
  induction m with
  | nil => cases h
  | cons p m ih =>
    obtain ⟨k', w⟩ := p
    rw [List.map_cons, List.nodup_cons] at hn
    unfold find
    rcases List.mem_cons.1 h with heq | hm
    · cases heq; simp
    · have : k' ≠ k := fun hk => hn.1 (List.mem_map.2 ⟨_, hm, hk.symm⟩)
      simp [this, ih hn.2 hm]

theorem mem_of_find {V : Type} {m : StdMap V} {k : Nat} {v : V}
    (h : find m k = some v) : (k, v) ∈ m := by
  induction m with
  | nil => cases h
  | cons p m ih =>
    obtain ⟨k', w⟩ := p
    unfold find at h
    by_cases hk : k' = k
    · rw [if_pos hk] at h; cases h; subst hk; exact List.mem_cons_self _ _
    · rw [if_neg hk] at h; exact List.mem_cons_of_mem _ (ih h)

theorem perm_erase {V : Type} {m : StdMap V} {k : Nat} {v : V}
    (hn : (m.map Prod.fst).Nodup) (h : (k, v) ∈ m) : m.Perm ((k, v) :: erase m k) := by
  induction m with
  | nil => cases h
  | cons p m ih =>
    obtain ⟨k', w⟩ := p
    rw [List.map_cons, List.nodup_cons] at hn
    unfold erase
    rcases List.mem_cons.1 h with heq | hm
    · cases heq; simp
    · have : k' ≠ k := fun hk => hn.1 (List.mem_map.2 ⟨_, hm, hk.symm⟩)
      rw [if_neg this]
      exact ((ih hn.2 hm).cons (k', w)).trans (List.Perm.swap _ _ _)

theorem perm_assign {V : Type} {m : StdMap V} {k : Nat} {w : V} (v : V)
    (hn : (m.map Prod.fst).Nodup) (h : (k, w) ∈ m) :
    (assign m k v).Perm ((k, v) :: erase m k) := by
  induction m with
  | nil => cases h
  | cons p m ih =>
    obtain ⟨k', u⟩ := p
    rw [List.map_cons, List.nodup_cons] at hn
    unfold erase assign
    rcases List.mem_cons.1 h with heq | hm
    · cases heq; simp
    · have : k' ≠ k := fun hk => hn.1 (List.mem_map.2 ⟨_, hm, hk.symm⟩)
      rw [if_neg this, if_neg this]
      exact ((ih hn.2 hm).cons (k', u)).trans (List.Perm.swap _ _ _)

theorem MetaWF.meta_keysOk {m : StdMap MALLOC_META} (h : MetaWF m) : KeysOk (m.map Prod.snd) := by
  have hmap : (m.map Prod.snd).map MALLOC_META.ptr = m.map Prod.fst := by
    rw [List.map_map]
    apply List.map_congr_left
    intro p hp
    exact (h.2 p hp).1
  refine ⟨hmap ▸ h.1, ?_⟩
  intro e he
  obtain ⟨p, hp, rfl⟩ := List.mem_map.1 he
  rw [(h.2 p hp).1]
  exact (h.2 p hp).2

theorem MetaWF.of_perm_cons {m m' : StdMap MALLOC_META} {p : Nat × MALLOC_META}
    (h : MetaWF m) (hp : m.Perm (p :: m')) : MetaWF m' := by
  have h1 := (hp.map Prod.fst).nodup_iff.1 h.1
  rw [List.map_cons, List.nodup_cons] at h1
  exact ⟨h1.2, fun q hq => h.2 q (hp.mem_iff.2 (List.mem_cons_of_mem _ hq))⟩

theorem meta_find_eq_lookup {m : StdMap MALLOC_META} (h : MetaWF m) (k : Nat) :
    (match find m k with
      | none => MALLOC_META.empty
      | some v => v) = lookup (m.map Prod.snd) k := by
  cases hf : find m k with
  | none =>
    rw [find_eq_none] at hf
    symm
    apply lookup_of_not_mem
    intro x hx
    obtain ⟨p, hp, rfl⟩ := List.mem_map.1 hx
    rw [(h.2 p hp).1]
    exact hf p hp
  | some v =>
    have hm := mem_of_find hf
    have hv : v.ptr = k := (h.2 _ hm).1
    have := lookup_of_mem (MetaWF.meta_keysOk h).1 (List.mem_map_of_mem Prod.snd hm)
    simp only at this
    rw [hv] at this
    exact this.symm

theorem meta_emplace_ok {m : StdMap MALLOC_META} {e : MALLOC_META} (h : MetaWF m)
    (he : e.ptr ≠ 0) (hf : ∀ x ∈ m.map Prod.snd, x.ptr ≠ e.ptr) :
    (emplace m e.ptr e).2 = true ∧ MetaWF (emplace m e.ptr e).1 ∧
      ((emplace m e.ptr e).1.map Prod.snd).Perm (e :: m.map Prod.snd) := by
  have hnone : find m e.ptr = none := by
    rw [find_eq_none]
    intro p hp hk
    exact hf p.2 (List.mem_map_of_mem Prod.snd hp) ((h.2 p hp).1.trans hk)
  have hem : emplace m e.ptr e = (m ++ [(e.ptr, e)], true) := by
    unfold emplace; rw [hnone]
  rw [hem]
  refine ⟨rfl, ⟨?_, ?_⟩, ?_⟩
  · rw [List.map_append, List.map_singleton]
    refine (List.perm_append_singleton _ _).nodup_iff.2 ?_
    rw [List.nodup_cons]
    refine ⟨?_, h.1⟩
    intro hm
    obtain ⟨p, hp, hpk⟩ := List.mem_map.1 hm
    exact (find_eq_none.1 hnone) p hp hpk
  · intro p hp
    rcases List.mem_append.1 hp with hp | hp
    · exact h.2 p hp
    · rw [List.mem_singleton] at hp; subst hp; exact ⟨rfl, he⟩
  · rw [List.map_append, List.map_singleton]
    exact List.perm_append_singleton _ _

theorem meta_emplace_rej {m : StdMap MALLOC_META} {e : MALLOC_META} (h : MetaWF m)
    (hf : ∃ x ∈ m.map Prod.snd, x.ptr = e.ptr) : emplace m e.ptr e = (m, false) := by
  obtain ⟨x, hx, hxe⟩ := hf
  obtain ⟨p, hp, rfl⟩ := List.mem_map.1 hx
  have hk : p.1 = e.ptr := (h.2 p hp).1.symm.trans hxe
  have : find m e.ptr = some p.2 := find_of_mem h.1 (by rw [← hk]; exact hp)
  unfold emplace; rw [this]

end StdMap

/-! ## `MapMetaStore` -/

namespace MapMetaStore

theorem map_WF_init : init.WF := by
  simp [init, WF, StdMap.MetaWF]

theorem map_get_eq_lookup {s : MapMetaStore} (hs : s.WF) (k : Nat) : s.get k = lookup s.entries k :=
  StdMap.meta_find_eq_lookup hs k

theorem map_size_eq (s : MapMetaStore) : s.size = s.entries.length := by
  simp [size, entries]

theorem map_put_ok {s : MapMetaStore} {e : MALLOC_META} (hs : s.WF) (he : e.ptr ≠ 0)
    (hf : ∀ x ∈ s.entries, x.ptr ≠ e.ptr) :
    (s.put e).1 = true ∧ (s.put e).2.WF ∧ (s.put e).2.entries.Perm (e :: s.entries) := by
  obtain ⟨h1, h2, h3⟩ := StdMap.meta_emplace_ok hs he hf
  unfold put
  rw [if_pos he]
  exact ⟨h1, h2, h3⟩

theorem map_put_rej {s : MapMetaStore} {e : MALLOC_META} (hs : s.WF)
    (h : e.ptr = 0 ∨ ∃ x ∈ s.entries, x.ptr = e.ptr) : s.put e = (false, s) := by
  unfold put
  by_cases he : e.ptr = 0
  · rw [if_neg (not_not.2 he)]
  · rw [if_pos he]
    rcases h with h | h
    · exact absurd h he
    · rw [StdMap.meta_emplace_rej hs h]

theorem map_remove_ok {s : MapMetaStore} {e x : MALLOC_META} (hs : s.WF) (hx : x ∈ s.entries)
    (hp : x.ptr = e.ptr) (hc : x.chunksize = e.chunksize) :
    (s.remove e).1 = true ∧ (s.remove e).2.WF ∧ s.entries.Perm (x :: (s.remove e).2.entries) := by
  obtain ⟨p, hpm, rfl⟩ := List.mem_map.1 hx
  have hk : p.1 = e.ptr := (hs.2 p hpm).1.symm.trans hp
  have hmem : (e.ptr, p.2) ∈ s.elements := by rw [← hk]; exact hpm
  have hfind : StdMap.find s.elements e.ptr = some p.2 := StdMap.find_of_mem hs.1 hmem
  have hne : p.2.ne e = false := (MALLOC_META.ne_eq_false_iff _ _).2 ⟨hp, hc⟩
  have hr : s.remove e = (true, { elements := StdMap.erase s.elements e.ptr }) := by
    unfold remove; simp [hfind, hne]
  rw [hr]
  have hperm := StdMap.perm_erase hs.1 hmem
  exact ⟨rfl, StdMap.MetaWF.of_perm_cons hs hperm, by simpa [entries] using hperm.map Prod.snd⟩

theorem map_remove_rej {s : MapMetaStore} {e : MALLOC_META} (hs : s.WF)
    (h : ∀ x ∈ s.entries, x.ptr = e.ptr → x.chunksize ≠ e.chunksize) :
    s.remove e = (false, s) := by
  unfold remove
  cases hf : StdMap.find s.elements e.ptr with
  | none => rfl
  | some v =>
    have hm := StdMap.mem_of_find hf
    have hv : v.ptr = e.ptr := (hs.2 _ hm).1
    have hne : v.ne e = true := by
      rw [MALLOC_META.ne_eq_true_iff]
      exact fun hh => h v (List.mem_map_of_mem Prod.snd hm) hv hh.2
    simp [hne]

theorem map_update_ok {s : MapMetaStore} {e x : MALLOC_META} (hs : s.WF) (hx : x ∈ s.entries)
    (hp : x.ptr = e.ptr) (hz : x.size ≠ 0) :
    (s.update e).1 = true ∧ (s.update e).2.WF ∧
      ∃ r, s.entries.Perm (x :: r) ∧ (s.update e).2.entries.Perm (e :: r) := by
  have hko := StdMap.MetaWF.meta_keysOk hs
  have hold : s.get e.ptr = x := by
    rw [map_get_eq_lookup hs, ← hp]; exact lookup_of_mem hko.1 hx
  have hx0 : x.ptr ≠ 0 := hko.2 x hx
  have hsome : x.is_some = true := by simp [MALLOC_META.is_some, hx0, hz]
  obtain ⟨h1, h2, h3⟩ := map_remove_ok hs hx rfl rfl
  have hk := KeysOk.tail (KeysOk.perm h3 hko)
  obtain ⟨h4, h5, h6⟩ := map_put_ok (e := e) h2 (hp ▸ hx0) (fun y hy => hp ▸ hk.2.2 y hy)
  have hu : s.update e = (s.remove x).2.put e := by
    unfold update; simp only [hold, hsome, h1, if_true]
  rw [hu]
  exact ⟨h4, h5, _, h3, h6⟩

theorem map_update_rej {s : MapMetaStore} {e : MALLOC_META} (hs : s.WF)
    (h : ∀ x ∈ s.entries, x.ptr ≠ e.ptr) : s.update e = (false, s) := by
  have hold : s.get e.ptr = MALLOC_META.empty := by
    rw [map_get_eq_lookup hs]; exact lookup_of_not_mem h
  unfold update
  simp [hold, MALLOC_META.is_some, MALLOC_META.empty]

theorem map_update_zero {s : MapMetaStore} {e x : MALLOC_META} (hs : s.WF) (hx : x ∈ s.entries)
    (hp : x.ptr = e.ptr) (hz : x.size = 0) : s.update e = (false, s) := by
  have hold : s.get e.ptr = x := by
    rw [map_get_eq_lookup hs, ← hp]; exact lookup_of_mem (StdMap.MetaWF.meta_keysOk hs).1 hx
  unfold update
  simp [hold, MALLOC_META.is_some, hz]

end MapMetaStore

/-! ## `UnorderedMapMetaStore` -/

namespace UnorderedMapMetaStore

theorem unordered_WF_init : init.WF := by
  simp [init, WF, StdMap.MetaWF]

theorem unordered_get_eq_lookup {s : UnorderedMapMetaStore} (hs : s.WF) (k : Nat) : s.get k = lookup s.entries k :=
  StdMap.meta_find_eq_lookup hs k

theorem unordered_size_eq (s : UnorderedMapMetaStore) : s.size = s.entries.length := by
  simp [size, entries]

theorem unordered_put_ok {s : UnorderedMapMetaStore} {e : MALLOC_META} (hs : s.WF) (he : e.ptr ≠ 0)
    (hf : ∀ x ∈ s.entries, x.ptr ≠ e.ptr) :
    (s.put e).1 = true ∧ (s.put e).2.WF ∧ (s.put e).2.entries.Perm (e :: s.entries) := by
  obtain ⟨h1, h2, h3⟩ := StdMap.meta_emplace_ok hs he hf
  unfold put
  rw [if_pos he]
  exact ⟨h1, h2, h3⟩

theorem unordered_put_rej {s : UnorderedMapMetaStore} {e : MALLOC_META} (hs : s.WF)
    (h : e.ptr = 0 ∨ ∃ x ∈ s.entries, x.ptr = e.ptr) : s.put e = (false, s) := by
  unfold put
  by_cases he : e.ptr = 0
  · rw [if_neg (not_not.2 he)]
  · rw [if_pos he]
    rcases h with h | h
    · exact absurd h he
    · rw [StdMap.meta_emplace_rej hs h]

theorem unordered_remove_ok {s : UnorderedMapMetaStore} {e x : MALLOC_META} (hs : s.WF) (hx : x ∈ s.entries)
    (hp : x.ptr = e.ptr) (hc : x.chunksize = e.chunksize) :
    (s.remove e).1 = true ∧ (s.remove e).2.WF ∧ s.entries.Perm (x :: (s.remove e).2.entries) := by
  obtain ⟨p, hpm, rfl⟩ := List.mem_map.1 hx
  have hk : p.1 = e.ptr := (hs.2 p hpm).1.symm.trans hp
  have hmem : (e.ptr, p.2) ∈ s.elements := by rw [← hk]; exact hpm
  have hfind : StdMap.find s.elements e.ptr = some p.2 := StdMap.find_of_mem hs.1 hmem
  have hne : p.2.ne e = false := (MALLOC_META.ne_eq_false_iff _ _).2 ⟨hp, hc⟩
  have hr : s.remove e = (true, { elements := StdMap.erase s.elements e.ptr }) := by
    unfold remove; simp [hfind, hne]
  rw [hr]
  have hperm := StdMap.perm_erase hs.1 hmem
  exact ⟨rfl, StdMap.MetaWF.of_perm_cons hs hperm, by simpa [entries] using hperm.map Prod.snd⟩

theorem unordered_remove_rej {s : UnorderedMapMetaStore} {e : MALLOC_META} (hs : s.WF)
    (h : ∀ x ∈ s.entries, x.ptr = e.ptr → x.chunksize ≠ e.chunksize) :
    s.remove e = (false, s) := by
  unfold remove
  cases hf : StdMap.find s.elements e.ptr with
  | none => rfl
  | some v =>
    have hm := StdMap.mem_of_find hf
    have hv : v.ptr = e.ptr := (hs.2 _ hm).1
    have hne : v.ne e = true := by
      rw [MALLOC_META.ne_eq_true_iff]
      exact fun hh => h v (List.mem_map_of_mem Prod.snd hm) hv hh.2
    simp [hne]

theorem unordered_update_ok {s : UnorderedMapMetaStore} {e x : MALLOC_META} (hs : s.WF) (hx : x ∈ s.entries)
    (hp : x.ptr = e.ptr) (hz : x.size ≠ 0) :
    (s.update e).1 = true ∧ (s.update e).2.WF ∧
      ∃ r, s.entries.Perm (x :: r) ∧ (s.update e).2.entries.Perm (e :: r) := by
  have hko := StdMap.MetaWF.meta_keysOk hs
  have hold : s.get e.ptr = x := by
    rw [unordered_get_eq_lookup hs, ← hp]; exact lookup_of_mem hko.1 hx
  have hx0 : x.ptr ≠ 0 := hko.2 x hx
  have hsome : x.is_some = true := by simp [MALLOC_META.is_some, hx0, hz]
  obtain ⟨h1, h2, h3⟩ := unordered_remove_ok hs hx rfl rfl
  have hk := KeysOk.tail (KeysOk.perm h3 hko)
  obtain ⟨h4, h5, h6⟩ := unordered_put_ok (e := e) h2 (hp ▸ hx0) (fun y hy => hp ▸ hk.2.2 y hy)
  have hu : s.update e = (s.remove x).2.put e := by
    unfold update; simp only [hold, hsome, h1, if_true]
  rw [hu]
  exact ⟨h4, h5, _, h3, h6⟩

theorem unordered_update_rej {s : UnorderedMapMetaStore} {e : MALLOC_META} (hs : s.WF)
    (h : ∀ x ∈ s.entries, x.ptr ≠ e.ptr) : s.update e = (false, s) := by
  have hold : s.get e.ptr = MALLOC_META.empty := by
    rw [unordered_get_eq_lookup hs]; exact lookup_of_not_mem h
  unfold update
  simp [hold, MALLOC_META.is_some, MALLOC_META.empty]

theorem unordered_update_zero {s : UnorderedMapMetaStore} {e x : MALLOC_META} (hs : s.WF) (hx : x ∈ s.entries)
    (hp : x.ptr = e.ptr) (hz : x.size = 0) : s.update e = (false, s) := by
  have hold : s.get e.ptr = x := by
    rw [unordered_get_eq_lookup hs, ← hp]; exact lookup_of_mem (StdMap.MetaWF.meta_keysOk hs).1 hx
  unfold update
  simp [hold, MALLOC_META.is_some, hz]

end UnorderedMapMetaStore

/-! ## `HashMetaStore` -/

namespace HashMetaStore

theorem hash_WF_init : init.WF := by
  simp [init, WF]

theorem hash_mem_entries {s : HashMetaStore} {x : MALLOC_META} :
    x ∈ s.entries ↔ (x.ptr, x.size) ∈ s.elements := by
  unfold entries
  rw [List.mem_map]
  constructor
  · rintro ⟨p, hp, rfl⟩; exact hp
  · intro h; exact ⟨_, h, rfl⟩

theorem hash_keysOk {s : HashMetaStore} (hs : s.WF) : KeysOk s.entries := by
  have hmap : s.entries.map MALLOC_META.ptr = s.elements.map Prod.fst := by
    unfold entries; rw [List.map_map]; rfl
  refine ⟨hmap ▸ hs.1, ?_⟩
  intro e he
  exact hs.2 _ (hash_mem_entries.1 he)

theorem hash_get_eq_lookup {s : HashMetaStore} (hs : s.WF) (k : Nat) :
    s.get k = lookup s.entries k := by
  unfold get
  cases hf : StdMap.find s.elements k with
  | none =>
    rw [StdMap.find_eq_none] at hf
    symm
    apply lookup_of_not_mem
    intro x hx
    exact hf _ (hash_mem_entries.1 hx)
  | some sz =>
    have hm := StdMap.mem_of_find hf
    have hx : (⟨k, sz⟩ : MALLOC_META) ∈ s.entries := hash_mem_entries.2 hm
    exact (lookup_of_mem (hash_keysOk hs).1 hx).symm

theorem hash_size_eq (s : HashMetaStore) : s.size = s.entries.length := by
  simp [size, entries]

theorem hash_put_ok {s : HashMetaStore} {e : MALLOC_META} (hs : s.WF) (he : e.ptr ≠ 0)
    (hf : ∀ x ∈ s.entries, x.ptr ≠ e.ptr) :
    (s.put e).1 = true ∧ (s.put e).2.WF ∧ (s.put e).2.entries.Perm (e :: s.entries) := by
  have hnone : StdMap.find s.elements e.ptr = none := by
    rw [StdMap.find_eq_none]
    intro p hp hk
    exact hf ⟨p.1, p.2⟩ (hash_mem_entries.2 hp) hk
  have hp : s.put e = (true, { elements := s.elements ++ [(e.ptr, e.size)] }) := by
    unfold put StdMap.emplace; rw [if_pos he, hnone]
  rw [hp]
  refine ⟨rfl, ⟨?_, ?_⟩, ?_⟩
  · simp only [List.map_append, List.map_singleton]
    refine (List.perm_append_singleton _ _).nodup_iff.2 ?_
    rw [List.nodup_cons]
    refine ⟨?_, hs.1⟩
    intro hm
    obtain ⟨p, hp, hpk⟩ := List.mem_map.1 hm
    exact (StdMap.find_eq_none.1 hnone) p hp hpk
  · intro p hp
    rcases List.mem_append.1 hp with hp | hp
    · exact hs.2 p hp
    · rw [List.mem_singleton] at hp; subst hp; exact he
  · simp only [entries, List.map_append, List.map_singleton]
    exact List.perm_append_singleton _ _

theorem hash_put_rej {s : HashMetaStore} {e : MALLOC_META}
    (h : e.ptr = 0 ∨ ∃ x ∈ s.entries, x.ptr = e.ptr) : s.put e = (false, s) := by
  unfold put
  by_cases he : e.ptr = 0
  · rw [if_neg (not_not.2 he)]
  · rw [if_pos he]
    rcases h with h | ⟨x, hx, hxe⟩
    · exact absurd h he
    · have hne : StdMap.find s.elements e.ptr ≠ none := by
        rw [Ne, StdMap.find_eq_none]
        intro hall
        exact hall _ (hash_mem_entries.1 hx) hxe
      obtain ⟨v, hv⟩ := Option.ne_none_iff_exists'.1 hne
      unfold StdMap.emplace
      rw [hv]

theorem hash_remove_ok {s : HashMetaStore} {e x : MALLOC_META} (hs : s.WF) (hx : x ∈ s.entries)
    (hp : x.ptr = e.ptr) (hc : x.chunksize = e.chunksize) :
    (s.remove e).1 = true ∧ (s.remove e).2.WF ∧ s.entries.Perm (x :: (s.remove e).2.entries) := by
  have hmem : (e.ptr, x.size) ∈ s.elements := by rw [← hp]; exact hash_mem_entries.1 hx
  have hfind : StdMap.find s.elements e.ptr = some x.size := StdMap.find_of_mem hs.1 hmem
  have hne : MALLOC_META.ne { ptr := e.ptr, size := x.size } e = false := by
    rw [MALLOC_META.ne_eq_false_iff]
    exact ⟨rfl, hc⟩
  have hr : s.remove e = (true, { elements := StdMap.erase s.elements e.ptr }) := by
    unfold remove; simp [hfind, hne]
  rw [hr]
  have hperm := StdMap.perm_erase hs.1 hmem
  refine ⟨rfl, ⟨?_, ?_⟩, ?_⟩
  · have h1 := (hperm.map Prod.fst).nodup_iff.1 hs.1
    rw [List.map_cons, List.nodup_cons] at h1
    exact h1.2
  · intro q hq
    exact hs.2 q (hperm.mem_iff.2 (List.mem_cons_of_mem _ hq))
  · have := hperm.map (fun p : Nat × Nat => ({ ptr := p.1, size := p.2 } : MALLOC_META))
    rw [List.map_cons] at this
    have hxe : ({ ptr := e.ptr, size := x.size } : MALLOC_META) = x := by
      rw [← hp]
    rw [hxe] at this
    exact this

theorem hash_remove_rej {s : HashMetaStore} {e : MALLOC_META}
    (h : ∀ x ∈ s.entries, x.ptr = e.ptr → x.chunksize ≠ e.chunksize) :
    s.remove e = (false, s) := by
  unfold remove
  cases hf : StdMap.find s.elements e.ptr with
  | none => rfl
  | some sz =>
    have hm := StdMap.mem_of_find hf
    have hne : MALLOC_META.ne { ptr := e.ptr, size := sz } e = true := by
      rw [MALLOC_META.ne_eq_true_iff]
      exact fun hh => h ⟨e.ptr, sz⟩ (hash_mem_entries.2 hm) rfl hh.2
    simp [hne]

theorem hash_update_ok {s : HashMetaStore} {e x : MALLOC_META} (hs : s.WF) (hx : x ∈ s.entries)
    (hp : x.ptr = e.ptr) :
    (s.update e).1 = true ∧ (s.update e).2.WF ∧
      ∃ r, s.entries.Perm (x :: r) ∧ (s.update e).2.entries.Perm (e :: r) := by
  have hmem : (e.ptr, x.size) ∈ s.elements := by rw [← hp]; exact hash_mem_entries.1 hx
  have hfind : StdMap.find s.elements e.ptr = some x.size := StdMap.find_of_mem hs.1 hmem
  have hu : s.update e = (true, { elements := StdMap.assign s.elements e.ptr e.size }) := by
    unfold update; simp [hfind]
  rw [hu]
  have hperm := StdMap.perm_erase hs.1 hmem
  have hperm2 := StdMap.perm_assign e.size hs.1 hmem
  have hn := (hperm.map Prod.fst).nodup_iff.1 hs.1
  rw [List.map_cons, List.nodup_cons] at hn
  have hx0 : e.ptr ≠ 0 := hs.2 _ hmem
  refine ⟨rfl, ⟨?_, ?_⟩, ?_⟩
  · refine (hperm2.map Prod.fst).nodup_iff.2 ?_
    rw [List.map_cons, List.nodup_cons]
    exact hn
  · intro q hq
    rcases List.mem_cons.1 (hperm2.mem_iff.1 hq) with hq | hq
    · subst hq; exact hx0
    · exact hs.2 q (hperm.mem_iff.2 (List.mem_cons_of_mem _ hq))
  · refine ⟨(StdMap.erase s.elements e.ptr).map
      (fun p : Nat × Nat => ({ ptr := p.1, size := p.2 } : MALLOC_META)), ?_, ?_⟩
    · have := hperm.map (fun p : Nat × Nat => ({ ptr := p.1, size := p.2 } : MALLOC_META))
      rw [List.map_cons] at this
      have hxe : ({ ptr := e.ptr, size := x.size } : MALLOC_META) = x := by
        rw [← hp]
      rw [hxe] at this
      exact this
    · have := hperm2.map (fun p : Nat × Nat => ({ ptr := p.1, size := p.2 } : MALLOC_META))
      rw [List.map_cons] at this
      exact this

theorem hash_update_rej {s : HashMetaStore} {e : MALLOC_META}
    (h : ∀ x ∈ s.entries, x.ptr ≠ e.ptr) : s.update e = (false, s) := by
  have hnone : StdMap.find s.elements e.ptr = none := by
    rw [StdMap.find_eq_none]
    intro p hp hk
    exact h ⟨p.1, p.2⟩ (hash_mem_entries.2 hp) hk
  unfold update
  rw [hnone]

end HashMetaStore

namespace VectorMetaStore

theorem vector_put_step {s : VectorMetaStore} (e : MALLOC_META) (hs : s.WF) :
    (s.put e).2.WF ∧
      (s.put e).2.entries.length = s.entries.length + (if (s.put e).1 = true then 1 else 0) := by
  by_cases h : e.ptr = 0 ∨ ∃ x ∈ s.entries, x.ptr = e.ptr
  · rw [vector_put_rej h]; exact ⟨hs, by simp⟩
  · have h1 : e.ptr ≠ 0 := fun hc => h (Or.inl hc)
    have h2 : ∀ x ∈ s.entries, x.ptr ≠ e.ptr := fun x hx hc => h (Or.inr ⟨x, hx, hc⟩)
    obtain ⟨p1, p2, p3⟩ := vector_put_ok hs h1 h2
    exact ⟨p2, by rw [p3.length_eq, p1]; simp⟩

theorem vector_remove_step {s : VectorMetaStore} (e : MALLOC_META) (hs : s.WF) :
    (s.remove e).2.WF ∧
      (s.remove e).2.entries.length + (if (s.remove e).1 = true then 1 else 0) =
        s.entries.length := by
  by_cases h : ∃ x ∈ s.entries, x.ptr = e.ptr ∧ x.chunksize = e.chunksize
  · obtain ⟨x, hx, hp, hc⟩ := h
    obtain ⟨p1, p2, p3⟩ := vector_remove_ok hs hx hp hc
    exact ⟨p2, by rw [p3.length_eq, p1]; simp⟩
  · have h2 : ∀ x ∈ s.entries, x.ptr = e.ptr → x.chunksize ≠ e.chunksize :=
      fun x hx hp hc => h ⟨x, hx, hp, hc⟩
    rw [vector_remove_rej h2]; exact ⟨hs, by simp⟩

theorem vector_update_step {s : VectorMetaStore} (e : MALLOC_META) (hs : s.WF) :
    (s.update e).2.WF ∧ (s.update e).2.entries.length = s.entries.length := by
  by_cases h : ∃ x ∈ s.entries, x.ptr = e.ptr
  · obtain ⟨x, hx, hp⟩ := h
    by_cases hz : x.size = 0
    · rw [vector_update_zero hs hx hp hz]; exact ⟨hs, rfl⟩
    · obtain ⟨p1, p2, r, p3, p4⟩ := vector_update_ok hs hx hp hz
      exact ⟨p2, by rw [p4.length_eq, p3.length_eq]; simp⟩
  · have h2 : ∀ x ∈ s.entries, x.ptr ≠ e.ptr := fun x hx hp => h ⟨x, hx, hp⟩
    rw [vector_update_rej h2]; exact ⟨hs, rfl⟩

end VectorMetaStore

namespace MapMetaStore

theorem map_put_step {s : MapMetaStore} (e : MALLOC_META) (hs : s.WF) :
    (s.put e).2.WF ∧
      (s.put e).2.entries.length = s.entries.length + (if (s.put e).1 = true then 1 else 0) := by
  by_cases h : e.ptr = 0 ∨ ∃ x ∈ s.entries, x.ptr = e.ptr
  · rw [map_put_rej hs h]; exact ⟨hs, by simp⟩
  · have h1 : e.ptr ≠ 0 := fun hc => h (Or.inl hc)
    have h2 : ∀ x ∈ s.entries, x.ptr ≠ e.ptr := fun x hx hc => h (Or.inr ⟨x, hx, hc⟩)
    obtain ⟨p1, p2, p3⟩ := map_put_ok hs h1 h2
    exact ⟨p2, by rw [p3.length_eq, p1]; simp⟩

theorem map_remove_step {s : MapMetaStore} (e : MALLOC_META) (hs : s.WF) :
    (s.remove e).2.WF ∧
      (s.remove e).2.entries.length + (if (s.remove e).1 = true then 1 else 0) =
        s.entries.length := by
  by_cases h : ∃ x ∈ s.entries, x.ptr = e.ptr ∧ x.chunksize = e.chunksize
  · obtain ⟨x, hx, hp, hc⟩ := h
    obtain ⟨p1, p2, p3⟩ := map_remove_ok hs hx hp hc
    exact ⟨p2, by rw [p3.length_eq, p1]; simp⟩
  · have h2 : ∀ x ∈ s.entries, x.ptr = e.ptr → x.chunksize ≠ e.chunksize :=
      fun x hx hp hc => h ⟨x, hx, hp, hc⟩
    rw [map_remove_rej hs h2]; exact ⟨hs, by simp⟩

theorem map_update_step {s : MapMetaStore} (e : MALLOC_META) (hs : s.WF) :
    (s.update e).2.WF ∧ (s.update e).2.entries.length = s.entries.length := by
  by_cases h : ∃ x ∈ s.entries, x.ptr = e.ptr
  · obtain ⟨x, hx, hp⟩ := h
    by_cases hz : x.size = 0
    · rw [map_update_zero hs hx hp hz]; exact ⟨hs, rfl⟩
    · obtain ⟨p1, p2, r, p3, p4⟩ := map_update_ok hs hx hp hz
      exact ⟨p2, by rw [p4.length_eq, p3.length_eq]; simp⟩
  · have h2 : ∀ x ∈ s.entries, x.ptr ≠ e.ptr := fun x hx hp => h ⟨x, hx, hp⟩
    rw [map_update_rej hs h2]; exact ⟨hs, rfl⟩

end MapMetaStore

namespace UnorderedMapMetaStore

theorem unordered_put_step {s : UnorderedMapMetaStore} (e : MALLOC_META) (hs : s.WF) :
    (s.put e).2.WF ∧
      (s.put e).2.entries.length = s.entries.length + (if (s.put e).1 = true then 1 else 0) := by
  by_cases h : e.ptr = 0 ∨ ∃ x ∈ s.entries, x.ptr = e.ptr
  · rw [unordered_put_rej hs h]; exact ⟨hs, by simp⟩
  · have h1 : e.ptr ≠ 0 := fun hc => h (Or.inl hc)
    have h2 : ∀ x ∈ s.entries, x.ptr ≠ e.ptr := fun x hx hc => h (Or.inr ⟨x, hx, hc⟩)
    obtain ⟨p1, p2, p3⟩ := unordered_put_ok hs h1 h2
    exact ⟨p2, by rw [p3.length_eq, p1]; simp⟩

theorem unordered_remove_step {s : UnorderedMapMetaStore} (e : MALLOC_META) (hs : s.WF) :
    (s.remove e).2.WF ∧
      (s.remove e).2.entries.length + (if (s.remove e).1 = true then 1 else 0) =
        s.entries.length := by
  by_cases h : ∃ x ∈ s.entries, x.ptr = e.ptr ∧ x.chunksize = e.chunksize
  · obtain ⟨x, hx, hp, hc⟩ := h
    obtain ⟨p1, p2, p3⟩ := unordered_remove_ok hs hx hp hc
    exact ⟨p2, by rw [p3.length_eq, p1]; simp⟩
  · have h2 : ∀ x ∈ s.entries, x.ptr = e.ptr → x.chunksize ≠ e.chunksize :=
      fun x hx hp hc => h ⟨x, hx, hp, hc⟩
    rw [unordered_remove_rej hs h2]; exact ⟨hs, by simp⟩

theorem unordered_update_step {s : UnorderedMapMetaStore} (e : MALLOC_META) (hs : s.WF) :
    (s.update e).2.WF ∧ (s.update e).2.entries.length = s.entries.length := by
  by_cases h : ∃ x ∈ s.entries, x.ptr = e.ptr
  · obtain ⟨x, hx, hp⟩ := h
    by_cases hz : x.size = 0
    · rw [unordered_update_zero hs hx hp hz]; exact ⟨hs, rfl⟩
    · obtain ⟨p1, p2, r, p3, p4⟩ := unordered_update_ok hs hx hp hz
      exact ⟨p2, by rw [p4.length_eq, p3.length_eq]; simp⟩
  · have h2 : ∀ x ∈ s.entries, x.ptr ≠ e.ptr := fun x hx hp => h ⟨x, hx, hp⟩
    rw [unordered_update_rej hs h2]; exact ⟨hs, rfl⟩

end UnorderedMapMetaStore

namespace HashMetaStore

theorem hash_put_step {s : HashMetaStore} (e : MALLOC_META) (hs : s.WF) :
    (s.put e).2.WF ∧
      (s.put e).2.entries.length = s.entries.length + (if (s.put e).1 = true then 1 else 0) := by
  by_cases h : e.ptr = 0 ∨ ∃ x ∈ s.entries, x.ptr = e.ptr
  · rw [hash_put_rej h]; exact ⟨hs, by simp⟩
  · have h1 : e.ptr ≠ 0 := fun hc => h (Or.inl hc)
    have h2 : ∀ x ∈ s.entries, x.ptr ≠ e.ptr := fun x hx hc => h (Or.inr ⟨x, hx, hc⟩)
    obtain ⟨p1, p2, p3⟩ := hash_put_ok hs h1 h2
    exact ⟨p2, by rw [p3.length_eq, p1]; simp⟩

theorem hash_remove_step {s : HashMetaStore} (e : MALLOC_META) (hs : s.WF) :
    (s.remove e).2.WF ∧
      (s.remove e).2.entries.length + (if (s.remove e).1 = true then 1 else 0) =
        s.entries.length := by
  by_cases h : ∃ x ∈ s.entries, x.ptr = e.ptr ∧ x.chunksize = e.chunksize
  · obtain ⟨x, hx, hp, hc⟩ := h
    obtain ⟨p1, p2, p3⟩ := hash_remove_ok hs hx hp hc
    exact ⟨p2, by rw [p3.length_eq, p1]; simp⟩
  · have h2 : ∀ x ∈ s.entries, x.ptr = e.ptr → x.chunksize ≠ e.chunksize :=
      fun x hx hp hc => h ⟨x, hx, hp, hc⟩
    rw [hash_remove_rej h2]; exact ⟨hs, by simp⟩

theorem hash_update_step {s : HashMetaStore} (e : MALLOC_META) (hs : s.WF) :
    (s.update e).2.WF ∧ (s.update e).2.entries.length = s.entries.length := by
  by_cases h : ∃ x ∈ s.entries, x.ptr = e.ptr
  · obtain ⟨x, hx, hp⟩ := h
    obtain ⟨p1, p2, r, p3, p4⟩ := hash_update_ok hs hx hp
    exact ⟨p2, by rw [p4.length_eq, p3.length_eq]; simp⟩
  · have h2 : ∀ x ∈ s.entries, x.ptr ≠ e.ptr := fun x hx hp => h ⟨x, hx, hp⟩
    rw [hash_update_rej h2]; exact ⟨hs, rfl⟩

end HashMetaStore

namespace details

/-! ## Bins -/

namespace Bin

theorem get_set {b : Bin} {i j : Nat} (v : MALLOC_META) (hi : i < 4) (hj : j < 4) :
    (b.set i v).get j = if i = j then v else b.get j := by
  interval_cases i <;> interval_cases j <;> simp [set, get]

theorem findIdx_some {p : MALLOC_META → Bool} {b : Bin} {i : Nat} (h : findIdx p b = some i) :
    i < 4 ∧ p (b.get i) = true ∧ ∀ j, j < i → p (b.get j) = false := by
  unfold findIdx at h
  by_cases h0 : p b.e0 = true
  · rw [if_pos h0] at h; cases h
    exact ⟨by omega, h0, fun j hj => by omega⟩
  rw [if_neg h0] at h
  by_cases h1 : p b.e1 = true
  · rw [if_pos h1] at h; cases h
    refine ⟨by omega, h1, fun j hj => ?_⟩
    interval_cases j; simpa [get] using h0
  rw [if_neg h1] at h
  by_cases h2 : p b.e2 = true
  · rw [if_pos h2] at h; cases h
    refine ⟨by omega, h2, fun j hj => ?_⟩
    interval_cases j
    · simpa [get] using h0
    · simpa [get] using h1
  rw [if_neg h2] at h
  by_cases h3 : p b.e3 = true
  · rw [if_pos h3] at h; cases h
    refine ⟨by omega, h3, fun j hj => ?_⟩
    interval_cases j
    · simpa [get] using h0
    · simpa [get] using h1
    · simpa [get] using h2
  rw [if_neg h3] at h; cases h

theorem findIdx_none {p : MALLOC_META → Bool} {b : Bin} (h : findIdx p b = none) :
    ∀ j, j < 4 → p (b.get j) = false := by
  unfold findIdx at h
  by_cases h0 : p b.e0 = true
  · rw [if_pos h0] at h; cases h
  rw [if_neg h0] at h
  by_cases h1 : p b.e1 = true
  · rw [if_pos h1] at h; cases h
  rw [if_neg h1] at h
  by_cases h2 : p b.e2 = true
  · rw [if_pos h2] at h; cases h
  rw [if_neg h2] at h
  by_cases h3 : p b.e3 = true
  · rw [if_pos h3] at h; cases h
  intro j hj
  interval_cases j
  · simpa [get] using h0
  · simpa [get] using h1
  · simpa [get] using h2
  · simpa [get] using h3

theorem findIdx_isSome {p : MALLOC_META → Bool} {b : Bin} {i : Nat} (hi : i < 4)
    (h : p (b.get i) = true) : ∃ j, findIdx p b = some j ∧ j ≤ i := by
  cases hf : findIdx p b with
  | none => rw [findIdx_none hf i hi] at h; cases h
  | some j =>
    refine ⟨j, rfl, ?_⟩
    by_contra hc
    have := (findIdx_some hf).2.2 i (by omega)
    rw [this] at h; cases h

theorem mem_toList {b : Bin} {x : MALLOC_META} : x ∈ b.toList ↔ ∃ i, i < 4 ∧ b.get i = x := by
  unfold toList
  constructor
  · intro h
    simp only [List.mem_cons, List.mem_singleton, List.not_mem_nil, or_false] at h
    rcases h with h | h | h | h
    · exact ⟨0, by omega, h.symm⟩
    · exact ⟨1, by omega, h.symm⟩
    · exact ⟨2, by omega, h.symm⟩
    · exact ⟨3, by omega, h.symm⟩
  · rintro ⟨i, hi, rfl⟩
    interval_cases i <;> simp [get]

theorem perm_set (b : Bin) {i : Nat} (hi : i < 4) (v : MALLOC_META) :
    (b.get i :: (b.set i v).toList).Perm (v :: b.toList) := by
  have h := set_perm b.toList i (by simpa [toList] using hi) v
  interval_cases i
  · simpa [toList, get, set] using h
  · simpa [toList, get, set] using h
  · simpa [toList, get, set] using h
  · simpa [toList, get, set] using h

theorem get_empty (i : Nat) : Bin.empty.get i = MALLOC_META.empty := by
  unfold Bin.empty get
  split <;> rfl

end Bin

/-! ## The cache table -/

namespace ResizeableHashMap

theorem bin_eq_getElem {m : ResizeableHashMap} {b : Nat} (hb : b < m.bins.length) :
    m.bin b = m.bins[b] := by
  unfold bin; exact List.getD_eq_getElem _ _ hb

theorem bin_of_le {m : ResizeableHashMap} {b : Nat} (hb : m.bins.length ≤ b) :
    m.bin b = Bin.empty := by
  unfold bin; exact List.getD_eq_default _ _ hb

theorem length_setCell (m : ResizeableHashMap) (c : CellRef) (v : MALLOC_META) :
    (m.setCell c v).bins.length = m.bins.length := by
  simp [setCell]

theorem length_swapCells (m : ResizeableHashMap) (c d : CellRef) :
    (m.swapCells c d).bins.length = m.bins.length := by
  simp [swapCells, length_setCell]

theorem bin_setCell_same {m : ResizeableHashMap} {c : CellRef} (v : MALLOC_META)
    (hb : c.1 < m.bins.length) : (m.setCell c v).bin c.1 = (m.bin c.1).set c.2 v := by
  have h : c.1 < (m.setCell c v).bins.length := by rw [length_setCell]; exact hb
  rw [bin_eq_getElem h]
  simp [setCell]

theorem bin_setCell_other {m : ResizeableHashMap} {c : CellRef} (v : MALLOC_META) {b : Nat}
    (hne : c.1 ≠ b) : (m.setCell c v).bin b = m.bin b := by
  unfold bin setCell
  simp only [List.getD_eq_getElem?_getD]
  rw [List.getElem?_set_ne hne]

theorem cell_setCell {m : ResizeableHashMap} {c d : CellRef} (v : MALLOC_META)
    (hb : c.1 < m.bins.length) (hi : c.2 < 4) (hj : d.2 < 4) :
    (m.setCell c v).cell d = if c = d then v else m.cell d := by
  obtain ⟨cb, ci⟩ := c
  obtain ⟨db, di⟩ := d
  unfold cell
  by_cases hbd : cb = db
  · subst hbd
    rw [bin_setCell_same v hb, Bin.get_set v hi hj]
    by_cases hij : ci = di
    · simp [hij]
    · have : ¬ ((cb, ci) = (cb, di)) := by simp [hij]
      simp [hij]
  · rw [bin_setCell_other v hbd]
    have : ¬ ((cb, ci) = (db, di)) := by simp [hbd]
    rw [if_neg this]

theorem cell_swapCells {m : ResizeableHashMap} {c d x : CellRef}
    (hc : c.1 < m.bins.length) (hci : c.2 < 4) (hd : d.1 < m.bins.length) (hdi : d.2 < 4)
    (hx : x.2 < 4) :
    (m.swapCells c d).cell x =
      if x = d then m.cell c else if x = c then m.cell d else m.cell x := by
  unfold swapCells
  rw [cell_setCell _ (by rw [length_setCell]; exact hd) hdi hx]
  by_cases hxd : d = x
  · subst hxd; simp
  · have hxd2 : ¬ x = d := fun h => hxd h.symm
    rw [if_neg hxd, if_neg hxd2, cell_setCell _ hc hci hx]
    by_cases hxc : c = x
    · subst hxc; simp
    · have hxc2 : ¬ x = c := fun h => hxc h.symm
      rw [if_neg hxc, if_neg hxc2]

theorem flatMap_set_perm (l : List Bin) (i : Nat) (hi : i < l.length) (nb : Bin) :
    (l[i].toList ++ (l.set i nb).flatMap Bin.toList).Perm
      (nb.toList ++ l.flatMap Bin.toList) := by
  induction l generalizing i with
  | nil => simp at hi
  | cons y t ih =>
    cases i with
    | zero =>
      simp only [List.getElem_cons_zero, List.set_cons_zero, List.flatMap_cons]
      exact List.perm_append_comm_assoc _ _ _
    | succ i =>
      have hi2 : i < t.length := by simpa using hi
      simp only [List.getElem_cons_succ, List.set_cons_succ, List.flatMap_cons]
      exact (List.perm_append_comm_assoc _ _ _).trans
        (((ih i hi2).append_left y.toList).trans (List.perm_append_comm_assoc _ _ _))

theorem cells_setCell_perm {m : ResizeableHashMap} {c : CellRef} (v : MALLOC_META)
    (hb : c.1 < m.bins.length) (hi : c.2 < 4) :
    (m.cell c :: (m.setCell c v).cells).Perm (v :: m.cells) := by
  have h1 := flatMap_set_perm m.bins c.1 hb ((m.bin c.1).set c.2 v)
  have h2 := Bin.perm_set (m.bin c.1) hi v
  rw [← bin_eq_getElem hb] at h1
  have h3 : (m.cell c :: ((m.bin c.1).toList ++ (m.setCell c v).cells)).Perm
      (v :: ((m.bin c.1).toList ++ m.cells)) :=
    (h1.cons (m.cell c)).trans (h2.append_right m.cells)
  have h4 : ((m.bin c.1).toList ++ (m.cell c :: (m.setCell c v).cells)).Perm
      ((m.bin c.1).toList ++ (v :: m.cells)) :=
    List.perm_middle.trans (h3.trans List.perm_middle.symm)
  exact (List.perm_append_left_iff _).1 h4

theorem cells_swapCells_perm {m : ResizeableHashMap} {c d : CellRef}
    (hc : c.1 < m.bins.length) (hci : c.2 < 4) (hd : d.1 < m.bins.length) (hdi : d.2 < 4) :
    (m.swapCells c d).cells.Perm m.cells := by
  have h1 := cells_setCell_perm (m := m) (m.cell d) hc hci
  have hd2 : d.1 < (m.setCell c (m.cell d)).bins.length := by rw [length_setCell]; exact hd
  have h2 := cells_setCell_perm (m := m.setCell c (m.cell d)) (m.cell c) hd2 hdi
  have h3 : (m.setCell c (m.cell d)).cell d = m.cell d := by
    rw [cell_setCell _ hc hci hdi]
    by_cases h : c = d
    · rw [if_pos h]
    · rw [if_neg h]
  rw [h3] at h2
  exact (List.perm_cons _).1 (h2.trans h1)

theorem mem_cells {m : ResizeableHashMap} {x : MALLOC_META} :
    x ∈ m.cells ↔ ∃ b i, b < m.bins.length ∧ i < 4 ∧ m.cell (b, i) = x := by
  unfold cells
  rw [List.mem_flatMap]
  constructor
  · rintro ⟨bn, hbn, hx⟩
    obtain ⟨b, hb, rfl⟩ := List.mem_iff_getElem.1 hbn
    obtain ⟨i, hi, hg⟩ := Bin.mem_toList.1 hx
    exact ⟨b, i, hb, hi, by unfold cell; rw [bin_eq_getElem hb]; exact hg⟩
  · rintro ⟨b, i, hb, hi, rfl⟩
    refine ⟨m.bins[b], List.getElem_mem _, Bin.mem_toList.2 ⟨i, hi, ?_⟩⟩
    unfold cell; rw [bin_eq_getElem hb]

theorem mem_entries {m : ResizeableHashMap} {x : MALLOC_META} :
    x ∈ m.entries ↔ x.ptr ≠ 0 ∧ ∃ b i, b < m.bins.length ∧ i < 4 ∧ m.cell (b, i) = x := by
  unfold entries
  rw [List.mem_filter, mem_cells]
  simp [and_comm]

theorem get_bin_lt {m : ResizeableHashMap} (h : 0 < m.bins.length) (k : Nat) :
    m.get_bin k < m.bins.length := by
  unfold get_bin
  have := Nat.and_le_right (n := hash k) (m := m.bins.length - 1)
  omega

theorem WF.length_pos {m : ResizeableHashMap} (h : m.WF) : 0 < m.bins.length := by
  obtain ⟨n, hn⟩ := h.1
  rw [hn]; exact Nat.two_pow_pos n

theorem get_entry_some {m : ResizeableHashMap} {k : Nat} {c : CellRef}
    (h : m.get_entry k = some c) :
    c.1 = m.get_bin k ∧ c.2 < 4 ∧ (m.cell c).ptr = k ∧
      ∀ j, j < c.2 → (m.cell (c.1, j)).ptr ≠ k := by
  unfold get_entry at h
  simp only at h
  cases hf : (m.bin (m.get_bin k)).findIdx (fun entry => entry.ptr == k) with
  | none => rw [hf] at h; cases h
  | some i =>
    rw [hf] at h
    cases h
    obtain ⟨h1, h2, h3⟩ := Bin.findIdx_some hf
    refine ⟨rfl, h1, by simpa [cell] using h2, fun j hj => ?_⟩
    have := h3 j hj
    simpa [cell] using this

theorem get_entry_none {m : ResizeableHashMap} {k : Nat} (h : m.get_entry k = none) :
    ∀ i, i < 4 → (m.cell (m.get_bin k, i)).ptr ≠ k := by
  unfold get_entry at h
  simp only at h
  cases hf : (m.bin (m.get_bin k)).findIdx (fun entry => entry.ptr == k) with
  | some i => rw [hf] at h; cases h
  | none =>
    intro i hi
    have := Bin.findIdx_none hf i hi
    simpa [cell] using this

theorem get_entry_none_entries {m : ResizeableHashMap} (hm : m.WF) {k : Nat}
    (h : m.get_entry k = none) : ∀ x ∈ m.entries, x.ptr ≠ k := by
  intro x hx hxk
  obtain ⟨hx0, b, i, hb, hi, hc⟩ := mem_entries.1 hx
  have hpl := (hm.2 b i hb hi).1 (by rw [hc]; exact hx0)
  rw [hc, hxk] at hpl
  have := get_entry_none h i hi
  rw [hpl, hc] at this
  exact this hxk

theorem get_entry_mem {m : ResizeableHashMap} (hm : m.WF) {k : Nat} (hk : k ≠ 0) {c : CellRef}
    (h : m.get_entry k = some c) :
    m.cell c ∈ m.entries ∧ c.1 < m.bins.length ∧ c.2 < 4 ∧ (m.cell c).ptr = k := by
  obtain ⟨h1, h2, h3, _⟩ := get_entry_some h
  have hb : c.1 < m.bins.length := h1 ▸ get_bin_lt hm.length_pos k
  exact ⟨mem_entries.2 ⟨h3 ▸ hk, c.1, c.2, hb, h2, rfl⟩, hb, h2, h3⟩

theorem get_entry_of_mem {m : ResizeableHashMap} (hm : m.WF) {x : MALLOC_META}
    (hx : x ∈ m.entries) : ∃ c, m.get_entry x.ptr = some c ∧ (m.cell c).ptr = x.ptr := by
  cases hg : m.get_entry x.ptr with
  | none =>
    exact absurd rfl (get_entry_none_entries hm hg x hx)
  | some c => exact ⟨c, rfl, (get_entry_some hg).2.2.1⟩

end ResizeableHashMap


theorem forLoop_inv {σ : Type} (f : Nat → σ → σ) (I : Nat → σ → Prop) (n : Nat) (s : σ)
    (h0 : I 0 s) (hstep : ∀ i s, i < n → I i s → I (i + 1) (f i s)) :
    I n (forLoop f n s) := by
  induction n with
  | zero => exact h0
  | succ n ih =>
    unfold forLoop
    exact hstep n _ (Nat.lt_succ_self n)
      (ih (fun i s hi hI => hstep i s (Nat.lt_succ_of_lt hi) hI))

namespace ResizeableHashMap

theorem rehash_entry_inv {N M : Nat} {n k : Nat} (hN : N = 2 ^ n) (hM : M = 2 ^ (n + k))
    (hk : 0 < k) {b i : Nat} (hb : b < N) (hi : i < 4) {m : ResizeableHashMap}
    (h : RehashInv N M b i m) :
    RehashInv N M b (i + 1) (m.rehash_entry (M - 1) b i) ∧
      (m.rehash_entry (M - 1) b i).cells.Perm m.cells := by
  have hNM : N ∣ M := by rw [hN, hM, pow_add]; exact Dvd.intro _ rfl
  have hNltM : N < M := by
    rw [hN, hM]; exact Nat.pow_lt_pow_right (by omega) (by omega)
  have hNpos : 0 < N := by rw [hN]; exact Nat.two_pow_pos n
  have hbM : b < M := by omega
  have hlen := h.1
  have hmask : ∀ x, x &&& (M - 1) = x % M := by
    intro x; rw [hM]; exact Nat.and_pow_two_sub_one_eq_mod x _
  have keep : ∀ m' : ResizeableHashMap, m' = m →
      ((m.cell (b, i)).ptr ≠ 0 → hash (m.cell (b, i)).ptr % M = b) →
      RehashInv N M b (i + 1) m' ∧ m'.cells.Perm m.cells := by
    intro m' hm' hpl
    subst hm'
    refine ⟨⟨hlen, fun t j ht hj => ?_⟩, List.Perm.refl _⟩
    obtain ⟨c1, c2, c3, c4⟩ := h.2 t j ht hj
    refine ⟨c1, c2, fun h0 hcase => ?_, fun hNt hcase => ?_⟩
    · rcases hcase with hc | hc | ⟨hc1, hc2⟩
      · exact c3 h0 (Or.inl hc)
      · exact c3 h0 (Or.inr (Or.inl hc))
      · by_cases hji : j < i
        · exact c3 h0 (Or.inr (Or.inr ⟨hc1, hji⟩))
        · have hji2 : j = i := by omega
          subst hji2; subst hc1
          exact hpl h0
    · rcases hcase with hc | ⟨hc1, hc2⟩
      · exact c4 hNt (Or.inl hc)
      · exact c4 hNt (Or.inr ⟨hc1, by omega⟩)
  have moved : ∀ (nb j0 : Nat), (m.cell (b, i)).ptr ≠ 0 →
      nb = hash (m.cell (b, i)).ptr % M → nb ≠ b → j0 ≤ i → (m.cell (nb, j0)).ptr = 0 →
      RehashInv N M b (i + 1) (m.swapCells (b, i) (nb, j0)) ∧
        (m.swapCells (b, i) (nb, j0)).cells.Perm m.cells := by
    intro nb j0 he hnb hne hj0 hz
    have hnbM : nb < M := by rw [hnb]; exact Nat.mod_lt _ (by omega)
    have hold := (h.2 b i hbM hi).2.1 he
    have hnbN : nb % N = b := by
      rw [hnb, Nat.mod_mod_of_dvd _ hNM, hold, Nat.mod_eq_of_lt hb]
    have hNnb : N ≤ nb := by
      by_contra hc
      rw [Nat.mod_eq_of_lt (by omega)] at hnbN
      exact hne hnbN
    have hj04 : j0 < 4 := by omega
    have hbl : b < m.bins.length := by rw [hlen]; exact hbM
    have hnbl : nb < m.bins.length := by rw [hlen]; exact hnbM
    refine ⟨⟨by rw [length_swapCells]; exact hlen, fun t j ht hj => ?_⟩,
      cells_swapCells_perm hbl hi hnbl hj04⟩
    rw [cell_swapCells (c := (b, i)) (d := (nb, j0)) hbl hi hnbl hj04 hj]
    by_cases hx1 : (t, j) = (nb, j0)
    · rw [if_pos hx1]
      have ht1 : t = nb := congrArg Prod.fst hx1
      have hj1 : j = j0 := congrArg Prod.snd hx1
      subst ht1; subst hj1
      refine ⟨fun h0 => absurd h0 he, fun _ => by rw [hold, hnbN, Nat.mod_eq_of_lt hb],
        fun _ _ => hnb.symm, fun _ hcase => ?_⟩
      rcases hcase with hc | ⟨_, hc2⟩
      · omega
      · omega
    · rw [if_neg hx1]
      by_cases hx2 : (t, j) = (b, i)
      · rw [if_pos hx2]
        have hsz := (h.2 nb j0 hnbM hj04).1 hz
        exact ⟨fun _ => hsz, fun h0 => absurd hz h0, fun h0 => absurd hz h0, fun _ _ => hz⟩
      · rw [if_neg hx2]
        obtain ⟨c1, c2, c3, c4⟩ := h.2 t j ht hj
        refine ⟨c1, c2, fun h0 hcase => ?_, fun hNt hcase => ?_⟩
        · rcases hcase with hc | hc | ⟨hc1, hc2⟩
          · exact c3 h0 (Or.inl hc)
          · exact c3 h0 (Or.inr (Or.inl hc))
          · by_cases hji : j < i
            · exact c3 h0 (Or.inr (Or.inr ⟨hc1, hji⟩))
            · have hji2 : j = i := by omega
              subst hji2; subst hc1
              exact absurd rfl hx2
        · rcases hcase with hc | ⟨hc1, hc2⟩
          · exact c4 hNt (Or.inl hc)
          · exact c4 hNt (Or.inr ⟨hc1, by omega⟩)
  by_cases he : (m.cell (b, i)).ptr = 0
  · exact keep _ (by unfold rehash_entry; simp only [he, if_true]) (fun h0 => absurd he h0)
  by_cases hsame : b = hash (m.cell (b, i)).ptr &&& (M - 1)
  · refine keep _ (by unfold rehash_entry; simp only [he, if_false, ← hsame, if_true])
      (fun _ => ?_)
    rw [← hmask]; exact hsame.symm
  have hnb : hash (m.cell (b, i)).ptr &&& (M - 1) = hash (m.cell (b, i)).ptr % M := hmask _
  have hne : hash (m.cell (b, i)).ptr % M ≠ b := fun hc => hsame (by rw [hnb, hc])
  have hnbM : hash (m.cell (b, i)).ptr % M < M := Nat.mod_lt _ (by omega)
  have hold := (h.2 b i hbM hi).2.1 he
  have hnbN : hash (m.cell (b, i)).ptr % M % N = b := by
    rw [Nat.mod_mod_of_dvd _ hNM, hold, Nat.mod_eq_of_lt hb]
  have hNnb : N ≤ hash (m.cell (b, i)).ptr % M := by
    by_contra hc
    rw [Nat.mod_eq_of_lt (by omega)] at hnbN
    exact hne hnbN
  have hempty : ∀ j, i ≤ j → j < 4 → (m.cell (hash (m.cell (b, i)).ptr % M, j)).ptr = 0 :=
    fun j hij hj => (h.2 _ j hnbM hj).2.2.2 hNnb (Or.inr ⟨hnbN, hij⟩)
  have hsame2 : ¬ b = hash (m.cell (b, i)).ptr % M := fun hc => hne hc.symm
  by_cases hi0 : i = 0
  · subst hi0
    have hr : m.rehash_entry (M - 1) b 0 =
        m.swapCells (b, 0) (hash (m.cell (b, 0)).ptr % M, 0) := by
      unfold rehash_entry
      simp only [he, hnb, hsame2, if_false, if_true]
    rw [hr]
    exact moved _ 0 he rfl hne (le_refl _) (hempty 0 (le_refl _) (by omega))
  · have hex := Bin.findIdx_isSome (p := fun target => target.ptr == 0)
      (b := m.bin (hash (m.cell (b, i)).ptr % M)) hi (by
        have := hempty i (le_refl _) hi
        simpa [cell] using this)
    obtain ⟨j0, hj0, hj0i⟩ := hex
    have hr : m.rehash_entry (M - 1) b i =
        m.swapCells (b, i) (hash (m.cell (b, i)).ptr % M, j0) := by
      unfold rehash_entry
      simp only [he, hnb, hsame2, hi0, if_false, hj0]
    rw [hr]
    have hz : (m.cell (hash (m.cell (b, i)).ptr % M, j0)).ptr = 0 := by
      have := (Bin.findIdx_some hj0).2.1
      simpa [cell] using this
    exact moved _ j0 he rfl hne hj0i hz

theorem rehash_bin_inv {N M : Nat} {n k : Nat} (hN : N = 2 ^ n) (hM : M = 2 ^ (n + k))
    (hk : 0 < k) {b : Nat} (hb : b < N) {m : ResizeableHashMap}
    (h : RehashInv N M b 0 m) :
    RehashInv N M (b + 1) 0 (m.rehash_bin (M - 1) b) ∧
      (m.rehash_bin (M - 1) b).cells.Perm m.cells := by
  have hloop := forLoop_inv (rehash_entry (M - 1) b)
    (fun i m' => RehashInv N M b i m' ∧ m'.cells.Perm m.cells) 4 m
    ⟨h, List.Perm.refl _⟩
    (fun i s hi hI =>
      ⟨(rehash_entry_inv hN hM hk hb hi hI.1).1,
        (rehash_entry_inv hN hM hk hb hi hI.1).2.trans hI.2⟩)
  have hrb : m.rehash_bin (M - 1) b = forLoop (rehash_entry (M - 1) b) 4 m := rfl
  rw [hrb]
  refine ⟨⟨hloop.1.1, fun t j ht hj => ?_⟩, hloop.2⟩
  obtain ⟨c1, c2, c3, c4⟩ := hloop.1.2 t j ht hj
  refine ⟨c1, c2, fun h0 hcase => ?_, fun hNt hcase => ?_⟩
  · rcases hcase with hc | hc | ⟨_, hc2⟩
    · by_cases htb : t < b
      · exact c3 h0 (Or.inl htb)
      · exact c3 h0 (Or.inr (Or.inr ⟨by omega, hj⟩))
    · exact c3 h0 (Or.inr (Or.inl hc))
    · omega
  · rcases hcase with hc | ⟨hc1, _⟩
    · exact c4 hNt (Or.inl (by omega))
    · exact c4 hNt (Or.inl (by omega))

theorem cells_resize {bins : List Bin} {M : Nat} (h : bins.length ≤ M) :
    (({ bins := resize bins M } : ResizeableHashMap).entries) =
      ({ bins := bins } : ResizeableHashMap).entries := by
  unfold entries cells resize
  rw [List.take_of_length_le h, List.flatMap_append, List.filter_append]
  have : List.filter (fun e : MALLOC_META => e.ptr != 0)
      (List.flatMap (List.replicate (M - bins.length) Bin.empty) Bin.toList) = [] := by
    rw [List.filter_eq_nil_iff]
    intro x hx
    obtain ⟨bn, hbn, hxb⟩ := List.mem_flatMap.1 hx
    rw [List.eq_of_mem_replicate hbn] at hxb
    obtain ⟨i, _, hxi⟩ := Bin.mem_toList.1 hxb
    rw [← hxi, Bin.get_empty]
    simp [MALLOC_META.empty]
  rw [this, List.append_nil]

theorem cell_resize {bins : List Bin} {M : Nat} (h : bins.length ≤ M) (t j : Nat) :
    ({ bins := resize bins M } : ResizeableHashMap).cell (t, j) =
      if t < bins.length then ({ bins := bins } : ResizeableHashMap).cell (t, j)
      else MALLOC_META.empty := by
  unfold cell bin resize
  simp only
  rw [List.take_of_length_le h]
  by_cases ht : t < bins.length
  · rw [if_pos ht, List.getD_append _ _ _ _ ht]
  · rw [if_neg ht, List.getD_append_right _ _ _ _ (by omega)]
    rw [List.getD_eq_getElem?_getD]
    by_cases ht2 : t - bins.length < M - bins.length
    · rw [List.getElem?_replicate_of_lt ht2]; simp [Bin.get_empty]
    · rw [List.getElem?_eq_none (by simpa using ht2)]; simp [Bin.get_empty]

theorem length_resize {bins : List Bin} {M : Nat} (h : bins.length ≤ M) :
    (resize bins M).length = M := by
  unfold resize
  rw [List.take_of_length_le h, List.length_append, List.length_replicate]
  omega

/-- Embeds `reserve_double` with a power-of-two factor keeps the entries and re-establishes the
invariant of the table. -/
theorem reserve_double_spec {m : ResizeableHashMap} (hm : m.WF) {k : Nat} (hk : 0 < k)
    (hfit : 2 ^ k * m.bins.length < WORD) :
    (m.reserve_double (2 ^ k)).WF ∧
      (m.reserve_double (2 ^ k)).bins.length = 2 ^ k * m.bins.length ∧
      (m.reserve_double (2 ^ k)).entries.Perm m.entries := by
  obtain ⟨n, hn⟩ := hm.1
  have hN : m.bins.length = 2 ^ n := hn
  have hM : 2 ^ k * m.bins.length = 2 ^ (n + k) := by rw [hn, pow_add, Nat.mul_comm]
  have hle : m.bins.length ≤ 2 ^ k * m.bins.length :=
    Nat.le_mul_of_pos_left _ (Nat.two_pow_pos k)
  have hmask : ∀ x, x &&& (m.bins.length - 1) = x % m.bins.length := by
    intro x; rw [hn]; exact Nat.and_pow_two_sub_one_eq_mod x _
  have hmaskM : ∀ x, x &&& (2 ^ k * m.bins.length - 1) = x % (2 ^ k * m.bins.length) := by
    intro x; rw [hM]; exact Nat.and_pow_two_sub_one_eq_mod x _
  have hinit : RehashInv m.bins.length (2 ^ k * m.bins.length) 0 0
      { bins := resize m.bins (2 ^ k * m.bins.length) } := by
    refine ⟨length_resize hle, fun t j ht hj => ?_⟩
    rw [cell_resize hle]
    by_cases htN : t < m.bins.length
    · rw [if_pos htN]
      obtain ⟨w1, w2⟩ := hm.2 t j htN hj
      refine ⟨w2, fun h0 => ?_, fun _ hcase => ?_, fun hNt _ => ?_⟩
      · have := w1 h0
        unfold get_bin at this
        rw [hmask] at this
        rw [this, Nat.mod_eq_of_lt htN]
      · omega
      · omega
    · rw [if_neg htN]
      exact ⟨fun _ => rfl, fun h0 => absurd rfl h0, fun h0 => absurd rfl h0, fun _ _ => rfl⟩
  have hloop := forLoop_inv (rehash_bin (2 ^ k * m.bins.length - 1))
    (fun b m' => RehashInv m.bins.length (2 ^ k * m.bins.length) b 0 m' ∧
      m'.cells.Perm ({ bins := resize m.bins (2 ^ k * m.bins.length) } : ResizeableHashMap).cells)
    m.bins.length _ ⟨hinit, List.Perm.refl _⟩
    (fun b s hb hI =>
      ⟨(rehash_bin_inv hN hM hk hb hI.1).1, (rehash_bin_inv hN hM hk hb hI.1).2.trans hI.2⟩)
  have hrd : m.reserve_double (2 ^ k) = forLoop (rehash_bin (2 ^ k * m.bins.length - 1))
      m.bins.length { bins := resize m.bins (2 ^ k * m.bins.length) } := by
    unfold reserve_double
    simp only [Nat.mod_eq_of_lt hfit]
  rw [hrd]
  obtain ⟨⟨hlen, hcells⟩, hperm⟩ := hloop
  refine ⟨⟨⟨n + k, hlen.trans hM⟩, fun b i hb hi => ?_⟩, hlen, ?_⟩
  · rw [hlen] at hb
    obtain ⟨c1, _, c3, _⟩ := hcells b i hb hi
    refine ⟨fun h0 => ?_, c1⟩
    unfold get_bin
    rw [hlen, hmaskM]
    by_cases hbN : b < m.bins.length
    · exact c3 h0 (Or.inl hbN)
    · exact c3 h0 (Or.inr (Or.inl (by omega)))
  · have h1 := hperm.filter (fun e : MALLOC_META => e.ptr != 0)
    have h2 := @cells_resize m.bins _ hle
    unfold entries at h2 ⊢
    rw [h2] at h1
    exact h1


theorem and_mask_lt {M : Nat} (hM : 0 < M) (x : Nat) : x &&& (M - 1) < M := by
  have := Nat.and_le_right (n := x) (m := M - 1)
  omega

theorem rehash_entry_perm {M b i : Nat} {m : ResizeableHashMap} (hlen : m.bins.length = M)
    (hb : b < M) (hi : i < 4) :
    (m.rehash_entry (M - 1) b i).bins.length = M ∧
      (m.rehash_entry (M - 1) b i).cells.Perm m.cells := by
  have hM : 0 < M := by omega
  have hbl : b < m.bins.length := by rw [hlen]; exact hb
  have hnb : ∀ x, x &&& (M - 1) < m.bins.length := fun x => by
    rw [hlen]; exact and_mask_lt hM x
  unfold rehash_entry
  simp only
  split
  · exact ⟨hlen, List.Perm.refl _⟩
  · split
    · exact ⟨hlen, List.Perm.refl _⟩
    · split
      · exact ⟨by rw [length_swapCells]; exact hlen,
          cells_swapCells_perm hbl hi (hnb _) (by omega)⟩
      · split
        · rename_i j hj
          exact ⟨by rw [length_swapCells]; exact hlen,
            cells_swapCells_perm hbl hi (hnb _) (Bin.findIdx_some hj).1⟩
        · exact ⟨hlen, List.Perm.refl _⟩

theorem rehash_bin_perm {M b : Nat} {m : ResizeableHashMap} (hlen : m.bins.length = M)
    (hb : b < M) :
    (m.rehash_bin (M - 1) b).bins.length = M ∧
      (m.rehash_bin (M - 1) b).cells.Perm m.cells := by
  have hloop := forLoop_inv (rehash_entry (M - 1) b)
    (fun _ m' => m'.bins.length = M ∧ m'.cells.Perm m.cells) 4 m
    ⟨hlen, List.Perm.refl _⟩
    (fun i s hi hI =>
      ⟨(rehash_entry_perm hI.1 hb hi).1, (rehash_entry_perm hI.1 hb hi).2.trans hI.2⟩)
  exact hloop

/-- Embeds `reserve_double` keeps the entries of the table whenever the new size is not below the
old one, whatever the entries are. -/
theorem reserve_double_perm {m : ResizeableHashMap} {factor : Nat}
    (hle : m.bins.length ≤ (factor * m.bins.length) % WORD) :
    (m.reserve_double factor).bins.length = (factor * m.bins.length) % WORD ∧
      (m.reserve_double factor).entries.Perm m.entries := by
  have hloop := forLoop_inv (rehash_bin ((factor * m.bins.length) % WORD - 1))
    (fun b m' => m'.bins.length = (factor * m.bins.length) % WORD ∧
      m'.cells.Perm ({ bins := resize m.bins ((factor * m.bins.length) % WORD) } :
        ResizeableHashMap).cells)
    m.bins.length _ ⟨length_resize hle, List.Perm.refl _⟩
    (fun b s hb hI =>
      ⟨(rehash_bin_perm hI.1 (by omega)).1, (rehash_bin_perm hI.1 (by omega)).2.trans hI.2⟩)
  have hrd : m.reserve_double factor = forLoop (rehash_bin ((factor * m.bins.length) % WORD - 1))
      m.bins.length { bins := resize m.bins ((factor * m.bins.length) % WORD) } := rfl
  rw [hrd]
  refine ⟨hloop.1, ?_⟩
  have h1 := hloop.2.filter (fun e : MALLOC_META => e.ptr != 0)
  have h2 := @cells_resize m.bins _ hle
  unfold entries at h2 ⊢
  rw [h2] at h1
  exact h1

theorem capacity_eq (m : ResizeableHashMap) : m.capacity = m.bins.length * 4 := rfl

/-- The growth step of `put`: when the request is at most twice the capacity, at most one
doubling happens. -/
theorem ensure_capacity_of_le {m : ResizeableHashMap} {req : Nat}
    (hreq : req ≤ 2 * m.capacity) (hfit : 2 * m.capacity < WORD) :
    (m.ensure_capacity req = some m ∧ req ≤ m.capacity) ∨
      (m.ensure_capacity req = some (m.reserve_double 2) ∧ m.capacity < req) := by
  unfold ensure_capacity
  simp only
  by_cases h : req ≤ m.capacity
  · left; rw [if_pos h]; exact ⟨rfl, h⟩
  · right
    rw [if_neg h, Nat.mod_eq_of_lt hfit]
    have hg : grow_factor req 31 2 (2 * m.capacity) = some 2 := by
      unfold grow_factor
      rw [if_neg (by omega)]
    rw [hg]
    exact ⟨rfl, by omega⟩

theorem length_entries_le (m : ResizeableHashMap) : m.entries.length ≤ m.capacity := by
  unfold entries
  refine (List.length_filter_le _ _).trans ?_
  unfold cells capacity ENTRIES_PER_BIN
  induction m.bins with
  | nil => simp
  | cons b t ih =>
    simp only [List.flatMap_cons, List.length_append, List.length_cons]
    have : b.toList.length = 4 := rfl
    omega

theorem get_insertion_point_spec (m : ResizeableHashMap) (hpos : 0 < m.bins.length) (k : Nat) :
    (m.get_insertion_point k).1 = m.get_bin k ∧ (m.get_insertion_point k).1 < m.bins.length ∧
      (m.get_insertion_point k).2 < 4 := by
  unfold get_insertion_point
  simp only
  split
  · rename_i i hi
    exact ⟨rfl, get_bin_lt hpos k, (Bin.findIdx_some hi).1⟩
  · refine ⟨rfl, get_bin_lt hpos k, ?_⟩
    have := Nat.and_le_right (n := hash k >>> (64 - 2)) (m := ENTRIES_PER_BIN - 1)
    unfold ENTRIES_PER_BIN at this ⊢
    omega

theorem entries_setCell_perm {m : ResizeableHashMap} {c : CellRef} (v : MALLOC_META)
    (hb : c.1 < m.bins.length) (hi : c.2 < 4) :
    ((if (m.cell c).ptr = 0 then [] else [m.cell c]) ++ (m.setCell c v).entries).Perm
      ((if v.ptr = 0 then [] else [v]) ++ m.entries) := by
  have h := (cells_setCell_perm v hb hi).filter (fun e : MALLOC_META => e.ptr != 0)
  unfold entries
  rw [List.filter_cons, List.filter_cons] at h
  by_cases h1 : (m.cell c).ptr = 0 <;> by_cases h2 : v.ptr = 0 <;>
    simpa [h1, h2] using h

theorem WF_setCell {m : ResizeableHashMap} (hm : m.WF) {c : CellRef} {v : MALLOC_META}
    (hb : c.1 < m.bins.length) (hi : c.2 < 4)
    (hv : (v.ptr ≠ 0 → m.get_bin v.ptr = c.1) ∧ (v.ptr = 0 → v.size = 0)) :
    (m.setCell c v).WF := by
  refine ⟨by rw [length_setCell]; exact hm.1, fun b i hb2 hi2 => ?_⟩
  rw [length_setCell] at hb2
  have hgb : ∀ k, (m.setCell c v).get_bin k = m.get_bin k := by
    intro k; unfold get_bin; rw [length_setCell]
  rw [cell_setCell v hb hi (d := (b, i)) hi2, hgb]
  by_cases hcd : c = (b, i)
  · rw [if_pos hcd]
    have : c.1 = b := by rw [hcd]
    rw [← this]
    exact hv
  · rw [if_neg hcd]
    exact hm.2 b i hb2 hi2

end ResizeableHashMap
end details

namespace CachedMetaStore
open details details.ResizeableHashMap

theorem WF.inv_cached {s : CachedMetaStore} (h : s.WF) : s.Inv :=
  ⟨h.1.length_pos, h.2.1, h.2.2.2.1, h.2.2.2.2.1, h.2.2.2.2.2⟩

theorem length_entries (s : CachedMetaStore) :
    s.entries.length = s.cache.entries.length + s.fallback_store.entries.length := by
  unfold entries; rw [List.length_append]

theorem cached_size_eq {s : CachedMetaStore} (h : s.Inv) : s.size = s.entries.length := by
  obtain ⟨_, _, h3, h4, h5⟩ := h
  unfold size
  rw [h3, MapMetaStore.map_size_eq, ← length_entries]
  exact Nat.mod_eq_of_lt (by omega)

theorem capacity_pos {s : CachedMetaStore} (h : s.Inv) : 4 ≤ s.capacity := by
  have := h.1
  unfold capacity ResizeableHashMap.capacity ENTRIES_PER_BIN
  omega

/-- The growth step at the start of `put`. -/
theorem put_grow {s : CachedMetaStore} (h : s.Inv) (hg : s.Growable) :
    ∃ cache, s.cache.ensure_capacity ((s.size + 1) % WORD) = some cache ∧
      0 < cache.bins.length ∧ cache.entries.Perm s.cache.entries ∧
      s.entries.length + 1 ≤ cache.capacity ∧ cache.capacity < WORD ∧
      (s.cache.WF → cache.WF) ∧
      (cache.capacity = s.capacity ∨
        (cache.capacity = 2 * s.capacity ∧ s.entries.length = s.capacity)) := by
  have hcap4 := capacity_pos h
  obtain ⟨h1, _, _, h4, h5⟩ := h
  have hsz := cached_size_eq ⟨h1, ‹_›, ‹_›, h4, h5⟩
  unfold Growable at hg
  have hcap : s.capacity = s.cache.bins.length * 4 := rfl
  have hreq : (s.size + 1) % WORD = s.entries.length + 1 := by
    rw [hsz]; exact Nat.mod_eq_of_lt (by omega)
  rw [hreq]
  rcases @ensure_capacity_of_le s.cache (s.entries.length + 1)
      (by change _ ≤ 2 * s.capacity; omega) hg with ⟨he, hle⟩ | ⟨he, hlt⟩
  · exact ⟨s.cache, he, h1, List.Perm.refl _, hle, h5, id, Or.inl rfl⟩
  · have h2len : 2 * s.cache.bins.length < WORD := by omega
    have hle2 : s.cache.bins.length ≤ (2 * s.cache.bins.length) % WORD := by
      rw [Nat.mod_eq_of_lt h2len]; omega
    obtain ⟨hl, hp⟩ := @reserve_double_perm s.cache 2 hle2
    rw [Nat.mod_eq_of_lt h2len] at hl
    have hc2 : (s.cache.reserve_double 2).capacity = 2 * s.capacity := by
      rw [ResizeableHashMap.capacity_eq, hl, hcap]; omega
    refine ⟨_, he, by omega, hp, by omega, by omega, fun hw => ?_, Or.inr ⟨hc2, ?_⟩⟩
    · have := reserve_double_spec hw (k := 1) (by omega) (by simpa using h2len)
      simpa using this.1
    · change s.cache.capacity < _ at hlt
      change _ ≤ s.cache.capacity at h4
      change _ = s.cache.capacity
      omega

/-- What `put` does to a store that satisfies the counting invariant, and - in the last
part - to a well-formed store when the pointer is not stored yet. -/
theorem put_spec {s : CachedMetaStore} {e : MALLOC_META} (h : s.Inv) (hg : s.Growable)
    (he : e.ptr ≠ 0) :
    ∃ r s', s.put e = some (r, s') ∧ s'.Inv ∧
      s'.entries.length = s.entries.length + (if r = true then 1 else 0) ∧
      (s'.capacity = s.capacity ∨
        (s'.capacity = 2 * s.capacity ∧ s.entries.length = s.capacity)) ∧
      (s.WF → (∀ x ∈ s.entries, x.ptr ≠ e.ptr) →
        r = true ∧ s'.WF ∧ s'.entries.Perm (e :: s.entries)) := by
  obtain ⟨cache, hens, hpos, hperm, hroom, hcapW, hwf, hcaprel⟩ := put_grow h hg
  obtain ⟨_, hfb, hce, hlen, _⟩ := h
  obtain ⟨hc1, hc2, hc3⟩ := get_insertion_point_spec cache hpos e.ptr
  have hset := entries_setCell_perm (m := cache) e hc2 hc3
  rw [if_neg he] at hset
  have hlenE := length_entries s
  have hplen := hperm.length_eq
  by_cases hold : (cache.cell (cache.get_insertion_point e.ptr)).ptr = 0
  · -- an empty cell takes the chunk
    rw [if_pos hold, List.nil_append] at hset
    have hput : s.put e = some (true,
        { cache_entries := (s.cache_entries + 1) % WORD,
          cache := cache.setCell (cache.get_insertion_point e.ptr) e,
          fallback_store := s.fallback_store }) := by
      unfold put; rw [hens]; simp only [hold, if_true]
    have hl1 := hset.length_eq
    simp only [List.singleton_append, List.length_cons] at hl1
    have hent : ({ cache_entries := (s.cache_entries + 1) % WORD,
                   cache := cache.setCell (cache.get_insertion_point e.ptr) e,
                   fallback_store := s.fallback_store } : CachedMetaStore).entries.Perm
        (e :: s.entries) := by
      unfold entries
      simp only
      exact (hset.append_right _).trans
        (by simpa using (hperm.append_right s.fallback_store.entries).cons e)
    refine ⟨true, _, hput, ⟨?_, hfb, ?_, ?_, ?_⟩, ?_, ?_, ?_⟩
    · simp only [length_setCell]; exact hpos
    · simp only; rw [hl1, hplen, ← hce]
      have hcc : cache.capacity = cache.bins.length * 4 := rfl
      exact Nat.mod_eq_of_lt (by omega)
    · rw [hent.length_eq, List.length_cons]
      simp only [capacity, ResizeableHashMap.capacity, length_setCell]
      exact hroom
    · simp only [capacity, ResizeableHashMap.capacity, length_setCell]; exact hcapW
    · rw [hent.length_eq]; simp
    · simpa only [capacity, ResizeableHashMap.capacity, length_setCell] using hcaprel
    · intro hs hfresh
      refine ⟨rfl, ⟨?_, hfb, ?_, ?_, ?_, ?_⟩, hent⟩
      · exact WF_setCell (hwf hs.1) hc2 hc3 ⟨fun _ => hc1.symm, fun h0 => absurd h0 he⟩
      · exact KeysOk.perm hent.symm (KeysOk.cons hs.2.2.1 he hfresh)
      · simp only; rw [hl1, hplen, ← hce]
        exact Nat.mod_eq_of_lt (by omega)
      · rw [hent.length_eq, List.length_cons]
        simp only [capacity, ResizeableHashMap.capacity, length_setCell]
        exact hroom
      · simp only [capacity, ResizeableHashMap.capacity, length_setCell]; exact hcapW
  · -- the chunk evicts an entry, which goes to the fallback store
    rw [if_neg hold] at hset
    have hput : s.put e = some ((s.fallback_store.put
          (cache.cell (cache.get_insertion_point e.ptr))).1,
        { cache_entries := s.cache_entries,
          cache := cache.setCell (cache.get_insertion_point e.ptr) e,
          fallback_store := (s.fallback_store.put
            (cache.cell (cache.get_insertion_point e.ptr))).2 }) := by
      unfold put; rw [hens]; simp only [hold, if_false]
    have hl1 := hset.length_eq
    simp only [List.singleton_append, List.length_cons] at hl1
    have hl2 : (cache.setCell (cache.get_insertion_point e.ptr) e).entries.length =
        s.cache.entries.length := by omega
    have holdmem : cache.cell (cache.get_insertion_point e.ptr) ∈ s.cache.entries :=
      hperm.mem_iff.1 (ResizeableHashMap.mem_entries.2 ⟨hold, _, _, hc2, hc3, rfl⟩)
    by_cases hfr : ∀ x ∈ s.fallback_store.entries,
        x.ptr ≠ (cache.cell (cache.get_insertion_point e.ptr)).ptr
    · obtain ⟨hp1, hp2, hp3⟩ := MapMetaStore.map_put_ok hfb hold hfr
      have hent : ({ cache_entries := s.cache_entries,
                     cache := cache.setCell (cache.get_insertion_point e.ptr) e,
                     fallback_store := (s.fallback_store.put
                       (cache.cell (cache.get_insertion_point e.ptr))).2 } :
            CachedMetaStore).entries.Perm (e :: s.entries) := by
        unfold entries
        simp only
        refine (hp3.append_left _).trans (List.perm_middle.trans ?_)
        have := (hset.append_right s.fallback_store.entries)
        simp only [List.singleton_append, List.cons_append] at this
        exact this.trans ((hperm.append_right s.fallback_store.entries).cons e)
      refine ⟨_, _, hput, ⟨?_, hp2, ?_, ?_, ?_⟩, ?_, ?_, ?_⟩
      · simp only [length_setCell]; exact hpos
      · simp only; rw [hl2]; exact hce
      · rw [hent.length_eq, List.length_cons]
        simp only [capacity, ResizeableHashMap.capacity, length_setCell]
        exact hroom
      · simp only [capacity, ResizeableHashMap.capacity, length_setCell]; exact hcapW
      · rw [hent.length_eq, hp1]; simp
      · simpa only [capacity, ResizeableHashMap.capacity, length_setCell] using hcaprel
      · intro hs hfresh
        refine ⟨hp1, ⟨?_, hp2, ?_, ?_, ?_, ?_⟩, hent⟩
        · exact WF_setCell (hwf hs.1) hc2 hc3 ⟨fun _ => hc1.symm, fun h0 => absurd h0 he⟩
        · exact KeysOk.perm hent.symm (KeysOk.cons hs.2.2.1 he hfresh)
        · simp only; rw [hl2]; exact hce
        · rw [hent.length_eq, List.length_cons]
          simp only [capacity, ResizeableHashMap.capacity, length_setCell]
          exact hroom
        · simp only [capacity, ResizeableHashMap.capacity, length_setCell]; exact hcapW
    · have hrej : s.fallback_store.put (cache.cell (cache.get_insertion_point e.ptr)) =
          (false, s.fallback_store) := by
        apply MapMetaStore.map_put_rej hfb
        right
        by_contra hc
        exact hfr (fun x hx hxp => hc ⟨x, hx, hxp⟩)
      rw [hrej] at hput
      refine ⟨_, _, hput, ⟨?_, hfb, ?_, ?_, ?_⟩, ?_, ?_, ?_⟩
      · simp only [length_setCell]; exact hpos
      · simp only; rw [hl2]; exact hce
      · rw [length_entries]
        simp only [capacity, ResizeableHashMap.capacity, length_setCell]
        rw [hl2, ← hlenE]
        change _ ≤ cache.capacity
        omega
      · simp only [capacity, ResizeableHashMap.capacity, length_setCell]; exact hcapW
      · rw [length_entries]; simp only; rw [hl2, ← hlenE]; simp
      · simpa only [capacity, ResizeableHashMap.capacity, length_setCell] using hcaprel
      · intro hs _
        exfalso
        apply hfr
        intro x hx hxp
        have hko := hs.2.2.1.1
        unfold entries at hko
        rw [List.map_append, List.nodup_append] at hko
        exact hko.2.2 (List.mem_map_of_mem _ holdmem) (hxp ▸ List.mem_map_of_mem _ hx)

end CachedMetaStore

theorem lookup_append_left {l₁ l₂ : List MALLOC_META} {k : Nat} (h : ∀ x ∈ l₁, x.ptr ≠ k) :
    lookup (l₁ ++ l₂) k = lookup l₂ k := by
  induction l₁ with
  | nil => rfl
  | cons y t ih =>
    rw [List.cons_append, lookup_cons, if_neg (h y (List.mem_cons_self _ _))]
    exact ih (fun x hx => h x (List.mem_cons_of_mem _ hx))

theorem KeysOk.replace_head {x e : MALLOC_META} {r : List MALLOC_META} (h : KeysOk (x :: r))
    (hp : x.ptr = e.ptr) : KeysOk (e :: r) := by
  obtain ⟨h1, h2, h3⟩ := KeysOk.tail h
  exact KeysOk.cons h1 (hp ▸ h2) (fun y hy => hp ▸ h3 y hy)

theorem MALLOC_META.empty_ptr : MALLOC_META.empty.ptr = 0 := rfl

theorem MALLOC_META.eq_empty_of {x : MALLOC_META} (h1 : x.ptr = 0) (h2 : x.size = 0) :
    x = MALLOC_META.empty := by
  cases x; simp only [MALLOC_META.empty] at *; subst h1; subst h2; rfl

namespace CachedMetaStore
open details details.ResizeableHashMap

theorem cached_get_eq_lookup {s : CachedMetaStore} (hs : s.WF) (k : Nat) :
    s.get k = lookup s.entries k := by
  obtain ⟨hc, hfb, hko, _⟩ := hs
  unfold get
  cases hg : s.cache.get_entry k with
  | some c =>
    simp only
    obtain ⟨h1, h2, h3, _⟩ := get_entry_some hg
    by_cases hk : k = 0
    · have hb : c.1 < s.cache.bins.length := h1 ▸ get_bin_lt hc.length_pos k
      have hsz := (hc.2 c.1 c.2 hb h2).2 (by rw [h3]; exact hk)
      rw [MALLOC_META.eq_empty_of (h3.trans hk) hsz]
      symm
      exact lookup_of_not_mem (fun x hx hxk => hko.2 x hx (hxk.trans hk))
    · have hm := (get_entry_mem hc hk hg).1
      have := lookup_of_mem hko.1 (x := s.cache.cell c) (by
        unfold entries; exact List.mem_append_left _ hm)
      rw [h3] at this
      exact this.symm
  | none =>
    simp only
    rw [MapMetaStore.map_get_eq_lookup hfb]
    unfold entries
    exact (lookup_append_left (get_entry_none_entries hc hg)).symm

theorem remove_spec {s : CachedMetaStore} {e : MALLOC_META} (h : s.Inv) (he : e.ptr ≠ 0) :
    (s.remove e).2.Inv ∧
      (s.remove e).2.entries.length + (if (s.remove e).1 = true then 1 else 0) =
        s.entries.length ∧
      (s.remove e).2.capacity = s.capacity := by
  have hlenE := length_entries s
  obtain ⟨hpos, hfb, hce, hlen, hcw⟩ := h
  unfold remove
  cases hg : s.cache.get_entry e.ptr with
  | some c =>
    simp only
    obtain ⟨h1, h2, h3, _⟩ := get_entry_some hg
    have hb : c.1 < s.cache.bins.length := h1 ▸ get_bin_lt hpos e.ptr
    by_cases hne : (s.cache.cell c).ne e = true
    · simp only [hne, if_true]
      exact ⟨⟨hpos, hfb, hce, hlen, hcw⟩, by simp, trivial⟩
    · have hne2 : (s.cache.cell c).ne e = false := by simpa using hne
      simp only [hne2, Bool.false_eq_true, if_false]
      have hset := entries_setCell_perm (m := s.cache) MALLOC_META.empty hb h2
      rw [if_neg (by rw [h3]; exact he), if_pos MALLOC_META.empty_ptr] at hset
      have hl := hset.length_eq
      simp only [List.singleton_append, List.length_cons, List.nil_append] at hl
      have hcle := length_entries_le s.cache
      change _ ≤ s.capacity at hcle
      refine ⟨⟨?_, hfb, ?_, ?_, ?_⟩, ?_, ?_⟩
      · simp only [length_setCell]; exact hpos
      · simp only
        rw [hce, ← hl]
        have : (s.cache.setCell c MALLOC_META.empty).entries.length + 1 + (WORD - 1) =
            (s.cache.setCell c MALLOC_META.empty).entries.length + WORD := by
          unfold WORD; omega
        rw [this, Nat.add_mod_right]
        exact Nat.mod_eq_of_lt (by omega)
      · rw [length_entries]
        simp only [capacity, ResizeableHashMap.capacity, length_setCell]
        change _ ≤ s.capacity
        omega
      · simp only [capacity, ResizeableHashMap.capacity, length_setCell]; exact hcw
      · rw [length_entries]; simp only [if_true]; omega
      · simp only [capacity, ResizeableHashMap.capacity, length_setCell]
  | none =>
    simp only
    obtain ⟨p1, p2⟩ := MapMetaStore.map_remove_step e hfb
    refine ⟨⟨hpos, p1, hce, ?_, hcw⟩, ?_, rfl⟩
    · rw [length_entries]; simp only; change _ ≤ s.capacity; omega
    · rw [length_entries]; simp only; omega

theorem cached_remove_ok {s : CachedMetaStore} {e x : MALLOC_META} (hs : s.WF) (hx : x ∈ s.entries)
    (hp : x.ptr = e.ptr) (hc : x.chunksize = e.chunksize) :
    (s.remove e).1 = true ∧ (s.remove e).2.WF ∧ s.entries.Perm (x :: (s.remove e).2.entries) := by
  have hx0 : x.ptr ≠ 0 := hs.2.2.1.2 x hx
  have he : e.ptr ≠ 0 := hp ▸ hx0
  obtain ⟨hinv, hlen, hcap⟩ := remove_spec (e := e) hs.inv_cached he
  obtain ⟨hcw, hfb, hko, hce, hle, hW⟩ := hs
  have key : (s.remove e).1 = true ∧ (s.remove e).2.cache.WF ∧
      s.entries.Perm (x :: (s.remove e).2.entries) := by
    unfold remove
    cases hg : s.cache.get_entry e.ptr with
    | some c =>
      simp only
      obtain ⟨hm, hb, h2, h3⟩ := get_entry_mem hcw he hg
      have hcx : s.cache.cell c = x :=
        eq_of_mem_of_ptr_eq hko.1 (by unfold entries; exact List.mem_append_left _ hm) hx
          (h3.trans hp.symm)
      have hne : (s.cache.cell c).ne e = false := by
        rw [hcx, MALLOC_META.ne_eq_false_iff]; exact ⟨hp, hc⟩
      rw [hne]
      simp only [Bool.false_eq_true, if_false]
      have hset := entries_setCell_perm (m := s.cache) MALLOC_META.empty hb h2
      rw [if_neg (by rw [h3]; exact he), if_pos MALLOC_META.empty_ptr, hcx] at hset
      simp only [List.singleton_append, List.nil_append] at hset
      refine ⟨trivial, WF_setCell hcw hb h2 ⟨fun h0 => absurd rfl h0, fun _ => rfl⟩, ?_⟩
      unfold entries
      simp only
      exact (hset.symm.append_right _)
    | none =>
      simp only
      have hxfb : x ∈ s.fallback_store.entries := by
        unfold entries at hx
        rcases List.mem_append.1 hx with h | h
        · exact absurd hp (get_entry_none_entries hcw hg x h)
        · exact h
      obtain ⟨p1, _, p3⟩ := MapMetaStore.map_remove_ok hfb hxfb hp hc
      refine ⟨p1, hcw, ?_⟩
      unfold entries
      simp only
      exact (p3.append_left _).trans List.perm_middle
  refine ⟨key.1, ⟨key.2.1, hinv.2.1, ?_, hinv.2.2.1, hinv.2.2.2.1, hinv.2.2.2.2⟩, key.2.2⟩
  exact (KeysOk.tail (KeysOk.perm key.2.2 hko)).1

theorem cached_remove_rej {s : CachedMetaStore} {e : MALLOC_META} (hs : s.WF) (he : e.ptr ≠ 0)
    (h : ∀ x ∈ s.entries, x.ptr = e.ptr → x.chunksize ≠ e.chunksize) :
    s.remove e = (false, s) := by
  obtain ⟨hcw, hfb, hko, hce, hle, hW⟩ := hs
  unfold remove
  cases hg : s.cache.get_entry e.ptr with
  | some c =>
    simp only
    obtain ⟨hm, hb, h2, h3⟩ := get_entry_mem hcw he hg
    have hne : (s.cache.cell c).ne e = true := by
      rw [MALLOC_META.ne_eq_true_iff]
      exact fun hh => h _ (by unfold entries; exact List.mem_append_left _ hm) h3 hh.2
    rw [if_pos hne]
  | none =>
    simp only
    rw [MapMetaStore.map_remove_rej hfb (fun x hx => h x (by
      unfold entries; exact List.mem_append_right _ hx))]


theorem update_spec {s : CachedMetaStore} {e : MALLOC_META} (h : s.Inv) (he : e.ptr ≠ 0) :
    (s.update e).2.Inv ∧ (s.update e).2.entries.length = s.entries.length ∧
      (s.update e).2.capacity = s.capacity := by
  have hlenE := length_entries s
  obtain ⟨hpos, hfb, hce, hlen, hcw⟩ := h
  unfold update
  cases hg : s.cache.get_entry e.ptr with
  | some c =>
    simp only
    obtain ⟨h1, h2, h3, _⟩ := get_entry_some hg
    have hb : c.1 < s.cache.bins.length := h1 ▸ get_bin_lt hpos e.ptr
    have hset := entries_setCell_perm (m := s.cache) e hb h2
    rw [if_neg (by rw [h3]; exact he), if_neg he] at hset
    have hl := hset.length_eq
    simp only [List.singleton_append, List.length_cons] at hl
    refine ⟨⟨?_, hfb, ?_, ?_, ?_⟩, ?_, ?_⟩
    · simp only [length_setCell]; exact hpos
    · simp only; omega
    · rw [length_entries]
      simp only [capacity, ResizeableHashMap.capacity, length_setCell]
      change _ ≤ s.capacity
      omega
    · simp only [capacity, ResizeableHashMap.capacity, length_setCell]; exact hcw
    · rw [length_entries]; simp only; omega
    · simp only [capacity, ResizeableHashMap.capacity, length_setCell]
  | none =>
    simp only
    obtain ⟨p1, p2⟩ := MapMetaStore.map_update_step e hfb
    refine ⟨⟨hpos, p1, hce, ?_, hcw⟩, ?_, rfl⟩
    · rw [length_entries]; simp only; change _ ≤ s.capacity; omega
    · rw [length_entries]; simp only; omega

theorem cached_update_ok {s : CachedMetaStore} {e x : MALLOC_META} (hs : s.WF) (hx : x ∈ s.entries)
    (hp : x.ptr = e.ptr) (hz : x ∈ s.fallback_store.entries → x.size ≠ 0) :
    (s.update e).1 = true ∧ (s.update e).2.WF ∧
      ∃ r, s.entries.Perm (x :: r) ∧ (s.update e).2.entries.Perm (e :: r) := by
  have hx0 : x.ptr ≠ 0 := hs.2.2.1.2 x hx
  have he : e.ptr ≠ 0 := hp ▸ hx0
  obtain ⟨hinv, hlen, hcap⟩ := update_spec (e := e) hs.inv_cached he
  obtain ⟨hcw, hfb, hko, hce, hle, hW⟩ := hs
  have key : (s.update e).1 = true ∧ (s.update e).2.cache.WF ∧
      ∃ r, s.entries.Perm (x :: r) ∧ (s.update e).2.entries.Perm (e :: r) := by
    unfold update
    cases hg : s.cache.get_entry e.ptr with
    | some c =>
      simp only
      obtain ⟨hm, hb, h2, h3⟩ := get_entry_mem hcw he hg
      obtain ⟨h1, _⟩ := get_entry_some hg
      have hcx : s.cache.cell c = x :=
        eq_of_mem_of_ptr_eq hko.1 (by unfold entries; exact List.mem_append_left _ hm) hx
          (h3.trans hp.symm)
      have hset := entries_setCell_perm (m := s.cache) e hb h2
      rw [if_neg (by rw [h3]; exact he), if_neg he, hcx] at hset
      simp only [List.singleton_append] at hset
      rw [hcx] at hm
      have hrc := List.perm_cons_erase hm
      refine ⟨trivial, WF_setCell hcw hb h2 ⟨fun _ => h1.symm, fun h0 => absurd h0 he⟩,
        s.cache.entries.erase x ++ s.fallback_store.entries, ?_, ?_⟩
      · unfold entries
        exact hrc.append_right _
      · unfold entries
        simp only
        have h5 : (x :: (s.cache.setCell c e).entries).Perm
            (x :: e :: s.cache.entries.erase x) :=
          hset.trans ((hrc.cons e).trans (List.Perm.swap _ _ _))
        exact ((List.perm_cons x).1 h5).append_right _
    | none =>
      simp only
      have hxfb : x ∈ s.fallback_store.entries := by
        unfold entries at hx
        rcases List.mem_append.1 hx with h | h
        · exact absurd hp (get_entry_none_entries hcw hg x h)
        · exact h
      obtain ⟨p1, _, r, p3, p4⟩ := MapMetaStore.map_update_ok (e := e) hfb hxfb hp (hz hxfb)
      refine ⟨p1, hcw, s.cache.entries ++ r, ?_, ?_⟩
      · unfold entries
        exact (p3.append_left _).trans List.perm_middle
      · unfold entries
        simp only
        exact (p4.append_left _).trans List.perm_middle
  obtain ⟨k1, k2, r, k3, k4⟩ := key
  refine ⟨k1, ⟨k2, hinv.2.1, ?_, hinv.2.2.1, hinv.2.2.2.1, hinv.2.2.2.2⟩, r, k3, k4⟩
  exact KeysOk.perm k4.symm (KeysOk.replace_head (KeysOk.perm k3 hko) hp)

theorem cached_update_rej {s : CachedMetaStore} {e : MALLOC_META} (hs : s.WF) (he : e.ptr ≠ 0)
    (h : ∀ x ∈ s.entries, x.ptr ≠ e.ptr) : s.update e = (false, s) := by
  obtain ⟨hcw, hfb, hko, hce, hle, hW⟩ := hs
  unfold update
  cases hg : s.cache.get_entry e.ptr with
  | some c =>
    obtain ⟨hm, hb, h2, h3⟩ := get_entry_mem hcw he hg
    exact absurd h3 (h _ (by unfold entries; exact List.mem_append_left _ hm))
  | none =>
    simp only
    rw [MapMetaStore.map_update_rej hfb (fun x hx => h x (by
      unfold entries; exact List.mem_append_right _ hx))]

theorem cached_update_zero {s : CachedMetaStore} {e x : MALLOC_META} (hs : s.WF)
    (hx : x ∈ s.fallback_store.entries) (hp : x.ptr = e.ptr) (hz : x.size = 0) :
    s.update e = (false, s) := by
  obtain ⟨hcw, hfb, hko, hce, hle, hW⟩ := hs
  have hx0 : x.ptr ≠ 0 := hko.2 x (by unfold entries; exact List.mem_append_right _ hx)
  have he : e.ptr ≠ 0 := hp ▸ hx0
  unfold update
  cases hg : s.cache.get_entry e.ptr with
  | some c =>
    exfalso
    obtain ⟨hm, hb, h2, h3⟩ := get_entry_mem hcw he hg
    have hn := hko.1
    unfold entries at hn
    rw [List.map_append, List.nodup_append] at hn
    exact hn.2.2 (List.mem_map_of_mem _ hm) (by
      rw [h3, ← hp]; exact List.mem_map_of_mem _ hx)
  | none =>
    simp only
    rw [MapMetaStore.map_update_zero hfb hx hp hz]

theorem cached_WF_init : init.WF := by
  have hlen : init.cache.bins.length = 32 := by
    simp [init, ResizeableHashMap.init, ENTRIES_PER_BIN]
  have hcell : ∀ c : CellRef, init.cache.cell c = MALLOC_META.empty := by
    intro c
    unfold ResizeableHashMap.cell ResizeableHashMap.bin
    simp only [init, ResizeableHashMap.init]
    rw [List.getD_eq_getElem?_getD]
    by_cases h : c.1 < 128 / ENTRIES_PER_BIN
    · rw [List.getElem?_replicate_of_lt h]; simp [Bin.get_empty]
    · rw [List.getElem?_eq_none (by simpa using h)]; simp [Bin.get_empty]
  have hent : init.cache.entries = [] := by
    unfold ResizeableHashMap.entries
    rw [List.filter_eq_nil_iff]
    intro x hx
    obtain ⟨b, i, _, _, hc⟩ := ResizeableHashMap.mem_cells.1 hx
    rw [← hc, hcell]; simp [MALLOC_META.empty]
  have hents : init.entries = [] := by
    unfold entries; rw [hent]; rfl
  refine ⟨⟨⟨5, hlen⟩, fun b i _ _ => ?_⟩, MapMetaStore.map_WF_init, ?_, ?_, ?_, ?_⟩
  · rw [hcell]; exact ⟨fun h => absurd rfl h, fun _ => rfl⟩
  · rw [hents]; exact ⟨List.nodup_nil, fun _ h => absurd h (List.not_mem_nil _)⟩
  · rw [hent]; rfl
  · rw [hents]; exact Nat.zero_le _
  · unfold capacity ResizeableHashMap.capacity; rw [hlen]; unfold WORD ENTRIES_PER_BIN; omega

theorem capacity_init : init.capacity = 128 := by
  simp [init, capacity, ResizeableHashMap.capacity, ResizeableHashMap.init, ENTRIES_PER_BIN]

theorem entries_init : init.entries = [] := by
  have := cached_WF_init.2.2.2.2.1
  have h2 : init.entries.length = 0 := by
    have h3 := cached_WF_init.2.2.2.1
    rw [length_entries, ← h3]; rfl
  exact List.length_eq_zero.1 h2

end CachedMetaStore

namespace IMetaStore

theorem WF.inv {s : IMetaStore} (h : s.WF) : s.Inv := by
  cases s with
  | cached c => exact CachedMetaStore.WF.inv_cached h
  | vector c => exact h
  | map c => exact h
  | unordered c => exact h
  | hash c => exact h

theorem keysOk {s : IMetaStore} (h : s.WF) : KeysOk s.entries := by
  cases s with
  | vector c => exact h
  | map c => exact StdMap.MetaWF.meta_keysOk h
  | unordered c => exact StdMap.MetaWF.meta_keysOk h
  | hash c => exact HashMetaStore.hash_keysOk h
  | cached c => exact h.2.2.1

theorem get_eq_lookup {s : IMetaStore} (h : s.WF) (k : Nat) : s.get k = lookup s.entries k := by
  cases s with
  | vector c => exact VectorMetaStore.vector_get_eq_lookup c k
  | map c => exact MapMetaStore.map_get_eq_lookup h k
  | unordered c => exact UnorderedMapMetaStore.unordered_get_eq_lookup h k
  | hash c => exact HashMetaStore.hash_get_eq_lookup h k
  | cached c => exact CachedMetaStore.cached_get_eq_lookup h k

theorem size_eq {s : IMetaStore} (h : s.Inv) : s.size = s.entries.length := by
  cases s with
  | vector c => exact VectorMetaStore.vector_size_eq c
  | map c => exact MapMetaStore.map_size_eq c
  | unordered c => exact UnorderedMapMetaStore.unordered_size_eq c
  | hash c => exact HashMetaStore.hash_size_eq c
  | cached c => exact CachedMetaStore.cached_size_eq h

theorem put_ok {s : IMetaStore} {e : MALLOC_META} (hs : s.WF) (hg : s.Growable)
    (he : e.ptr ≠ 0) (hf : ∀ x ∈ s.entries, x.ptr ≠ e.ptr) :
    ∃ s', s.put e = some (true, s') ∧ s'.WF ∧ s'.entries.Perm (e :: s.entries) ∧
      (s'.cap = s.cap ∨ (s'.cap = 2 * s.cap ∧ s.entries.length = s.cap)) := by
  cases s with
  | vector c =>
    obtain ⟨h1, h2, h3⟩ := VectorMetaStore.vector_put_ok hs he hf
    exact ⟨.vector (c.put e).2, by simp only [put, h1], h2, h3, Or.inl rfl⟩
  | map c =>
    obtain ⟨h1, h2, h3⟩ := MapMetaStore.map_put_ok hs he hf
    exact ⟨.map (c.put e).2, by simp only [put, h1], h2, h3, Or.inl rfl⟩
  | unordered c =>
    obtain ⟨h1, h2, h3⟩ := UnorderedMapMetaStore.unordered_put_ok hs he hf
    exact ⟨.unordered (c.put e).2, by simp only [put, h1], h2, h3, Or.inl rfl⟩
  | hash c =>
    obtain ⟨h1, h2, h3⟩ := HashMetaStore.hash_put_ok hs he hf
    exact ⟨.hash (c.put e).2, by simp only [put, h1], h2, h3, Or.inl rfl⟩
  | cached c =>
    obtain ⟨r, s', h1, _, _, h4, h5⟩ := CachedMetaStore.put_spec (e := e) hs.inv hg he
    obtain ⟨h6, h7, h8⟩ := h5 hs hf
    subst h6
    exact ⟨.cached s', by simp only [put, h1, Option.map], h7, h8, h4⟩

theorem remove_ok {s : IMetaStore} {e x : MALLOC_META} (hs : s.WF) (hx : x ∈ s.entries)
    (hp : x.ptr = e.ptr) (hc : x.chunksize = e.chunksize) :
    (s.remove e).1 = true ∧ (s.remove e).2.WF ∧ s.entries.Perm (x :: (s.remove e).2.entries) ∧
      (s.remove e).2.cap = s.cap := by
  cases s with
  | vector c => exact ⟨(VectorMetaStore.vector_remove_ok hs hx hp hc).1,
      (VectorMetaStore.vector_remove_ok hs hx hp hc).2.1, (VectorMetaStore.vector_remove_ok hs hx hp hc).2.2, rfl⟩
  | map c => exact ⟨(MapMetaStore.map_remove_ok hs hx hp hc).1,
      (MapMetaStore.map_remove_ok hs hx hp hc).2.1, (MapMetaStore.map_remove_ok hs hx hp hc).2.2, rfl⟩
  | unordered c => exact ⟨(UnorderedMapMetaStore.unordered_remove_ok hs hx hp hc).1,
      (UnorderedMapMetaStore.unordered_remove_ok hs hx hp hc).2.1,
      (UnorderedMapMetaStore.unordered_remove_ok hs hx hp hc).2.2, rfl⟩
  | hash c => exact ⟨(HashMetaStore.hash_remove_ok hs hx hp hc).1,
      (HashMetaStore.hash_remove_ok hs hx hp hc).2.1, (HashMetaStore.hash_remove_ok hs hx hp hc).2.2, rfl⟩
  | cached c =>
    have hx0 : x.ptr ≠ 0 := hs.2.2.1.2 x hx
    exact ⟨(CachedMetaStore.cached_remove_ok hs hx hp hc).1,
      (CachedMetaStore.cached_remove_ok hs hx hp hc).2.1, (CachedMetaStore.cached_remove_ok hs hx hp hc).2.2,
      (CachedMetaStore.remove_spec (e := e) hs.inv (hp ▸ hx0)).2.2⟩

theorem remove_rej {s : IMetaStore} {e : MALLOC_META} (hs : s.WF) (he : e.ptr ≠ 0)
    (h : ∀ x ∈ s.entries, x.ptr = e.ptr → x.chunksize ≠ e.chunksize) :
    s.remove e = (false, s) := by
  cases s with
  | vector c => simp only [remove, VectorMetaStore.vector_remove_rej h]
  | map c => simp only [remove, MapMetaStore.map_remove_rej hs h]
  | unordered c => simp only [remove, UnorderedMapMetaStore.unordered_remove_rej hs h]
  | hash c => simp only [remove, HashMetaStore.hash_remove_rej h]
  | cached c => simp only [remove, CachedMetaStore.cached_remove_rej hs he h]

theorem update_ok {s : IMetaStore} {e x : MALLOC_META} (hs : s.WF) (hx : x ∈ s.entries)
    (hp : x.ptr = e.ptr) (hz : x.size ≠ 0) :
    (s.update e).1 = true ∧ (s.update e).2.WF ∧
      (∃ r, s.entries.Perm (x :: r) ∧ (s.update e).2.entries.Perm (e :: r)) ∧
      (s.update e).2.cap = s.cap := by
  cases s with
  | vector c => exact ⟨(VectorMetaStore.vector_update_ok hs hx hp hz).1,
      (VectorMetaStore.vector_update_ok hs hx hp hz).2.1, (VectorMetaStore.vector_update_ok hs hx hp hz).2.2, rfl⟩
  | map c => exact ⟨(MapMetaStore.map_update_ok hs hx hp hz).1,
      (MapMetaStore.map_update_ok hs hx hp hz).2.1, (MapMetaStore.map_update_ok hs hx hp hz).2.2, rfl⟩
  | unordered c => exact ⟨(UnorderedMapMetaStore.unordered_update_ok hs hx hp hz).1,
      (UnorderedMapMetaStore.unordered_update_ok hs hx hp hz).2.1,
      (UnorderedMapMetaStore.unordered_update_ok hs hx hp hz).2.2, rfl⟩
  | hash c => exact ⟨(HashMetaStore.hash_update_ok (e := e) hs hx hp).1,
      (HashMetaStore.hash_update_ok (e := e) hs hx hp).2.1,
      (HashMetaStore.hash_update_ok (e := e) hs hx hp).2.2, rfl⟩
  | cached c =>
    have hx0 : x.ptr ≠ 0 := hs.2.2.1.2 x hx
    exact ⟨(CachedMetaStore.cached_update_ok (e := e) hs hx hp (fun _ => hz)).1,
      (CachedMetaStore.cached_update_ok (e := e) hs hx hp (fun _ => hz)).2.1,
      (CachedMetaStore.cached_update_ok (e := e) hs hx hp (fun _ => hz)).2.2,
      (CachedMetaStore.update_spec (e := e) hs.inv (hp ▸ hx0)).2.2⟩

theorem update_rej {s : IMetaStore} {e : MALLOC_META} (hs : s.WF) (he : e.ptr ≠ 0)
    (h : ∀ x ∈ s.entries, x.ptr ≠ e.ptr) : s.update e = (false, s) := by
  cases s with
  | vector c => simp only [update, VectorMetaStore.vector_update_rej h]
  | map c => simp only [update, MapMetaStore.map_update_rej hs h]
  | unordered c => simp only [update, UnorderedMapMetaStore.unordered_update_rej hs h]
  | hash c => simp only [update, HashMetaStore.hash_update_rej h]
  | cached c => simp only [update, CachedMetaStore.cached_update_rej hs he h]

/-! ### Consequences for `get` and `size` -/

theorem get_of_mem {s : IMetaStore} (hs : s.WF) {x : MALLOC_META} (hx : x ∈ s.entries) :
    s.get x.ptr = x := by
  rw [get_eq_lookup hs]; exact lookup_of_mem (keysOk hs).1 hx

theorem get_of_not_holds {s : IMetaStore} (hs : s.WF) {k : Nat} (h : ¬ s.holds k) :
    s.get k = MALLOC_META.empty := by
  rw [get_eq_lookup hs]
  exact lookup_of_not_mem (fun x hx hk => h ⟨x, hx, hk⟩)

theorem get_ptr_of_holds {s : IMetaStore} (hs : s.WF) {k : Nat} (h : s.holds k) :
    (s.get k).ptr = k ∧ s.get k ∈ s.entries := by
  obtain ⟨x, hx, hk⟩ := h
  have := get_of_mem hs hx
  rw [hk] at this
  rw [this]; exact ⟨hk, hx⟩

end IMetaStore

/-- Looking up in `e :: r` and `x :: r` agrees away from the two pointers. -/
theorem lookup_cons_ne {x : MALLOC_META} {r : List MALLOC_META} {k : Nat} (h : x.ptr ≠ k) :
    lookup (x :: r) k = lookup r k := by
  rw [lookup_cons, if_neg h]

theorem lookup_cons_self (x : MALLOC_META) (r : List MALLOC_META) :
    lookup (x :: r) x.ptr = x := by
  rw [lookup_cons, if_pos rfl]

namespace IMetaStore

/-- Effects of a successful `put` of a pointer that is not stored. -/
theorem put_effects {s : IMetaStore} {e : MALLOC_META} (hs : s.WF) (hg : s.Growable)
    (he : e.ptr ≠ 0) (hf : ¬ s.holds e.ptr) :
    ∃ s', s.put e = some (true, s') ∧ s'.WF ∧ s'.entries.Perm (e :: s.entries) ∧
      s'.get e.ptr = e ∧ s'.size = s.size + 1 ∧ (∀ k, k ≠ e.ptr → s'.get k = s.get k) ∧
      (s'.cap = s.cap ∨ (s'.cap = 2 * s.cap ∧ s.entries.length = s.cap)) := by
  obtain ⟨s', h1, h2, h3, h4⟩ := put_ok hs hg he (fun x hx hk => hf ⟨x, hx, hk⟩)
  have hn := (keysOk h2).1
  refine ⟨s', h1, h2, h3, ?_, ?_, ?_, h4⟩
  · rw [get_eq_lookup h2, lookup_perm h3 hn, lookup_cons_self]
  · rw [size_eq h2.inv, size_eq hs.inv, h3.length_eq, List.length_cons]
  · intro k hk
    rw [get_eq_lookup h2, get_eq_lookup hs, lookup_perm h3 hn, lookup_cons_ne (Ne.symm hk)]

/-- Effects of a successful `remove` on a well-formed store. -/
theorem remove_effects {s : IMetaStore} {e : MALLOC_META} (hs : s.WF) (he : e.ptr ≠ 0)
    (hr : (s.remove e).1 = true) :
    ∃ x ∈ s.entries, x.ptr = e.ptr ∧ x.chunksize = e.chunksize ∧
      (s.remove e).2.WF ∧ s.entries.Perm (x :: (s.remove e).2.entries) ∧
      (s.remove e).2.get e.ptr = MALLOC_META.empty ∧ (s.remove e).2.size + 1 = s.size ∧
      (∀ k, k ≠ e.ptr → (s.remove e).2.get k = s.get k) ∧ (s.remove e).2.cap = s.cap := by
  have hex : ∃ x ∈ s.entries, x.ptr = e.ptr ∧ x.chunksize = e.chunksize := by
    by_contra hc
    have := remove_rej hs he (fun x hx hp hcs => hc ⟨x, hx, hp, hcs⟩)
    rw [this] at hr
    cases hr
  obtain ⟨x, hx, hp, hc⟩ := hex
  obtain ⟨_, h2, h3, h4⟩ := remove_ok hs hx hp hc
  have hko := keysOk hs
  have hko2 := KeysOk.tail (KeysOk.perm h3 hko)
  refine ⟨x, hx, hp, hc, h2, h3, ?_, ?_, ?_, h4⟩
  · rw [get_eq_lookup h2]
    exact lookup_of_not_mem (fun y hy => hp ▸ hko2.2.2 y hy)
  · rw [size_eq h2.inv, size_eq hs.inv, h3.length_eq, List.length_cons]
  · intro k hk
    rw [get_eq_lookup h2, get_eq_lookup hs, lookup_perm h3 hko.1,
      lookup_cons_ne (by rw [hp]; exact Ne.symm hk)]

/-- A `remove` that fails leaves a well-formed store as it is. -/
theorem remove_false {s : IMetaStore} {e : MALLOC_META} (hs : s.WF) (he : e.ptr ≠ 0)
    (hr : (s.remove e).1 = false) : s.remove e = (false, s) := by
  apply remove_rej hs he
  intro x hx hp hc
  rw [(remove_ok hs hx hp hc).1] at hr
  cases hr

/-- Effects of a successful `update` of a non-null pointer on a well-formed store. -/
theorem update_effects {s : IMetaStore} {e : MALLOC_META} (hs : s.WF) (he : e.ptr ≠ 0)
    (hr : (s.update e).1 = true) :
    (s.update e).2.WF ∧ (s.update e).2.get e.ptr = e ∧ (s.update e).2.size = s.size ∧
      (∀ k, k ≠ e.ptr → (s.update e).2.get k = s.get k) ∧ e ∈ (s.update e).2.entries ∧
      (s.update e).2.cap = s.cap := by
  have hex : ∃ x ∈ s.entries, x.ptr = e.ptr := by
    by_contra hc
    have := update_rej hs he (fun x hx hp => hc ⟨x, hx, hp⟩)
    rw [this] at hr
    cases hr
  obtain ⟨x, hx, hp⟩ := hex
  have key : (s.update e).2.WF ∧
      (∃ r, s.entries.Perm (x :: r) ∧ (s.update e).2.entries.Perm (e :: r)) ∧
      (s.update e).2.cap = s.cap := by
    cases s with
    | hash c =>
      exact ⟨(HashMetaStore.hash_update_ok (e := e) hs hx hp).2.1,
        (HashMetaStore.hash_update_ok (e := e) hs hx hp).2.2, rfl⟩
    | cached c =>
      have hzc : x ∈ c.fallback_store.entries → x.size ≠ 0 := by
        intro hxf hz
        have := CachedMetaStore.cached_update_zero (e := e) hs hxf hp hz
        simp only [update, this] at hr
        cases hr
      exact ⟨(CachedMetaStore.cached_update_ok (e := e) hs hx hp hzc).2.1,
        (CachedMetaStore.cached_update_ok (e := e) hs hx hp hzc).2.2,
        (CachedMetaStore.update_spec (e := e) hs.inv he).2.2⟩
    | vector c =>
      have hz : x.size ≠ 0 := by
        intro hz
        have := VectorMetaStore.vector_update_zero (e := e) hs hx hp hz
        simp only [update, this] at hr
        cases hr
      exact (update_ok hs hx hp hz).2
    | map c =>
      have hz : x.size ≠ 0 := by
        intro hz
        have := MapMetaStore.map_update_zero (e := e) hs hx hp hz
        simp only [update, this] at hr
        cases hr
      exact (update_ok hs hx hp hz).2
    | unordered c =>
      have hz : x.size ≠ 0 := by
        intro hz
        have := UnorderedMapMetaStore.unordered_update_zero (e := e) hs hx hp hz
        simp only [update, this] at hr
        cases hr
      exact (update_ok hs hx hp hz).2
  obtain ⟨h2, ⟨r, h3, h4⟩, h5⟩ := key
  have hko := keysOk hs
  have hn2 := (keysOk h2).1
  refine ⟨h2, ?_, ?_, ?_, h4.mem_iff.2 (List.mem_cons_self _ _), h5⟩
  · rw [get_eq_lookup h2, lookup_perm h4 hn2, lookup_cons_self]
  · rw [size_eq h2.inv, size_eq hs.inv, h4.length_eq, h3.length_eq, List.length_cons,
      List.length_cons]
  · intro k hk
    rw [get_eq_lookup h2, get_eq_lookup hs, lookup_perm h4 hn2, lookup_perm h3 hko.1,
      lookup_cons_ne (Ne.symm hk), lookup_cons_ne (by rw [hp]; exact Ne.symm hk)]

end IMetaStore

namespace details

theorem Bin.findIdx_set_same_ptr {b : Bin} {i : Nat} (hi : i < 4) {v : MALLOC_META}
    (hv : v.ptr = (b.get i).ptr) (k : Nat) :
    Bin.findIdx (fun x => x.ptr == k) (b.set i v) = Bin.findIdx (fun x => x.ptr == k) b := by
  interval_cases i <;> simp only [Bin.get] at hv <;> simp [Bin.findIdx, Bin.set, hv]

theorem ResizeableHashMap.get_entry_setCell_same_ptr {m : ResizeableHashMap} {c : CellRef}
    {v : MALLOC_META} (hi : c.2 < 4) (hv : v.ptr = (m.cell c).ptr)
    (k : Nat) : (m.setCell c v).get_entry k = m.get_entry k := by
  unfold ResizeableHashMap.get_entry
  have hgb : (m.setCell c v).get_bin k = m.get_bin k := by
    unfold ResizeableHashMap.get_bin; rw [ResizeableHashMap.length_setCell]
  simp only [hgb]
  by_cases hb : c.1 < m.bins.length
  · by_cases hcb : c.1 = m.get_bin k
    · rw [← hcb, ResizeableHashMap.bin_setCell_same v hb, Bin.findIdx_set_same_ptr hi hv]
    · rw [ResizeableHashMap.bin_setCell_other v hcb]
  · have : m.setCell c v = m := by
      unfold ResizeableHashMap.setCell
      rw [List.set_eq_of_length_le (by omega)]
    rw [this]

end details

namespace CachedMetaStore
open details details.ResizeableHashMap

/-- On the cached store an `update` with the null pointer that returns true has overwritten
the first unoccupied cell of bin 0; the observable contract still holds. -/
theorem update_null {s : CachedMetaStore} (hs : s.WF) {e : MALLOC_META} (he : e.ptr = 0)
    (hr : (s.update e).1 = true) :
    (s.update e).2.get e.ptr = e ∧ (s.update e).2.size = s.size ∧
      (∀ k, k ≠ e.ptr → (s.update e).2.get k = s.get k) ∧
      ((s.update e).2.remove e).1 = true ∧
      (∀ sz, MALLOC_META.chunksize ⟨e.ptr, sz⟩ ≠ e.chunksize →
        ((s.update e).2.remove ⟨e.ptr, sz⟩).1 = false) := by
  obtain ⟨hcw, hfb, hko, _⟩ := hs
  cases hg : s.cache.get_entry e.ptr with
  | none =>
    exfalso
    have hrej := MapMetaStore.map_update_rej (e := e) hfb (fun x hx hp =>
      hko.2 x (by unfold entries; exact List.mem_append_right _ hx) (hp.trans he))
    unfold update at hr
    rw [hg] at hr
    simp only [hrej] at hr
    cases hr
  | some c =>
    obtain ⟨h1, h2, h3, _⟩ := get_entry_some hg
    have hb : c.1 < s.cache.bins.length := h1 ▸ get_bin_lt hcw.length_pos e.ptr
    have hu : s.update e = (true, { cache_entries := s.cache_entries,
                                    cache := s.cache.setCell c e,
                                    fallback_store := s.fallback_store }) := by
      unfold update; rw [hg]
    have hge : ∀ k, (s.cache.setCell c e).get_entry k = s.cache.get_entry k :=
      fun k => get_entry_setCell_same_ptr h2 h3.symm k
    have hcell : (s.cache.setCell c e).cell c = e := by
      rw [cell_setCell e hb h2 h2, if_pos rfl]
    rw [hu]
    refine ⟨?_, rfl, ?_, ?_, ?_⟩
    · unfold get; simp only [hge, hg, hcell]
    · intro k hk
      unfold get
      simp only [hge]
      cases hgk : s.cache.get_entry k with
      | none => rfl
      | some d =>
        simp only
        obtain ⟨_, d2, d3, _⟩ := get_entry_some hgk
        rw [cell_setCell e hb h2 d2, if_neg]
        intro hcd
        rw [← hcd, h3] at d3
        exact hk d3.symm
    · unfold remove
      simp only [hge, hg, hcell, MALLOC_META.ne_self]
      simp
    · intro sz hsz
      unfold remove
      simp only [hge, hg, hcell]
      have hne : e.ne ⟨e.ptr, sz⟩ = true := by
        rw [MALLOC_META.ne_eq_true_iff]
        exact fun hh => hsz hh.2.symm
      simp only [hne, if_true]

end CachedMetaStore

namespace IMetaStore

/-- On a well-formed store other than the cached one, no call with the null pointer
succeeds. -/
theorem update_null_false {s : IMetaStore} (hs : s.WF) {e : MALLOC_META} (he : e.ptr = 0)
    (hc : ∀ c, s ≠ .cached c) : (s.update e).1 = false := by
  have hno : ∀ x ∈ s.entries, x.ptr ≠ e.ptr :=
    fun x hx hp => (keysOk hs).2 x hx (hp.trans he)
  cases s with
  | vector c => simp only [update, VectorMetaStore.vector_update_rej hno]
  | map c => simp only [update, MapMetaStore.map_update_rej hs hno]
  | unordered c => simp only [update, UnorderedMapMetaStore.unordered_update_rej hs hno]
  | hash c => simp only [update, HashMetaStore.hash_update_rej hno]
  | cached c => exact absurd rfl (hc c)


theorem Bound.growable {n : Nat} {s : IMetaStore} (h : s.Bound n) (hn : n < 2 ^ 61) :
    s.Growable := by
  cases s with
  | cached c =>
    have := h.1
    simp only [cap] at this
    simp only [Growable, CachedMetaStore.Growable]
    unfold WORD
    omega
  | vector c => trivial
  | map c => trivial
  | unordered c => trivial
  | hash c => trivial

theorem initial_WF {s : IMetaStore} (h : s ∈ initial) : s.WF ∧ s.Bound 0 ∧ s.entries = [] := by
  simp only [initial, List.mem_cons, List.mem_singleton, List.not_mem_nil, or_false] at h
  rcases h with rfl | rfl | rfl | rfl | rfl
  · exact ⟨VectorMetaStore.vector_WF_init, ⟨by simp [cap], by simp [entries, VectorMetaStore.entries,
      VectorMetaStore.init]⟩, rfl⟩
  · exact ⟨MapMetaStore.map_WF_init, ⟨by simp [cap], by simp [entries, MapMetaStore.entries,
      MapMetaStore.init]⟩, rfl⟩
  · exact ⟨UnorderedMapMetaStore.unordered_WF_init, ⟨by simp [cap], by simp [entries,
      UnorderedMapMetaStore.entries, UnorderedMapMetaStore.init]⟩, rfl⟩
  · exact ⟨HashMetaStore.hash_WF_init, ⟨by simp [cap], by simp [entries, HashMetaStore.entries,
      HashMetaStore.init]⟩, rfl⟩
  · exact ⟨CachedMetaStore.cached_WF_init, ⟨by simp [cap, CachedMetaStore.capacity_init],
      by simp [entries, CachedMetaStore.entries_init]⟩, CachedMetaStore.entries_init⟩

/-- One call with a non-null key on a store that satisfies the counting invariant. -/
theorem step_inv {s : IMetaStore} {o : Op} (hs : s.Inv) (hg : s.Growable)
    (ho : o.entry.ptr ≠ 0) :
    ∃ r s', s.step o = some (r, s') ∧ s'.Inv ∧
      s'.entries.length + (if (o.isRemove && r) = true then 1 else 0) =
        s.entries.length + (if (o.isPut && r) = true then 1 else 0) ∧
      (s'.cap = s.cap ∨ (s'.cap = 2 * s.cap ∧ s.entries.length = s.cap)) := by
  cases o with
  | put e =>
    simp only [Op.entry] at ho
    simp only [step, Op.isRemove, Op.isPut, Bool.false_and, Bool.true_and, Bool.false_eq_true,
      if_false, Nat.add_zero]
    cases s with
    | vector c => exact ⟨_, _, rfl, (VectorMetaStore.vector_put_step e hs).1,
        (VectorMetaStore.vector_put_step e hs).2, Or.inl rfl⟩
    | map c => exact ⟨_, _, rfl, (MapMetaStore.map_put_step e hs).1,
        (MapMetaStore.map_put_step e hs).2, Or.inl rfl⟩
    | unordered c => exact ⟨_, _, rfl, (UnorderedMapMetaStore.unordered_put_step e hs).1,
        (UnorderedMapMetaStore.unordered_put_step e hs).2, Or.inl rfl⟩
    | hash c => exact ⟨_, _, rfl, (HashMetaStore.hash_put_step e hs).1,
        (HashMetaStore.hash_put_step e hs).2, Or.inl rfl⟩
    | cached c =>
      obtain ⟨r, s', h1, h2, h3, h4, _⟩ := CachedMetaStore.put_spec (e := e) hs hg ho
      exact ⟨r, .cached s', by simp only [put, h1, Option.map], h2, h3, h4⟩
  | remove e =>
    simp only [Op.entry] at ho
    simp only [step, Op.isRemove, Op.isPut, Bool.false_and, Bool.true_and, Bool.false_eq_true,
      if_false, Nat.add_zero]
    cases s with
    | vector c => exact ⟨_, _, rfl, (VectorMetaStore.vector_remove_step e hs).1,
        (VectorMetaStore.vector_remove_step e hs).2, Or.inl rfl⟩
    | map c => exact ⟨_, _, rfl, (MapMetaStore.map_remove_step e hs).1,
        (MapMetaStore.map_remove_step e hs).2, Or.inl rfl⟩
    | unordered c => exact ⟨_, _, rfl, (UnorderedMapMetaStore.unordered_remove_step e hs).1,
        (UnorderedMapMetaStore.unordered_remove_step e hs).2, Or.inl rfl⟩
    | hash c => exact ⟨_, _, rfl, (HashMetaStore.hash_remove_step e hs).1,
        (HashMetaStore.hash_remove_step e hs).2, Or.inl rfl⟩
    | cached c =>
      obtain ⟨h1, h2, h3⟩ := CachedMetaStore.remove_spec (e := e) hs ho
      exact ⟨_, _, rfl, h1, h2, Or.inl h3⟩
  | update e =>
    simp only [Op.entry] at ho
    simp only [step, Op.isRemove, Op.isPut, Bool.false_and, Bool.false_eq_true,
      if_false, Nat.add_zero]
    cases s with
    | vector c => exact ⟨_, _, rfl, (VectorMetaStore.vector_update_step e hs).1,
        (VectorMetaStore.vector_update_step e hs).2, Or.inl rfl⟩
    | map c => exact ⟨_, _, rfl, (MapMetaStore.map_update_step e hs).1,
        (MapMetaStore.map_update_step e hs).2, Or.inl rfl⟩
    | unordered c => exact ⟨_, _, rfl, (UnorderedMapMetaStore.unordered_update_step e hs).1,
        (UnorderedMapMetaStore.unordered_update_step e hs).2, Or.inl rfl⟩
    | hash c => exact ⟨_, _, rfl, (HashMetaStore.hash_update_step e hs).1,
        (HashMetaStore.hash_update_step e hs).2, Or.inl rfl⟩
    | cached c =>
      obtain ⟨h1, h2, h3⟩ := CachedMetaStore.update_spec (e := e) hs ho
      exact ⟨_, _, rfl, h1, h2, Or.inl h3⟩

theorem Bound.step {n : Nat} {s s' : IMetaStore} (h : s.Bound n)
    (hl : s'.entries.length ≤ s.entries.length + 1)
    (hc : s'.cap = s.cap ∨ (s'.cap = 2 * s.cap ∧ s.entries.length = s.cap)) :
    s'.Bound (n + 1) := by
  obtain ⟨h1, h2⟩ := h
  refine ⟨?_, by omega⟩
  rcases hc with hc | ⟨hc, hc2⟩
  · omega
  · omega

/-- A sequence of calls with non-null keys runs to completion and the number of entries
follows the successful `put` and `remove` calls. -/
theorem run_inv (ops : List Op) : ∀ (n : Nat) (s : IMetaStore), s.Inv → s.Bound n →
    n + ops.length < 2 ^ 61 → (∀ o ∈ ops, o.entry.ptr ≠ 0) →
    ∃ rs s', s.run ops = some (rs, s') ∧ s'.Inv ∧ s'.Bound (n + ops.length) ∧
      s'.entries.length + okCount Op.isRemove ops rs =
        s.entries.length + okCount Op.isPut ops rs := by
  induction ops with
  | nil =>
    intro n s hs hb _ _
    exact ⟨[], s, rfl, hs, hb, rfl⟩
  | cons o ops ih =>
    intro n s hs hb hn hk
    simp only [List.length_cons] at hn
    obtain ⟨r, s1, h1, h2, h3, h4⟩ := step_inv (o := o) hs (hb.growable (by omega))
      (hk o (List.mem_cons_self _ _))
    have hb1 : s1.Bound (n + 1) := hb.step (by split_ifs at h3 <;> omega) h4
    obtain ⟨rs, s2, g1, g2, g3, g4⟩ := ih (n + 1) s1 h2 hb1 (by omega)
      (fun o' ho' => hk o' (List.mem_cons_of_mem _ ho'))
    refine ⟨r :: rs, s2, ?_, g2, ?_, ?_⟩
    · simp only [run, h1, g1]
    · simp only [List.length_cons]
      have : n + (ops.length + 1) = n + 1 + ops.length := by omega
      rw [this]; exact g3
    · simp only [okCount]
      omega

end IMetaStore

theorem MALLOC_META.chunksize_or_prev_inuse (p sz : Nat) :
    MALLOC_META.chunksize ⟨p, sz ||| PREV_INUSE⟩ = MALLOC_META.chunksize ⟨p, sz⟩ := by
  simp only [MALLOC_META.chunksize]
  rw [Nat.and_comm, Nat.and_or_distrib_left]
  have : (WORD - 1 - SIZE_BITS) &&& PREV_INUSE = 0 := by decide
  rw [this, Nat.or_zero, Nat.and_comm]

namespace IMetaStore

theorem run_cons {s : IMetaStore} {o : Op} {ops : List Op} {r : Bool} {s1 : IMetaStore}
    {rs : List Bool} {s2 : IMetaStore} (h1 : s.step o = some (r, s1))
    (h2 : s1.run ops = some (rs, s2)) : s.run (o :: ops) = some (r :: rs, s2) := by
  simp only [run, h1, h2]

/-- A sequence of `put` calls with pairwise different non-null pointers, none of them stored
before: every call returns true and the store holds the old and the new entries. -/
theorem puts_spec (l : List MALLOC_META) : ∀ (n : Nat) (s : IMetaStore), s.WF → s.Bound n →
    n + l.length < 2 ^ 61 → KeysOk (l ++ s.entries) →
    ∃ rs s', s.run (l.map Op.put) = some (rs, s') ∧ s'.WF ∧ s'.Bound (n + l.length) ∧
      s'.entries.Perm (l ++ s.entries) ∧ rs = List.replicate l.length true := by
  induction l with
  | nil =>
    intro n s hs hb _ _
    exact ⟨[], s, rfl, hs, hb, List.Perm.refl _, rfl⟩
  | cons e l ih =>
    intro n s hs hb hn hk
    simp only [List.length_cons] at hn
    rw [List.cons_append] at hk
    obtain ⟨hk1, he, hfresh⟩ := KeysOk.tail hk
    obtain ⟨s1, h1, h2, h3, h4⟩ := put_ok hs (hb.growable (by omega)) he
      (fun x hx => hfresh x (List.mem_append_right _ hx))
    have hb1 : s1.Bound (n + 1) := hb.step (by rw [h3.length_eq]; simp) h4
    have hperm1 : (l ++ s1.entries).Perm (e :: (l ++ s.entries)) :=
      (h3.append_left l).trans List.perm_middle
    obtain ⟨rs, s2, g1, g2, g3, g4, g5⟩ := ih (n + 1) s1 h2 hb1 (by omega)
      (KeysOk.perm hperm1.symm hk)
    refine ⟨true :: rs, s2, run_cons (o := Op.put e) h1 g1, g2, ?_, ?_, ?_⟩
    · simp only [List.length_cons]
      have : n + (l.length + 1) = n + 1 + l.length := by omega
      rw [this]; exact g3
    · rw [List.cons_append]; exact g4.trans hperm1
    · rw [g5]; rfl

theorem filter_ne_ptr_cons {x : MALLOC_META} {r : List MALLOC_META} (h : KeysOk (x :: r))
    {k : Nat} (hk : x.ptr = k) : (x :: r).filter (fun y => y.ptr != k) = r := by
  obtain ⟨_, _, h3⟩ := KeysOk.tail h
  rw [List.filter_cons]
  have : (x.ptr != k) = false := by simp [hk]
  rw [this]
  simp only [Bool.false_eq_true, if_false]
  rw [List.filter_eq_self]
  intro y hy
  have := h3 y hy
  rw [hk] at this
  simpa using this

/-- A sequence of `put` and `remove` calls with non-null keys in which no pointer is put
twice: every `put` returns true and the store holds exactly the entries that were put and not
removed since. -/
theorem run_live (ops : List Op) : ∀ (n : Nat) (s : IMetaStore) (acc : List MALLOC_META),
    s.WF → s.Bound n → n + ops.length < 2 ^ 61 → s.entries.Perm acc →
    (∀ o ∈ ops, o.entry.ptr ≠ 0 ∧ o.isUpdate = false) → KeysOk (putEntries ops) →
    (∀ x ∈ acc, ∀ y ∈ putEntries ops, x.ptr ≠ y.ptr) →
    ∃ rs s', s.run ops = some (rs, s') ∧ s'.WF ∧ s'.entries.Perm (live acc ops rs) ∧
      okCount Op.isPut ops rs = (putEntries ops).length := by
  induction ops with
  | nil =>
    intro n s acc hs _ _ hp _ _ _
    exact ⟨[], s, rfl, hs, by simpa [live] using hp, rfl⟩
  | cons o ops ih =>
    intro n s acc hs hb hn hp hops hk hfr
    simp only [List.length_cons] at hn
    have ho := hops o (List.mem_cons_self _ _)
    have hops' : ∀ o' ∈ ops, o'.entry.ptr ≠ 0 ∧ o'.isUpdate = false :=
      fun o' h' => hops o' (List.mem_cons_of_mem _ h')
    cases o with
    | put e =>
      simp only [putEntries] at hk hfr
      obtain ⟨hk1, he, hfresh⟩ := KeysOk.tail hk
      obtain ⟨s1, h1, h2, h3, h4⟩ := put_ok hs (hb.growable (by omega)) he
        (fun x hx hxe => hfr x (hp.mem_iff.1 hx) e (List.mem_cons_self _ _) hxe)
      have hb1 : s1.Bound (n + 1) := hb.step (by rw [h3.length_eq]; simp) h4
      obtain ⟨rs, s2, g1, g2, g3, g4⟩ := ih (n + 1) s1 (e :: acc) h2 hb1 (by omega)
        (h3.trans (hp.cons e)) hops' hk1 (by
          intro x hx y hy
          rcases List.mem_cons.1 hx with rfl | hx
          · exact (hfresh y hy).symm
          · exact hfr x hx y (List.mem_cons_of_mem _ hy))
      refine ⟨true :: rs, s2, run_cons (o := Op.put e) h1 g1, g2, ?_, ?_⟩
      · simpa [live] using g3
      · simp only [okCount, Op.isPut, putEntries, List.length_cons, g4]
        simp; omega
    | remove e =>
      simp only [putEntries] at hk hfr
      simp only [Op.entry] at ho
      by_cases hr : (s.remove e).1 = true
      · obtain ⟨x, hx, hxp, hxc, h2, h3, _, _, _, h4⟩ := remove_effects hs ho.1 hr
        have hb1 : (s.remove e).2.Bound (n + 1) := hb.step (by
          have := h3.length_eq; simp only [List.length_cons] at this; omega) (Or.inl h4)
        have hko := keysOk hs
        have hacc : (s.remove e).2.entries.Perm (acc.filter (fun y => y.ptr != e.ptr)) := by
          have h5 := (hp.symm.trans h3).filter (fun y => y.ptr != e.ptr)
          rw [filter_ne_ptr_cons (KeysOk.perm h3 hko) hxp] at h5
          exact h5.symm
        obtain ⟨rs, s2, g1, g2, g3, g4⟩ := ih (n + 1) (s.remove e).2 _ h2 hb1 (by omega)
          hacc hops' hk (fun y hy => hfr y (List.mem_of_mem_filter hy))
        refine ⟨true :: rs, s2, run_cons (o := Op.remove e) (r := true) (by
          simp only [step]; rw [← hr]) g1, g2, ?_, ?_⟩
        · simpa [live] using g3
        · simp only [okCount, Op.isPut, putEntries, g4]; simp
      · have hr2 : (s.remove e).1 = false := by simpa using hr
        have hrm := remove_false hs ho.1 hr2
        have hb1 : s.Bound (n + 1) := hb.step (by omega) (Or.inl rfl)
        obtain ⟨rs, s2, g1, g2, g3, g4⟩ := ih (n + 1) s acc hs hb1 (by omega) hp hops' hk hfr
        refine ⟨false :: rs, s2, run_cons (o := Op.remove e) (r := false) (by
          simp only [step, hrm]) g1, g2, ?_, ?_⟩
        · simpa [live] using g3
        · simp only [okCount, Op.isPut, putEntries, g4]; simp
    | update e =>
      have := ho.2
      simp [Op.isUpdate] at this

end IMetaStore

theorem CHUNK_HEADER.to_from_memory {p : Nat} (hp : p ≠ 0) (hw : p < WORD) :
    CHUNK_HEADER.to_memory (CHUNK_HEADER.from_memory p) = p := by
  unfold CHUNK_HEADER.to_memory CHUNK_HEADER.from_memory
  rw [if_neg hp]
  unfold WORD at *
  omega

theorem MALLOC_META.from_chunk_header_eq {p : Nat} (mem : Memory) (hp : p ≠ 0) (hw : p < WORD) :
    MALLOC_META.from_chunk_header mem (CHUNK_HEADER.from_memory p) =
      ⟨p, CHUNK_HEADER.size_at mem p⟩ := by
  unfold MALLOC_META.from_chunk_header
  rw [CHUNK_HEADER.to_from_memory hp hw]
  rfl

theorem MALLOC_META.equals_ptr_size_iff (a b : MALLOC_META) :
    a.equals_ptr_size b = true ↔ a.ptr = b.ptr ∧ a.chunksize = b.chunksize := by
  simp [MALLOC_META.equals_ptr_size]

theorem IMetaStore.Bound.mono {n m : Nat} {s : IMetaStore} (h : s.Bound n) (hnm : n ≤ m) :
    s.Bound m := ⟨by have := h.1; omega, by have := h.2; omega⟩

/-! ## The check before `free`, in every state of the store -/

theorem getElem?_findIdx_of_find? {α : Type} (p : α → Bool) :
    ∀ (l : List α) (x : α), l.find? p = some x → l[l.findIdx p]? = some x := by
  intro l
  induction l with
  | nil => intro x h; cases h
  | cons a t ih =>
    intro x h
    rw [List.find?_cons] at h
    rw [List.findIdx_cons]
    cases hpa : p a with
    | true =>
      rw [hpa] at h
      simp only at h
      simpa using h
    | false =>
      rw [hpa] at h
      simp only at h
      simpa using ih x h

theorem MALLOC_META.equals_ptr_size_ne {a b : MALLOC_META}
    (h : a.equals_ptr_size b = true) : a.ne b = false := by
  unfold MALLOC_META.ne; rw [h]; rfl

theorem VectorMetaStore.vector_remove_of_get {s : VectorMetaStore} {e : MALLOC_META}
    (he : e.ptr ≠ 0) (h : (s.get e.ptr).equals_ptr_size e = true) : (s.remove e).1 = true := by
  have hptr := ((MALLOC_META.equals_ptr_size_iff _ _).1 h).1
  cases hf : s.elements.find? (fun chunk => chunk.ptr == e.ptr) with
  | none =>
    have : s.get e.ptr = MALLOC_META.empty := by unfold VectorMetaStore.get; rw [hf]; rfl
    rw [this] at hptr
    exact absurd hptr.symm he
  | some el =>
    have hget : s.get e.ptr = el := by unfold VectorMetaStore.get; rw [hf]; rfl
    have hidx := getElem?_findIdx_of_find? _ _ _ hf
    have hne : s.elements ≠ [] := List.ne_nil_of_mem (List.mem_of_find?_eq_some hf)
    have hlast : s.elements.getLast? = some (s.elements.getLast hne) :=
      List.getLast?_eq_getLast _ hne
    rw [hget] at h
    unfold VectorMetaStore.remove
    simp only [hidx, hlast, MALLOC_META.equals_ptr_size_ne h, Bool.false_eq_true, if_false]

theorem MapMetaStore.map_remove_of_get {s : MapMetaStore} {e : MALLOC_META}
    (he : e.ptr ≠ 0) (h : (s.get e.ptr).equals_ptr_size e = true) : (s.remove e).1 = true := by
  have hptr := ((MALLOC_META.equals_ptr_size_iff _ _).1 h).1
  unfold MapMetaStore.get at h hptr
  unfold MapMetaStore.remove
  cases hf : StdMap.find s.elements e.ptr with
  | none =>
    rw [hf] at hptr
    exact absurd hptr.symm he
  | some v =>
    rw [hf] at h
    simp only at h
    simp only [MALLOC_META.equals_ptr_size_ne h, Bool.false_eq_true, if_false]

theorem UnorderedMapMetaStore.unordered_remove_of_get {s : UnorderedMapMetaStore}
    {e : MALLOC_META} (he : e.ptr ≠ 0) (h : (s.get e.ptr).equals_ptr_size e = true) :
    (s.remove e).1 = true := by
  have hptr := ((MALLOC_META.equals_ptr_size_iff _ _).1 h).1
  unfold UnorderedMapMetaStore.get at h hptr
  unfold UnorderedMapMetaStore.remove
  cases hf : StdMap.find s.elements e.ptr with
  | none =>
    rw [hf] at hptr
    exact absurd hptr.symm he
  | some v =>
    rw [hf] at h
    simp only at h
    simp only [MALLOC_META.equals_ptr_size_ne h, Bool.false_eq_true, if_false]

theorem HashMetaStore.hash_remove_of_get {s : HashMetaStore} {e : MALLOC_META}
    (he : e.ptr ≠ 0) (h : (s.get e.ptr).equals_ptr_size e = true) : (s.remove e).1 = true := by
  have hptr := ((MALLOC_META.equals_ptr_size_iff _ _).1 h).1
  unfold HashMetaStore.get at h hptr
  unfold HashMetaStore.remove
  cases hf : StdMap.find s.elements e.ptr with
  | none =>
    rw [hf] at hptr
    exact absurd hptr.symm he
  | some v =>
    rw [hf] at h
    simp only at h
    simp only [MALLOC_META.equals_ptr_size_ne h, Bool.false_eq_true, if_false]

theorem CachedMetaStore.cached_remove_of_get {s : CachedMetaStore} {e : MALLOC_META}
    (he : e.ptr ≠ 0) (h : (s.get e.ptr).equals_ptr_size e = true) : (s.remove e).1 = true := by
  unfold CachedMetaStore.get at h
  unfold CachedMetaStore.remove
  cases hf : s.cache.get_entry e.ptr with
  | none =>
    rw [hf] at h
    simp only at h
    simp only
    exact MapMetaStore.map_remove_of_get he h
  | some c =>
    rw [hf] at h
    simp only at h
    simp only [MALLOC_META.equals_ptr_size_ne h, Bool.false_eq_true, if_false]

/-- On every store, in every state: if `get(e.ptr)` is ptr-size-equal to an entry `e` with
non-null pointer, then `remove(e)` returns true. -/
theorem IMetaStore.remove_of_get (s : IMetaStore) {e : MALLOC_META} (he : e.ptr ≠ 0)
    (h : (s.get e.ptr).equals_ptr_size e = true) : (s.remove e).1 = true := by
  cases s with
  | vector c => exact VectorMetaStore.vector_remove_of_get he h
  | map c => exact MapMetaStore.map_remove_of_get he h
  | unordered c => exact UnorderedMapMetaStore.unordered_remove_of_get he h
  | hash c => exact HashMetaStore.hash_remove_of_get he h
  | cached c => exact CachedMetaStore.cached_remove_of_get he h

/-- What `check_pointer_before_free` does with pointer checks on, in every state of the
store. -/
theorem ShadowHeapFacade.check_pointer_cases {σ : Type} (f : ShadowHeapFacade σ) (mem : Memory)
    {p : Nat} (hm : f.modes.ptrMode = true) (hp : p ≠ 0) (hw : p < WORD) :
    (f.check_pointer_before_free mem p = none ↔
      (f.store.get p).equals_ptr_size ⟨p, CHUNK_HEADER.size_at mem p⟩ = false) ∧
    ((f.store.get p).equals_ptr_size ⟨p, CHUNK_HEADER.size_at mem p⟩ = true →
      f.check_pointer_before_free mem p =
        some { f with store := (f.store.remove ⟨p, CHUNK_HEADER.size_at mem p⟩).2 } ∧
      (f.store.remove ⟨p, CHUNK_HEADER.size_at mem p⟩).1 = true) := by
  have hmeta := MALLOC_META.from_chunk_header_eq mem hp hw
  have hrem : (f.store.get p).equals_ptr_size ⟨p, CHUNK_HEADER.size_at mem p⟩ = true →
      (f.store.remove ⟨p, CHUNK_HEADER.size_at mem p⟩).1 = true :=
    fun heq => IMetaStore.remove_of_get f.store (e := ⟨p, CHUNK_HEADER.size_at mem p⟩) hp heq
  unfold ShadowHeapFacade.check_pointer_before_free
  simp only [hm, hmeta, Bool.true_eq_false, if_false]
  by_cases heq : (f.store.get p).equals_ptr_size ⟨p, CHUNK_HEADER.size_at mem p⟩ = true
  · have hr := hrem heq
    simp [heq, hr]
  · have heq2 : (f.store.get p).equals_ptr_size ⟨p, CHUNK_HEADER.size_at mem p⟩ = false := by
      simpa using heq
    simp [heq2]

namespace ShadowHeapFacade

variable {σ : Type}

/-- What `check_pointer_before_free` does on a well-formed store with pointer checks on. -/
theorem check_pointer_spec (f : ShadowHeapFacade σ) (mem : Memory) {p : Nat}
    (hm : f.modes.ptrMode = true) (hs : f.store.WF) (hp : p ≠ 0) (hw : p < WORD) :
    (f.check_pointer_before_free mem p = none ↔
      (f.store.get p).equals_ptr_size ⟨p, CHUNK_HEADER.size_at mem p⟩ = false) ∧
    ((f.store.get p).equals_ptr_size ⟨p, CHUNK_HEADER.size_at mem p⟩ = true →
      f.check_pointer_before_free mem p =
        some { f with store := (f.store.remove ⟨p, CHUNK_HEADER.size_at mem p⟩).2 } ∧
      (f.store.remove ⟨p, CHUNK_HEADER.size_at mem p⟩).1 = true) := by
  have hmeta := MALLOC_META.from_chunk_header_eq mem hp hw
  have hrem : (f.store.get p).equals_ptr_size ⟨p, CHUNK_HEADER.size_at mem p⟩ = true →
      (f.store.remove ⟨p, CHUNK_HEADER.size_at mem p⟩).1 = true := by
    intro heq
    rw [MALLOC_META.equals_ptr_size_iff] at heq
    have hmem : f.store.get p ∈ f.store.entries := by
      rw [IMetaStore.get_eq_lookup hs]
      rcases lookup_mem_or_empty f.store.entries p with h | h
      · rw [IMetaStore.get_eq_lookup hs, h] at heq
        exact absurd heq.1.symm hp
      · exact h.1
    exact (IMetaStore.remove_ok hs hmem heq.1 heq.2).1
  unfold check_pointer_before_free
  simp only [hm, hmeta, Bool.true_eq_false, if_false]
  by_cases heq : (f.store.get p).equals_ptr_size ⟨p, CHUNK_HEADER.size_at mem p⟩ = true
  · have hr := hrem heq
    simp [heq, hr]
  · have heq2 : (f.store.get p).equals_ptr_size ⟨p, CHUNK_HEADER.size_at mem p⟩ = false := by
      simpa using heq
    simp [heq2]

theorem Tracks.store_pointer {f : ShadowHeapFacade σ} {acc : List MALLOC_META} {n : Nat}
    (h : f.Tracks acc n) (hn : n < 2 ^ 61) (mem : Memory) {ret : Nat} (hr : ret ≠ 0)
    (hw : ret < WORD) (hf : ∀ x ∈ acc, x.ptr ≠ ret) :
    ∃ f', f.store_pointer mem ret = some f' ∧
      f'.Tracks (⟨ret, CHUNK_HEADER.size_at mem ret⟩ :: acc) (n + 1) ∧
      f'.shadow = f.shadow := by
  obtain ⟨h1, h2, h3, h4, h5⟩ := h
  obtain ⟨s', g1, g2, g3, g4⟩ := IMetaStore.put_ok (e := ⟨ret, CHUNK_HEADER.size_at mem ret⟩)
    h3 (h4.growable hn) hr (fun x hx => hf x (h5.mem_iff.1 hx))
  refine ⟨{ f with store := s' }, ?_, ⟨h1, h2, g2, ?_, g3.trans (h5.cons _)⟩, rfl⟩
  · unfold ShadowHeapFacade.store_pointer
    simp only [h2, Bool.true_eq_false, if_false,
      MALLOC_META.from_chunk_header_eq mem hr hw, g1]
  · exact h4.step (by rw [g3.length_eq]; simp) g4

theorem Tracks.check_pointer {f f' : ShadowHeapFacade σ} {acc : List MALLOC_META} {n : Nat}
    (h : f.Tracks acc n) (mem : Memory) {p : Nat} (hp : p ≠ 0) (hw : p < WORD)
    (hc : f.check_pointer_before_free mem p = some f') :
    f'.Tracks (acc.filter (fun x => x.ptr != p)) (n + 1) ∧ f'.shadow = f.shadow := by
  obtain ⟨h1, h2, h3, h4, h5⟩ := h
  obtain ⟨c1, c2⟩ := check_pointer_spec f mem h2 h3 hp hw
  by_cases heq : (f.store.get p).equals_ptr_size ⟨p, CHUNK_HEADER.size_at mem p⟩ = true
  · obtain ⟨c3, c4⟩ := c2 heq
    rw [c3] at hc
    cases hc
    obtain ⟨x, hx, hxp, _, g2, g3, _, _, _, g4⟩ :=
      IMetaStore.remove_effects (e := ⟨p, CHUNK_HEADER.size_at mem p⟩) h3 hp c4
    have hko := IMetaStore.keysOk h3
    refine ⟨⟨h1, h2, g2, ?_, ?_⟩, rfl⟩
    · refine h4.step ?_ (Or.inl g4)
      have := g3.length_eq
      simp only [List.length_cons] at this
      show (f.store.remove ⟨p, CHUNK_HEADER.size_at mem p⟩).2.entries.length ≤ _
      omega
    · have h6 := (h5.symm.trans g3).filter (fun y => y.ptr != p)
      rw [IMetaStore.filter_ne_ptr_cons (KeysOk.perm g3 hko) hxp] at h6
      exact h6.symm
  · have heq2 : (f.store.get p).equals_ptr_size ⟨p, CHUNK_HEADER.size_at mem p⟩ = false := by
      simpa using heq
    rw [c1.2 heq2] at hc
    cases hc

theorem Tracks.verify {S : Snapshots σ} {f f' : ShadowHeapFacade σ} {acc : List MALLOC_META}
    {n : Nat} (h : f.Tracks acc n) {mem : Memory} (hv : f.verify_snapshots S mem = some f') :
    f'.Tracks acc n := by
  unfold verify_snapshots at hv
  split at hv
  · cases hv
  · split at hv
    · cases hv
    · split at hv
      · cases hv
      · cases hv
        exact h

theorem Tracks.snapshots {S : Snapshots σ} {f : ShadowHeapFacade σ} {acc : List MALLOC_META}
    {n : Nat} (h : f.Tracks acc n) (mem : Memory) : (f.take_snapshots S mem).Tracks acc n := h

theorem Tracks.mono_tracks {f : ShadowHeapFacade σ} {acc : List MALLOC_META} {n m : Nat}
    (h : f.Tracks acc n) (hnm : n ≤ m) : f.Tracks acc m :=
  ⟨h.1, h.2.1, h.2.2.1, h.2.2.2.1.mono hnm, h.2.2.2.2⟩

theorem Tracks.tracked_keysOk {f : ShadowHeapFacade σ} {acc : List MALLOC_META} {n : Nat}
    (h : f.Tracks acc n) : KeysOk acc :=
  KeysOk.perm h.2.2.2.2 (IMetaStore.keysOk h.2.2.1)

end ShadowHeapFacade

namespace ShadowHeapWrapper

variable {σ : Type}

theorem recorded_eq (env : Env) :
    recorded env = ⟨env.ret, CHUNK_HEADER.size_at env.memRet env.ret⟩ := rfl

theorem malloc_tracks {S : Snapshots σ} {f f' : ShadowHeapFacade σ} {acc : List MALLOC_META}
    {n : Nat} (h : f.Tracks acc n) (hn : n + 2 < 2 ^ 61) {env : Env} {len r : Nat}
    (hw : env.ret < WORD) (hf : ∀ x ∈ acc, x.ptr ≠ env.ret)
    (hc : malloc S f env len = some (r, f')) :
    f'.Tracks (if env.ret = 0 then acc else recorded env :: acc) (n + 2) := by
  unfold malloc ShadowHeapFacade.malloc_pre at hc
  simp only [h.1, Bool.true_eq_false, if_false] at hc
  cases hv : f.verify_snapshots S env.memPre with
  | none => rw [hv] at hc; cases hc
  | some f1 =>
    rw [hv] at hc
    have h1 := h.verify hv
    unfold ShadowHeapFacade.malloc_post at hc
    simp only [h1.1, Bool.true_eq_false, if_false] at hc
    by_cases hr : env.ret = 0
    · simp only [hr, if_true] at hc
      cases hc
      rw [hr] at *
      simp only [if_true]
      exact h1.mono_tracks (by omega)
    · simp only [hr, if_false] at hc
      obtain ⟨f2, g1, g2, _⟩ := h1.store_pointer (by omega) env.memRet hr hw hf
      rw [g1] at hc
      cases hc
      rw [if_neg hr, recorded_eq]
      exact (g2.snapshots env.memPost).mono_tracks (by omega)

theorem filter_ne_zero {acc : List MALLOC_META} (h : KeysOk acc) :
    acc.filter (fun x => x.ptr != 0) = acc := by
  rw [List.filter_eq_self]
  intro x hx
  simpa using h.2 x hx

theorem free_tracks {S : Snapshots σ} {f f' : ShadowHeapFacade σ} {acc : List MALLOC_META}
    {n : Nat} (h : f.Tracks acc n) {env : Env} {ptr r : Nat}
    (hw : ptr < WORD) (hc : free S f env ptr = some (r, f')) :
    f'.Tracks (acc.filter (fun x => x.ptr != ptr)) (n + 2) := by
  unfold free at hc
  by_cases hp : ptr = 0
  · simp only [hp, if_true] at hc
    cases hc
    rw [hp, filter_ne_zero h.tracked_keysOk]
    exact h.mono_tracks (by omega)
  · simp only [hp, if_false] at hc
    unfold ShadowHeapFacade.free_pre at hc
    simp only [h.1, Bool.true_eq_false, if_false] at hc
    cases hv : f.verify_snapshots S env.memPre with
    | none => rw [hv] at hc; cases hc
    | some f1 =>
      rw [hv] at hc
      simp only at hc
      have h1 := h.verify hv
      cases hk : f1.check_pointer_before_free env.memPre ptr with
      | none => rw [hk] at hc; cases hc
      | some f2 =>
        rw [hk] at hc
        cases hc
        have h2 := (h1.check_pointer env.memPre hp hw hk).1
        unfold ShadowHeapFacade.free_post
        simp only [h2.1, Bool.true_eq_false, if_false]
        exact (h2.snapshots env.memPost).mono_tracks (by omega)

theorem realloc_tracks {S : Snapshots σ} {f f' : ShadowHeapFacade σ} {acc : List MALLOC_META}
    {n : Nat} (h : f.Tracks acc n) (hn : n + 2 < 2 ^ 61) {env : Env} {ptr len r : Nat}
    (hpw : ptr < WORD) (hw : env.ret < WORD) (hf : ∀ x ∈ acc, x.ptr ≠ env.ret)
    (hc : realloc S f env ptr len = some (r, f')) :
    f'.Tracks (trackCall acc (.realloc ptr len, env)) (n + 2) := by
  unfold realloc at hc
  unfold trackCall
  by_cases hp : ptr = 0
  · simp only [hp, if_true] at hc ⊢
    exact malloc_tracks h hn hw hf hc
  · simp only [hp, if_false] at hc ⊢
    by_cases hl : len = 0
    · simp only [hl, if_true] at hc ⊢
      exact free_tracks h hpw hc
    · simp only [hl, if_false] at hc ⊢
      unfold ShadowHeapFacade.malloc_pre at hc
      simp only [h.1, Bool.true_eq_false, if_false] at hc
      cases hv : f.verify_snapshots S env.memPre with
      | none => rw [hv] at hc; cases hc
      | some f1 =>
        rw [hv] at hc
        have h1 := h.verify hv
        unfold malloc_memcpy_free_approach ShadowHeapFacade.realloc_mallochandler at hc
        simp only [h1.1, Bool.true_eq_false, if_false] at hc
        by_cases hr : env.ret = 0
        · simp only [hr, if_true] at hc
          cases hc
        · simp only [hr, if_false] at hc
          obtain ⟨f2, g1, g2, _⟩ := h1.store_pointer (by omega) env.memRet hr hw hf
          rw [g1] at hc
          unfold ShadowHeapFacade.realloc_freehandler at hc
          simp only [g2.1, Bool.true_eq_false, if_false] at hc
          cases hk : f2.check_pointer_before_free env.memCopy ptr with
          | none => rw [hk] at hc; cases hc
          | some f3 =>
            rw [hk] at hc
            cases hc
            have h3 := (g2.check_pointer env.memCopy hp hpw hk).1
            unfold ShadowHeapFacade.realloc_post
            simp only [h3.1, Bool.true_eq_false, if_false]
            rw [recorded_eq]
            exact h3.snapshots env.memPost

theorem call_tracks {S : Snapshots σ} {f f' : ShadowHeapFacade σ} {acc : List MALLOC_META}
    {n : Nat} (h : f.Tracks acc n) (hn : n + 2 < 2 ^ 61) {c : Call × Env} {r : Nat}
    (hf : callFresh acc c) (hc : call S f c = some (r, f')) :
    f'.Tracks (trackCall acc c) (n + 2) := by
  obtain ⟨c, env⟩ := c
  cases c with
  | malloc len =>
    exact malloc_tracks h hn hf.1 hf.2 (show malloc S f env len = some (r, f') from hc)
  | calloc cnt len =>
    have he : malloc S f env len = some (r, f') := hc
    exact malloc_tracks h hn hf.1 hf.2 he
  | realloc ptr len => exact realloc_tracks h hn hf.1 hf.2.1 hf.2.2 hc
  | free ptr => exact free_tracks h hf hc

theorem run_tracks {S : Snapshots σ} (cs : List (Call × Env)) :
    ∀ (f f' : ShadowHeapFacade σ) (acc : List MALLOC_META) (n : Nat) (rs : List Nat),
      f.Tracks acc n → n + 2 * cs.length < 2 ^ 61 → Fresh acc cs →
      run S f cs = some (rs, f') → f'.Tracks (tracked acc cs) (n + 2 * cs.length) := by
  induction cs with
  | nil =>
    intro f f' acc n rs h _ _ hr
    simp only [run] at hr
    cases hr
    exact h
  | cons c cs ih =>
    intro f f' acc n rs h hn hf hr
    simp only [List.length_cons] at hn
    simp only [run] at hr
    cases hc : call S f c with
    | none => rw [hc] at hr; cases hr
    | some r1 =>
      rw [hc] at hr
      simp only at hr
      cases hrest : run S r1.2 cs with
      | none => rw [hrest] at hr; cases hr
      | some rest =>
        rw [hrest] at hr
        cases hr
        have h1 := call_tracks h (by omega) hf.1 (show call S f c = some (r1.1, r1.2) from hc)
        have := ih r1.2 rest.2 (trackCall acc c) (n + 2) rest.1 h1 (by omega) hf.2 hrest
        simp only [tracked, List.length_cons]
        have he : n + 2 * (cs.length + 1) = n + 2 + 2 * cs.length := by omega
        rw [he]
        exact this

end ShadowHeapWrapper

/-! ## The store of an initialised facade -/

namespace details
namespace ResizeableHashMap

theorem grow_factor_some (required cap : Nat) (hw : 2 ^ 31 * cap < WORD) :
    ∀ (fuel k factor : Nat), 1 ≤ k → k ≤ 30 →
      grow_factor required fuel (2 ^ k) (2 ^ k * cap) = some factor →
      ∃ j, 1 ≤ j ∧ j ≤ 30 ∧ factor = 2 ^ j := by
  intro fuel
  induction fuel with
  | zero => intro k factor _ _ h; simp [grow_factor] at h
  | succ fuel ih =>
    intro k factor hk1 hk2 h
    unfold grow_factor at h
    by_cases hr : required > 2 ^ k * cap
    · rw [if_pos hr] at h
      by_cases hf : 2 ^ k * 2 < 2 ^ 31
      · rw [if_pos hf] at h
        have hk3 : k + 1 ≤ 30 := by
          by_contra hc
          have : 30 ≤ k := by omega
          have := Nat.pow_le_pow_right (by decide : 1 ≤ 2) this
          omega
        have hlt : 2 ^ k * cap * 2 < WORD := by
          have h1 : 2 ^ (k + 1) ≤ 2 ^ 31 := Nat.pow_le_pow_right (by decide) (by omega)
          have h2 : 2 ^ (k + 1) * cap ≤ 2 ^ 31 * cap := Nat.mul_le_mul_right _ h1
          have h3 : 2 ^ k * cap * 2 = 2 ^ (k + 1) * cap := by rw [pow_succ]; ring
          omega
        have he : (2 ^ k * cap * 2) % WORD = 2 ^ (k + 1) * cap := by
          rw [Nat.mod_eq_of_lt hlt, pow_succ]; ring
        have he2 : 2 ^ k * 2 = 2 ^ (k + 1) := by rw [pow_succ]
        rw [he, he2] at h
        exact ih (k + 1) factor (by omega) hk3 h
      · rw [if_neg hf] at h; cases h
    · rw [if_neg hr] at h
      cases h
      exact ⟨k, hk1, hk2, rfl⟩

/-- A call of `ensure_capacity` that returns keeps the table well formed and its entries,
and grows the table by a factor of at most `2^30`. -/
theorem ensure_capacity_some {m m' : ResizeableHashMap} {required : Nat} (hm : m.WF)
    (hw : 2 ^ 31 * m.capacity < WORD) (h : m.ensure_capacity required = some m') :
    m'.WF ∧ m'.entries.Perm m.entries ∧ m.capacity ≤ m'.capacity ∧
      m'.capacity ≤ 2 ^ 30 * m.capacity := by
  unfold ensure_capacity at h
  simp only at h
  by_cases hr : required ≤ m.capacity
  · rw [if_pos hr] at h
    cases h
    exact ⟨hm, List.Perm.refl _, Nat.le_refl _, Nat.le_mul_of_pos_left _ (Nat.two_pow_pos 30)⟩
  · rw [if_neg hr] at h
    have h2 : (2 * m.capacity) % WORD = 2 ^ 1 * m.capacity := by
      rw [Nat.mod_eq_of_lt (by omega)]; simp
    rw [h2] at h
    cases hg : grow_factor required 31 2 (2 ^ 1 * m.capacity) with
    | none => rw [hg] at h; cases h
    | some factor =>
      rw [hg] at h
      cases h
      obtain ⟨j, hj1, hj2, rfl⟩ :=
        grow_factor_some required m.capacity hw 31 1 factor (Nat.le_refl _) (by omega) hg
      have hpow : 2 ^ j ≤ 2 ^ 30 := Nat.pow_le_pow_right (by decide) hj2
      have hcap := capacity_eq m
      have hfit : 2 ^ j * m.bins.length < WORD := by
        have : 2 ^ j * m.bins.length ≤ 2 ^ 31 * m.capacity := by
          rw [hcap]
          calc 2 ^ j * m.bins.length ≤ 2 ^ 30 * m.bins.length := Nat.mul_le_mul_right _ hpow
            _ ≤ 2 ^ 31 * (m.bins.length * 4) := by omega
        omega
      obtain ⟨s1, s2, s3⟩ := reserve_double_spec hm (by omega : 0 < j) hfit
      refine ⟨s1, s3, ?_, ?_⟩
      · rw [capacity_eq (m.reserve_double (2 ^ j)), s2, hcap]
        have : 1 ≤ 2 ^ j := Nat.one_le_two_pow
        calc m.bins.length * 4 = 1 * (m.bins.length * 4) := by omega
          _ ≤ 2 ^ j * (m.bins.length * 4) := Nat.mul_le_mul_right _ this
          _ = 2 ^ j * m.bins.length * 4 := by ring
      · rw [capacity_eq (m.reserve_double (2 ^ j)), s2, hcap]
        calc 2 ^ j * m.bins.length * 4 = 2 ^ j * (m.bins.length * 4) := by ring
          _ ≤ 2 ^ 30 * (m.bins.length * 4) := Nat.mul_le_mul_right _ hpow

end ResizeableHashMap
end details

namespace CachedMetaStore

/-- A call of `reserve` that returns keeps the store well formed and its entries. -/
theorem reserve_some {s s' : CachedMetaStore} {request : Nat} (hs : s.WF)
    (hw : 2 ^ 31 * s.capacity < WORD) (h : s.reserve request = some s') :
    s'.WF ∧ s'.entries.Perm s.entries ∧ s'.capacity ≤ 2 ^ 30 * s.capacity := by
  unfold reserve at h
  cases he : s.cache.ensure_capacity request with
  | none => rw [he] at h; cases h
  | some cache =>
    rw [he] at h
    cases h
    obtain ⟨h1, h2, h3, h4, h5, h6⟩ := hs
    obtain ⟨e1, e2, e3, e4⟩ := details.ResizeableHashMap.ensure_capacity_some h1 hw he
    have hp : (cache.entries ++ s.fallback_store.entries).Perm
        (s.cache.entries ++ s.fallback_store.entries) := e2.append_right _
    refine ⟨⟨e1, h2, KeysOk.perm hp.symm h3, ?_, ?_, ?_⟩, hp, e4⟩
    · show s.cache_entries = cache.entries.length
      rw [h4, e2.length_eq]
    · show (cache.entries ++ s.fallback_store.entries).length ≤ cache.capacity
      rw [hp.length_eq]
      exact Nat.le_trans h5 e3
    · show cache.capacity < WORD
      have : cache.capacity ≤ 2 ^ 30 * s.cache.capacity := e4
      have : 2 ^ 31 * s.cache.capacity < WORD := hw
      omega

end CachedMetaStore

/-- The store of an initialised facade is well formed, holds no entry, and the capacity of
its cache is at most `2^37`. -/
theorem ShadowHeapData.ensure_initialized_spec {s0 s : IMetaStore} {capacity : Nat}
    (h0 : s0 ∈ IMetaStore.initial) (h : ShadowHeapData.ensure_initialized s0 capacity = some s) :
    s.WF ∧ s.entries = [] ∧ s.cap ≤ 2 ^ 37 := by
  obtain ⟨hwf, hb, hent⟩ := IMetaStore.initial_WF h0
  have hcap0 : s0.cap ≤ 2 ^ 37 := Nat.le_trans hb.1 (by decide)
  unfold ShadowHeapData.ensure_initialized at h
  by_cases hc : capacity ≠ 0
  · rw [if_pos hc] at h
    cases s0 with
    | cached c =>
      simp only [IMetaStore.reserve] at h
      cases hr : c.reserve capacity with
      | none => rw [hr] at h; cases h
      | some c' =>
        rw [hr] at h
        cases h
        have hc128 : c.capacity ≤ 128 := by simpa [IMetaStore.cap] using hb.1
        obtain ⟨r1, r2, r3⟩ := CachedMetaStore.reserve_some (s := c) hwf
          (by unfold WORD; omega) hr
        refine ⟨r1, ?_, ?_⟩
        · have : c.entries = [] := hent
          rw [this] at r2
          exact List.Perm.eq_nil r2
        · show c'.capacity ≤ 2 ^ 37
          omega
    | vector c => cases h; exact ⟨hwf, hent, hcap0⟩
    | map c => cases h; exact ⟨hwf, hent, hcap0⟩
    | unordered c => cases h; exact ⟨hwf, hent, hcap0⟩
    | hash c => cases h; exact ⟨hwf, hent, hcap0⟩
  · rw [if_neg hc] at h
    cases h
    exact ⟨hwf, hent, hcap0⟩

/-! ## Claims -/

/-- C1. With pointer checks enabled, for every non-null user pointer `p`, every state of the
store and every memory content: `check_pointer_before_free(p)` aborts exactly when the
store's entry for `p` is not ptr-size-equal to `(p, header size word)`. On a well-formed
store that is the case exactly when no entry is stored for `p` or its stripped size differs
from the header's; and when the call does not abort, `p`'s entry is gone, `size()` has
dropped by one, the entry of every other pointer is untouched and the rest of the facade is
unchanged. -/
theorem C1_check_pointer_before_free {σ : Type} (f : ShadowHeapFacade σ) (mem : Memory)
    (p : Nat) (hm : f.modes.ptrMode = true) (hp : p ≠ 0) (hw : p < WORD) :
    (f.check_pointer_before_free mem p = none ↔
      (f.store.get p).equals_ptr_size ⟨p, CHUNK_HEADER.size_at mem p⟩ = false) ∧
    (f.store.WF →
      ((f.store.get p).equals_ptr_size ⟨p, CHUNK_HEADER.size_at mem p⟩ = false ↔
        (¬ f.store.holds p ∨
          (f.store.get p).chunksize ≠
            MALLOC_META.chunksize ⟨p, CHUNK_HEADER.size_at mem p⟩)) ∧
      (∀ f', f.check_pointer_before_free mem p = some f' →
        ¬ f'.store.holds p ∧ f'.store.get p = MALLOC_META.empty ∧
        f'.store.size + 1 = f.store.size ∧ (∀ k, k ≠ p → f'.store.get k = f.store.get k) ∧
        f'.isInitialized = f.isInitialized ∧ f'.modes = f.modes ∧ f'.shadow = f.shadow)) := by
  obtain ⟨c1, c2⟩ := ShadowHeapFacade.check_pointer_cases f mem hm hp hw
  refine ⟨c1, fun hs => ⟨?_, ?_⟩⟩
  · rw [← Bool.not_eq_true, MALLOC_META.equals_ptr_size_iff]
    by_cases hh : f.store.holds p
    · have hptr := (IMetaStore.get_ptr_of_holds hs hh).1
      simp only [hptr, true_and]
      constructor
      · intro h; exact Or.inr h
      · rintro (h | h)
        · exact absurd hh h
        · exact h
    · rw [IMetaStore.get_of_not_holds hs hh]
      constructor
      · intro _; exact Or.inl hh
      · intro _ hc
        exact hp hc.1.symm
  · intro f' hc
    by_cases heq : (f.store.get p).equals_ptr_size ⟨p, CHUNK_HEADER.size_at mem p⟩ = true
    · obtain ⟨c3, c4⟩ := c2 heq
      rw [c3] at hc
      cases hc
      obtain ⟨x, hx, hxp, _, g2, g3, g5, g6, g7, _⟩ :=
        IMetaStore.remove_effects (e := ⟨p, CHUNK_HEADER.size_at mem p⟩) hs hp c4
      refine ⟨?_, g5, g6, g7, rfl, rfl, rfl⟩
      rintro ⟨y, hy, hyp⟩
      have hko := KeysOk.tail (KeysOk.perm g3 (IMetaStore.keysOk hs))
      exact hko.2.2 y hy (hyp.trans hxp.symm)
    · have heq2 : (f.store.get p).equals_ptr_size ⟨p, CHUNK_HEADER.size_at mem p⟩ = false := by
        simpa using heq
      rw [c1.2 heq2] at hc
      cases hc

/-- Witness for C1: the pointer `4096` with header size word `0x21`, stored with the size
word `0x20`; the store is well formed and the call does not abort. -/
theorem C1_witness :
    (exampleFacade (.vector ⟨[⟨4096, 32⟩]⟩)).modes.ptrMode = true ∧
    (4096 : Nat) ≠ 0 ∧ 4096 < WORD ∧
    (exampleFacade (.vector ⟨[⟨4096, 32⟩]⟩)).store.WF ∧
    ((exampleFacade (.vector ⟨[⟨4096, 32⟩]⟩)).check_pointer_before_free
        exampleMemory 4096).isSome = true ∧
    (((exampleFacade (.vector ⟨[⟨4096, 32⟩]⟩)).check_pointer_before_free exampleMemory 4096
        = none ↔
      ((exampleFacade (.vector ⟨[⟨4096, 32⟩]⟩)).store.get 4096).equals_ptr_size
        ⟨4096, CHUNK_HEADER.size_at exampleMemory 4096⟩ = false) ∧
    ((exampleFacade (.vector ⟨[⟨4096, 32⟩]⟩)).store.WF →
      (((exampleFacade (.vector ⟨[⟨4096, 32⟩]⟩)).store.get 4096).equals_ptr_size
          ⟨4096, CHUNK_HEADER.size_at exampleMemory 4096⟩ = false ↔
        (¬ (exampleFacade (.vector ⟨[⟨4096, 32⟩]⟩)).store.holds 4096 ∨
          ((exampleFacade (.vector ⟨[⟨4096, 32⟩]⟩)).store.get 4096).chunksize ≠
            MALLOC_META.chunksize ⟨4096, CHUNK_HEADER.size_at exampleMemory 4096⟩)) ∧
      (∀ f', (exampleFacade (.vector ⟨[⟨4096, 32⟩]⟩)).check_pointer_before_free
          exampleMemory 4096 = some f' →
        ¬ f'.store.holds 4096 ∧ f'.store.get 4096 = MALLOC_META.empty ∧
        f'.store.size + 1 = (exampleFacade (.vector ⟨[⟨4096, 32⟩]⟩)).store.size ∧
        (∀ k, k ≠ 4096 →
          f'.store.get k = (exampleFacade (.vector ⟨[⟨4096, 32⟩]⟩)).store.get k) ∧
        f'.isInitialized = (exampleFacade (.vector ⟨[⟨4096, 32⟩]⟩)).isInitialized ∧
        f'.modes = (exampleFacade (.vector ⟨[⟨4096, 32⟩]⟩)).modes ∧
        f'.shadow = (exampleFacade (.vector ⟨[⟨4096, 32⟩]⟩)).shadow))) :=
  ⟨rfl, by decide, by decide,
    by simp [exampleFacade, IMetaStore.WF, VectorMetaStore.WF, KeysOk], by decide,
    C1_check_pointer_before_free (exampleFacade (.vector ⟨[⟨4096, 32⟩]⟩)) exampleMemory 4096
      rfl (by decide) (by decide)⟩

/-- C2. With pointer checks enabled and the facade initialised (its store is the freshly
constructed store, reserved to the configured initial size), and assuming that the raw
allocator never returns a pointer that is live: after every sequence of intercepted
`malloc`/`calloc`/`realloc`/`free` calls that does not abort, the store holds exactly the
live allocations - one entry for each non-null pointer returned by an intercepted call and
not freed or reallocated since, whose size word is the header's size word right after the
allocating call, and nothing else - so `get` answers from that list and `size()` is its
length. -/
theorem C2_store_mirrors_live_allocations {σ : Type} (S : Snapshots σ)
    (s0 : IMetaStore) (capacity : Nat) (f0 f : ShadowHeapFacade σ)
    (calls : List (Call × Env)) (rets : List Nat)
    (hi : f0.isInitialized = true) (hm : f0.modes.ptrMode = true)
    (hs0 : s0 ∈ IMetaStore.initial)
    (h0 : ShadowHeapData.ensure_initialized s0 capacity = some f0.store)
    (hlen : calls.length < 2 ^ 59)
    (hfresh : Fresh [] calls) (hrun : ShadowHeapWrapper.run S f0 calls = some (rets, f)) :
    f.store.entries.Perm (tracked [] calls) ∧ KeysOk (tracked [] calls) ∧
      (∀ p, f.store.get p = lookup (tracked [] calls) p) ∧
      f.store.size = (tracked [] calls).length := by
  obtain ⟨hwf, hent, hcap⟩ := ShadowHeapData.ensure_initialized_spec hs0 h0
  have ht0 : f0.Tracks [] (2 ^ 36) :=
    ⟨hi, hm, hwf, ⟨by omega, by rw [hent]; exact Nat.zero_le _⟩, by rw [hent]⟩
  have ht := ShadowHeapWrapper.run_tracks calls f0 f [] (2 ^ 36) rets ht0 (by omega) hfresh hrun
  obtain ⟨_, _, t3, _, t5⟩ := ht
  have hko := IMetaStore.keysOk t3
  refine ⟨t5, KeysOk.perm t5 hko, fun p => ?_, ?_⟩
  · rw [IMetaStore.get_eq_lookup t3, lookup_perm t5 hko.1]
  · rw [IMetaStore.size_eq t3.inv, t5.length_eq]

set_option maxRecDepth 100000 in
/-- Witness for C2: the facade initialised with the initial size 200 on the cached store;
the example sequence does not abort and leaves the single live allocation `12288` with its
header's size word `0x31`. -/
theorem C2_witness :
    (exampleFacade exampleStore).isInitialized = true ∧
    (exampleFacade exampleStore).modes.ptrMode = true ∧
    IMetaStore.cached CachedMetaStore.init ∈ IMetaStore.initial ∧
    ShadowHeapData.ensure_initialized (.cached CachedMetaStore.init) 200 =
      some (exampleFacade exampleStore).store ∧
    exampleCalls.length < 2 ^ 59 ∧ Fresh [] exampleCalls ∧
    tracked [] exampleCalls = [⟨12288, 49⟩] ∧
    ∃ rets f, ShadowHeapWrapper.run Snapshots.none
        (exampleFacade exampleStore) exampleCalls = some (rets, f) ∧
      f.store.entries.Perm (tracked [] exampleCalls) ∧ KeysOk (tracked [] exampleCalls) ∧
      (∀ p, f.store.get p = lookup (tracked [] exampleCalls) p) ∧
      f.store.size = (tracked [] exampleCalls).length := by
  have hfresh : Fresh [] exampleCalls := by
    simp [Fresh, callFresh, trackCall, exampleCalls, exampleEnv, recorded, WORD]
  have hinit : ShadowHeapData.ensure_initialized (.cached CachedMetaStore.init) 200 =
      some (exampleFacade exampleStore).store := by decide
  refine ⟨rfl, rfl, by decide, hinit, by decide, hfresh, by decide, ?_⟩
  cases hrun : ShadowHeapWrapper.run Snapshots.none (exampleFacade exampleStore)
      exampleCalls with
  | none =>
    have hsome : (ShadowHeapWrapper.run Snapshots.none
      (exampleFacade exampleStore) exampleCalls).isSome = true := by decide
    rw [hrun] at hsome
    cases hsome
  | some r =>
    exact ⟨r.1, r.2, rfl,
      C2_store_mirrors_live_allocations Snapshots.none (.cached CachedMetaStore.init) 200
        (exampleFacade exampleStore) r.2 exampleCalls r.1 rfl rfl
        (by decide) hinit (by decide) hfresh hrun⟩

/-- C3. Round trip on every back-end: on a well-formed store, for an entry `c` with non-null
pointer that is not stored yet, `put(c)` returns true and `get(c.ptr)` then returns exactly
`c`; `remove(c)` then returns true, and after any `remove` of that pointer that returns
true, `get(c.ptr)` returns the empty entry `{null, 0}`; `get` of a pointer at which nothing
is stored returns the empty entry. -/
theorem C3_put_get_remove_roundtrip (s : IMetaStore) (c : MALLOC_META) (hs : s.WF)
    (hg : s.Growable) (hc : c.ptr ≠ 0) (hn : ¬ s.holds c.ptr) :
    ∃ s1, s.put c = some (true, s1) ∧ s1.get c.ptr = c ∧
      (s1.remove c).1 = true ∧
      (∀ e, e.ptr = c.ptr → (s1.remove e).1 = true →
        (s1.remove e).2.get c.ptr = MALLOC_META.empty) ∧
      (∀ k, ¬ s.holds k → s.get k = MALLOC_META.empty) := by
  obtain ⟨s1, h1, h2, h3, h4, _⟩ := IMetaStore.put_effects hs hg hc hn
  refine ⟨s1, h1, h4, ?_, ?_, fun k hk => IMetaStore.get_of_not_holds hs hk⟩
  · exact (IMetaStore.remove_ok h2 (h3.mem_iff.2 (List.mem_cons_self _ _)) rfl rfl).1
  · intro e hp hr
    obtain ⟨_, _, _, _, _, _, h5, _⟩ := IMetaStore.remove_effects h2 (hp ▸ hc) hr
    rw [hp] at h5
    exact h5

/-- Witness for C3 on the freshly constructed cached store and the entry `{1234, 17}`. -/
theorem C3_witness :
    (IMetaStore.cached CachedMetaStore.init).WF ∧
    (IMetaStore.cached CachedMetaStore.init).Growable ∧
    (⟨1234, 17⟩ : MALLOC_META).ptr ≠ 0 ∧
    ¬ (IMetaStore.cached CachedMetaStore.init).holds (⟨1234, 17⟩ : MALLOC_META).ptr ∧
    ∃ s1, (IMetaStore.cached CachedMetaStore.init).put ⟨1234, 17⟩ = some (true, s1) ∧
      s1.get (⟨1234, 17⟩ : MALLOC_META).ptr = ⟨1234, 17⟩ ∧
      (s1.remove ⟨1234, 17⟩).1 = true ∧
      (∀ e, e.ptr = (⟨1234, 17⟩ : MALLOC_META).ptr → (s1.remove e).1 = true →
        (s1.remove e).2.get (⟨1234, 17⟩ : MALLOC_META).ptr = MALLOC_META.empty) ∧
      (∀ k, ¬ (IMetaStore.cached CachedMetaStore.init).holds k →
        (IMetaStore.cached CachedMetaStore.init).get k = MALLOC_META.empty) :=
  ⟨CachedMetaStore.cached_WF_init, by unfold IMetaStore.Growable CachedMetaStore.Growable; decide,
    by decide, by unfold IMetaStore.holds; decide,
    C3_put_get_remove_roundtrip (IMetaStore.cached CachedMetaStore.init) ⟨1234, 17⟩
      CachedMetaStore.cached_WF_init (by unfold IMetaStore.Growable CachedMetaStore.Growable; decide)
      (by decide) (by unfold IMetaStore.holds; decide)⟩

/-- C4. On every back-end, in the store built from the empty store by `put` calls with
pairwise different non-null pointers, `remove(e)` for an entry with non-null pointer returns
true exactly when one of the entries put has the pointer of `e` and the same size with the
three flag bits stripped; a `remove` that returns false leaves the store unchanged. Flag
bits are ignored: after `put({p, sz | PREV_INUSE})`, `remove({p, sz})` returns true, while
`remove` with a size word whose stripped size differs from the stored one returns false. -/
theorem C4_remove_compares_stripped_size (s0 : IMetaStore) (h0 : s0 ∈ IMetaStore.initial)
    (l : List MALLOC_META) (hl : KeysOk l) (hlen : l.length < 2 ^ 61) :
    ∃ rs s, s0.run (l.map Op.put) = some (rs, s) ∧
      (∀ e : MALLOC_META, e.ptr ≠ 0 →
        ((s.remove e).1 = true ↔ ∃ x ∈ l, x.ptr = e.ptr ∧ x.chunksize = e.chunksize) ∧
        ((s.remove e).1 = false → (s.remove e).2 = s)) ∧
      (∀ p sz, (⟨p, sz ||| PREV_INUSE⟩ : MALLOC_META) ∈ l → (s.remove ⟨p, sz⟩).1 = true) ∧
      (∀ x ∈ l, ∀ sz, MALLOC_META.chunksize ⟨x.ptr, sz⟩ ≠ x.chunksize →
        (s.remove ⟨x.ptr, sz⟩).1 = false) := by
  obtain ⟨hwf, hb, hent⟩ := IMetaStore.initial_WF h0
  obtain ⟨rs, s, h1, h2, _, h4, _⟩ := IMetaStore.puts_spec l 0 s0 hwf hb (by omega)
    (by rw [hent, List.append_nil]; exact hl)
  rw [hent, List.append_nil] at h4
  refine ⟨rs, s, h1, fun e he => ⟨⟨fun hr => ?_, fun hx => ?_⟩, fun hr => ?_⟩,
    fun p sz hx => ?_, fun x hx sz hne => ?_⟩
  · obtain ⟨x, hx, hp, hc, _⟩ := IMetaStore.remove_effects h2 he hr
    exact ⟨x, h4.mem_iff.1 hx, hp, hc⟩
  · obtain ⟨x, hx, hp, hc⟩ := hx
    exact (IMetaStore.remove_ok h2 (h4.mem_iff.2 hx) hp hc).1
  · rw [IMetaStore.remove_false h2 he hr]
  · exact (IMetaStore.remove_ok (e := ⟨p, sz⟩) h2 (h4.mem_iff.2 hx) rfl
      (MALLOC_META.chunksize_or_prev_inuse p sz)).1
  · cases hr : (s.remove ⟨x.ptr, sz⟩).1 with
    | false => rfl
    | true =>
      obtain ⟨y, hy, hp, hc, _⟩ :=
        IMetaStore.remove_effects (e := ⟨x.ptr, sz⟩) h2 (hl.2 x hx) hr
      have hyx : y = x := eq_of_mem_of_ptr_eq hl.1 (h4.mem_iff.1 hy) hx hp
      rw [hyx] at hc
      exact absurd hc.symm hne

/-- Witness for C4: the cached store built by `put({4321, 130 | PREV_INUSE})`. -/
theorem C4_witness :
    IMetaStore.cached CachedMetaStore.init ∈ IMetaStore.initial ∧
    KeysOk [⟨4321, 130 ||| PREV_INUSE⟩] ∧
    [(⟨4321, 130 ||| PREV_INUSE⟩ : MALLOC_META)].length < 2 ^ 61 ∧
    ∃ rs s, (IMetaStore.cached CachedMetaStore.init).run
        ([(⟨4321, 130 ||| PREV_INUSE⟩ : MALLOC_META)].map Op.put) = some (rs, s) ∧
      (∀ e : MALLOC_META, e.ptr ≠ 0 →
        ((s.remove e).1 = true ↔
          ∃ x ∈ [(⟨4321, 130 ||| PREV_INUSE⟩ : MALLOC_META)],
            x.ptr = e.ptr ∧ x.chunksize = e.chunksize) ∧
        ((s.remove e).1 = false → (s.remove e).2 = s)) ∧
      (∀ p sz, (⟨p, sz ||| PREV_INUSE⟩ : MALLOC_META) ∈
          [(⟨4321, 130 ||| PREV_INUSE⟩ : MALLOC_META)] → (s.remove ⟨p, sz⟩).1 = true) ∧
      (∀ x ∈ [(⟨4321, 130 ||| PREV_INUSE⟩ : MALLOC_META)], ∀ sz,
        MALLOC_META.chunksize ⟨x.ptr, sz⟩ ≠ x.chunksize →
        (s.remove ⟨x.ptr, sz⟩).1 = false) :=
  ⟨by decide, by unfold KeysOk; decide, by decide,
    C4_remove_compares_stripped_size (IMetaStore.cached CachedMetaStore.init) (by decide)
      [⟨4321, 130 ||| PREV_INUSE⟩] (by unfold KeysOk; decide) (by decide)⟩

/-- C5. On every back-end, every sequence of `put`/`remove`/`update` calls with non-null
keys that starts from the empty store runs to completion, and afterwards `size()` plus the
number of `remove` calls that returned true equals the number of `put` calls that returned
true; from the store so reached, any further call changes `size()` by `+1` if it is a `put`
that returns true, by `-1` if it is a `remove` that returns true, and not at all
otherwise (failed calls and `update`). -/
theorem C5_size_counts_successes (s0 : IMetaStore) (h0 : s0 ∈ IMetaStore.initial)
    (ops : List Op) (hk : ∀ o ∈ ops, o.entry.ptr ≠ 0) (hlen : ops.length < 2 ^ 61) :
    ∃ rs s, s0.run ops = some (rs, s) ∧
      s.size + okCount Op.isRemove ops rs = okCount Op.isPut ops rs ∧
      ∀ o : Op, o.entry.ptr ≠ 0 → ∃ r s', s.step o = some (r, s') ∧
        s'.size + (if (o.isRemove && r) = true then 1 else 0) =
          s.size + (if (o.isPut && r) = true then 1 else 0) := by
  obtain ⟨hwf, hb, hent⟩ := IMetaStore.initial_WF h0
  obtain ⟨rs, s, h1, h2, h3, h4⟩ := IMetaStore.run_inv ops 0 s0 hwf.inv hb (by omega) hk
  refine ⟨rs, s, h1, ?_, fun o ho => ?_⟩
  · rw [IMetaStore.size_eq h2, h4, hent]; simp
  · obtain ⟨r, s', g1, g2, g3, _⟩ := IMetaStore.step_inv (o := o) h2
      (h3.growable (by omega)) ho
    exact ⟨r, s', g1, by rw [IMetaStore.size_eq g2, IMetaStore.size_eq h2]; exact g3⟩

/-- Witness for C5: on the cached store, `put({1234, 17})`, `put({1234, 17})`,
`update({1234, 25})`, `remove({1234, 25})`. -/
theorem C5_witness :
    IMetaStore.cached CachedMetaStore.init ∈ IMetaStore.initial ∧
    (∀ o ∈ [Op.put ⟨1234, 17⟩, Op.put ⟨1234, 17⟩, Op.update ⟨1234, 25⟩, Op.remove ⟨1234, 25⟩],
      o.entry.ptr ≠ 0) ∧
    [Op.put ⟨1234, 17⟩, Op.put ⟨1234, 17⟩, Op.update ⟨1234, 25⟩,
      Op.remove ⟨1234, 25⟩].length < 2 ^ 61 ∧
    ∃ rs s, (IMetaStore.cached CachedMetaStore.init).run
        [Op.put ⟨1234, 17⟩, Op.put ⟨1234, 17⟩, Op.update ⟨1234, 25⟩, Op.remove ⟨1234, 25⟩] =
          some (rs, s) ∧
      s.size + okCount Op.isRemove
          [Op.put ⟨1234, 17⟩, Op.put ⟨1234, 17⟩, Op.update ⟨1234, 25⟩, Op.remove ⟨1234, 25⟩] rs =
        okCount Op.isPut
          [Op.put ⟨1234, 17⟩, Op.put ⟨1234, 17⟩, Op.update ⟨1234, 25⟩, Op.remove ⟨1234, 25⟩] rs ∧
      ∀ o : Op, o.entry.ptr ≠ 0 → ∃ r s', s.step o = some (r, s') ∧
        s'.size + (if (o.isRemove && r) = true then 1 else 0) =
          s.size + (if (o.isPut && r) = true then 1 else 0) :=
  ⟨by decide, by decide, by decide,
    C5_size_counts_successes (IMetaStore.cached CachedMetaStore.init) (by decide)
      [Op.put ⟨1234, 17⟩, Op.put ⟨1234, 17⟩, Op.update ⟨1234, 25⟩, Op.remove ⟨1234, 25⟩]
      (by decide) (by decide)⟩

/-- C6. `VectorMetaStore`, `MapMetaStore`, `UnorderedMapMetaStore` and `HashMetaStore`:
`put(e)` returns true and inserts `e` (afterwards `get(e.ptr)` is `e`, `size()` is one
larger, every other pointer is unaffected) if `e.ptr` is non-null and nothing is stored at
`e.ptr`; otherwise it returns false and the store is unchanged. -/
theorem C6_put_contract (s : IMetaStore) (e : MALLOC_META) (hs : s.WF)
    (hk : s.isCached = false) :
    (e.ptr ≠ 0 → ¬ s.holds e.ptr →
      ∃ s', s.put e = some (true, s') ∧ s'.get e.ptr = e ∧ s'.size = s.size + 1 ∧
        ∀ k, k ≠ e.ptr → s'.get k = s.get k) ∧
    ((e.ptr = 0 ∨ s.holds e.ptr) → s.put e = some (false, s)) := by
  have hg : s.Growable := by
    cases s with
    | cached c => cases hk
    | vector c => trivial
    | map c => trivial
    | unordered c => trivial
    | hash c => trivial
  refine ⟨fun he hn => ?_, fun h => ?_⟩
  · obtain ⟨s', h1, _, _, h4, h5, h6, _⟩ := IMetaStore.put_effects hs hg he hn
    exact ⟨s', h1, h4, h5, h6⟩
  · cases s with
    | cached c => cases hk
    | vector c => simp only [IMetaStore.put, VectorMetaStore.vector_put_rej h]
    | map c => simp only [IMetaStore.put, MapMetaStore.map_put_rej hs h]
    | unordered c => simp only [IMetaStore.put, UnorderedMapMetaStore.unordered_put_rej hs h]
    | hash c => simp only [IMetaStore.put, HashMetaStore.hash_put_rej h]

/-- Witness for C6 on the empty `VectorMetaStore` and the entry `{1234, 17}`. -/
theorem C6_witness :
    (IMetaStore.vector VectorMetaStore.init).WF ∧
    (IMetaStore.vector VectorMetaStore.init).isCached = false ∧
    (((⟨1234, 17⟩ : MALLOC_META).ptr ≠ 0 →
      ¬ (IMetaStore.vector VectorMetaStore.init).holds (⟨1234, 17⟩ : MALLOC_META).ptr →
      ∃ s', (IMetaStore.vector VectorMetaStore.init).put ⟨1234, 17⟩ = some (true, s') ∧
        s'.get (⟨1234, 17⟩ : MALLOC_META).ptr = ⟨1234, 17⟩ ∧
        s'.size = (IMetaStore.vector VectorMetaStore.init).size + 1 ∧
        ∀ k, k ≠ (⟨1234, 17⟩ : MALLOC_META).ptr →
          s'.get k = (IMetaStore.vector VectorMetaStore.init).get k) ∧
    (((⟨1234, 17⟩ : MALLOC_META).ptr = 0 ∨
        (IMetaStore.vector VectorMetaStore.init).holds (⟨1234, 17⟩ : MALLOC_META).ptr) →
      (IMetaStore.vector VectorMetaStore.init).put ⟨1234, 17⟩ =
        some (false, IMetaStore.vector VectorMetaStore.init))) :=
  ⟨VectorMetaStore.vector_WF_init, rfl,
    C6_put_contract (IMetaStore.vector VectorMetaStore.init) ⟨1234, 17⟩
      VectorMetaStore.vector_WF_init rfl⟩

/-- C7 (evaluation at the failing input). On the freshly constructed `CachedMetaStore`,
`put({1234, 17})` twice returns true both times and leaves `size() = 2`, and
`put({null, 5})` returns true and leaves `size() = 1`. -/
theorem C7_cached_put_takes_stored_and_null_pointer :
    ((CachedMetaStore.init.put ⟨1234, 17⟩).bind (fun r => r.2.put ⟨1234, 17⟩)).map
        (fun r => (r.1, r.2.size)) = some (true, 2) ∧
    (CachedMetaStore.init.put ⟨0, 5⟩).map (fun r => (r.1, r.2.size)) = some (true, 1) := by
  decide

/-- C8 (counterexample). In a `VectorMetaStore` holding `{8, 129}` (built by `put`),
`update({8, 130})` returns true and `get(8)` is then `{8, 130}`, yet a later `remove` with
the old size word, `{8, 129}`, does not fail: it returns true. -/
theorem C8_counterexample :
    (IMetaStore.vector VectorMetaStore.init).put ⟨8, 129⟩ =
      some (true, IMetaStore.vector ⟨[⟨8, 129⟩]⟩) ∧
    ((IMetaStore.vector ⟨[⟨8, 129⟩]⟩).update ⟨8, 130⟩).1 = true ∧
    ((IMetaStore.vector ⟨[⟨8, 129⟩]⟩).update ⟨8, 130⟩).2.get 8 = ⟨8, 130⟩ ∧
    (((IMetaStore.vector ⟨[⟨8, 129⟩]⟩).update ⟨8, 130⟩).2.remove ⟨8, 129⟩).1 = true := by
  decide

/-- C8 (amended). On every back-end and every well-formed store: whenever `update(e)`
returns true, `get(e.ptr)` afterwards returns exactly `e` (full raw size word), `size()` is
unchanged, the entry of every other pointer is unchanged, a later `remove(e)` succeeds, and
a later `remove` with a size word whose stripped size differs from that of `e` fails. -/
theorem C8_update_overwrites_full_word (s : IMetaStore) (e : MALLOC_META) (hs : s.WF)
    (hr : (s.update e).1 = true) :
    (s.update e).2.get e.ptr = e ∧ (s.update e).2.size = s.size ∧
      (∀ k, k ≠ e.ptr → (s.update e).2.get k = s.get k) ∧
      ((s.update e).2.remove e).1 = true ∧
      (∀ sz, MALLOC_META.chunksize ⟨e.ptr, sz⟩ ≠ e.chunksize →
        ((s.update e).2.remove ⟨e.ptr, sz⟩).1 = false) := by
  by_cases he : e.ptr = 0
  · cases s with
    | cached c => exact CachedMetaStore.update_null hs he hr
    | vector c =>
      rw [IMetaStore.update_null_false hs he (fun c h => by cases h)] at hr; cases hr
    | map c =>
      rw [IMetaStore.update_null_false hs he (fun c h => by cases h)] at hr; cases hr
    | unordered c =>
      rw [IMetaStore.update_null_false hs he (fun c h => by cases h)] at hr; cases hr
    | hash c =>
      rw [IMetaStore.update_null_false hs he (fun c h => by cases h)] at hr; cases hr
  · obtain ⟨h1, h2, h3, h4, h5, _⟩ := IMetaStore.update_effects hs he hr
    refine ⟨h2, h3, h4, (IMetaStore.remove_ok h1 h5 rfl rfl).1, fun sz hsz => ?_⟩
    rw [IMetaStore.remove_rej h1 (e := ⟨e.ptr, sz⟩) he (fun x hx hp hc => by
      have hxe : x = e := eq_of_mem_of_ptr_eq (IMetaStore.keysOk h1).1 hx h5 hp
      rw [hxe] at hc
      exact hsz hc.symm)]

/-- Witness for C8: `update({8, 130})` on a `VectorMetaStore` holding `{8, 129}`. -/
theorem C8_witness :
    (IMetaStore.vector ⟨[⟨8, 129⟩]⟩).WF ∧
    ((IMetaStore.vector ⟨[⟨8, 129⟩]⟩).update ⟨8, 130⟩).1 = true ∧
    (((IMetaStore.vector ⟨[⟨8, 129⟩]⟩).update ⟨8, 130⟩).2.get (⟨8, 130⟩ : MALLOC_META).ptr
        = ⟨8, 130⟩ ∧
      ((IMetaStore.vector ⟨[⟨8, 129⟩]⟩).update ⟨8, 130⟩).2.size
        = (IMetaStore.vector ⟨[⟨8, 129⟩]⟩).size ∧
      (∀ k, k ≠ (⟨8, 130⟩ : MALLOC_META).ptr →
        ((IMetaStore.vector ⟨[⟨8, 129⟩]⟩).update ⟨8, 130⟩).2.get k
          = (IMetaStore.vector ⟨[⟨8, 129⟩]⟩).get k) ∧
      (((IMetaStore.vector ⟨[⟨8, 129⟩]⟩).update ⟨8, 130⟩).2.remove ⟨8, 130⟩).1 = true ∧
      (∀ sz, MALLOC_META.chunksize ⟨(⟨8, 130⟩ : MALLOC_META).ptr, sz⟩
          ≠ (⟨8, 130⟩ : MALLOC_META).chunksize →
        (((IMetaStore.vector ⟨[⟨8, 129⟩]⟩).update ⟨8, 130⟩).2.remove
          ⟨(⟨8, 130⟩ : MALLOC_META).ptr, sz⟩).1 = false)) :=
  ⟨by simp [IMetaStore.WF, VectorMetaStore.WF, KeysOk], by decide,
    C8_update_overwrites_full_word (IMetaStore.vector ⟨[⟨8, 129⟩]⟩) ⟨8, 130⟩
      (by simp [IMetaStore.WF, VectorMetaStore.WF, KeysOk]) (by decide)⟩

/-- C9 (counterexample). A `VectorMetaStore` holding `{8, 0}` (built by `put`) has an entry
at pointer 8, yet `update({8, 16})` returns false; and on the freshly constructed
`CachedMetaStore`, which holds no entry, `update({null, 5})` returns true and changes the
store. -/
theorem C9_counterexample :
    (IMetaStore.vector VectorMetaStore.init).put ⟨8, 0⟩ =
      some (true, IMetaStore.vector ⟨[⟨8, 0⟩]⟩) ∧
    (IMetaStore.vector ⟨[⟨8, 0⟩]⟩).get 8 = ⟨8, 0⟩ ∧
    ((IMetaStore.vector ⟨[⟨8, 0⟩]⟩).update ⟨8, 16⟩).1 = false ∧
    (IMetaStore.cached CachedMetaStore.init).entries = [] ∧
    ((IMetaStore.cached CachedMetaStore.init).update ⟨0, 5⟩).1 = true ∧
    ((IMetaStore.cached CachedMetaStore.init).update ⟨0, 5⟩).2 ≠
      IMetaStore.cached CachedMetaStore.init := by
  decide

/-- C9 (amended). On every back-end, every well-formed store and every entry `e` with
non-null pointer: `update(e)` returns false and leaves the store unchanged if no entry is
stored at `e.ptr`, and returns true if an entry with a non-zero size word is stored at
`e.ptr`. -/
theorem C9_update_reports_presence (s : IMetaStore) (e : MALLOC_META) (hs : s.WF)
    (he : e.ptr ≠ 0) :
    (¬ s.holds e.ptr → s.update e = (false, s)) ∧
    (∀ x ∈ s.entries, x.ptr = e.ptr → x.size ≠ 0 → (s.update e).1 = true) :=
  ⟨fun hn => IMetaStore.update_rej hs he (fun x hx hp => hn ⟨x, hx, hp⟩),
    fun _ hx hp hz => (IMetaStore.update_ok hs hx hp hz).1⟩

/-- Witness for C9: `update({4321, 141})` on a `VectorMetaStore` holding `{4321, 130}`. -/
theorem C9_witness :
    (IMetaStore.vector ⟨[⟨4321, 130⟩]⟩).WF ∧ (⟨4321, 141⟩ : MALLOC_META).ptr ≠ 0 ∧
    ((¬ (IMetaStore.vector ⟨[⟨4321, 130⟩]⟩).holds (⟨4321, 141⟩ : MALLOC_META).ptr →
      (IMetaStore.vector ⟨[⟨4321, 130⟩]⟩).update ⟨4321, 141⟩ =
        (false, IMetaStore.vector ⟨[⟨4321, 130⟩]⟩)) ∧
    (∀ x ∈ (IMetaStore.vector ⟨[⟨4321, 130⟩]⟩).entries, x.ptr = (⟨4321, 141⟩ : MALLOC_META).ptr →
      x.size ≠ 0 → ((IMetaStore.vector ⟨[⟨4321, 130⟩]⟩).update ⟨4321, 141⟩).1 = true)) :=
  ⟨by simp [IMetaStore.WF, VectorMetaStore.WF, KeysOk], by decide,
    C9_update_reports_presence (IMetaStore.vector ⟨[⟨4321, 130⟩]⟩) ⟨4321, 141⟩
      (by simp [IMetaStore.WF, VectorMetaStore.WF, KeysOk]) (by decide)⟩

/-- C10. `CachedMetaStore`: every sequence of `put` and `remove` calls with non-null keys
in which no pointer is put twice runs to completion from the empty store; every `put`
returns true - also when its bin is full and a cached entry is evicted into the fallback
store -, every entry that was put and not removed since is returned by `get` with its
original value, and `size()` plus the number of `remove` calls that returned true equals
the number of `put` calls. -/
theorem C10_cached_store_keeps_evicted_entries (ops : List Op)
    (hops : ∀ o ∈ ops, o.entry.ptr ≠ 0 ∧ o.isUpdate = false)
    (hk : KeysOk (putEntries ops)) (hlen : ops.length < 2 ^ 61) :
    ∃ rs s, (IMetaStore.cached CachedMetaStore.init).run ops = some (rs, s) ∧
      okCount Op.isPut ops rs = (putEntries ops).length ∧
      (∀ x ∈ live [] ops rs, s.get x.ptr = x) ∧
      s.size + okCount Op.isRemove ops rs = (putEntries ops).length := by
  have h0 : IMetaStore.cached CachedMetaStore.init ∈ IMetaStore.initial := by decide
  obtain ⟨hwf, hb, hent⟩ := IMetaStore.initial_WF h0
  obtain ⟨rs, s, h1, h2, h3, h4⟩ := IMetaStore.run_live ops 0 _ [] hwf hb (by omega)
    (by rw [hent]) hops hk (fun x hx => absurd hx (List.not_mem_nil _))
  obtain ⟨rs', s', g1, g2, _, g4⟩ := IMetaStore.run_inv ops 0 _ hwf.inv hb (by omega)
    (fun o ho => (hops o ho).1)
  rw [h1] at g1
  cases g1
  refine ⟨rs, s, h1, h4, fun x hx => ?_, ?_⟩
  · exact IMetaStore.get_of_mem h2 (h3.mem_iff.2 hx)
  · rw [IMetaStore.size_eq g2, g4, hent, h4]; simp

/-- Witness for C10: six pointers that hash to bin 5 of the 32 bins, so that the fifth and
the sixth `put` each evict a cached entry, followed by a `remove` of an evicted entry; one
evicted entry is left in the fallback store. -/
theorem C10_witness :
    (∀ o ∈ [Op.put ⟨40, 13⟩, Op.put ⟨272, 14⟩, Op.put ⟨384, 15⟩, Op.put ⟨1144, 16⟩,
        Op.put ⟨1400, 17⟩, Op.put ⟨1568, 18⟩, Op.remove ⟨272, 14⟩],
      o.entry.ptr ≠ 0 ∧ o.isUpdate = false) ∧
    KeysOk (putEntries [Op.put ⟨40, 13⟩, Op.put ⟨272, 14⟩, Op.put ⟨384, 15⟩,
      Op.put ⟨1144, 16⟩, Op.put ⟨1400, 17⟩, Op.put ⟨1568, 18⟩, Op.remove ⟨272, 14⟩]) ∧
    ((IMetaStore.cached CachedMetaStore.init).run [Op.put ⟨40, 13⟩, Op.put ⟨272, 14⟩,
        Op.put ⟨384, 15⟩, Op.put ⟨1144, 16⟩, Op.put ⟨1400, 17⟩, Op.put ⟨1568, 18⟩,
        Op.remove ⟨272, 14⟩]).map
      (fun r => match r.2 with
        | .cached c => c.fallback_store.elements
        | _ => []) = some [(1144, ⟨1144, 16⟩)] ∧
    ∃ rs s, (IMetaStore.cached CachedMetaStore.init).run [Op.put ⟨40, 13⟩, Op.put ⟨272, 14⟩,
        Op.put ⟨384, 15⟩, Op.put ⟨1144, 16⟩, Op.put ⟨1400, 17⟩, Op.put ⟨1568, 18⟩,
        Op.remove ⟨272, 14⟩] = some (rs, s) ∧
      okCount Op.isPut [Op.put ⟨40, 13⟩, Op.put ⟨272, 14⟩, Op.put ⟨384, 15⟩,
        Op.put ⟨1144, 16⟩, Op.put ⟨1400, 17⟩, Op.put ⟨1568, 18⟩, Op.remove ⟨272, 14⟩] rs =
        (putEntries [Op.put ⟨40, 13⟩, Op.put ⟨272, 14⟩, Op.put ⟨384, 15⟩,
          Op.put ⟨1144, 16⟩, Op.put ⟨1400, 17⟩, Op.put ⟨1568, 18⟩,
          Op.remove ⟨272, 14⟩]).length ∧
      (∀ x ∈ live [] [Op.put ⟨40, 13⟩, Op.put ⟨272, 14⟩, Op.put ⟨384, 15⟩,
        Op.put ⟨1144, 16⟩, Op.put ⟨1400, 17⟩, Op.put ⟨1568, 18⟩, Op.remove ⟨272, 14⟩] rs,
        s.get x.ptr = x) ∧
      s.size + okCount Op.isRemove [Op.put ⟨40, 13⟩, Op.put ⟨272, 14⟩, Op.put ⟨384, 15⟩,
        Op.put ⟨1144, 16⟩, Op.put ⟨1400, 17⟩, Op.put ⟨1568, 18⟩, Op.remove ⟨272, 14⟩] rs =
        (putEntries [Op.put ⟨40, 13⟩, Op.put ⟨272, 14⟩, Op.put ⟨384, 15⟩,
          Op.put ⟨1144, 16⟩, Op.put ⟨1400, 17⟩, Op.put ⟨1568, 18⟩,
          Op.remove ⟨272, 14⟩]).length :=
  ⟨by decide, by unfold KeysOk; decide, by decide,
    C10_cached_store_keeps_evicted_entries
      [Op.put ⟨40, 13⟩, Op.put ⟨272, 14⟩, Op.put ⟨384, 15⟩, Op.put ⟨1144, 16⟩,
        Op.put ⟨1400, 17⟩, Op.put ⟨1568, 18⟩, Op.remove ⟨272, 14⟩]
      (by decide) (by unfold KeysOk; decide) (by decide)⟩

/-! ## Growth of the cache table -/

namespace details
namespace ResizeableHashMap

theorem lt_of_two_pow_mul_lt {a b cap r : Nat} (h1 : 2 ^ a * cap < r) (h2 : r ≤ 2 ^ b * cap) :
    a < b := by
  by_contra hc
  have h3 : 2 ^ b ≤ 2 ^ a := Nat.pow_le_pow_right (by decide) (by omega)
  have h4 : 2 ^ b * cap ≤ 2 ^ a * cap := Nat.mul_le_mul_right _ h3
  omega

/-- The doubling loop of `ensure_capacity` returns when the request is at most `2^30` times
the capacity: it yields the least power of two, at least 2, that reaches the request. -/
theorem grow_factor_total (required cap : Nat) (hreq : required ≤ 2 ^ 30 * cap)
    (hw : 2 ^ 31 * cap < WORD) :
    ∀ (fuel k : Nat), 1 ≤ k → 32 ≤ k + fuel → 2 ^ (k - 1) * cap < required →
      ∃ j, k ≤ j ∧ j ≤ 30 ∧ grow_factor required fuel (2 ^ k) (2 ^ k * cap) = some (2 ^ j) ∧
        required ≤ 2 ^ j * cap ∧ 2 ^ (j - 1) * cap < required := by
  intro fuel
  induction fuel with
  | zero =>
    intro k hk1 hk2 hinv
    have := lt_of_two_pow_mul_lt hinv hreq
    omega
  | succ fuel ih =>
    intro k hk1 hk2 hinv
    have hk30 := lt_of_two_pow_mul_lt hinv hreq
    unfold grow_factor
    by_cases hr : required > 2 ^ k * cap
    · have hk29 := lt_of_two_pow_mul_lt hr hreq
      have hf : 2 ^ k * 2 < 2 ^ 31 := by
        have : 2 ^ (k + 1) ≤ 2 ^ 30 := Nat.pow_le_pow_right (by decide) (by omega)
        rw [pow_succ] at this
        omega
      have hlt : 2 ^ k * cap * 2 < WORD := by
        have h1 : 2 ^ (k + 1) ≤ 2 ^ 31 := Nat.pow_le_pow_right (by decide) (by omega)
        have h2 : 2 ^ (k + 1) * cap ≤ 2 ^ 31 * cap := Nat.mul_le_mul_right _ h1
        have h3 : 2 ^ k * cap * 2 = 2 ^ (k + 1) * cap := by rw [pow_succ]; ring
        omega
      have he : (2 ^ k * cap * 2) % WORD = 2 ^ (k + 1) * cap := by
        rw [Nat.mod_eq_of_lt hlt, pow_succ]; ring
      have he2 : 2 ^ k * 2 = 2 ^ (k + 1) := by rw [pow_succ]
      rw [if_pos hr, if_pos hf, he, he2]
      obtain ⟨j, h1, h2, h3, h4, h5⟩ := ih (k + 1) (by omega) (by omega)
        (by rw [Nat.add_sub_cancel]; exact hr)
      exact ⟨j, by omega, h2, h3, h4, h5⟩
    · rw [if_neg hr]
      exact ⟨k, Nat.le_refl _, by omega, rfl, by omega, hinv⟩

/-- The capacity rule of `ensure_capacity`. -/
theorem ensure_capacity_rule (m : ResizeableHashMap) (required : Nat)
    (hreq : required ≤ 2 ^ 30 * m.capacity) (hw : 2 ^ 31 * m.capacity < WORD) :
    (required ≤ m.capacity ∧ m.ensure_capacity required = some m) ∨
    (m.capacity < required ∧ ∃ j, 1 ≤ j ∧ j ≤ 30 ∧
      m.ensure_capacity required = some (m.reserve_double (2 ^ j)) ∧
      required ≤ 2 ^ j * m.capacity ∧ 2 ^ (j - 1) * m.capacity < required ∧
      (m.reserve_double (2 ^ j)).capacity = 2 ^ j * m.capacity ∧
      (m.reserve_double (2 ^ j)).entries.Perm m.entries ∧
      2 ^ j * m.bins.length < WORD) := by
  by_cases hr : required ≤ m.capacity
  · left
    refine ⟨hr, ?_⟩
    unfold ensure_capacity
    simp only
    rw [if_pos hr]
  · right
    refine ⟨by omega, ?_⟩
    have h2 : (2 * m.capacity) % WORD = 2 ^ 1 * m.capacity := by
      rw [Nat.mod_eq_of_lt (by omega)]; simp
    obtain ⟨j, hj1, hj2, hg, h4, h5⟩ := grow_factor_total required m.capacity hreq hw 31 1
      (Nat.le_refl _) (by omega) (by simpa using Nat.lt_of_not_le hr)
    have hpow : 2 ^ j ≤ 2 ^ 30 := Nat.pow_le_pow_right (by decide) hj2
    have hcap := capacity_eq m
    have hfit : 2 ^ j * m.bins.length < WORD := by
      have : 2 ^ j * m.bins.length ≤ 2 ^ 31 * m.capacity := by
        rw [hcap]
        calc 2 ^ j * m.bins.length ≤ 2 ^ 30 * m.bins.length := Nat.mul_le_mul_right _ hpow
          _ ≤ 2 ^ 31 * (m.bins.length * 4) := by omega
      omega
    have hle : m.bins.length ≤ (2 ^ j * m.bins.length) % WORD := by
      rw [Nat.mod_eq_of_lt hfit]
      exact Nat.le_mul_of_pos_left _ (Nat.two_pow_pos j)
    obtain ⟨hl, hp⟩ := @reserve_double_perm m (2 ^ j) hle
    rw [Nat.mod_eq_of_lt hfit] at hl
    refine ⟨j, hj1, hj2, ?_, h4, h5, ?_, hp, hfit⟩
    · unfold ensure_capacity
      simp only
      rw [if_neg hr, h2]
      simp only [pow_one] at hg ⊢
      rw [hg]
    · rw [capacity_eq (m.reserve_double (2 ^ j)), hl, hcap]; ring

end ResizeableHashMap
end details

namespace CachedMetaStore

open details details.ResizeableHashMap

theorem capacity_pow_two {s : CachedMetaStore} (hs : s.WF) : ∃ j, s.capacity = 2 ^ j := by
  obtain ⟨n, hn⟩ := hs.1.1
  refine ⟨n + 2, ?_⟩
  unfold capacity
  rw [capacity_eq, hn, pow_add]; rfl

/-- A `reserve` within the range of the growth factor returns; the store it leaves is well
formed, holds the same entries and has room for the request. -/
theorem reserve_total {s : CachedMetaStore} (request : Nat) (hs : s.WF)
    (hn : request ≤ 2 ^ 30 * s.capacity) (hw : 2 ^ 31 * s.capacity < WORD) :
    ∃ s', s.reserve request = some s' ∧ s'.WF ∧ s'.entries.Perm s.entries ∧
      s'.size = s.size ∧ request ≤ s'.capacity ∧ s.capacity ≤ s'.capacity ∧
      s'.cache_entries = s.cache_entries ∧ s'.fallback_store = s.fallback_store := by
  rcases ensure_capacity_rule s.cache request hn hw with ⟨h1, h2⟩ | ⟨h1, j, _, _, h2, h3, _, h5, _, _⟩
  · refine ⟨s, ?_, hs, List.Perm.refl _, rfl, h1, Nat.le_refl _, rfl, rfl⟩
    unfold reserve
    rw [h2]
  · have hr : s.reserve request =
        some ⟨s.cache_entries, s.cache.reserve_double (2 ^ j), s.fallback_store⟩ := by
      unfold reserve
      rw [h2]
    obtain ⟨r1, r2, _⟩ := reserve_some hs hw hr
    refine ⟨_, hr, r1, r2, rfl, ?_, ?_, rfl, rfl⟩
    · show request ≤ (s.cache.reserve_double (2 ^ j)).capacity
      rw [h5]; exact h3
    · show s.cache.capacity ≤ (s.cache.reserve_double (2 ^ j)).capacity
      rw [h5]
      exact Nat.le_mul_of_pos_left _ (Nat.two_pow_pos j)

/-- The entries of a well-formed store answer `get` and can be removed in every well-formed
store that holds the same entries. -/
theorem same_entries {s s' : CachedMetaStore} (hs : s.WF) (hs' : s'.WF)
    (hp : s'.entries.Perm s.entries) :
    (∀ k, s'.get k = s.get k) ∧ (∀ x ∈ s.entries, (s'.remove x).1 = true) := by
  refine ⟨fun k => ?_, fun x hx => ?_⟩
  · rw [cached_get_eq_lookup hs', cached_get_eq_lookup hs]
    exact lookup_perm hp hs'.2.2.1.1 k
  · exact (cached_remove_ok hs' (hp.mem_iff.2 hx) rfl rfl).1

/-- The first step of `put` is `reserve(size() + 1)`: after it, `put` does not grow the
cache. -/
theorem put_eq_put_reserved {s s1 : CachedMetaStore} (c : MALLOC_META)
    (h : s.reserve ((s.size + 1) % WORD) = some s1) (hroom : (s.size + 1) % WORD ≤ s1.capacity) :
    s.put c = s1.put c ∧ s1.cache.ensure_capacity ((s1.size + 1) % WORD) = some s1.cache := by
  unfold reserve at h
  cases he : s.cache.ensure_capacity ((s.size + 1) % WORD) with
  | none => rw [he] at h; cases h
  | some cache =>
    rw [he] at h
    cases h
    have hsz : (⟨s.cache_entries, cache, s.fallback_store⟩ : CachedMetaStore).size = s.size :=
      rfl
    have hroom2 : (s.size + 1) % WORD ≤ cache.capacity := hroom
    have h2 : cache.ensure_capacity ((s.size + 1) % WORD) = some cache := by
      unfold ensure_capacity
      simp only
      rw [if_pos hroom2]
    refine ⟨?_, by rw [hsz]; exact h2⟩
    unfold put
    rw [hsz, he]
    simp only
    rw [h2]

end CachedMetaStore

theorem exampleChunks_keysOk (n : Nat) : KeysOk (exampleChunks n) := by
  unfold KeysOk exampleChunks
  refine ⟨?_, ?_⟩
  · rw [List.map_map]
    refine List.Nodup.map ?_ (List.nodup_range n)
    intro a b h
    simp only [Function.comp] at h
    omega
  · intro e he
    obtain ⟨i, _, rfl⟩ := List.mem_map.1 he
    simp

theorem exampleCached_WF (n : Nat) (hn : n < 2 ^ 61) : (exampleCached n).WF := by
  have h0 : IMetaStore.cached CachedMetaStore.init ∈ IMetaStore.initial := by decide
  obtain ⟨hwf, hb, hent⟩ := IMetaStore.initial_WF h0
  have hlen : (exampleChunks n).length = n := by simp [exampleChunks]
  obtain ⟨rs, s, h1, h2, _⟩ := IMetaStore.puts_spec (exampleChunks n) 0 _ hwf hb
    (by rw [hlen]; omega) (by rw [hent, List.append_nil]; exact exampleChunks_keysOk n)
  unfold exampleCached
  rw [h1]
  cases s with
  | cached c => exact h2
  | vector c => exact CachedMetaStore.cached_WF_init
  | map c => exact CachedMetaStore.cached_WF_init
  | unordered c => exact CachedMetaStore.cached_WF_init
  | hash c => exact CachedMetaStore.cached_WF_init

theorem CachedMetaStore.reserve_fields {s s' : CachedMetaStore} {n : Nat}
    (h : s.reserve n = some s') :
    s.cache.ensure_capacity n = some s'.cache ∧ s'.cache_entries = s.cache_entries ∧
      s'.fallback_store = s.fallback_store := by
  unfold CachedMetaStore.reserve at h
  cases he : s.cache.ensure_capacity n with
  | none => rw [he] at h; cases h
  | some cache =>
    rw [he] at h
    cases h
    exact ⟨rfl, rfl, rfl⟩

theorem MapMetaStore.size_put (s : MapMetaStore) (c : MALLOC_META) :
    (s.put c).2.size = s.size ∨ (s.put c).2.size = s.size + 1 := by
  unfold MapMetaStore.put MapMetaStore.size
  by_cases hc : c.ptr ≠ 0
  · rw [if_pos hc]
    unfold StdMap.emplace
    cases StdMap.find s.elements c.ptr with
    | none => right; simp
    | some v => left; rfl
  · rw [if_neg hc]; left; rfl

namespace CachedMetaStore

open details details.ResizeableHashMap

theorem capacity_remove (s : CachedMetaStore) (e : MALLOC_META) :
    (s.remove e).2.capacity = s.capacity := by
  unfold remove
  cases s.cache.get_entry e.ptr with
  | none => rfl
  | some c =>
    simp only
    by_cases h : (s.cache.cell c).ne e = true
    · rw [if_pos h]
    · rw [if_neg h]
      show (s.cache.setCell c MALLOC_META.empty).bins.length * ENTRIES_PER_BIN = _
      rw [length_setCell]; rfl

theorem capacity_clear (s : CachedMetaStore) : s.clear.capacity = s.capacity := by
  unfold clear capacity ResizeableHashMap.capacity ResizeableHashMap.clear
  simp

/-- After `put`, `size()` does not exceed `capacity()`, and the capacity is that after
`reserve(size() + 1)`: unchanged if there was room, else doubled. -/
theorem put_capacity {s : CachedMetaStore} (c : MALLOC_META) (hpos : 0 < s.capacity)
    (hcap : 2 * s.capacity < WORD) (hsz : s.size ≤ s.capacity) :
    ∃ r, s.put c = some r ∧ r.2.size ≤ r.2.capacity ∧
      r.2.capacity = (if s.size < s.capacity then 1 else 2) * s.capacity := by
  have hmod : (s.size + 1) % WORD = s.size + 1 := Nat.mod_eq_of_lt (by omega)
  have key : ∃ cache, s.cache.ensure_capacity ((s.size + 1) % WORD) = some cache ∧
      s.size + 1 ≤ cache.capacity ∧
      cache.capacity = (if s.size < s.capacity then 1 else 2) * s.capacity := by
    rcases ensure_capacity_of_le (m := s.cache)
      (show (s.size + 1) % WORD ≤ 2 * s.cache.capacity by
        rw [hmod]; show s.size + 1 ≤ 2 * s.capacity; omega)
      (show 2 * s.cache.capacity < WORD from hcap) with ⟨e1, e2⟩ | ⟨e1, e2⟩
    · rw [hmod] at e2
      have hlt : s.size < s.capacity := e2
      exact ⟨_, e1, e2, by rw [if_pos hlt, Nat.one_mul]; rfl⟩
    · rw [hmod] at e2
      have hlt : ¬ s.size < s.capacity := by
        have : s.capacity < s.size + 1 := e2
        omega
      have h4 : s.capacity = s.cache.bins.length * 4 := rfl
      have hl2 : s.cache.bins.length ≤ (2 * s.cache.bins.length) % WORD := by
        rw [Nat.mod_eq_of_lt (by omega)]; omega
      obtain ⟨l1, _⟩ := @reserve_double_perm s.cache 2 hl2
      rw [Nat.mod_eq_of_lt (by omega)] at l1
      have hc2 : (s.cache.reserve_double 2).capacity = 2 * s.capacity := by
        rw [capacity_eq, l1, h4]; omega
      exact ⟨_, e1, by rw [hc2]; omega, by rw [if_neg hlt]; exact hc2⟩
  obtain ⟨cache, k1, k2, k3⟩ := key
  have hW : cache.capacity < WORD := by
    rw [k3]; split_ifs <;> omega
  unfold put
  rw [k1]
  simp only
  have hsize : s.size = (s.cache_entries + s.fallback_store.size) % WORD := rfl
  by_cases hold : (cache.cell (cache.get_insertion_point c.ptr)).ptr = 0
  · rw [if_pos hold]
    refine ⟨_, rfl, ?_, ?_⟩
    · show ((s.cache_entries + 1) % WORD + s.fallback_store.size) % WORD ≤
        (cache.setCell (cache.get_insertion_point c.ptr) c).bins.length * ENTRIES_PER_BIN
      rw [length_setCell]
      have : cache.bins.length * ENTRIES_PER_BIN = cache.capacity := rfl
      rw [this]
      unfold WORD at *
      omega
    · show (cache.setCell (cache.get_insertion_point c.ptr) c).bins.length * ENTRIES_PER_BIN = _
      rw [length_setCell]; exact k3
  · rw [if_neg hold]
    refine ⟨_, rfl, ?_, ?_⟩
    · show (s.cache_entries + (s.fallback_store.put
          (cache.cell (cache.get_insertion_point c.ptr))).2.size) % WORD ≤
        (cache.setCell (cache.get_insertion_point c.ptr) c).bins.length * ENTRIES_PER_BIN
      rw [length_setCell]
      have : cache.bins.length * ENTRIES_PER_BIN = cache.capacity := rfl
      rw [this]
      rcases MapMetaStore.size_put s.fallback_store
        (cache.cell (cache.get_insertion_point c.ptr)) with h | h
      · rw [h]; unfold WORD at *; omega
      · rw [h]; unfold WORD at *; omega
    · show (cache.setCell (cache.get_insertion_point c.ptr) c).bins.length * ENTRIES_PER_BIN = _
      rw [length_setCell]; exact k3

/-- The capacity after `reserve`. -/
theorem reserve_capacity (s : CachedMetaStore) (n : Nat) (hn : n ≤ 2 ^ 30 * s.capacity)
    (hcap : 2 ^ 31 * s.capacity < WORD) :
    ∃ s', s.reserve n = some s' ∧ (n ≤ s.capacity → s' = s) ∧
      (s.capacity < n → ∃ k, 1 ≤ k ∧ s'.capacity = s.capacity * 2 ^ k ∧ n ≤ s'.capacity ∧
        ∀ k', 1 ≤ k' → n ≤ s.capacity * 2 ^ k' → k ≤ k') := by
  rcases ensure_capacity_rule s.cache n hn hcap with ⟨h1, h2⟩ | ⟨h1, j, hj, _, h2, h3, h4, h5, _, _⟩
  · refine ⟨s, ?_, fun _ => rfl, fun h => ?_⟩
    · unfold reserve; rw [h2]
    · have : n ≤ s.capacity := h1
      omega
  · refine ⟨⟨s.cache_entries, s.cache.reserve_double (2 ^ j), s.fallback_store⟩, ?_,
      fun h => ?_, fun _ => ⟨j, hj, ?_, ?_, fun k' hk' hle => ?_⟩⟩
    · unfold reserve; rw [h2]
    · have : s.capacity < n := h1
      omega
    · show (s.cache.reserve_double (2 ^ j)).capacity = s.cache.capacity * 2 ^ j
      rw [h5, Nat.mul_comm]
    · show n ≤ (s.cache.reserve_double (2 ^ j)).capacity
      rw [h5]; exact h3
    · by_contra hc
      have hk : k' ≤ j - 1 := by omega
      have hp : 2 ^ k' ≤ 2 ^ (j - 1) := Nat.pow_le_pow_right (by decide) hk
      have : s.cache.capacity * 2 ^ k' ≤ 2 ^ (j - 1) * s.cache.capacity := by
        rw [Nat.mul_comm]; exact Nat.mul_le_mul_right _ hp
      have hle2 : n ≤ s.cache.capacity * 2 ^ k' := hle
      omega

end CachedMetaStore

/-! ## The shadow snapshots -/

namespace ShadowHeapFacade

theorem LINKED_LIST_META_ne_iff (a b : LINKED_LIST_META) : a.ne b = true ↔ a ≠ b := by
  cases a; cases b
  simp only [LINKED_LIST_META.ne, LINKED_LIST_META.eq, ne_eq, LINKED_LIST_META.mk.injEq]
  simp only [Bool.not_eq_true', Bool.and_eq_false_iff, beq_eq_false_iff_ne, ne_eq]
  tauto

theorem LINKED_LIST_META_ne_fields (a b : LINKED_LIST_META) :
    a ≠ b ↔ (a.ptr ≠ b.ptr ∨ a.chunksize ≠ b.chunksize ∨ a.fd ≠ b.fd ∨ a.bk ≠ b.bk) := by
  cases a; cases b
  simp only [ne_eq, LINKED_LIST_META.mk.injEq]
  tauto

/-- The loop of `_check_unsorted_impl` passes exactly when the `n` elements from index `i`
on agree with the nodes reached from `single`. -/
theorem check_unsorted_loop_iff (mem : Memory) (data : ShadowHeapData) :
    ∀ (n i single : Nat), i + n ≤ USB_ENTRIES_MAX →
      (check_unsorted_loop mem data n i single = true ↔
        ∀ j, j < n → LINKED_LIST_META.from_chunk_header mem (fd_node mem single j) =
          data.unsorted (i + j)) := by
  intro n
  induction n with
  | zero => intro i single _; simp [check_unsorted_loop]
  | succ n ih =>
    intro i single hin
    unfold check_unsorted_loop
    rw [if_neg (by omega)]
    simp only
    by_cases hne : (LINKED_LIST_META.from_chunk_header mem single).ne (data.unsorted i) = true
    · rw [if_pos hne]
      have := (LINKED_LIST_META_ne_iff _ _).1 hne
      constructor
      · intro h; cases h
      · intro h
        exact absurd (h 0 (by omega)) (by simpa [fd_node] using this)
    · rw [if_neg hne]
      have heq : LINKED_LIST_META.from_chunk_header mem single = data.unsorted i := by
        by_contra hc
        exact hne ((LINKED_LIST_META_ne_iff _ _).2 hc)
      rw [ih (i + 1) _ (by omega)]
      have hnode : ∀ j, fd_node mem (CHUNK_HEADER.read mem single).fd j =
          fd_node mem single (j + 1) := by
        intro j
        induction j with
        | zero => rfl
        | succ j ihj => simp only [fd_node]; rw [ihj]; rfl
      constructor
      · intro h j hj
        cases j with
        | zero => simpa [fd_node] using heq
        | succ j =>
          have := h j (by omega)
          rw [hnode] at this
          rw [this]; congr 1; omega
      · intro h j hj
        have := h (j + 1) (by omega)
        rw [hnode, this]; congr 1; omega

/-- What `_check_unsorted_impl` does with the check enabled. -/
theorem check_unsorted_spec (modes : ModeReader) (info : ARENA_INFO) (mem : Memory)
    (data : ShadowHeapData) (hu : modes.usbMode = true)
    (hn : data.unsorted_size ≤ (USB_ENTRIES_MAX : Int)) :
    (_check_unsorted_impl true modes info mem data = none ↔
      ∃ i : Nat, (i : Int) < data.unsorted_size ∧
        LINKED_LIST_META.from_chunk_header mem (fd_node mem (mem info.unsorted_bin) i) ≠
          data.unsorted i) ∧
    (_check_unsorted_impl true modes info mem data = none ∨
      _check_unsorted_impl true modes info mem data = some data) := by
  unfold _check_unsorted_impl
  simp only [hu, Bool.true_eq_false, if_false]
  have hiff := check_unsorted_loop_iff mem data data.unsorted_size.toNat 0 (mem info.unsorted_bin)
    (by unfold USB_ENTRIES_MAX at *; omega)
  by_cases hc : check_unsorted_loop mem data data.unsorted_size.toNat 0
      (mem info.unsorted_bin) = true
  · rw [if_pos hc]
    refine ⟨⟨fun h => (by cases h), fun ⟨i, hi, hne⟩ => ?_⟩, Or.inr rfl⟩
    have := (hiff.1 hc) i (by omega)
    rw [Nat.zero_add] at this
    exact absurd this hne
  · rw [if_neg hc]
    refine ⟨⟨fun _ => ?_, fun _ => rfl⟩, Or.inl rfl⟩
    by_contra hno
    apply hc
    rw [hiff]
    intro j hj
    by_contra hne
    rw [Nat.zero_add] at hne
    exact hno ⟨j, by omega, hne⟩

/-- The loop of `_store_unsorted_impl`, entered with `k < 128` elements recorded, at the
`k`-th node, with enough fuel. -/
theorem store_unsorted_loop_spec (mem : Memory) (start : Nat) :
    ∀ (fuel k : Nat) (d : ShadowHeapData), k < USB_ENTRIES_MAX → USB_ENTRIES_MAX - k ≤ fuel →
      d.unsorted_size = (k : Int) →
      ∃ (d' : ShadowHeapData) (n : Nat),
        store_unsorted_loop mem start fuel (fd_node mem start k) d = some d' ∧
        k < n ∧ n ≤ USB_ENTRIES_MAX ∧ d'.unsorted_size = (n : Int) ∧
        (∀ i, k ≤ i → i < n →
          d'.unsorted i = LINKED_LIST_META.from_chunk_header mem (fd_node mem start i)) ∧
        (∀ i, (i < k ∨ n ≤ i) → d'.unsorted i = d.unsorted i) ∧
        (∀ i, k ≤ i → i + 1 < n → (CHUNK_HEADER.read mem (fd_node mem start i)).fd ≠ start) ∧
        ((CHUNK_HEADER.read mem (fd_node mem start (n - 1))).fd = start ∨
          n = USB_ENTRIES_MAX) ∧
        d'.topchunksize = d.topchunksize ∧ d'.tcache = d.tcache ∧
        d'.tcacheHasData = d.tcacheHasData := by
  intro fuel
  induction fuel with
  | zero => intro k d hk hf _; omega
  | succ fuel ih =>
    intro k d hk hf hsz
    unfold store_unsorted_loop
    have hguard : 0 ≤ d.unsorted_size ∧ d.unsorted_size < (USB_ENTRIES_MAX : Int) := by
      rw [hsz]; omega
    rw [if_pos hguard]
    simp only
    have htn : d.unsorted_size.toNat = k := by rw [hsz]; simp
    rw [htn]
    by_cases hfd : (CHUNK_HEADER.read mem (fd_node mem start k)).fd = start
    · rw [if_pos hfd]
      refine ⟨_, k + 1, rfl, by omega, by omega, by simp [hsz], ?_, ?_, ?_, Or.inl ?_,
        rfl, rfl, rfl⟩
      · intro i h1 h2
        have : i = k := by omega
        subst this
        simp
      · intro i hi
        have : i ≠ k := by omega
        simp [Function.update, this]
      · intro i h1 h2; omega
      · simpa using hfd
    · rw [if_neg hfd]
      by_cases hfull : d.unsorted_size + 1 ≥ (USB_ENTRIES_MAX : Int)
      · rw [if_pos hfull]
        have hk1 : k + 1 = USB_ENTRIES_MAX := by rw [hsz] at hfull; omega
        refine ⟨_, k + 1, rfl, by omega, by omega, by simp [hsz], ?_, ?_, ?_, Or.inr hk1,
          rfl, rfl, rfl⟩
        · intro i h1 h2
          have : i = k := by omega
          subst this
          simp
        · intro i hi
          have : i ≠ k := by omega
          simp [Function.update, this]
        · intro i h1 h2; omega
      · rw [if_neg hfull]
        have hk1 : k + 1 < USB_ENTRIES_MAX := by rw [hsz] at hfull; omega
        obtain ⟨d', n, h1, h2, h3, h4, h5, h6, h7, h8, h9, h10, h11⟩ :=
          ih (k + 1)
            { d with
              unsorted := Function.update d.unsorted k
                (LINKED_LIST_META.from_chunk_header mem (fd_node mem start k)),
              unsorted_size := d.unsorted_size + 1 }
            hk1 (by omega) (by simp [hsz])
        refine ⟨d', n, h1, by omega, h3, h4, ?_, ?_, ?_, h8, h9, h10, h11⟩
        · intro i hi1 hi2
          by_cases hik : i = k
          · subst hik
            rw [h6 i (Or.inl (by omega))]
            simp
          · exact h5 i (by omega) hi2
        · intro i hi
          rw [h6 i (by omega)]
          have : i ≠ k := by omega
          simp [Function.update, this]
        · intro i hi1 hi2
          by_cases hik : i = k
          · subst hik; exact hfd
          · exact h7 i (by omega) hi2

/-- What `_store_unsorted_impl` does with the check enabled: with fuel for 128 iterations
it returns. -/
theorem store_unsorted_spec (fuel : Nat) (modes : ModeReader) (info : ARENA_INFO)
    (mem : Memory) (data : ShadowHeapData) (hu : modes.usbMode = true)
    (hf : USB_ENTRIES_MAX ≤ fuel) :
    ∃ (d' : ShadowHeapData) (n : Nat),
      _store_unsorted_impl fuel true modes info mem data = some d' ∧
      1 ≤ n ∧ n ≤ USB_ENTRIES_MAX ∧ d'.unsorted_size = (n : Int) ∧
      (∀ i, i < n → d'.unsorted i =
        LINKED_LIST_META.from_chunk_header mem (fd_node mem (mem info.unsorted_bin) i)) ∧
      (∀ i, n ≤ i → d'.unsorted i = data.unsorted i) ∧
      (∀ i, i + 1 < n →
        (CHUNK_HEADER.read mem (fd_node mem (mem info.unsorted_bin) i)).fd ≠
          mem info.unsorted_bin) ∧
      ((CHUNK_HEADER.read mem (fd_node mem (mem info.unsorted_bin) (n - 1))).fd =
          mem info.unsorted_bin ∨ n = USB_ENTRIES_MAX) ∧
      d'.topchunksize = data.topchunksize ∧ d'.tcache = data.tcache ∧
      d'.tcacheHasData = data.tcacheHasData := by
  unfold _store_unsorted_impl
  simp only [hu, Bool.true_eq_false, if_false]
  obtain ⟨d', n, h1, h2, h3, h4, h5, h6, h7, h8, h9, h10, h11⟩ :=
    store_unsorted_loop_spec mem (mem info.unsorted_bin) fuel 0
      { data with unsorted_size := 0 } (by decide) (by omega) rfl
  exact ⟨d', n, h1, by omega, h3, h4, fun i hi => h5 i (Nat.zero_le _) hi,
    fun i hi => h6 i (Or.inr hi), fun i hi => h7 i (Nat.zero_le _) hi, h8, h9, h10, h11⟩

end ShadowHeapFacade

theorem next_entry_shift (mem : Memory) (e : Nat) (j : Nat) :
    next_entry mem (mem e) j = next_entry mem e (j + 1) := by
  induction j with
  | zero => rfl
  | succ j ih => simp only [next_entry]; rw [ih]; rfl

theorem tcache_walk_length_pos (mem : Memory) (n e : Nat) :
    0 < tcache_walk_length mem (n + 1) e := by
  unfold tcache_walk_length
  split_ifs <;> omega

namespace ShadowHeapFacade

/-- The three comparisons pass exactly when the bucket is no mismatch. -/
theorem check_tcache_bin_iff (mem : Memory) (data : ShadowHeapData) (i : Nat) :
    ∀ (n b e : Nat), (check_tcache_bin mem data i n b e = true ↔
      ∀ j, j < tcache_walk_length mem n e →
        ¬ TcacheMetaEntry.mismatch mem (data.tcache i (b + j)) (next_entry mem e j)) := by
  intro n
  induction n with
  | zero => intro b e; simp [check_tcache_bin, tcache_walk_length]
  | succ n ih =>
    intro b e
    unfold check_tcache_bin
    simp only
    by_cases hm : TcacheMetaEntry.mismatch mem (data.tcache i b) e
    · have hfalse : (if (data.tcache i b).next ≠
            (CHUNK_HEADER.read mem (CHUNK_HEADER.from_memory e)).fd then false
          else if (data.tcache i b).orig_ptr ≠ e then false
          else if (data.tcache i b).size ≠
            (CHUNK_HEADER.read mem (CHUNK_HEADER.from_memory e)).chunksize then false
          else if mem e ≠ 0 then check_tcache_bin mem data i n (b + 1) (mem e)
          else true) = false := by
        rcases hm with h | h | h
        · rw [if_pos h]
        · by_cases h1 : (data.tcache i b).next ≠
              (CHUNK_HEADER.read mem (CHUNK_HEADER.from_memory e)).fd
          · rw [if_pos h1]
          · rw [if_neg h1, if_pos h]
        · by_cases h1 : (data.tcache i b).next ≠
              (CHUNK_HEADER.read mem (CHUNK_HEADER.from_memory e)).fd
          · rw [if_pos h1]
          · rw [if_neg h1]
            by_cases h2 : (data.tcache i b).orig_ptr ≠ e
            · rw [if_pos h2]
            · rw [if_neg h2, if_pos h]
      rw [hfalse]
      constructor
      · intro h; cases h
      · intro h
        exact absurd (by simpa [next_entry] using hm) (h 0 (tcache_walk_length_pos mem n e))
    · have h1 : ¬ (data.tcache i b).next ≠
          (CHUNK_HEADER.read mem (CHUNK_HEADER.from_memory e)).fd := fun h => hm (Or.inl h)
      have h2 : ¬ (data.tcache i b).orig_ptr ≠ e := fun h => hm (Or.inr (Or.inl h))
      have h3 : ¬ (data.tcache i b).size ≠
          (CHUNK_HEADER.read mem (CHUNK_HEADER.from_memory e)).chunksize :=
        fun h => hm (Or.inr (Or.inr h))
      rw [if_neg h1, if_neg h2, if_neg h3]
      by_cases hnext : mem e ≠ 0
      · rw [if_pos hnext, ih (b + 1) (mem e)]
        have hlen : tcache_walk_length mem (n + 1) e = tcache_walk_length mem n (mem e) + 1 := by
          rw [tcache_walk_length, if_pos hnext]
        rw [hlen]
        constructor
        · intro h j hj
          cases j with
          | zero => simpa [next_entry] using hm
          | succ j =>
            have := h j (by omega)
            rw [next_entry_shift] at this
            have he : b + 1 + j = b + (j + 1) := by omega
            rw [he] at this
            exact this
        · intro h j hj
          have := h (j + 1) (by omega)
          rw [next_entry_shift]
          have he : b + 1 + j = b + (j + 1) := by omega
          rw [he]
          exact this
      · rw [if_neg hnext]
        have hlen : tcache_walk_length mem (n + 1) e = 1 := by
          rw [tcache_walk_length, if_neg hnext]
        rw [hlen]
        refine ⟨fun _ j hj => ?_, fun _ => rfl⟩
        have : j = 0 := by omega
        subst this
        simpa [next_entry] using hm

/-- What `_check_tcache_impl` does with the check enabled, a snapshot present and the
thread cache located. -/
theorem check_tcache_spec (v230 : Bool) (modes : ModeReader) (info : ARENA_INFO)
    (mem : Memory) (data : ShadowHeapData) (ht : modes.tcaMode = true)
    (hd : data.tcacheHasData = true) (hp : info.tcache ≠ 0) :
    (_check_tcache_impl v230 true modes info mem data = none ↔
      ∃ i, i < TCACHE_ENTRIES ∧ tcache_bin_active v230 mem info.tcache i ∧
        ∃ b, b < tcache_walk_length mem TCA_BIN_SIZE (tcache_entries v230 mem info.tcache i) ∧
          TcacheMetaEntry.mismatch mem (data.tcache i b)
            (next_entry mem (tcache_entries v230 mem info.tcache i) b)) ∧
    (_check_tcache_impl v230 true modes info mem data = none ∨
      _check_tcache_impl v230 true modes info mem data =
        some { data with tcacheHasData := false }) := by
  unfold _check_tcache_impl
  simp only [ht, hd, hp, Bool.true_eq_false, if_false]
  have hbin : ∀ i, ((if tcache_entries v230 mem info.tcache i = 0 then true
        else if tcache_counts v230 mem info.tcache i ≤ 0 then true
        else check_tcache_bin mem data i TCA_BIN_SIZE 0
          (tcache_entries v230 mem info.tcache i)) = true ↔
      (tcache_bin_active v230 mem info.tcache i →
        ∀ b, b < tcache_walk_length mem TCA_BIN_SIZE (tcache_entries v230 mem info.tcache i) →
          ¬ TcacheMetaEntry.mismatch mem (data.tcache i b)
            (next_entry mem (tcache_entries v230 mem info.tcache i) b))) := by
    intro i
    unfold tcache_bin_active
    by_cases h1 : tcache_entries v230 mem info.tcache i = 0
    · rw [if_pos h1]
      exact ⟨fun _ h => absurd h1 h.1, fun _ => rfl⟩
    · rw [if_neg h1]
      by_cases h2 : tcache_counts v230 mem info.tcache i ≤ 0
      · rw [if_pos h2]
        exact ⟨fun _ h => absurd h.2 (by omega), fun _ => rfl⟩
      · rw [if_neg h2, check_tcache_bin_iff]
        simp only [Nat.zero_add]
        exact ⟨fun h _ => h, fun h => h ⟨h1, by omega⟩⟩
  by_cases hall : (List.range TCACHE_ENTRIES).all (fun i =>
      if tcache_entries v230 mem info.tcache i = 0 then true
      else if tcache_counts v230 mem info.tcache i ≤ 0 then true
      else check_tcache_bin mem data i TCA_BIN_SIZE 0
        (tcache_entries v230 mem info.tcache i)) = true
  · rw [if_pos hall]
    refine ⟨⟨fun h => (by cases h), fun ⟨i, hi, hact, b, hb, hm⟩ => ?_⟩, Or.inr rfl⟩
    rw [List.all_eq_true] at hall
    have := (hbin i).1 (hall i (List.mem_range.2 hi)) hact b hb
    exact absurd hm this
  · rw [if_neg hall]
    refine ⟨⟨fun _ => ?_, fun _ => rfl⟩, Or.inl rfl⟩
    by_contra hno
    apply hall
    rw [List.all_eq_true]
    intro i hi
    rw [hbin]
    intro hact b hb hm
    exact hno ⟨i, List.mem_range.1 hi, hact, b, hb, hm⟩

/-- The entry that `_store_tcache_impl` records for the traversed `entry`. -/
theorem store_tcache_bin_spec (mem : Memory) (i : Nat) :
    ∀ (n b entry : Nat) (d : ShadowHeapData),
      (∀ i', i' ≠ i → (store_tcache_bin mem i n b entry d).tcache i' = d.tcache i') ∧
      (∀ b', b' < b → (store_tcache_bin mem i n b entry d).tcache i b' = d.tcache i b') ∧
      (0 < n → (store_tcache_bin mem i n b entry d).tcache i b =
          { orig_ptr := entry,
            size := (CHUNK_HEADER.read mem (CHUNK_HEADER.from_memory entry)).chunksize,
            next := (CHUNK_HEADER.read mem (CHUNK_HEADER.from_memory entry)).fd } ∧
        (store_tcache_bin mem i n b entry d).tcacheHasData = true) ∧
      (d.tcacheHasData = true → (store_tcache_bin mem i n b entry d).tcacheHasData = true) ∧
      (store_tcache_bin mem i n b entry d).topchunksize = d.topchunksize ∧
      (store_tcache_bin mem i n b entry d).unsorted = d.unsorted ∧
      (store_tcache_bin mem i n b entry d).unsorted_size = d.unsorted_size := by
  intro n
  induction n with
  | zero =>
    intro b entry d
    simp [store_tcache_bin]
  | succ n ih =>
    intro b entry d
    unfold store_tcache_bin
    simp only
    by_cases hnext : mem entry ≠ 0
    · rw [if_pos hnext]
      obtain ⟨g1, g2, _, g4, g5, g6, g7⟩ := ih (b + 1) (mem entry)
        { d with
          tcache := Function.update d.tcache i (Function.update (d.tcache i) b
            { orig_ptr := entry,
              size := (CHUNK_HEADER.read mem (CHUNK_HEADER.from_memory entry)).chunksize,
              next := (CHUNK_HEADER.read mem (CHUNK_HEADER.from_memory entry)).fd }),
          tcacheHasData := true }
      refine ⟨fun i' hi' => ?_, fun b' hb' => ?_, fun _ => ⟨?_, g4 rfl⟩, fun _ => g4 rfl,
        g5, g6, g7⟩
      · rw [g1 i' hi']
        simp [Function.update, hi']
      · rw [g2 b' (by omega)]
        have : b' ≠ b := by omega
        simp [Function.update, this]
      · rw [g2 b (by omega)]
        simp [Function.update]
    · rw [if_neg hnext]
      refine ⟨fun i' hi' => ?_, fun b' hb' => ?_, fun _ => ⟨?_, rfl⟩, fun _ => rfl,
        rfl, rfl, rfl⟩
      · simp [Function.update, hi']
      · have : b' ≠ b := by omega
        simp [Function.update, this]
      · simp [Function.update]

/-- After `_store_tcache_impl`, slot 0 of every walked bin holds the entry recorded for the
head of the bin, and a snapshot is present. -/
theorem store_tcache_head (v230 : Bool) (modes : ModeReader) (info : ARENA_INFO)
    (mem : Memory) (data : ShadowHeapData) (ht : modes.tcaMode = true)
    (hp : info.tcache ≠ 0) (i : Nat) (hi : i < TCACHE_ENTRIES)
    (hact : tcache_bin_active v230 mem info.tcache i) :
    (_store_tcache_impl v230 true modes info mem data).tcache i 0 =
      { orig_ptr := tcache_entries v230 mem info.tcache i,
        size := (CHUNK_HEADER.read mem
          (CHUNK_HEADER.from_memory (tcache_entries v230 mem info.tcache i))).chunksize,
        next := (CHUNK_HEADER.read mem
          (CHUNK_HEADER.from_memory (tcache_entries v230 mem info.tcache i))).fd } ∧
    (_store_tcache_impl v230 true modes info mem data).tcacheHasData = true := by
  unfold _store_tcache_impl
  simp only [ht, hp, Bool.true_eq_false, if_false]
  have hloop := details.forLoop_inv
    (fun i d =>
      if tcache_entries v230 mem info.tcache i = 0 then d
      else if tcache_counts v230 mem info.tcache i ≤ 0 then d
      else store_tcache_bin mem i TCA_BIN_SIZE 0 (tcache_entries v230 mem info.tcache i) d)
    (fun N d => ∀ k, k < N → tcache_bin_active v230 mem info.tcache k →
      d.tcache k 0 =
        { orig_ptr := tcache_entries v230 mem info.tcache k,
          size := (CHUNK_HEADER.read mem
            (CHUNK_HEADER.from_memory (tcache_entries v230 mem info.tcache k))).chunksize,
          next := (CHUNK_HEADER.read mem
            (CHUNK_HEADER.from_memory (tcache_entries v230 mem info.tcache k))).fd } ∧
      d.tcacheHasData = true)
    TCACHE_ENTRIES data (fun k hk => absurd hk (Nat.not_lt_zero k))
    (fun N d _ hI k hk hka => by
      simp only
      by_cases h1 : tcache_entries v230 mem info.tcache N = 0
      · rw [if_pos h1]
        have hkN : k ≠ N := fun h => hka.1 (h ▸ h1)
        exact hI k (by omega) hka
      · rw [if_neg h1]
        by_cases h2 : tcache_counts v230 mem info.tcache N ≤ 0
        · rw [if_pos h2]
          have hkN : k ≠ N := fun h => by
            have := hka.2
            rw [h] at this
            omega
          exact hI k (by omega) hka
        · rw [if_neg h2]
          obtain ⟨g1, _, g3, g4, _⟩ := store_tcache_bin_spec mem N TCA_BIN_SIZE 0
            (tcache_entries v230 mem info.tcache N) d
          by_cases hkN : k = N
          · subst hkN
            exact g3 (by decide)
          · obtain ⟨i1, i2⟩ := hI k (by omega) hka
            exact ⟨by rw [g1 k hkN]; exact i1, g4 i2⟩)
  exact hloop i hi hact

end ShadowHeapFacade

namespace ShadowHeapFacade

theorem store_unsorted_loop_fuel (mem : Memory) (start : Nat) :
    ∀ (fuel fuel' k single : Nat) (d : ShadowHeapData), d.unsorted_size = (k : Int) →
      USB_ENTRIES_MAX - k ≤ fuel → USB_ENTRIES_MAX - k ≤ fuel' → k < USB_ENTRIES_MAX →
      store_unsorted_loop mem start fuel single d =
        store_unsorted_loop mem start fuel' single d := by
  intro fuel
  induction fuel with
  | zero => intro fuel' k single d _ h1 _ h3; omega
  | succ fuel ih =>
    intro fuel' k single d hsz h1 h2 h3
    cases fuel' with
    | zero => omega
    | succ fuel' =>
      unfold store_unsorted_loop
      by_cases hg : 0 ≤ d.unsorted_size ∧ d.unsorted_size < (USB_ENTRIES_MAX : Int)
      · rw [if_pos hg, if_pos hg]
        simp only
        by_cases hfd : (CHUNK_HEADER.read mem single).fd = start
        · rw [if_pos hfd, if_pos hfd]
        · rw [if_neg hfd, if_neg hfd]
          by_cases hfull : d.unsorted_size + 1 ≥ (USB_ENTRIES_MAX : Int)
          · rw [if_pos hfull, if_pos hfull]
          · rw [if_neg hfull, if_neg hfull]
            have hk1 : k + 1 < USB_ENTRIES_MAX := by rw [hsz] at hfull; omega
            exact ih fuel' (k + 1) _ _ (by simp [hsz]) (by omega) (by omega) hk1
      · rw [if_neg hg, if_neg hg]

/-- A recorded node whose `fd` or `bk` word reads differently is found by the next walk. -/
theorem unsorted_change_detected (mem0 mem : Memory) (s0 s : Nat) (hs0 : s0 < WORD)
    (hs : s < WORD) (i : Nat)
    (hch : mem ((fd_node mem0 s0 i + 24) % WORD) ≠ mem0 ((fd_node mem0 s0 i + 24) % WORD) ∨
      mem ((fd_node mem0 s0 i + 16) % WORD) ≠ mem0 ((fd_node mem0 s0 i + 16) % WORD)) :
    ∃ j, j ≤ i ∧ LINKED_LIST_META.from_chunk_header mem (fd_node mem s j) ≠
      LINKED_LIST_META.from_chunk_header mem0 (fd_node mem0 s0 j) := by
  by_contra hno
  have hall : ∀ j, j ≤ i → LINKED_LIST_META.from_chunk_header mem (fd_node mem s j) =
      LINKED_LIST_META.from_chunk_header mem0 (fd_node mem0 s0 j) := by
    intro j hj
    by_contra hne
    exact hno ⟨j, hj, hne⟩
  have hnode : ∀ j, j ≤ i → fd_node mem s j = fd_node mem0 s0 j := by
    intro j
    induction j with
    | zero =>
      intro _
      have := congrArg LINKED_LIST_META.ptr (hall 0 (Nat.zero_le _))
      simp only [LINKED_LIST_META.from_chunk_header, fd_node, CHUNK_HEADER.to_memory] at this
      simp only [fd_node]
      unfold WORD at *
      omega
    | succ j _ =>
      intro hj
      have := congrArg LINKED_LIST_META.fd (hall j (by omega))
      simpa [LINKED_LIST_META.from_chunk_header, fd_node] using this
  have hi := hall i (Nat.le_refl _)
  rw [hnode i (Nat.le_refl _)] at hi
  rcases hch with h | h
  · have := congrArg LINKED_LIST_META.bk hi
    exact h (by simpa [LINKED_LIST_META.from_chunk_header, CHUNK_HEADER.read] using this)
  · have := congrArg LINKED_LIST_META.fd hi
    exact h (by simpa [LINKED_LIST_META.from_chunk_header, CHUNK_HEADER.read] using this)

end ShadowHeapFacade

/-! ## Claims on growth and on the shadow snapshots -/

/-- C11. `CachedMetaStore`, every well-formed store: whenever `reserve(n)` returns, the
store it leaves answers every `get(k)` as before, has the same `size()`, lets every stored
entry be removed and has a power of two as `capacity()`; `reserve(n)` returns, with room for
`n`, when `n` is at most `2^30` times the capacity. The growth step of `put` is
`reserve(size() + 1)`: it always returns, with the same guarantees, after at most one
doubling. -/
theorem C11_growth_preserves_entries (s : CachedMetaStore) (n : Nat) (hs : s.WF)
    (hcap : 2 ^ 31 * s.capacity < WORD) :
    (∀ s', s.reserve n = some s' → (∀ k, s'.get k = s.get k) ∧ s'.size = s.size ∧
      (∀ x ∈ s.entries, (s'.remove x).1 = true) ∧ (∃ j, s'.capacity = 2 ^ j) ∧
      s.capacity ≤ s'.capacity) ∧
    (n ≤ 2 ^ 30 * s.capacity → ∃ s', s.reserve n = some s' ∧ n ≤ s'.capacity) ∧
    (∀ c : MALLOC_META, ∃ s1, s.reserve ((s.size + 1) % WORD) = some s1 ∧
      s.put c = s1.put c ∧ s1.capacity = (if s.size < s.capacity then 1 else 2) * s.capacity ∧
      (∀ k, s1.get k = s.get k) ∧ s1.size = s.size ∧
      (∀ x ∈ s.entries, (s1.remove x).1 = true) ∧ (∃ j, s1.capacity = 2 ^ j)) := by
  have hsz := CachedMetaStore.cached_size_eq hs.inv_cached
  have hle : s.entries.length ≤ s.capacity := hs.2.2.2.2.1
  have hpos := CachedMetaStore.capacity_pos hs.inv_cached
  refine ⟨fun s' h1 => ?_, fun hn => ?_, fun c => ?_⟩
  · obtain ⟨h2, h3, _⟩ := CachedMetaStore.reserve_some hs hcap h1
    obtain ⟨g1, g2⟩ := CachedMetaStore.same_entries hs h2 h3
    obtain ⟨f1, f2, f3⟩ := CachedMetaStore.reserve_fields h1
    refine ⟨g1, ?_, g2, CachedMetaStore.capacity_pow_two h2, ?_⟩
    · unfold CachedMetaStore.size; rw [f2, f3]
    · exact (details.ResizeableHashMap.ensure_capacity_some hs.1 hcap f1).2.2.1
  · obtain ⟨s', h1, _, _, _, h5, _⟩ := CachedMetaStore.reserve_total n hs hn hcap
    exact ⟨s', h1, h5⟩
  · have hmod : (s.size + 1) % WORD = s.size + 1 := Nat.mod_eq_of_lt (by omega)
    obtain ⟨s1, h1, h2, h3, h4, h5, h6, _⟩ := CachedMetaStore.reserve_total
      ((s.size + 1) % WORD) hs (by rw [hmod]; omega) hcap
    obtain ⟨g1, g2⟩ := CachedMetaStore.same_entries hs h2 h3
    refine ⟨s1, h1, (CachedMetaStore.put_eq_put_reserved c h1 h5).1, ?_, g1, h4, g2,
      CachedMetaStore.capacity_pow_two h2⟩
    have hr := h1
    unfold CachedMetaStore.reserve at hr
    rcases details.ResizeableHashMap.ensure_capacity_of_le (m := s.cache)
      (show (s.size + 1) % WORD ≤ 2 * s.cache.capacity by
        rw [hmod]; show s.size + 1 ≤ 2 * s.capacity; omega)
      (show 2 * s.cache.capacity < WORD by show 2 * s.capacity < WORD; omega)
      with ⟨e1, e2⟩ | ⟨e1, e2⟩
    · rw [e1] at hr
      cases hr
      have : s.size < s.capacity := by
        rw [hmod] at e2
        exact e2
      rw [if_pos this, Nat.one_mul]
    · rw [e1] at hr
      cases hr
      have hlt : ¬ s.size < s.capacity := by
        rw [hmod] at e2
        have : s.capacity < s.size + 1 := e2
        omega
      rw [if_neg hlt]
      have hl2 : s.cache.bins.length ≤ (2 * s.cache.bins.length) % WORD := by
        have : 2 * s.cache.bins.length < WORD := by
          have h4 : s.capacity = s.cache.bins.length * 4 := rfl
          omega
        rw [Nat.mod_eq_of_lt this]; omega
      obtain ⟨l1, _⟩ := @details.ResizeableHashMap.reserve_double_perm s.cache 2 hl2
      show (s.cache.reserve_double 2).bins.length * 4 = 2 * (s.cache.bins.length * 4)
      rw [l1, Nat.mod_eq_of_lt (by
        have h4 : s.capacity = s.cache.bins.length * 4 := rfl
        omega)]
      omega

set_option maxRecDepth 1000000 in
/-- Witness for C11: the full cache of the rehash test (128 entries in 128 cells);
`reserve(1000)` grows it by three doublings to 1024 cells, and the next `put` grows it to
256 cells. -/
theorem C11_witness :
    (exampleCached 128).WF ∧ 2 ^ 31 * (exampleCached 128).capacity < WORD ∧
    (exampleCached 128).size = 128 ∧ (exampleCached 128).capacity = 128 ∧
    ((exampleCached 128).reserve 1000).map CachedMetaStore.capacity = some 1024 ∧
    ((exampleCached 128).put ⟨32 + 8 * 128, 13 + 128⟩).map
      (fun r => (r.1, r.2.capacity, r.2.size)) = some (true, 256, 129) ∧
    ((∀ s', (exampleCached 128).reserve 1000 = some s' →
      (∀ k, s'.get k = (exampleCached 128).get k) ∧ s'.size = (exampleCached 128).size ∧
      (∀ x ∈ (exampleCached 128).entries, (s'.remove x).1 = true) ∧
      (∃ j, s'.capacity = 2 ^ j) ∧ (exampleCached 128).capacity ≤ s'.capacity) ∧
    (1000 ≤ 2 ^ 30 * (exampleCached 128).capacity →
      ∃ s', (exampleCached 128).reserve 1000 = some s' ∧ 1000 ≤ s'.capacity) ∧
    (∀ c : MALLOC_META, ∃ s1,
      (exampleCached 128).reserve (((exampleCached 128).size + 1) % WORD) = some s1 ∧
      (exampleCached 128).put c = s1.put c ∧
      s1.capacity = (if (exampleCached 128).size < (exampleCached 128).capacity then 1 else 2)
        * (exampleCached 128).capacity ∧
      (∀ k, s1.get k = (exampleCached 128).get k) ∧ s1.size = (exampleCached 128).size ∧
      (∀ x ∈ (exampleCached 128).entries, (s1.remove x).1 = true) ∧
      (∃ j, s1.capacity = 2 ^ j))) :=
  ⟨exampleCached_WF 128 (by decide), by decide, by decide, by decide, by decide, by decide,
    C11_growth_preserves_entries (exampleCached 128) 1000 (exampleCached_WF 128 (by decide))
      (by decide)⟩

set_option maxRecDepth 1000000 in
/-- Claim C12 (contradicted by the code). The request `2^37 + 1` is below `2^63`, and the
least `128 * 2^k` that reaches it is `2^38`; but `reserve(2^37 + 1)` on the freshly
constructed store does not return: the growth factor of `ensure_capacity`, an `int`, would
have to be doubled to `2^31`, which is undefined behaviour. Where the factor does not
overflow the rule of the claim holds: a freshly constructed `CachedMetaStore` has
`capacity() = 128`; for every store with a non-empty cache and every `n` up to `2^30` times
the capacity (`2^31` times the capacity being a `size_t`), `reserve(n)` leaves the store as
it is if `n <= capacity`, and otherwise leaves the capacity `capacity * 2^k` for the least
`k >= 1` that reaches `n`; when `size()` does not exceed the capacity, `put` grows the
cache like `reserve(size() + 1)` and afterwards `size()` does not exceed `capacity()`;
`remove` and `clear` never change the capacity. From 128, `reserve(129)` gives 256, and so
do the 129 puts of the rehash test, and the capacity is still 256 after all 129 entries are
removed. -/
theorem C12_reserve_overflows_the_growth_factor (s : CachedMetaStore) (n : Nat)
    (hpos : 0 < s.capacity) (hn : n ≤ 2 ^ 30 * s.capacity)
    (hcap : 2 ^ 31 * s.capacity < WORD) :
    (2 ^ 37 + 1 ≤ 2 ^ 63 ∧ CachedMetaStore.init.capacity = 128 ∧
      CachedMetaStore.init.capacity * 2 ^ 30 < 2 ^ 37 + 1 ∧
      2 ^ 37 + 1 ≤ CachedMetaStore.init.capacity * 2 ^ 31 ∧
      CachedMetaStore.init.reserve (2 ^ 37 + 1) = none) ∧
    CachedMetaStore.init.capacity = 128 ∧
    (∃ s', s.reserve n = some s' ∧ (n ≤ s.capacity → s' = s) ∧
      (s.capacity < n → ∃ k, 1 ≤ k ∧ s'.capacity = s.capacity * 2 ^ k ∧ n ≤ s'.capacity ∧
        ∀ k', 1 ≤ k' → n ≤ s.capacity * 2 ^ k' → k ≤ k')) ∧
    (∀ c : MALLOC_META, s.size ≤ s.capacity →
      ∃ r, s.put c = some r ∧ r.2.size ≤ r.2.capacity ∧
        r.2.capacity = (if s.size < s.capacity then 1 else 2) * s.capacity) ∧
    (∀ e, (s.remove e).2.capacity = s.capacity) ∧ s.clear.capacity = s.capacity ∧
    (CachedMetaStore.init.reserve 129).map CachedMetaStore.capacity = some 256 ∧
    ((IMetaStore.cached CachedMetaStore.init).run ((exampleChunks 129).map Op.put)).map
      (fun r => (r.2.cap, r.2.size)) = some (256, 129) ∧
    ((IMetaStore.cached CachedMetaStore.init).run
      ((exampleChunks 129).map Op.put ++ (exampleChunks 129).map Op.remove)).map
      (fun r => (r.1.all id, r.2.cap, r.2.size)) = some (true, 256, 0) :=
  ⟨by decide, CachedMetaStore.capacity_init, CachedMetaStore.reserve_capacity s n hn hcap,
    fun c hsz => CachedMetaStore.put_capacity c hpos (by omega) hsz,
    CachedMetaStore.capacity_remove s, CachedMetaStore.capacity_clear s,
    by decide, by decide, by decide⟩

set_option maxRecDepth 1000000 in
/-- Witness for C12: `reserve(1000)` on the freshly constructed store gives
`1024 = 128 * 2^3`, while `reserve(2^37 + 1)` does not return. -/
theorem C12_witness :
    0 < CachedMetaStore.init.capacity ∧ 1000 ≤ 2 ^ 30 * CachedMetaStore.init.capacity ∧
    2 ^ 31 * CachedMetaStore.init.capacity < WORD ∧
    (CachedMetaStore.init.reserve 1000).map CachedMetaStore.capacity = some 1024 ∧
    CachedMetaStore.init.reserve (2 ^ 37 + 1) = none ∧
    (∃ s', CachedMetaStore.init.reserve 1000 = some s' ∧
      (1000 ≤ CachedMetaStore.init.capacity → s' = CachedMetaStore.init) ∧
      (CachedMetaStore.init.capacity < 1000 → ∃ k, 1 ≤ k ∧
        s'.capacity = CachedMetaStore.init.capacity * 2 ^ k ∧ 1000 ≤ s'.capacity ∧
        ∀ k', 1 ≤ k' → 1000 ≤ CachedMetaStore.init.capacity * 2 ^ k' → k ≤ k')) :=
  ⟨by decide, by decide, by decide, by decide,
    (C12_reserve_overflows_the_growth_factor CachedMetaStore.init 1000 (by decide)
      (by decide) (by decide)).1.2.2.2.2,
    (C12_reserve_overflows_the_growth_factor CachedMetaStore.init 1000 (by decide)
      (by decide) (by decide)).2.2.1⟩

/-- C13 (evaluation at the failing input). The freshly constructed `CachedMetaStore` holds
no entries and has `size() = 0`, yet `remove({null, 0})` returns true and leaves
`size() = 2^64 - 1`; on this store `remove(e)` returns true exactly for the entries with a
null pointer and a size word below 8 (stripped size 0). -/
theorem C13_cached_remove_null_on_empty :
    CachedMetaStore.init.entries = [] ∧ CachedMetaStore.init.size = 0 ∧
    (CachedMetaStore.init.remove ⟨0, 0⟩).1 = true ∧
    (CachedMetaStore.init.remove ⟨0, 0⟩).2.size = 2 ^ 64 - 1 ∧
    ∀ e : MALLOC_META, (CachedMetaStore.init.remove e).1 = true ↔
      (e.ptr = 0 ∧ e.chunksize = 0) := by
  refine ⟨CachedMetaStore.entries_init, by decide, by decide, by decide, fun e => ?_⟩
  by_cases he : e.ptr = 0
  · have hg : CachedMetaStore.init.cache.get_entry 0 = some (0, 0) := by decide
    have hcell : CachedMetaStore.init.cache.cell (0, 0) = MALLOC_META.empty := by decide
    unfold CachedMetaStore.remove
    rw [he, hg]
    simp only [hcell]
    have h0 : MALLOC_META.empty.chunksize = 0 := by decide
    have hp0 : MALLOC_META.empty.ptr = 0 := rfl
    by_cases hc : e.chunksize = 0
    · have hne : MALLOC_META.empty.ne e = false := by
        rw [MALLOC_META.ne_eq_false_iff, h0, hp0, he, hc]
        exact ⟨rfl, rfl⟩
      rw [hne]
      simp [he, hc]
    · have hne : MALLOC_META.empty.ne e = true := by
        rw [MALLOC_META.ne_eq_true_iff, h0]
        exact fun h => hc h.2.symm
      rw [hne]
      simp [hc]
  · have hr := CachedMetaStore.cached_remove_rej CachedMetaStore.cached_WF_init he
      (fun x hx => by rw [CachedMetaStore.entries_init] at hx; cases hx)
    rw [hr]
    simp [he]

/-- C14 (counterexample). With top-chunk checks enabled, a STORE that reads the size word 0
records `v = 0`; the next check, with the current size word `c = 0x20d31`, does not abort
although `c` differs from `v`. -/
theorem C14_counterexample :
    exampleModes.topMode = true ∧
    (ShadowHeapFacade._store_topchunk_impl true exampleModes exampleInfo
      (Function.update exampleHeap 20008 0) ShadowHeapData.init).topchunksize = 0 ∧
    (CHUNK_HEADER.read exampleHeap (exampleHeap exampleInfo.topchunk)).size = 134449 ∧
    (ShadowHeapFacade._check_topchunk_impl true exampleModes exampleInfo exampleHeap
      (ShadowHeapFacade._store_topchunk_impl true exampleModes exampleInfo
        (Function.update exampleHeap 20008 0) ShadowHeapData.init)).isSome = true := by
  decide

/-- C14 (amended). With top-chunk checks enabled, after a STORE recorded the top chunk's
size word `v` (read in `mem0`), for every current size word `c` (read in `mem`): if `v` is
not 0, `check_topchunk` aborts if and only if `c` differs from `v`, comparing the full raw
word; if `v` is 0, and likewise if no STORE has happened yet, the check does nothing. A
check that does not abort leaves the shadow data unchanged. -/
theorem C14_check_topchunk (modes : ModeReader) (info : ARENA_INFO) (mem0 mem : Memory)
    (data : ShadowHeapData) (ht : modes.topMode = true) :
    (ShadowHeapFacade._store_topchunk_impl true modes info mem0 data).topchunksize =
      (CHUNK_HEADER.read mem0 (mem0 info.topchunk)).size ∧
    ((CHUNK_HEADER.read mem0 (mem0 info.topchunk)).size ≠ 0 →
      (ShadowHeapFacade._check_topchunk_impl true modes info mem
          (ShadowHeapFacade._store_topchunk_impl true modes info mem0 data) = none ↔
        (CHUNK_HEADER.read mem (mem info.topchunk)).size ≠
          (CHUNK_HEADER.read mem0 (mem0 info.topchunk)).size)) ∧
    ((CHUNK_HEADER.read mem0 (mem0 info.topchunk)).size = 0 →
      ShadowHeapFacade._check_topchunk_impl true modes info mem
          (ShadowHeapFacade._store_topchunk_impl true modes info mem0 data) =
        some (ShadowHeapFacade._store_topchunk_impl true modes info mem0 data)) ∧
    (data.topchunksize = 0 →
      ShadowHeapFacade._check_topchunk_impl true modes info mem data = some data) ∧
    ShadowHeapData.init.topchunksize = 0 ∧
    (∀ d, ShadowHeapFacade._check_topchunk_impl true modes info mem data = some d →
      d = data) := by
  refine ⟨?_, fun hv => ?_, fun hv => ?_, fun h0 => ?_, rfl, fun d hd => ?_⟩
  · simp [ShadowHeapFacade._store_topchunk_impl, ht]
  · simp only [ShadowHeapFacade._check_topchunk_impl, ShadowHeapFacade._store_topchunk_impl, ht,
      Bool.true_eq_false, if_false, if_neg hv]
    by_cases hc : (CHUNK_HEADER.read mem0 (mem0 info.topchunk)).size ≠
        (CHUNK_HEADER.read mem (mem info.topchunk)).size
    · rw [if_pos hc]
      exact ⟨fun _ h => hc h.symm, fun _ => rfl⟩
    · rw [if_neg hc]
      exact ⟨fun h => (by cases h), fun h => absurd (fun e => h e.symm) hc⟩
  · simp only [ShadowHeapFacade._check_topchunk_impl, ShadowHeapFacade._store_topchunk_impl, ht,
      Bool.true_eq_false, if_false, if_pos hv]
  · simp only [ShadowHeapFacade._check_topchunk_impl, ht, Bool.true_eq_false, if_false,
      if_pos h0]
  · simp only [ShadowHeapFacade._check_topchunk_impl, ht, Bool.true_eq_false, if_false] at hd
    split_ifs at hd <;> cases hd <;> rfl

/-- Witness for C14: the example heap, and the same heap with the top size word overwritten
by `0xffffffffffffffff`, on which the check aborts. -/
theorem C14_witness :
    exampleModes.topMode = true ∧
    (ShadowHeapFacade._check_topchunk_impl true exampleModes exampleInfo
      (Function.update exampleHeap 20008 (2 ^ 64 - 1))
      (ShadowHeapFacade._store_topchunk_impl true exampleModes exampleInfo exampleHeap
        ShadowHeapData.init)).isSome = false ∧
    (ShadowHeapFacade._check_topchunk_impl true exampleModes exampleInfo exampleHeap
      (ShadowHeapFacade._store_topchunk_impl true exampleModes exampleInfo exampleHeap
        ShadowHeapData.init)).isSome = true ∧
    ((CHUNK_HEADER.read exampleHeap (exampleHeap exampleInfo.topchunk)).size ≠ 0 →
      (ShadowHeapFacade._check_topchunk_impl true exampleModes exampleInfo
          (Function.update exampleHeap 20008 (2 ^ 64 - 1))
          (ShadowHeapFacade._store_topchunk_impl true exampleModes exampleInfo exampleHeap
            ShadowHeapData.init) = none ↔
        (CHUNK_HEADER.read (Function.update exampleHeap 20008 (2 ^ 64 - 1))
            ((Function.update exampleHeap 20008 (2 ^ 64 - 1)) exampleInfo.topchunk)).size ≠
          (CHUNK_HEADER.read exampleHeap (exampleHeap exampleInfo.topchunk)).size)) :=
  ⟨rfl, by decide, by decide,
    (C14_check_topchunk exampleModes exampleInfo exampleHeap
      (Function.update exampleHeap 20008 (2 ^ 64 - 1)) ShadowHeapData.init rfl).2.1⟩

/-- C15. With unsorted-bin checks enabled, a STORE (in `mem0`) returns and records `n`
nodes, `1 <= n <= 128`; the following CHECK (in `mem`) aborts if and only if at some
position `i < n` the tuple `(ptr, chunksize, fd, bk)` of the `i`-th node reached from the
current head via `fd` links differs from the recorded one, that is, in one of the four
fields; a CHECK that does not abort leaves the shadow data unchanged. In particular, if the
`bk` word or the `fd` word of a recorded node reads differently, the CHECK aborts. -/
theorem C15_check_unsorted (fuel : Nat) (modes : ModeReader) (info : ARENA_INFO)
    (mem0 mem : Memory) (data : ShadowHeapData) (hu : modes.usbMode = true)
    (hf : USB_ENTRIES_MAX ≤ fuel) :
    ∃ (d : ShadowHeapData) (n : Nat),
      ShadowHeapFacade._store_unsorted_impl fuel true modes info mem0 data = some d ∧
      d.unsorted_size = (n : Int) ∧ 1 ≤ n ∧ n ≤ USB_ENTRIES_MAX ∧
      (ShadowHeapFacade._check_unsorted_impl true modes info mem d = none ↔
        ∃ i, i < n ∧
          LINKED_LIST_META.from_chunk_header mem (fd_node mem (mem info.unsorted_bin) i) ≠
            LINKED_LIST_META.from_chunk_header mem0
              (fd_node mem0 (mem0 info.unsorted_bin) i)) ∧
      (∀ a b : LINKED_LIST_META, a ≠ b ↔
        (a.ptr ≠ b.ptr ∨ a.chunksize ≠ b.chunksize ∨ a.fd ≠ b.fd ∨ a.bk ≠ b.bk)) ∧
      (ShadowHeapFacade._check_unsorted_impl true modes info mem d = none ∨
        ShadowHeapFacade._check_unsorted_impl true modes info mem d = some d) ∧
      (∀ i, i < n → mem0 info.unsorted_bin < WORD → mem info.unsorted_bin < WORD →
        (mem ((fd_node mem0 (mem0 info.unsorted_bin) i + 24) % WORD) ≠
            mem0 ((fd_node mem0 (mem0 info.unsorted_bin) i + 24) % WORD) ∨
          mem ((fd_node mem0 (mem0 info.unsorted_bin) i + 16) % WORD) ≠
            mem0 ((fd_node mem0 (mem0 info.unsorted_bin) i + 16) % WORD)) →
        ShadowHeapFacade._check_unsorted_impl true modes info mem d = none) := by
  obtain ⟨d, n, h1, h2, h3, h4, h5, _⟩ :=
    ShadowHeapFacade.store_unsorted_spec fuel modes info mem0 data hu hf
  obtain ⟨c1, c2⟩ := ShadowHeapFacade.check_unsorted_spec modes info mem d hu
    (by rw [h4]; exact_mod_cast h3)
  have hiff : ShadowHeapFacade._check_unsorted_impl true modes info mem d = none ↔
      ∃ i, i < n ∧
        LINKED_LIST_META.from_chunk_header mem (fd_node mem (mem info.unsorted_bin) i) ≠
          LINKED_LIST_META.from_chunk_header mem0
            (fd_node mem0 (mem0 info.unsorted_bin) i) := by
    rw [c1]
    constructor
    · rintro ⟨i, hi, hne⟩
      rw [h4] at hi
      have hin : i < n := by exact_mod_cast hi
      exact ⟨i, hin, by rw [← h5 i hin]; exact hne⟩
    · rintro ⟨i, hi, hne⟩
      exact ⟨i, by rw [h4]; exact_mod_cast hi, by rw [h5 i hi]; exact hne⟩
  refine ⟨d, n, h1, h4, h2, h3, hiff, ShadowHeapFacade.LINKED_LIST_META_ne_fields, c2, ?_⟩
  intro i hi hs0 hs hch
  obtain ⟨j, hj, hne⟩ := ShadowHeapFacade.unsorted_change_detected mem0 mem _ _ hs0 hs i hch
  exact hiff.2 ⟨j, by omega, hne⟩

/-- Witness for C15: the ring of the example heap is recorded (2 nodes); the check passes
on the unchanged heap and aborts when the `bk` word of the second node is overwritten. -/
theorem C15_witness :
    exampleModes.usbMode = true ∧ USB_ENTRIES_MAX ≤ 128 ∧
    (ShadowHeapFacade._store_unsorted_impl 128 true exampleModes exampleInfo exampleHeap
      ShadowHeapData.init).map (fun d => (d.unsorted_size, d.unsorted 0, d.unsorted 1,
        (ShadowHeapFacade._check_unsorted_impl true exampleModes exampleInfo exampleHeap
          d).isSome,
        (ShadowHeapFacade._check_unsorted_impl true exampleModes exampleInfo
          (Function.update exampleHeap 6024 4660) d).isSome)) =
      some (2, ⟨5016, 144, 6000, 6000⟩, ⟨6016, 160, 5000, 5000⟩, true, false) ∧
    ∃ (d : ShadowHeapData) (n : Nat),
      ShadowHeapFacade._store_unsorted_impl 128 true exampleModes exampleInfo exampleHeap
        ShadowHeapData.init = some d ∧
      d.unsorted_size = (n : Int) ∧ 1 ≤ n ∧ n ≤ USB_ENTRIES_MAX ∧
      (ShadowHeapFacade._check_unsorted_impl true exampleModes exampleInfo
          (Function.update exampleHeap 6024 4660) d = none ↔
        ∃ i, i < n ∧
          LINKED_LIST_META.from_chunk_header (Function.update exampleHeap 6024 4660)
            (fd_node (Function.update exampleHeap 6024 4660)
              ((Function.update exampleHeap 6024 4660) exampleInfo.unsorted_bin) i) ≠
            LINKED_LIST_META.from_chunk_header exampleHeap
              (fd_node exampleHeap (exampleHeap exampleInfo.unsorted_bin) i)) := by
  refine ⟨rfl, by decide, by decide, ?_⟩
  obtain ⟨d, n, h1, h2, h3, h4, h5, _⟩ := C15_check_unsorted 128 exampleModes exampleInfo
    exampleHeap (Function.update exampleHeap 6024 4660) ShadowHeapData.init rfl (by decide)
  exact ⟨d, n, h1, h2, h3, h4, h5⟩

/-- C16. For every memory state, `store_unsorted` (checks enabled) returns when its loop
may run 128 times, whatever the `fd` chain looks like, and with more fuel it returns the
same; it has then recorded `n` entries with `1 <= n <= 128`: slot `i < n` holds
`(ptr, chunksize, fd, bk)` of the `i`-th node reached from `*arena.unsorted_bin` via `fd`
links, every other slot and every other member of the shadow data is as before; no node
before the last recorded one has the head as `fd`, and the last recorded one has the head
as `fd` unless 128 entries are recorded. -/
theorem C16_store_unsorted (fuel : Nat) (modes : ModeReader) (info : ARENA_INFO)
    (mem : Memory) (data : ShadowHeapData) (hu : modes.usbMode = true)
    (hf : USB_ENTRIES_MAX ≤ fuel) :
    ∃ (d : ShadowHeapData) (n : Nat),
      ShadowHeapFacade._store_unsorted_impl fuel true modes info mem data = some d ∧
      (∀ fuel', USB_ENTRIES_MAX ≤ fuel' →
        ShadowHeapFacade._store_unsorted_impl fuel' true modes info mem data = some d) ∧
      1 ≤ n ∧ n ≤ USB_ENTRIES_MAX ∧ USB_ENTRIES_MAX = 128 ∧ d.unsorted_size = (n : Int) ∧
      (∀ i, i < n → d.unsorted i =
        LINKED_LIST_META.from_chunk_header mem (fd_node mem (mem info.unsorted_bin) i)) ∧
      (∀ i, n ≤ i → d.unsorted i = data.unsorted i) ∧
      (∀ i, i + 1 < n →
        (CHUNK_HEADER.read mem (fd_node mem (mem info.unsorted_bin) i)).fd ≠
          mem info.unsorted_bin) ∧
      ((CHUNK_HEADER.read mem (fd_node mem (mem info.unsorted_bin) (n - 1))).fd =
          mem info.unsorted_bin ∨ n = USB_ENTRIES_MAX) ∧
      d.topchunksize = data.topchunksize ∧ d.tcache = data.tcache ∧
      d.tcacheHasData = data.tcacheHasData := by
  obtain ⟨d, n, h1, h2, h3, h4, h5, h6, h7, h8, h9, h10, h11⟩ :=
    ShadowHeapFacade.store_unsorted_spec fuel modes info mem data hu hf
  refine ⟨d, n, h1, fun fuel' hf' => ?_, h2, h3, rfl, h4, h5, h6, h7, h8, h9, h10, h11⟩
  rw [← h1]
  unfold ShadowHeapFacade._store_unsorted_impl
  simp only [hu, Bool.true_eq_false, if_false]
  exact ShadowHeapFacade.store_unsorted_loop_fuel mem _ fuel' fuel 0 _ _ rfl
    (by omega) (by omega) (by decide)

set_option maxRecDepth 1000000 in
/-- Witness for C16: a chunk whose `fd` points to itself, not to the head, so that the walk
never returns to the head; 128 entries are recorded. -/
theorem C16_witness :
    exampleModes.usbMode = true ∧ USB_ENTRIES_MAX ≤ 128 ∧
    (ShadowHeapFacade._store_unsorted_impl 128 true exampleModes exampleInfo
      (Function.update exampleHeap 6016 6000) ShadowHeapData.init).map
        (fun d => (d.unsorted_size, d.unsorted 127)) = some (128, ⟨6016, 160, 6000, 5000⟩) ∧
    ∃ (d : ShadowHeapData) (n : Nat),
      ShadowHeapFacade._store_unsorted_impl 128 true exampleModes exampleInfo
        (Function.update exampleHeap 6016 6000) ShadowHeapData.init = some d ∧
      (∀ fuel', USB_ENTRIES_MAX ≤ fuel' →
        ShadowHeapFacade._store_unsorted_impl fuel' true exampleModes exampleInfo
          (Function.update exampleHeap 6016 6000) ShadowHeapData.init = some d) ∧
      1 ≤ n ∧ n ≤ USB_ENTRIES_MAX ∧ USB_ENTRIES_MAX = 128 ∧ d.unsorted_size = (n : Int) := by
  refine ⟨rfl, by decide, by decide, ?_⟩
  obtain ⟨d, n, h1, h2, h3, h4, h5, h6, _⟩ := C16_store_unsorted 128 exampleModes exampleInfo
    (Function.update exampleHeap 6016 6000) ShadowHeapData.init rfl (by decide)
  exact ⟨d, n, h1, h2, h3, h4, h5, h6⟩

/-- C17. With tcache checks enabled and a snapshot present, `check_tcache` aborts if and
only if the thread cache is located and, in some bin with a non-null head and a positive
count, for one of the up to 7 cells that the walk from the head via `next` traverses, the
recorded `next` differs from the chunk's current `fd`, the recorded pointer differs from
the traversed pointer, or the recorded size differs from the chunk's current chunksize; a
check that does not abort only marks the snapshot empty. In particular, after a STORE (in
`mem0`) that walked bin `i` from the head `e`: if bin `i` is still walked from `e` and the
`fd` word of the head chunk reads differently, the next check aborts. -/
theorem C17_check_tcache (v230 : Bool) (modes : ModeReader) (info : ARENA_INFO)
    (mem0 mem : Memory) (data : ShadowHeapData) (ht : modes.tcaMode = true)
    (hd : data.tcacheHasData = true) :
    (ShadowHeapFacade._check_tcache_impl v230 true modes info mem data = none ↔
      (info.tcache ≠ 0 ∧ ∃ i, i < TCACHE_ENTRIES ∧ tcache_bin_active v230 mem info.tcache i ∧
        ∃ b, b < tcache_walk_length mem TCA_BIN_SIZE (tcache_entries v230 mem info.tcache i) ∧
          TcacheMetaEntry.mismatch mem (data.tcache i b)
            (next_entry mem (tcache_entries v230 mem info.tcache i) b))) ∧
    (∀ i e, tcache_walk_length mem TCA_BIN_SIZE e ≤ 7 ∧ TCA_BIN_SIZE = 7 ∧
      TCACHE_ENTRIES = 64 ∧
      (tcache_bin_active v230 mem info.tcache i ↔
        (tcache_entries v230 mem info.tcache i ≠ 0 ∧
          0 < tcache_counts v230 mem info.tcache i))) ∧
    (∀ d, ShadowHeapFacade._check_tcache_impl v230 true modes info mem data = some d →
      d.tcache = data.tcache ∧ d.unsorted = data.unsorted ∧
      d.unsorted_size = data.unsorted_size ∧ d.topchunksize = data.topchunksize) ∧
    (∀ i, i < TCACHE_ENTRIES → info.tcache ≠ 0 →
      tcache_bin_active v230 mem0 info.tcache i → tcache_bin_active v230 mem info.tcache i →
      tcache_entries v230 mem info.tcache i = tcache_entries v230 mem0 info.tcache i →
      (CHUNK_HEADER.read mem
          (CHUNK_HEADER.from_memory (tcache_entries v230 mem0 info.tcache i))).fd ≠
        (CHUNK_HEADER.read mem0
          (CHUNK_HEADER.from_memory (tcache_entries v230 mem0 info.tcache i))).fd →
      ShadowHeapFacade._check_tcache_impl v230 true modes info mem
        (ShadowHeapFacade._store_tcache_impl v230 true modes info mem0 data) = none) := by
  have hlen : ∀ n e, tcache_walk_length mem n e ≤ n := by
    intro n
    induction n with
    | zero => intro e; simp [tcache_walk_length]
    | succ n ih =>
      intro e
      unfold tcache_walk_length
      split_ifs
      · have := ih (mem e); omega
      · omega
  refine ⟨?_, fun i e => ⟨hlen 7 e, rfl, rfl, Iff.rfl⟩, fun d hd2 => ?_, ?_⟩
  · by_cases hp : info.tcache = 0
    · have : ShadowHeapFacade._check_tcache_impl v230 true modes info mem data = some data := by
        simp [ShadowHeapFacade._check_tcache_impl, ht, hd, hp]
      rw [this]
      exact ⟨fun h => (by cases h), fun h => absurd hp h.1⟩
    · rw [(ShadowHeapFacade.check_tcache_spec v230 modes info mem data ht hd hp).1]
      exact ⟨fun h => ⟨hp, h⟩, fun h => h.2⟩
  · by_cases hp : info.tcache = 0
    · have : ShadowHeapFacade._check_tcache_impl v230 true modes info mem data = some data := by
        simp [ShadowHeapFacade._check_tcache_impl, ht, hd, hp]
      rw [this] at hd2
      cases hd2
      exact ⟨rfl, rfl, rfl, rfl⟩
    · rcases (ShadowHeapFacade.check_tcache_spec v230 modes info mem data ht hd hp).2 with h | h
      · rw [h] at hd2; cases hd2
      · rw [h] at hd2
        cases hd2
        exact ⟨rfl, rfl, rfl, rfl⟩
  · intro i hi hp hact0 hact he hfd
    obtain ⟨s1, s2⟩ := ShadowHeapFacade.store_tcache_head v230 modes info mem0 data ht hp i hi
      hact0
    rw [(ShadowHeapFacade.check_tcache_spec v230 modes info mem _ ht s2 hp).1]
    refine ⟨i, hi, hact, 0, tcache_walk_length_pos mem 6 _, Or.inl ?_⟩
    rw [s1]
    simp only [next_entry]
    rw [he]
    exact fun h => hfd h.symm

/-- Witness for C17: the tcache bin 0 of the example heap is recorded; the check passes on
the unchanged heap and aborts when the `fd` word of the head chunk is overwritten. -/
theorem C17_witness :
    exampleModes.tcaMode = true ∧
    (ShadowHeapFacade._store_tcache_impl false true exampleModes exampleInfo exampleHeap
      ShadowHeapData.init).tcacheHasData = true ∧
    (ShadowHeapFacade._store_tcache_impl false true exampleModes exampleInfo exampleHeap
      ShadowHeapData.init).tcache 0 0 = ⟨7016, 32, 8016⟩ ∧
    (ShadowHeapFacade._store_tcache_impl false true exampleModes exampleInfo exampleHeap
      ShadowHeapData.init).tcache 0 1 = ⟨8016, 32, 0⟩ ∧
    (ShadowHeapFacade._check_tcache_impl false true exampleModes exampleInfo exampleHeap
      (ShadowHeapFacade._store_tcache_impl false true exampleModes exampleInfo exampleHeap
        ShadowHeapData.init)).isSome = true ∧
    (ShadowHeapFacade._check_tcache_impl false true exampleModes exampleInfo
      (Function.update exampleHeap 7016 57005)
      (ShadowHeapFacade._store_tcache_impl false true exampleModes exampleInfo exampleHeap
        ShadowHeapData.init)).isSome = false ∧
    (ShadowHeapFacade._check_tcache_impl false true exampleModes exampleInfo
        (Function.update exampleHeap 7016 57005)
        (ShadowHeapFacade._store_tcache_impl false true exampleModes exampleInfo exampleHeap
          ShadowHeapData.init) = none ↔
      (exampleInfo.tcache ≠ 0 ∧ ∃ i, i < TCACHE_ENTRIES ∧
        tcache_bin_active false (Function.update exampleHeap 7016 57005) exampleInfo.tcache i ∧
        ∃ b, b < tcache_walk_length (Function.update exampleHeap 7016 57005) TCA_BIN_SIZE
            (tcache_entries false (Function.update exampleHeap 7016 57005)
              exampleInfo.tcache i) ∧
          TcacheMetaEntry.mismatch (Function.update exampleHeap 7016 57005)
            ((ShadowHeapFacade._store_tcache_impl false true exampleModes exampleInfo
              exampleHeap ShadowHeapData.init).tcache i b)
            (next_entry (Function.update exampleHeap 7016 57005)
              (tcache_entries false (Function.update exampleHeap 7016 57005)
                exampleInfo.tcache i) b))) :=
  ⟨rfl, by decide, by decide, by decide, by decide, by decide,
    (C17_check_tcache false exampleModes exampleInfo exampleHeap
      (Function.update exampleHeap 7016 57005)
      (ShadowHeapFacade._store_tcache_impl false true exampleModes exampleInfo exampleHeap
        ShadowHeapData.init) rfl (by decide)).1⟩

/-- C18. In every state of the facade and for every memory state: if `check_tcache`
returns, a second `check_tcache` on the shadow data it leaves, with no `store_tcache` in
between, returns too and leaves the shadow data as it is; and unless the first call left
early (checks off, not initialised, or thread cache not located), it has marked the
snapshot empty, so that the second call leaves before it reads the thread cache. -/
theorem C18_second_check_tcache_is_noop (v230 : Bool) (isInitialized : Bool)
    (modes : ModeReader) (info : ARENA_INFO) (mem1 mem2 : Memory) (data d : ShadowHeapData)
    (h : ShadowHeapFacade._check_tcache_impl v230 isInitialized modes info mem1 data = some d) :
    ShadowHeapFacade._check_tcache_impl v230 isInitialized modes info mem2 d = some d ∧
    ((isInitialized = true ∧ modes.tcaMode = true ∧ info.tcache ≠ 0) →
      d.tcacheHasData = false) := by
  unfold ShadowHeapFacade._check_tcache_impl at h ⊢
  by_cases h1 : isInitialized = false
  · rw [if_pos h1] at h
    cases h
    rw [if_pos h1]
    exact ⟨rfl, fun hh => by rw [hh.1] at h1; cases h1⟩
  · rw [if_neg h1] at h
    rw [if_neg h1]
    by_cases h2 : modes.tcaMode = false
    · rw [if_pos h2] at h
      cases h
      rw [if_pos h2]
      exact ⟨rfl, fun hh => by rw [hh.2.1] at h2; cases h2⟩
    · rw [if_neg h2] at h
      rw [if_neg h2]
      by_cases h3 : data.tcacheHasData = false
      · rw [if_pos h3] at h
        cases h
        rw [if_pos h3]
        exact ⟨rfl, fun _ => h3⟩
      · rw [if_neg h3] at h
        by_cases h4 : info.tcache = 0
        · rw [if_pos h4] at h
          cases h
          rw [if_neg h3, if_pos h4]
          exact ⟨rfl, fun hh => absurd h4 hh.2.2⟩
        · rw [if_neg h4] at h
          split_ifs at h
          cases h
          simp

/-- Witness for C18: the check of the recorded example heap returns, and the second check
returns on a heap in which the `fd` word of the head chunk is overwritten. -/
theorem C18_witness :
    ∃ d, ShadowHeapFacade._check_tcache_impl false true exampleModes exampleInfo exampleHeap
        (ShadowHeapFacade._store_tcache_impl false true exampleModes exampleInfo exampleHeap
          ShadowHeapData.init) = some d ∧
      ShadowHeapFacade._check_tcache_impl false true exampleModes exampleInfo
        (Function.update exampleHeap 7016 57005) d = some d ∧
      ((true = true ∧ exampleModes.tcaMode = true ∧ exampleInfo.tcache ≠ 0) →
        d.tcacheHasData = false) := by
  cases hc : ShadowHeapFacade._check_tcache_impl false true exampleModes exampleInfo exampleHeap
      (ShadowHeapFacade._store_tcache_impl false true exampleModes exampleInfo exampleHeap
        ShadowHeapData.init) with
  | none =>
    have hsome : (ShadowHeapFacade._check_tcache_impl false true exampleModes exampleInfo
      exampleHeap (ShadowHeapFacade._store_tcache_impl false true exampleModes exampleInfo
        exampleHeap ShadowHeapData.init)).isSome = true := by decide
    rw [hc] at hsome
    cases hsome
  | some d =>
    exact ⟨d, rfl, C18_second_check_tcache_is_noop false true exampleModes exampleInfo
      exampleHeap (Function.update exampleHeap 7016 57005) _ d hc⟩

/-- C20. For each check category and every memory state and shadow state: when the mode
flag of the category is false, its verify half returns and its store half leaves the
shadow data (the store for `ptr`; the top size, the unsorted snapshot, the tcache snapshot)
unchanged; and each half reads no mode flag but its own, so that it behaves the same
whatever the flags of the other categories are. -/
theorem C20_disabled_checks_skip {σ : Type} (f : ShadowHeapFacade σ) (v230 : Bool)
    (isInitialized : Bool) (modes modes' : ModeReader) (info : ARENA_INFO) (mem : Memory)
    (data : ShadowHeapData) (fuel p r : Nat) :
    (f.modes.ptrMode = false →
      f.check_pointer_before_free mem p = some f ∧ f.store_pointer mem r = some f) ∧
    (modes.topMode = false →
      ShadowHeapFacade._check_topchunk_impl isInitialized modes info mem data = some data ∧
      ShadowHeapFacade._store_topchunk_impl isInitialized modes info mem data = data) ∧
    (modes.usbMode = false →
      ShadowHeapFacade._check_unsorted_impl isInitialized modes info mem data = some data ∧
      ShadowHeapFacade._store_unsorted_impl fuel isInitialized modes info mem data =
        some data) ∧
    (modes.tcaMode = false →
      ShadowHeapFacade._check_tcache_impl v230 isInitialized modes info mem data = some data ∧
      ShadowHeapFacade._store_tcache_impl v230 isInitialized modes info mem data = data) ∧
    (modes'.ptrMode = f.modes.ptrMode →
      ({ f with modes := modes' } : ShadowHeapFacade σ).check_pointer_before_free mem p =
        (f.check_pointer_before_free mem p).map (fun g => { g with modes := modes' }) ∧
      ({ f with modes := modes' } : ShadowHeapFacade σ).store_pointer mem r =
        (f.store_pointer mem r).map (fun g => { g with modes := modes' })) ∧
    (modes'.topMode = modes.topMode →
      ShadowHeapFacade._check_topchunk_impl isInitialized modes' info mem data =
        ShadowHeapFacade._check_topchunk_impl isInitialized modes info mem data ∧
      ShadowHeapFacade._store_topchunk_impl isInitialized modes' info mem data =
        ShadowHeapFacade._store_topchunk_impl isInitialized modes info mem data) ∧
    (modes'.usbMode = modes.usbMode →
      ShadowHeapFacade._check_unsorted_impl isInitialized modes' info mem data =
        ShadowHeapFacade._check_unsorted_impl isInitialized modes info mem data ∧
      ShadowHeapFacade._store_unsorted_impl fuel isInitialized modes' info mem data =
        ShadowHeapFacade._store_unsorted_impl fuel isInitialized modes info mem data) ∧
    (modes'.tcaMode = modes.tcaMode →
      ShadowHeapFacade._check_tcache_impl v230 isInitialized modes' info mem data =
        ShadowHeapFacade._check_tcache_impl v230 isInitialized modes info mem data ∧
      ShadowHeapFacade._store_tcache_impl v230 isInitialized modes' info mem data =
        ShadowHeapFacade._store_tcache_impl v230 isInitialized modes info mem data) := by
  refine ⟨fun h => ?_, fun h => ?_, fun h => ?_, fun h => ?_, fun h => ?_, fun h => ?_,
    fun h => ?_, fun h => ?_⟩
  · simp [ShadowHeapFacade.check_pointer_before_free, ShadowHeapFacade.store_pointer, h]
  · simp [ShadowHeapFacade._check_topchunk_impl, ShadowHeapFacade._store_topchunk_impl, h]
  · simp [ShadowHeapFacade._check_unsorted_impl, ShadowHeapFacade._store_unsorted_impl, h]
  · simp [ShadowHeapFacade._check_tcache_impl, ShadowHeapFacade._store_tcache_impl, h]
  · constructor
    · unfold ShadowHeapFacade.check_pointer_before_free
      simp only [h]
      by_cases hm : f.modes.ptrMode = false
      · simp [hm]
      · simp only [hm, if_false]
        split_ifs <;> rfl
    · unfold ShadowHeapFacade.store_pointer
      simp only [h]
      by_cases hm : f.modes.ptrMode = false
      · simp [hm]
      · simp only [hm, if_false]
        cases f.store.put (MALLOC_META.from_chunk_header mem (CHUNK_HEADER.from_memory r)) <;> rfl
  · simp [ShadowHeapFacade._check_topchunk_impl, ShadowHeapFacade._store_topchunk_impl, h]
  · simp [ShadowHeapFacade._check_unsorted_impl, ShadowHeapFacade._store_unsorted_impl, h]
  · simp [ShadowHeapFacade._check_tcache_impl, ShadowHeapFacade._store_tcache_impl, h]

/-- Witness for C20: with the top flag off, the check returns on a heap in which the size
word of the top chunk was overwritten after the snapshot, and the store half keeps the
recorded size; with the flag on the same check aborts. -/
theorem C20_witness :
    ShadowHeapFacade._check_topchunk_impl true ⟨true, true, false, true, true⟩
        exampleInfo (Function.update exampleHeap 20008 1)
        (ShadowHeapFacade._store_topchunk_impl true exampleModes exampleInfo exampleHeap
          ShadowHeapData.init) =
      some (ShadowHeapFacade._store_topchunk_impl true exampleModes exampleInfo exampleHeap
          ShadowHeapData.init) ∧
    ShadowHeapFacade._store_topchunk_impl true ⟨true, true, false, true, true⟩
        exampleInfo (Function.update exampleHeap 20008 1)
        (ShadowHeapFacade._store_topchunk_impl true exampleModes exampleInfo exampleHeap
          ShadowHeapData.init) =
      ShadowHeapFacade._store_topchunk_impl true exampleModes exampleInfo exampleHeap
          ShadowHeapData.init ∧
    (ShadowHeapFacade._check_topchunk_impl true exampleModes
        exampleInfo (Function.update exampleHeap 20008 1)
        (ShadowHeapFacade._store_topchunk_impl true exampleModes exampleInfo exampleHeap
          ShadowHeapData.init)).isSome = false :=
  ⟨((C20_disabled_checks_skip (exampleFacade (.vector VectorMetaStore.init)) false true
      ⟨true, true, false, true, true⟩ exampleModes exampleInfo
      (Function.update exampleHeap 20008 1)
      (ShadowHeapFacade._store_topchunk_impl true exampleModes exampleInfo exampleHeap
        ShadowHeapData.init) 128 4096 4096).2.1 rfl).1,
   ((C20_disabled_checks_skip (exampleFacade (.vector VectorMetaStore.init)) false true
      ⟨true, true, false, true, true⟩ exampleModes exampleInfo
      (Function.update exampleHeap 20008 1)
      (ShadowHeapFacade._store_topchunk_impl true exampleModes exampleInfo exampleHeap
        ShadowHeapData.init) 128 4096 4096).2.1 rfl).2,
    by decide⟩

/-! ## The copy of `realloc` and the sizes of a chunk -/

namespace ShadowHeapWrapper

variable {σ : Type}

/-- Whenever `realloc(ptr, len)` with a non-null pointer and a non-zero length returns, it
returns the result of the raw `malloc`, which is not null. -/
theorem realloc_result {S : Snapshots σ} {f f' : ShadowHeapFacade σ} {env : Env}
    {ptr len r : Nat} (hp : ptr ≠ 0) (hl : len ≠ 0)
    (hc : realloc S f env ptr len = some (r, f')) : r = env.ret ∧ env.ret ≠ 0 := by
  unfold realloc at hc
  simp only [hp, hl, if_false] at hc
  cases hv : f.malloc_pre S env.memPre with
  | none => rw [hv] at hc; cases hc
  | some f1 =>
    rw [hv] at hc
    simp only at hc
    cases hm : malloc_memcpy_free_approach f1 env ptr len with
    | none => rw [hm] at hc; cases hc
    | some r1 =>
      rw [hm] at hc
      simp only [Option.some.injEq, Prod.mk.injEq] at hc
      unfold malloc_memcpy_free_approach at hm
      simp only at hm
      cases hh : f1.realloc_mallochandler env.memRet env.ret with
      | none => rw [hh] at hm; cases hm
      | some f2 =>
        rw [hh] at hm
        simp only at hm
        by_cases hr : env.ret = 0
        · simp only [hr, if_true] at hm
          cases hm
        · simp only [hr, if_false] at hm
          cases hk : f2.realloc_freehandler env.memCopy ptr with
          | none => rw [hk] at hm; cases hm
          | some f3 =>
            rw [hk] at hm
            cases hm
            exact ⟨hc.1.symm, hr⟩

end ShadowHeapWrapper

/-- What `memcpy` leaves when the two areas do not overlap. -/
theorem memcpy_spec (bytes : Bytes) {dst src n : Nat} (hd : dst ≠ 0) (hs : src ≠ 0)
    (hdisj : dst + n ≤ src ∨ src + n ≤ dst) :
    ∃ copied, memcpy bytes dst src n = some copied ∧
      (∀ i, i < n → copied (dst + i) = bytes (src + i)) ∧
      (∀ a, ¬ (dst ≤ a ∧ a < dst + n) → copied a = bytes a) := by
  unfold memcpy
  have h1 : ¬ (dst = 0 ∨ src = 0) := by
    rintro (h | h)
    · exact hd h
    · exact hs h
  have h2 : ¬ (dst < src + n ∧ src < dst + n) := by omega
  simp only [h1, h2, if_false]
  refine ⟨_, rfl, fun i hi => ?_, fun a ha => ?_⟩
  · have : dst ≤ dst + i ∧ dst + i < dst + n := ⟨by omega, by omega⟩
    simp only [this, and_self, if_true]
    congr 1
    omega
  · simp only [ha, if_false]

namespace ShadowHeapWrapper

variable {σ : Type}

/-- The embedding with the `memcpy` refines the embedding in which the memory after the
copy is given. -/
theorem malloc_memcpy_free_approach_bytes_eq (f : ShadowHeapFacade σ) (env : Env)
    (bytes copied : Bytes) (ptr len : Nat)
    (hc : memcpy bytes env.ret ptr (copy_this_much (wordsOf bytes) ptr len) = some copied) :
    (malloc_memcpy_free_approach_bytes f env bytes ptr len).map (fun r => (r.1, r.2.1)) =
      malloc_memcpy_free_approach f { env with memCopy := wordsOf copied } ptr len ∧
    ∀ r, malloc_memcpy_free_approach_bytes f env bytes ptr len = some r →
      r.1 = env.ret ∧ r.2.2 = copied := by
  have hr : env.ret ≠ 0 := by
    intro h0
    unfold memcpy at hc
    simp [h0] at hc
  unfold malloc_memcpy_free_approach_bytes malloc_memcpy_free_approach
  simp only [hc, hr, if_false]
  cases hh : f.realloc_mallochandler env.memRet env.ret with
  | none => exact ⟨rfl, fun r h => by cases h⟩
  | some f1 =>
    simp only
    cases hk : f1.realloc_freehandler (wordsOf copied) ptr with
    | none => exact ⟨rfl, fun r h => by cases h⟩
    | some f2 =>
      refine ⟨rfl, fun r h => ?_⟩
      simp only [Option.some.injEq] at h
      rw [← h]
      exact ⟨rfl, rfl⟩

end ShadowHeapWrapper

/-- The size word with the three flag bits cleared, for a 64-bit word: `s - s % 8`. -/
theorem and_not_size_bits (s : Nat) (hs : s < WORD) :
    s &&& (WORD - 1 - SIZE_BITS) = s - s % 8 := by
  have hmask : WORD - 1 - SIZE_BITS = 2 ^ 3 * (2 ^ 61 - 1) := by decide
  have hrhs : s - s % 8 = 2 ^ 3 * (s / 2 ^ 3) := by
    have := Nat.div_add_mod s 8
    norm_num
    omega
  rw [hmask, hrhs]
  apply Nat.eq_of_testBit_eq
  intro i
  rw [Nat.testBit_and, Nat.testBit_mul_pow_two, Nat.testBit_mul_pow_two,
    Nat.testBit_two_pow_sub_one, ← Nat.shiftRight_eq_div_pow, Nat.testBit_shiftRight]
  by_cases h3 : 3 ≤ i
  · have h4 : 3 + (i - 3) = i := by omega
    simp only [h3, decide_True, Bool.true_and, h4]
    by_cases h64 : i < 64
    · have : i - 3 < 61 := by omega
      simp [this]
    · have hlt : s < 2 ^ i := lt_of_lt_of_le hs (by
        unfold WORD
        exact Nat.pow_le_pow_right (by decide) (by omega))
      rw [Nat.testBit_lt_two_pow hlt]
      simp
  · simp [h3]

/-- The flag `IS_MMAPPED` of a size word is its bit 1. -/
theorem is_mmapped_iff (h : CHUNK_HEADER) : h.is_mmapped = true ↔ h.size / 2 % 2 = 1 := by
  have hbit : h.size &&& IS_MMAPPED = 0 ↔ h.size.testBit 1 = false := by
    have h2 : IS_MMAPPED = 2 ^ 1 := rfl
    constructor
    · intro h0
      have := congrArg (fun x => Nat.testBit x 1) h0
      simp only [Nat.testBit_and, h2, Nat.testBit_two_pow, Nat.zero_testBit] at this
      simpa using this
    · intro h1
      apply Nat.eq_of_testBit_eq
      intro i
      rw [Nat.testBit_and, h2, Nat.testBit_two_pow, Nat.zero_testBit]
      by_cases hi : 1 = i
      · subst hi; simp [h1]
      · simp [hi]
  have hdm : h.size.testBit 1 = decide (h.size / 2 % 2 = 1) := by
    rw [Nat.testBit_to_div_mod]
  unfold CHUNK_HEADER.is_mmapped
  rw [bne_iff_ne, Ne, hbit, hdm]
  simp

/-- The usable size of a chunk that is not mmapped, and its chunk size, for a 64-bit size
word. -/
theorem useable_size_not_mmapped (h : CHUNK_HEADER) (hs : h.size < WORD) :
    (h.is_mmapped = false → 8 ≤ h.chunksize → h.useable_size = h.chunksize - 8) ∧
    h.chunksize = h.size - h.size % 8 := by
  have hc : h.chunksize = h.size - h.size % 8 := and_not_size_bits h.size hs
  have hlt : h.chunksize < WORD := by rw [hc]; omega
  have hW : WORD = 2 ^ 64 := rfl
  refine ⟨fun hm h8 => ?_, hc⟩
  unfold CHUNK_HEADER.useable_size
  simp only [hm, Bool.false_eq_true, if_false]
  rw [hW] at hlt ⊢
  omega

/-! ## The environment and the probe at initialisation -/

namespace ModeReader

theorem consume_nil (p : List Char) : consume p [] = some p := by
  cases p <;> rfl

/-- What `consume` returns on an entry `name=value` for a pattern without `=`. -/
theorem consume_name (value : List Char) : ∀ (pre name : List Char), '=' ∉ pre →
    consume (name ++ '=' :: value) pre =
      if pre.isPrefixOf name = true then some (name.drop pre.length ++ '=' :: value)
      else none := by
  intro pre
  induction pre with
  | nil =>
    intro name _
    simp [consume_nil]
  | cons d pre ih =>
    intro name hd
    have hd1 : d ≠ '=' := fun h => hd (List.mem_cons.2 (Or.inl h.symm))
    have hd2 : '=' ∉ pre := fun h => hd (List.mem_cons_of_mem _ h)
    cases name with
    | nil =>
      simp only [List.nil_append, consume, List.isPrefixOf]
      have : ¬ '=' = d := fun h => hd1 h.symm
      simp [this]
    | cons c name =>
      simp only [List.cons_append, consume, List.isPrefixOf, List.length_cons,
        List.drop_succ_cons]
      by_cases hcd : c = d
      · subst hcd
        simp only [if_true, beq_self_eq_true, Bool.true_and]
        exact ih name hd2
      · have : (d == c) = false := by
          rw [beq_eq_false_iff_ne]
          exact fun h => hcd h.symm
        simp [hcd, this]

/-- On an entry `rest=value`, `consume` with the pattern `pat=` returns non-null exactly when
`rest` is `pat`. -/
theorem consume_pattern (value : List Char) : ∀ (rest pat : List Char), '=' ∉ rest →
    '=' ∉ pat → ((consume (rest ++ '=' :: value) (pat ++ ['='])).isSome = true ↔ rest = pat) := by
  intro rest
  induction rest with
  | nil =>
    intro pat _ hp
    cases pat with
    | nil => simp [consume, consume_nil]
    | cons d pat =>
      have hd1 : ¬ '=' = d := fun h => hp (List.mem_cons.2 (Or.inl h))
      simp [consume, hd1]
  | cons c rest ih =>
    intro pat hr hp
    have hc1 : ¬ c = '=' := fun h => hr (List.mem_cons.2 (Or.inl h.symm))
    have hr2 : '=' ∉ rest := fun h => hr (List.mem_cons_of_mem _ h)
    cases pat with
    | nil => simp [consume, hc1]
    | cons d pat =>
      have hp2 : '=' ∉ pat := fun h => hp (List.mem_cons_of_mem _ h)
      simp only [List.cons_append, consume]
      by_cases hcd : c = d
      · subst hcd
        simp only [if_true, List.cons.injEq, true_and]
        exact ih pat hr2 hp2
      · simp [hcd]

theorem isPrefixOf_append_drop {pre name : List Char} (h : pre.isPrefixOf name = true) :
    name = pre ++ name.drop pre.length := by
  rw [List.isPrefixOf_iff_prefix] at h
  obtain ⟨t, ht⟩ := h
  rw [← ht]
  simp

/-- The patterns that `is_allowed_env_var` tries after `SHADOWHEAP_`, without their `=`. -/
theorem is_allowed_env_var_eq (kv : List Char) :
    is_allowed_env_var kv =
      match consume kv "SHADOWHEAP_".toList with
      | some s =>
        ["DISABLE_PTRCHECKS".toList, "DISABLE_USBCHECKS".toList, "DISABLE_TOPCHECKS".toList,
         "DISABLE_TCACHECKS".toList, "DISABLE_LEAKCHECKS".toList, "SIZE_INITIAL".toList].any
          (fun pat => (consume s (pat ++ ['='])).isSome)
      | none => true := by
  unfold is_allowed_env_var
  cases consume kv "SHADOWHEAP_".toList with
  | none => rfl
  | some s =>
    simp only [List.any_cons, List.any_nil, Bool.or_false, Bool.or_assoc]
    rfl

theorem any_consume_pattern (value rest : List Char) (hr : '=' ∉ rest) :
    ∀ patterns : List (List Char), (∀ pat ∈ patterns, '=' ∉ pat) →
      (patterns.any (fun pat => (consume (rest ++ '=' :: value) (pat ++ ['='])).isSome) = true ↔
        rest ∈ patterns) := by
  intro patterns hp
  rw [List.any_eq_true]
  constructor
  · rintro ⟨pat, hm, hs⟩
    rw [(consume_pattern value rest pat hr (hp pat hm)).1 hs]
    exact hm
  · intro hm
    exact ⟨rest, hm, (consume_pattern value rest rest hr hr).2 rfl⟩

/-- The entries `name=value` that `is_allowed_env_var` rejects. -/
theorem is_allowed_env_var_iff (name value : List Char) (hn : '=' ∉ name) :
    is_allowed_env_var (name ++ '=' :: value) = false ↔
      ("SHADOWHEAP_".toList.isPrefixOf name = true ∧ name ∉ recognisedNames) := by
  rw [is_allowed_env_var_eq, consume_name value "SHADOWHEAP_".toList name (by decide)]
  by_cases hpre : "SHADOWHEAP_".toList.isPrefixOf name = true
  · simp only [hpre, if_true, true_and]
    have hname := isPrefixOf_append_drop hpre
    have hrest : '=' ∉ name.drop "SHADOWHEAP_".toList.length :=
      fun h => hn (List.mem_of_mem_drop h)
    have hany := any_consume_pattern value _ hrest
      ["DISABLE_PTRCHECKS".toList, "DISABLE_USBCHECKS".toList, "DISABLE_TOPCHECKS".toList,
       "DISABLE_TCACHECKS".toList, "DISABLE_LEAKCHECKS".toList, "SIZE_INITIAL".toList]
      (by decide)
    have hrec : recognisedNames =
        ["DISABLE_PTRCHECKS".toList, "DISABLE_USBCHECKS".toList, "DISABLE_TOPCHECKS".toList,
         "DISABLE_TCACHECKS".toList, "DISABLE_LEAKCHECKS".toList, "SIZE_INITIAL".toList].map
          (fun pat => "SHADOWHEAP_".toList ++ pat) := by decide
    have hmem : name ∈ recognisedNames ↔ name.drop "SHADOWHEAP_".toList.length ∈
        ["DISABLE_PTRCHECKS".toList, "DISABLE_USBCHECKS".toList, "DISABLE_TOPCHECKS".toList,
         "DISABLE_TCACHECKS".toList, "DISABLE_LEAKCHECKS".toList, "SIZE_INITIAL".toList] := by
      rw [hrec, List.mem_map]
      constructor
      · rintro ⟨pat, hm, he⟩
        rw [← he]
        simpa using hm
      · intro hm
        exact ⟨_, hm, hname.symm⟩
    rw [hmem, ← hany]
    simp
  · rw [if_neg hpre]
    constructor
    · intro h
      cases h
    · rintro ⟨h, _⟩
      exact absurd h hpre

end ModeReader

namespace ModeReader

theorem disable_via_env_cases (environ : List (List Char)) (name : List Char) :
    (badValue environ name = false →
      disable_via_env environ name = .ok (isOne environ name)) ∧
    (badValue environ name = true →
      disable_via_env environ name = .error (.exit 1
        ("ShadowHeap: ERROR: variable " ++ String.mk name ++ ": " ++
          "value must be '1' or '0'"))) := by
  unfold badValue isOne disable_via_env getenv_parsed_bool
  cases hg : getenv environ name with
  | none => simp
  | some v =>
    simp only
    by_cases h0 : v = []
    · simp [h0]
    · by_cases h1 : v = ['1']
      · simp [h1]
      · by_cases h2 : v = ['0']
        · simp [h2]
        · simp [h0, h1, h2]

theorem disable_mode_cases (environ : List (List Char)) (mode : Bool) (name : List Char) :
    (mode = false → disable_mode environ mode name = .ok false) ∧
    (mode = true → badValue environ name = false →
      disable_mode environ mode name = .ok (!isOne environ name)) ∧
    (mode = true → badValue environ name = true →
      ∃ d, disable_mode environ mode name = .error (.exit 1 d)) ∧
    (∀ e, disable_mode environ mode name = .error e →
      (∃ d, e = .exit 1 d) ∧ mode = true ∧ badValue environ name = true) ∧
    (∀ b, disable_mode environ mode name = .ok b →
      b = (mode && !isOne environ name) ∧ (mode = true → badValue environ name = false)) := by
  obtain ⟨c1, c2⟩ := disable_via_env_cases environ name
  unfold disable_mode
  cases mode with
  | false => simp
  | true =>
    simp only [Bool.true_eq_false, if_false, Bool.true_and, true_implies, false_implies,
      true_and]
    cases hb : badValue environ name with
    | false =>
      rw [c1 hb]
      simp
    | true =>
      rw [c2 hb]
      simp

/-- An error of the variable-reading part is an `exit(1)` with a diagnostic. -/
theorem read_variables_error {lib : CLibrary} {environ : List (List Char)} {modes : ModeReader}
    {size : Nat} {e : Failure} (h : read_variables lib environ modes size = .error e) :
    ∃ d, e = .exit 1 d := by
  unfold read_variables at h
  cases h1 : disable_mode environ modes.ptrMode "SHADOWHEAP_DISABLE_PTRCHECKS".toList with
  | error e1 =>
    rw [h1] at h; cases h
    exact ((disable_mode_cases _ _ _).2.2.2.1 _ h1).1
  | ok b1 =>
    rw [h1] at h
    simp only at h
    cases h2 : disable_mode environ modes.usbMode "SHADOWHEAP_DISABLE_USBCHECKS".toList with
    | error e2 =>
      rw [h2] at h; cases h
      exact ((disable_mode_cases _ _ _).2.2.2.1 _ h2).1
    | ok b2 =>
      rw [h2] at h
      simp only at h
      cases h3 : disable_mode environ modes.topMode "SHADOWHEAP_DISABLE_TOPCHECKS".toList with
      | error e3 =>
        rw [h3] at h; cases h
        exact ((disable_mode_cases _ _ _).2.2.2.1 _ h3).1
      | ok b3 =>
        rw [h3] at h
        simp only at h
        cases h4 : disable_mode environ modes.leakMode
            "SHADOWHEAP_DISABLE_LEAKCHECKS".toList with
        | error e4 =>
          rw [h4] at h; cases h
          exact ((disable_mode_cases _ _ _).2.2.2.1 _ h4).1
        | ok b4 =>
          rw [h4] at h
          simp only at h
          cases h5 : disable_mode environ modes.tcaMode
              "SHADOWHEAP_DISABLE_TCACHECKS".toList with
          | error e5 =>
            rw [h5] at h; cases h
            exact ((disable_mode_cases _ _ _).2.2.2.1 _ h5).1
          | ok b5 =>
            rw [h5] at h
            simp only at h
            cases h6 : (getenv_parsed_unsigned_long lib environ
                "SHADOWHEAP_SIZE_INITIAL".toList size).1 with
            | none => rw [h6] at h; cases h
            | some problem =>
              rw [h6] at h
              cases h
              exact ⟨_, rfl⟩

/-- The flags that the variable-reading part returns, and what it has then accepted. -/
theorem read_variables_ok {lib : CLibrary} {environ : List (List Char)} {modes : ModeReader}
    {size : Nat} {r : ModeReader × Nat} (h : read_variables lib environ modes size = .ok r) :
    r.1.ptrMode = (modes.ptrMode && !isOne environ "SHADOWHEAP_DISABLE_PTRCHECKS".toList) ∧
    r.1.usbMode = (modes.usbMode && !isOne environ "SHADOWHEAP_DISABLE_USBCHECKS".toList) ∧
    r.1.topMode = (modes.topMode && !isOne environ "SHADOWHEAP_DISABLE_TOPCHECKS".toList) ∧
    r.1.leakMode = (modes.leakMode && !isOne environ "SHADOWHEAP_DISABLE_LEAKCHECKS".toList) ∧
    r.1.tcaMode = (modes.tcaMode && !isOne environ "SHADOWHEAP_DISABLE_TCACHECKS".toList) ∧
    (modes.ptrMode = true → badValue environ "SHADOWHEAP_DISABLE_PTRCHECKS".toList = false) ∧
    (modes.usbMode = true → badValue environ "SHADOWHEAP_DISABLE_USBCHECKS".toList = false) ∧
    (modes.topMode = true → badValue environ "SHADOWHEAP_DISABLE_TOPCHECKS".toList = false) ∧
    (modes.leakMode = true →
      badValue environ "SHADOWHEAP_DISABLE_LEAKCHECKS".toList = false) ∧
    (modes.tcaMode = true → badValue environ "SHADOWHEAP_DISABLE_TCACHECKS".toList = false) ∧
    (getenv_parsed_unsigned_long lib environ "SHADOWHEAP_SIZE_INITIAL".toList size).1 = none ∧
    r.2 = (getenv_parsed_unsigned_long lib environ "SHADOWHEAP_SIZE_INITIAL".toList size).2 := by
  unfold read_variables at h
  cases h1 : disable_mode environ modes.ptrMode "SHADOWHEAP_DISABLE_PTRCHECKS".toList with
  | error e1 => rw [h1] at h; cases h
  | ok b1 =>
    rw [h1] at h
    simp only at h
    cases h2 : disable_mode environ modes.usbMode "SHADOWHEAP_DISABLE_USBCHECKS".toList with
    | error e2 => rw [h2] at h; cases h
    | ok b2 =>
      rw [h2] at h
      simp only at h
      cases h3 : disable_mode environ modes.topMode "SHADOWHEAP_DISABLE_TOPCHECKS".toList with
      | error e3 => rw [h3] at h; cases h
      | ok b3 =>
        rw [h3] at h
        simp only at h
        cases h4 : disable_mode environ modes.leakMode
            "SHADOWHEAP_DISABLE_LEAKCHECKS".toList with
        | error e4 => rw [h4] at h; cases h
        | ok b4 =>
          rw [h4] at h
          simp only at h
          cases h5 : disable_mode environ modes.tcaMode
              "SHADOWHEAP_DISABLE_TCACHECKS".toList with
          | error e5 => rw [h5] at h; cases h
          | ok b5 =>
            rw [h5] at h
            simp only at h
            cases h6 : (getenv_parsed_unsigned_long lib environ
                "SHADOWHEAP_SIZE_INITIAL".toList size).1 with
            | some problem => rw [h6] at h; cases h
            | none =>
              rw [h6] at h
              cases h
              have g1 := (disable_mode_cases _ _ _).2.2.2.2 _ h1
              have g2 := (disable_mode_cases _ _ _).2.2.2.2 _ h2
              have g3 := (disable_mode_cases _ _ _).2.2.2.2 _ h3
              have g4 := (disable_mode_cases _ _ _).2.2.2.2 _ h4
              have g5 := (disable_mode_cases _ _ _).2.2.2.2 _ h5
              exact ⟨g1.1, g2.1, g3.1, g4.1, g5.1, g1.2, g2.2, g3.2, g4.2, g5.2, rfl, rfl⟩

/-- The variable-reading part returns when no variable of an enabled mode has a bad value
and the initial size is read without a problem. -/
theorem read_variables_returns (lib : CLibrary) (environ : List (List Char))
    (modes : ModeReader) (size : Nat)
    (g1 : modes.ptrMode = true → badValue environ "SHADOWHEAP_DISABLE_PTRCHECKS".toList = false)
    (g2 : modes.usbMode = true → badValue environ "SHADOWHEAP_DISABLE_USBCHECKS".toList = false)
    (g3 : modes.topMode = true → badValue environ "SHADOWHEAP_DISABLE_TOPCHECKS".toList = false)
    (g4 : modes.leakMode = true →
      badValue environ "SHADOWHEAP_DISABLE_LEAKCHECKS".toList = false)
    (g5 : modes.tcaMode = true → badValue environ "SHADOWHEAP_DISABLE_TCACHECKS".toList = false)
    (g6 : (getenv_parsed_unsigned_long lib environ
      "SHADOWHEAP_SIZE_INITIAL".toList size).1 = none) :
    ∃ r, read_variables lib environ modes size = .ok r := by
  cases h : read_variables lib environ modes size with
  | ok r => exact ⟨r, rfl⟩
  | error e =>
    exfalso
    unfold read_variables at h
    have key : ∀ (mode : Bool) (name : List Char), (mode = true → badValue environ name = false) →
        ∃ b, disable_mode environ mode name = .ok b := by
      intro mode name hg
      cases mode with
      | false => exact ⟨_, (disable_mode_cases environ false name).1 rfl⟩
      | true => exact ⟨_, (disable_mode_cases environ true name).2.1 rfl (hg rfl)⟩
    obtain ⟨b1, h1⟩ := key _ _ g1
    obtain ⟨b2, h2⟩ := key _ _ g2
    obtain ⟨b3, h3⟩ := key _ _ g3
    obtain ⟨b4, h4⟩ := key _ _ g4
    obtain ⟨b5, h5⟩ := key _ _ g5
    rw [h1, h2, h3, h4, h5] at h
    simp only [g6] at h
    cases h

end ModeReader

theorem ModeReader.modes_initialized_ok {lib : CLibrary} {environ : List (List Char)}
    {modes : ModeReader} {size : Nat} {r : ModeReader × Nat}
    (h : ModeReader.ensure_initialized lib environ false modes size = .ok r) :
    ModeReader.read_variables lib environ modes size = .ok r := by
  unfold ModeReader.ensure_initialized at h
  simp only [Bool.false_eq_true, if_false] at h
  cases hr : ModeReader.read_variables lib environ modes size with
  | error e => rw [hr] at h; cases h
  | ok r1 =>
    rw [hr] at h
    simp only at h
    cases hf : environ.find? (fun kv => !ModeReader.is_allowed_env_var kv) with
    | some kv => rw [hf] at h; cases h
    | none =>
      rw [hf] at h
      cases h
      rfl

/-- What a returning `ShadowHeapFacade::ensure_initialized` went through: the modes as read
from the environment, and the arena record of the probe, which is valid. -/
theorem ShadowHeapFacade.facade_initialized_ok {lib : CLibrary} {environ : List (List Char)}
    {build : ModeReader} {fresh : IMetaStore} {probe : LeakProbe} {r : InitializedFacade}
    (h : ShadowHeapFacade.ensure_initialized lib environ build fresh probe = .ok r) :
    ∃ modes size info,
      ModeReader.ensure_initialized lib environ false build 0 = .ok (modes, size) ∧
      malloc_leak.get_arenainfo build.leakMode probe = some info ∧ info.valid = true ∧
      r.leak = { info := some info, isInitialized := true } ∧
      r.facade.isInitialized = true ∧
      r.facade.modes = { modes with tcaMode := modes.tcaMode && modes.leakMode } := by
  unfold ShadowHeapFacade.ensure_initialized at h
  cases hm : ModeReader.ensure_initialized lib environ false build 0 with
  | error e => rw [hm] at h; cases h
  | ok ms =>
    obtain ⟨modes, size⟩ := ms
    rw [hm] at h
    simp only at h
    cases hs : (if build.ptrMode = true then ShadowHeapData.ensure_initialized fresh size
        else some fresh) with
    | none => rw [hs] at h; cases h
    | some store =>
      rw [hs] at h
      simp only at h
      unfold ArenaLeak.ensure_initialized at h
      simp only [ArenaLeak.init, Bool.false_eq_true, if_false] at h
      cases hg : malloc_leak.get_arenainfo build.leakMode probe with
      | none => rw [hg] at h; cases h
      | some info =>
        rw [hg] at h
        simp only at h
        cases hv : info.valid with
        | false => rw [hv] at h; cases h
        | true =>
          rw [hv] at h
          simp only [if_true] at h
          cases h
          refine ⟨modes, size, info, rfl, rfl, hv, rfl, rfl, ?_⟩
          obtain ⟨m1, m2, m3, m4, m5⟩ := modes
          cases m4 <;> cases m5 <;> rfl

/-- Only the first `n` characters of a string enter `strncmp`. -/
theorem strncmp_append : ∀ (n : Nat) (a b rest : List Char), a.length = n →
    strncmp (a ++ rest) b n = strncmp a b n := by
  intro n
  induction n with
  | zero =>
    intro a b rest _
    simp [strncmp]
  | succ n ih =>
    intro a b rest ha
    cases a with
    | nil => simp at ha
    | cons c a =>
      simp only [List.length_cons, Nat.add_right_cancel_iff] at ha
      cases b with
      | nil => simp [strncmp]
      | cons d b =>
        simp only [List.cons_append, strncmp]
        have := ih a b rest ha
        rw [show a.append rest = a ++ rest from rfl, this]

/-- The offsets and the validity of a version record depend on the first four characters of
the version string only, and not on the result of `test_tcache`. -/
theorem GLIBC_INFO.construct_append (v rest : List Char) (t : Nat) (hv : v.length = 4) :
    (GLIBC_INFO.construct (v ++ rest) t).valid = (GLIBC_INFO.construct v 0).valid ∧
    (GLIBC_INFO.construct (v ++ rest) t).offset_adjust_references =
      (GLIBC_INFO.construct v 0).offset_adjust_references ∧
    (GLIBC_INFO.construct (v ++ rest) t).offset_sb0_to_main_arena =
      (GLIBC_INFO.construct v 0).offset_sb0_to_main_arena := by
  unfold GLIBC_INFO.construct
  simp only [strncmp_append 4 v _ rest hv]
  split_ifs <;> exact ⟨rfl, rfl, rfl⟩

/-- A version string that compares alike, and not equal, with the four bounds gives an
invalid record. -/
theorem GLIBC_INFO.construct_invalid (v : List Char) (t : Nat) (x : Int) (hx : x ≠ 0)
    (h24 : strncmp v "2.24".toList 4 = x) (h25 : strncmp v "2.25".toList 4 = x)
    (h26 : strncmp v "2.26".toList 4 = x) (h28 : strncmp v "2.28".toList 4 = x)
    (h30 : strncmp v "2.30".toList 4 = x) :
    (GLIBC_INFO.construct v t).valid = false := by
  unfold GLIBC_INFO.construct
  rw [h24, h25, h26, h28, h30]
  have c1 : ¬ (x ≥ 0 ∧ x ≤ 0) := by omega
  have c2 : ¬ (x ≥ 0 ∧ x < 0) := by omega
  simp only [c1, c2, if_false]

theorem char_sub_ne_zero {c d : Char} (h : c ≠ d) : (c.toNat : Int) - (d.toNat : Int) ≠ 0 := by
  intro h0
  apply h
  have : c.toNat = d.toNat := by omega
  exact Char.ext (UInt32.ext (by simpa [Char.toNat, UInt32.toNat] using this))

/-! ## Claims on `realloc`, on chunk sizes and on the initialisation -/

/-- C22. For every block `p` whose usable size is at least its requested size `n`, and every
`n'` for which the raw `malloc` succeeds with a block of `n'` bytes that does not overlap
the old block: the number of bytes copied is `min(n', useable_size(p))`, which is at least
`min(n, n')`; the `memcpy` returns, the copied bytes at `q` equal the bytes at `p` and no
other byte changes; `malloc_memcpy_free_approach` returns `q` with that memory whenever its
pre-free check passes. Hence, if the raw `malloc` left the `n` bytes at `p` as they were
before the call and what follows the copy leaves the new block alone, bytes
`0 .. min(n, n') - 1` at `q` after the call equal the bytes at `p` before the call. -/
theorem C22_realloc_copies_the_common_bytes {σ : Type} (f : ShadowHeapFacade σ) (env : Env)
    (before bytes after : Bytes) (p n len : Nat) (hp : p ≠ 0) (hq : env.ret ≠ 0)
    (hsize : n ≤ (CHUNK_HEADER.read (wordsOf bytes) (CHUNK_HEADER.from_memory p)).useable_size)
    (hdisj : env.ret + len ≤ p ∨
      p + (CHUNK_HEADER.read (wordsOf bytes) (CHUNK_HEADER.from_memory p)).useable_size
        ≤ env.ret) :
    ShadowHeapWrapper.copy_this_much (wordsOf bytes) p len =
      min len (CHUNK_HEADER.read (wordsOf bytes) (CHUNK_HEADER.from_memory p)).useable_size ∧
    min n len ≤ ShadowHeapWrapper.copy_this_much (wordsOf bytes) p len ∧
    ∃ copied,
      memcpy bytes env.ret p (ShadowHeapWrapper.copy_this_much (wordsOf bytes) p len) =
        some copied ∧
      (∀ i, i < ShadowHeapWrapper.copy_this_much (wordsOf bytes) p len →
        copied (env.ret + i) = bytes (p + i)) ∧
      (∀ a, ¬ (env.ret ≤ a ∧
          a < env.ret + ShadowHeapWrapper.copy_this_much (wordsOf bytes) p len) →
        copied a = bytes a) ∧
      (∀ r, ShadowHeapWrapper.malloc_memcpy_free_approach_bytes f env bytes p len = some r →
        r.1 = env.ret ∧ r.2.2 = copied) ∧
      (∀ f1 f2, f.realloc_mallochandler env.memRet env.ret = some f1 →
        f1.realloc_freehandler (wordsOf copied) p = some f2 →
        ShadowHeapWrapper.malloc_memcpy_free_approach_bytes f env bytes p len =
          some (env.ret, f2, copied)) ∧
      (ShadowHeapWrapper.malloc_memcpy_free_approach_bytes f env bytes p len).map
          (fun r => (r.1, r.2.1)) =
        ShadowHeapWrapper.malloc_memcpy_free_approach f
          { env with memCopy := wordsOf copied } p len ∧
      ((∀ i, i < n → bytes (p + i) = before (p + i)) →
        (∀ i, i < len → after (env.ret + i) = copied (env.ret + i)) →
        ∀ i, i < min n len → after (env.ret + i) = before (p + i)) := by
  have hcopy : ShadowHeapWrapper.copy_this_much (wordsOf bytes) p len =
      min len (CHUNK_HEADER.read (wordsOf bytes) (CHUNK_HEADER.from_memory p)).useable_size := by
    unfold ShadowHeapWrapper.copy_this_much
    simp only
    split_ifs with h
    · exact (Nat.min_eq_left (Nat.le_of_lt h)).symm
    · exact (Nat.min_eq_right (Nat.le_of_not_lt h)).symm
  have hle1 := Nat.min_le_left len
    (CHUNK_HEADER.read (wordsOf bytes) (CHUNK_HEADER.from_memory p)).useable_size
  have hle2 := Nat.min_le_right len
    (CHUNK_HEADER.read (wordsOf bytes) (CHUNK_HEADER.from_memory p)).useable_size
  have hmin : min n len ≤ ShadowHeapWrapper.copy_this_much (wordsOf bytes) p len := by
    rw [hcopy]
    exact le_min (Nat.min_le_right n len) ((Nat.min_le_left n len).trans hsize)
  rw [← hcopy] at hle1 hle2
  obtain ⟨copied, hc, hc1, hc2⟩ := memcpy_spec bytes hq hp
    (show env.ret + ShadowHeapWrapper.copy_this_much (wordsOf bytes) p len ≤ p ∨
      p + ShadowHeapWrapper.copy_this_much (wordsOf bytes) p len ≤ env.ret by omega)
  refine ⟨hcopy, hmin, copied, hc, hc1, hc2,
    (ShadowHeapWrapper.malloc_memcpy_free_approach_bytes_eq f env bytes copied p len hc).2,
    fun f1 f2 h1 h2 => ?_,
    (ShadowHeapWrapper.malloc_memcpy_free_approach_bytes_eq f env bytes copied p len hc).1,
    fun hb ha i hi => ?_⟩
  · unfold ShadowHeapWrapper.malloc_memcpy_free_approach_bytes
    simp only [h1, hc, h2]
  · have hin : i < n := lt_of_lt_of_le hi (Nat.min_le_left n len)
    have hil : i < len := lt_of_lt_of_le hi (Nat.min_le_right n len)
    rw [ha i hil, hc1 i (lt_of_lt_of_le hi hmin), hb i hin]

set_option maxRecDepth 100000 in
/-- Witness for C22: `realloc(4096, 40)` of the block of 24 bytes, with the new block at
`12288`: 24 bytes are copied, the call returns `12288`, and the bytes there hold `0x23`. -/
theorem C22_witness :
    (4096 : Nat) ≠ 0 ∧ (exampleEnv 12288).ret ≠ 0 ∧
    (CHUNK_HEADER.read (wordsOf exampleBytes) (CHUNK_HEADER.from_memory 4096)).useable_size
      = 24 ∧
    ShadowHeapWrapper.copy_this_much (wordsOf exampleBytes) 4096 40 = 24 ∧
    (ShadowHeapWrapper.malloc_memcpy_free_approach_bytes
      (exampleFacade (.vector ⟨[⟨4096, 33⟩]⟩)) (exampleEnv 12288) exampleBytes 4096 40).map
      (fun r => (r.1, r.2.2 12288, r.2.2 12311, r.2.2 12312)) = some (12288, 35, 35, 0) ∧
    ∃ copied,
      memcpy exampleBytes (exampleEnv 12288).ret 4096
        (ShadowHeapWrapper.copy_this_much (wordsOf exampleBytes) 4096 40) = some copied ∧
      (∀ i, i < ShadowHeapWrapper.copy_this_much (wordsOf exampleBytes) 4096 40 →
        copied ((exampleEnv 12288).ret + i) = exampleBytes (4096 + i)) := by
  have huse : (CHUNK_HEADER.read (wordsOf exampleBytes)
      (CHUNK_HEADER.from_memory 4096)).useable_size = 24 := by decide
  obtain ⟨_, _, copied, h1, h2, _⟩ := C22_realloc_copies_the_common_bytes
    (exampleFacade (.vector ⟨[⟨4096, 33⟩]⟩)) (exampleEnv 12288) exampleBytes exampleBytes
    exampleBytes 4096 24 40 (by decide) (by decide) (by rw [huse])
    (Or.inr (by rw [huse]; decide))
  exact ⟨by decide, by decide, huse, by decide, by decide, copied, h1, h2⟩

/-- C23. Degenerate arguments short-circuit, in every state of the facade and whatever the
surroundings: `free(null)` returns with the facade as it was and runs no step (no
verification, no raw `free`, no snapshot); `realloc(null, n)` is the intercepted
`malloc(n)`: the same result, the same facade afterwards, the same steps; `realloc(p, 0)`
with `p` non-null is the intercepted `free(p)`, and whenever it returns it returns null. -/
theorem C23_degenerate_arguments_delegate {σ : Type} (S : Snapshots σ)
    (f : ShadowHeapFacade σ) (env : Env) (isInitialized : Bool) (p n ret : Nat) :
    ShadowHeapWrapper.free S f env 0 = some (0, f) ∧
    ShadowHeapWrapper.call_steps isInitialized (.free 0) ret = [] ∧
    ShadowHeapWrapper.realloc S f env 0 n = ShadowHeapWrapper.malloc S f env n ∧
    ShadowHeapWrapper.call_steps isInitialized (.realloc 0 n) ret =
      ShadowHeapWrapper.call_steps isInitialized (.malloc n) ret ∧
    (p ≠ 0 →
      ShadowHeapWrapper.realloc S f env p 0 = ShadowHeapWrapper.free S f env p ∧
      ShadowHeapWrapper.call_steps isInitialized (.realloc p 0) ret =
        ShadowHeapWrapper.call_steps isInitialized (.free p) ret ∧
      (∀ r, ShadowHeapWrapper.realloc S f env p 0 = some r → r.1 = 0) ∧
      (∀ acc, trackCall acc (.realloc p 0, env) = trackCall acc (.free p, env))) ∧
    (∀ acc, trackCall acc (.realloc 0 n, env) = trackCall acc (.malloc n, env)) := by
  refine ⟨by simp [ShadowHeapWrapper.free],
    by simp [ShadowHeapWrapper.call_steps, ShadowHeapWrapper.free_steps],
    by simp [ShadowHeapWrapper.realloc],
    by simp [ShadowHeapWrapper.call_steps, ShadowHeapWrapper.realloc_steps],
    fun hp => ⟨by simp [ShadowHeapWrapper.realloc, hp],
      by simp [ShadowHeapWrapper.call_steps, ShadowHeapWrapper.realloc_steps, hp],
      fun r hr => ?_, fun acc => by simp [trackCall, hp]⟩,
    fun acc => by simp [trackCall]⟩
  simp only [ShadowHeapWrapper.realloc, hp, if_false, if_true, ShadowHeapWrapper.free] at hr
  cases hf : f.free_pre S env.memPre p with
  | none => rw [hf] at hr; cases hr
  | some f1 =>
    rw [hf] at hr
    cases hr
    rfl

/-- Witness for C23: `realloc(8192, 0)` on the facade that holds the block `8192` returns
null and leaves the store empty, as `free(8192)` does. -/
theorem C23_witness :
    (ShadowHeapWrapper.realloc Snapshots.none (exampleFacade (.vector ⟨[⟨8192, 33⟩]⟩))
      (exampleEnv 0) 8192 0).map (fun r => (r.1, r.2.store.size)) = some (0, 0) ∧
    ShadowHeapWrapper.realloc Snapshots.none (exampleFacade (.vector ⟨[⟨8192, 33⟩]⟩))
      (exampleEnv 0) 8192 0 =
    ShadowHeapWrapper.free Snapshots.none (exampleFacade (.vector ⟨[⟨8192, 33⟩]⟩))
      (exampleEnv 0) 8192 :=
  ⟨by decide,
    ((C23_degenerate_arguments_delegate Snapshots.none
      (exampleFacade (.vector ⟨[⟨8192, 33⟩]⟩)) (exampleEnv 0) true 8192 0 0).2.2.2.2.1
      (by decide)).1⟩

/-- C24. For every 64-bit size word `s`: `chunksize` is `s` with the three low bits cleared,
a multiple of 8; `is_mmapped` is the bit `0x2`; `useable_size` is `chunksize - 8` when that
bit is clear and `chunksize - 16` when it is set, computed in 64-bit arithmetic, so that
for `chunksize >= 16` nothing wraps around and `useable_size < chunksize`; and
`MALLOC_META::chunksize` agrees with `CHUNK_HEADER::chunksize` on the same word. -/
theorem C24_chunksize_and_useable_size (h : CHUNK_HEADER) (p : Nat) (hs : h.size < WORD) :
    h.chunksize = h.size - h.size % 8 ∧ h.chunksize % 8 = 0 ∧ h.chunksize ≤ h.size ∧
    (h.is_mmapped = true ↔ h.size / 2 % 2 = 1) ∧
    (h.is_mmapped = false → h.useable_size = (h.chunksize + (WORD - 8)) % WORD) ∧
    (h.is_mmapped = true → h.useable_size = (h.chunksize + (WORD - 16)) % WORD) ∧
    (h.is_mmapped = false → 8 ≤ h.chunksize → h.useable_size = h.chunksize - 8) ∧
    (h.is_mmapped = true → 16 ≤ h.chunksize → h.useable_size = h.chunksize - 16) ∧
    (16 ≤ h.chunksize → h.useable_size < h.chunksize ∧ 0 < h.useable_size + 8) ∧
    MALLOC_META.chunksize ⟨p, h.size⟩ = h.chunksize := by
  have hc : h.chunksize = h.size - h.size % 8 := and_not_size_bits h.size hs
  have hlt : h.chunksize < WORD := by rw [hc]; omega
  have hW : WORD = 2 ^ 64 := rfl
  have hm8 : h.chunksize % 8 = 0 := by rw [hc]; omega
  have e1 : h.is_mmapped = false → 8 ≤ h.chunksize → h.useable_size = h.chunksize - 8 := by
    intro hm h8
    unfold CHUNK_HEADER.useable_size
    simp only [hm, Bool.false_eq_true, if_false]
    rw [hW] at hlt ⊢
    omega
  have e2 : h.is_mmapped = true → 16 ≤ h.chunksize → h.useable_size = h.chunksize - 16 := by
    intro hm h16
    unfold CHUNK_HEADER.useable_size
    simp only [hm, if_true]
    rw [hW] at hlt ⊢
    omega
  refine ⟨hc, hm8, by rw [hc]; omega, is_mmapped_iff h, fun hm => ?_, fun hm => ?_, e1, e2,
    fun h16 => ?_, rfl⟩
  · unfold CHUNK_HEADER.useable_size
    simp [hm]
  · unfold CHUNK_HEADER.useable_size
    simp [hm]
  · cases hm : h.is_mmapped with
    | false => rw [e1 hm (by omega)]; omega
    | true => rw [e2 hm h16]; omega

/-- Witness for C24: the size word `0x21` of a minimal chunk, and the size word `0xa002`
of a mmapped chunk. -/
theorem C24_witness :
    (⟨0, 33, 0, 0⟩ : CHUNK_HEADER).size < WORD ∧
    (⟨0, 33, 0, 0⟩ : CHUNK_HEADER).chunksize = 32 ∧
    (⟨0, 33, 0, 0⟩ : CHUNK_HEADER).useable_size = 24 ∧
    (⟨0, 40962, 0, 0⟩ : CHUNK_HEADER).chunksize = 40960 ∧
    (⟨0, 40962, 0, 0⟩ : CHUNK_HEADER).useable_size = 40944 ∧
    (⟨0, 5, 0, 0⟩ : CHUNK_HEADER).useable_size = 2 ^ 64 - 8 ∧
    (⟨0, 33, 0, 0⟩ : CHUNK_HEADER).chunksize =
      (⟨0, 33, 0, 0⟩ : CHUNK_HEADER).size - (⟨0, 33, 0, 0⟩ : CHUNK_HEADER).size % 8 :=
  ⟨by decide, by decide, by decide, by decide, by decide, by decide,
    (C24_chunksize_and_useable_size ⟨0, 33, 0, 0⟩ 4096 (by decide)).1⟩

/-- C25. For every chunk header at an address `h` whose size word has `IS_MMAPPED` clear and
a `chunksize` of at least 16: the address of `next_chunk()->prev_size` is
`to_memory() + useable_size() - 8`, the last word of the usable area (in 64-bit address
arithmetic, and literally when the chunk does not wrap around the address space); for the
chunk size 32 it is `to_memory() + 16`, the third word of the user area, and a value
written there is read back through `next_chunk()->prev_size`. -/
theorem C25_next_prev_size_is_last_usable_word (mem : Memory) (h : Nat) (hh : h < WORD)
    (hs : (CHUNK_HEADER.read mem h).size < WORD)
    (hm : (CHUNK_HEADER.read mem h).is_mmapped = false)
    (hc : 16 ≤ (CHUNK_HEADER.read mem h).chunksize) :
    CHUNK_HEADER.next_chunk mem h =
      (CHUNK_HEADER.to_memory h + (CHUNK_HEADER.read mem h).useable_size + (WORD - 8))
        % WORD ∧
    (h + (CHUNK_HEADER.read mem h).chunksize < WORD →
      CHUNK_HEADER.next_chunk mem h =
        CHUNK_HEADER.to_memory h + (CHUNK_HEADER.read mem h).useable_size - 8 ∧
      8 ≤ (CHUNK_HEADER.read mem h).useable_size ∧
      CHUNK_HEADER.next_chunk mem h + 8 =
        CHUNK_HEADER.to_memory h + (CHUNK_HEADER.read mem h).useable_size) ∧
    ((CHUNK_HEADER.read mem h).chunksize = 32 → h + 32 < WORD →
      (CHUNK_HEADER.read mem h).useable_size = 24 ∧
      CHUNK_HEADER.next_chunk mem h = CHUNK_HEADER.to_memory h + 16 ∧
      ∀ v, (CHUNK_HEADER.read (Function.update mem (CHUNK_HEADER.to_memory h + 16) v)
          (CHUNK_HEADER.next_chunk (Function.update mem (CHUNK_HEADER.to_memory h + 16) v)
            h)).prev_size = v) := by
  have hW : WORD = 2 ^ 64 := rfl
  have huse : (CHUNK_HEADER.read mem h).useable_size =
      (CHUNK_HEADER.read mem h).chunksize - 8 :=
    (useable_size_not_mmapped (CHUNK_HEADER.read mem h) hs).1 hm (by omega)
  have hlt : (CHUNK_HEADER.read mem h).chunksize < WORD := by
    rw [(useable_size_not_mmapped (CHUNK_HEADER.read mem h) hs).2]; omega
  refine ⟨?_, fun hw => ?_, fun h32 hw => ?_⟩
  · unfold CHUNK_HEADER.next_chunk CHUNK_HEADER.to_memory
    rw [huse]
    rw [hW] at hlt hh ⊢
    omega
  · unfold CHUNK_HEADER.next_chunk CHUNK_HEADER.to_memory
    rw [huse]
    rw [hW] at hlt hh hw ⊢
    omega
  · have hto : CHUNK_HEADER.to_memory h + 16 = h + 32 := by
      unfold CHUNK_HEADER.to_memory
      rw [hW] at hw ⊢
      omega
    have hsz : ∀ v, (CHUNK_HEADER.read (Function.update mem (h + 32) v) h).size =
        (CHUNK_HEADER.read mem h).size := by
      intro v
      unfold CHUNK_HEADER.read
      simp only
      have : (h + 8) % WORD ≠ h + 32 := by rw [hW] at hw ⊢; omega
      rw [Function.update_noteq this]
    have hcs : ∀ v, (CHUNK_HEADER.read (Function.update mem (h + 32) v) h).chunksize = 32 := by
      intro v
      unfold CHUNK_HEADER.chunksize
      rw [hsz v]
      exact h32
    refine ⟨by rw [huse, h32], ?_, fun v => ?_⟩
    · unfold CHUNK_HEADER.next_chunk
      rw [h32, hto]
      rw [hW] at hw ⊢
      omega
    · rw [hto]
      unfold CHUNK_HEADER.next_chunk
      rw [hcs v]
      have : (h + 32) % WORD = h + 32 := by rw [hW] at hw ⊢; omega
      rw [this]
      unfold CHUNK_HEADER.read
      simp

/-- Witness for C25: the minimal chunk in front of the user pointer `4096` of the example
memory; the words 123 and 789 written to the third word of the user area are read back
through `next_chunk()->prev_size`. -/
theorem C25_witness :
    (4080 : Nat) < WORD ∧ (CHUNK_HEADER.read exampleMemory 4080).size < WORD ∧
    (CHUNK_HEADER.read exampleMemory 4080).is_mmapped = false ∧
    16 ≤ (CHUNK_HEADER.read exampleMemory 4080).chunksize ∧
    CHUNK_HEADER.to_memory 4080 = 4096 ∧
    CHUNK_HEADER.next_chunk exampleMemory 4080 = 4112 ∧
    (CHUNK_HEADER.read (Function.update exampleMemory 4112 123)
      (CHUNK_HEADER.next_chunk (Function.update exampleMemory 4112 123) 4080)).prev_size
      = 123 ∧
    (CHUNK_HEADER.read (Function.update exampleMemory 4112 789)
      (CHUNK_HEADER.next_chunk (Function.update exampleMemory 4112 789) 4080)).prev_size
      = 789 ∧
    CHUNK_HEADER.next_chunk exampleMemory 4080 =
      (CHUNK_HEADER.to_memory 4080 + (CHUNK_HEADER.read exampleMemory 4080).useable_size
        + (WORD - 8)) % WORD :=
  ⟨by decide, by decide, by decide, by decide, by decide, by decide, by decide, by decide,
    (C25_next_prev_size_is_last_usable_word exampleMemory 4080 (by decide) (by decide)
      (by decide) (by decide)).1⟩

/-- C26. For every environment entry `NAME=VALUE`: the validation of `ensure_initialized`
rejects it if and only if `NAME` begins with `SHADOWHEAP_` and is not one of the six
recognised names. An environment that holds a rejected entry makes `ensure_initialized`
end in `exit(1)` with a diagnostic; when the six variables are read without a problem, the
diagnostic is `unrecognized environment variable` with the first rejected entry, and
without a rejected entry the call returns. `SHADOWHEAP_TYPO=1` is rejected. -/
theorem C26_unrecognised_variables_are_rejected (lib : CLibrary)
    (environ : List (List Char)) (modes : ModeReader) (size : Nat) (name value : List Char)
    (hn : '=' ∉ name) :
    (ModeReader.is_allowed_env_var (name ++ '=' :: value) = false ↔
      ("SHADOWHEAP_".toList.isPrefixOf name = true ∧ name ∉ recognisedNames)) ∧
    (name ++ '=' :: value ∈ environ →
      ModeReader.is_allowed_env_var (name ++ '=' :: value) = false →
      ∃ d, ModeReader.ensure_initialized lib environ false modes size = .error (.exit 1 d)) ∧
    (∀ r, ModeReader.read_variables lib environ modes size = .ok r →
      (∀ kv, environ.find? (fun kv => !ModeReader.is_allowed_env_var kv) = some kv →
        ModeReader.ensure_initialized lib environ false modes size = .error (.exit 1
          ("ShadowHeap: ERROR: unrecognized environment variable: " ++ String.mk kv))) ∧
      ((∀ kv ∈ environ, ModeReader.is_allowed_env_var kv = true) →
        ModeReader.ensure_initialized lib environ false modes size = .ok r)) ∧
    ModeReader.is_allowed_env_var "SHADOWHEAP_TYPO=1".toList = false ∧
    ModeReader.is_allowed_env_var "PATH=/bin".toList = true ∧
    ModeReader.ensure_initialized exampleLibrary
        ["PATH=/bin".toList, "SHADOWHEAP_TYPO=1".toList] false exampleBuild 0 =
      .error (.exit 1
        "ShadowHeap: ERROR: unrecognized environment variable: SHADOWHEAP_TYPO=1") := by
  refine ⟨ModeReader.is_allowed_env_var_iff name value hn, fun hmem hrej => ?_,
    fun r hr => ⟨fun kv hkv => ?_, fun hall => ?_⟩, by decide, by decide, rfl⟩
  · unfold ModeReader.ensure_initialized
    simp only [Bool.false_eq_true, if_false]
    cases hr : ModeReader.read_variables lib environ modes size with
    | error e =>
      obtain ⟨d, hd⟩ := ModeReader.read_variables_error hr
      exact ⟨d, by rw [hd]⟩
    | ok r =>
      simp only
      cases hf : environ.find? (fun kv => !ModeReader.is_allowed_env_var kv) with
      | some kv => exact ⟨_, rfl⟩
      | none =>
        exfalso
        rw [List.find?_eq_none] at hf
        have := hf _ hmem
        simp [hrej] at this
  · unfold ModeReader.ensure_initialized
    simp only [Bool.false_eq_true, if_false, hr, hkv]
  · unfold ModeReader.ensure_initialized
    have hf : environ.find? (fun kv => !ModeReader.is_allowed_env_var kv) = none := by
      rw [List.find?_eq_none]
      intro kv hkv
      simp [hall kv hkv]
    simp only [Bool.false_eq_true, if_false, hr, hf]

/-- Witness for C26: the entry `SHADOWHEAP_TYPO=1`. -/
theorem C26_witness :
    '=' ∉ "SHADOWHEAP_TYPO".toList ∧
    "SHADOWHEAP_".toList.isPrefixOf "SHADOWHEAP_TYPO".toList = true ∧
    "SHADOWHEAP_TYPO".toList ∉ recognisedNames ∧
    (ModeReader.is_allowed_env_var ("SHADOWHEAP_TYPO".toList ++ '=' :: "1".toList) = false ↔
      ("SHADOWHEAP_".toList.isPrefixOf "SHADOWHEAP_TYPO".toList = true ∧
        "SHADOWHEAP_TYPO".toList ∉ recognisedNames)) :=
  ⟨by decide, by decide, by decide,
    (C26_unrecognised_variables_are_rejected exampleLibrary [] exampleBuild 0
      "SHADOWHEAP_TYPO".toList "1".toList (by decide)).1⟩

/-- C27 (counterexample). In a build without pointer checks, the value `2` of
`SHADOWHEAP_DISABLE_PTRCHECKS` is non-empty and different from `0` and `1`, yet
`ensure_initialized` returns: the variable of a check that is not compiled in is never
read. -/
theorem C27_counterexample :
    badValue ["SHADOWHEAP_DISABLE_PTRCHECKS=2".toList]
      "SHADOWHEAP_DISABLE_PTRCHECKS".toList = true ∧
    ModeReader.ensure_initialized exampleLibrary ["SHADOWHEAP_DISABLE_PTRCHECKS=2".toList]
        false { exampleBuild with ptrMode := false } 0 =
      .ok ({ exampleBuild with ptrMode := false }, 0) ∧
    ModeReader.ensure_initialized exampleLibrary ["SHADOWHEAP_DISABLE_PTRCHECKS=2".toList]
        false exampleBuild 0 =
      .error (.exit 1 ("ShadowHeap: ERROR: variable SHADOWHEAP_DISABLE_PTRCHECKS: " ++
        "value must be '1' or '0'")) :=
  ⟨by decide, rfl, rfl⟩

/-- C27 (amended). For each of the five `SHADOWHEAP_DISABLE_*` variables whose check is
compiled in (its mode flag is on when `ensure_initialized` starts): a value that is
non-empty and different from `0` and `1` makes `ensure_initialized` end in `exit(1)` with a
diagnostic - `variable NAME: value must be '1' or '0'` when that variable is reached.
Unset, empty, `0` and `1` are accepted: when no variable of a compiled-in check has another
value, the initial size is read without a problem and no entry is rejected,
`ensure_initialized` returns. -/
theorem C27_bad_values_end_startup (lib : CLibrary) (environ : List (List Char))
    (modes : ModeReader) (size : Nat) :
    (∀ name, (badValue environ name = false ↔
        (getenv environ name = none ∨ getenv environ name = some [] ∨
          getenv environ name = some ['0'] ∨ getenv environ name = some ['1'])) ∧
      (badValue environ name = false →
        ModeReader.disable_via_env environ name = .ok (isOne environ name)) ∧
      (badValue environ name = true →
        ModeReader.disable_via_env environ name = .error (.exit 1
          ("ShadowHeap: ERROR: variable " ++ String.mk name ++ ": " ++
            "value must be '1' or '0'")))) ∧
    (modes.ptrMode = true → badValue environ "SHADOWHEAP_DISABLE_PTRCHECKS".toList = true →
      ∃ d, ModeReader.ensure_initialized lib environ false modes size = .error (.exit 1 d)) ∧
    (modes.usbMode = true → badValue environ "SHADOWHEAP_DISABLE_USBCHECKS".toList = true →
      ∃ d, ModeReader.ensure_initialized lib environ false modes size = .error (.exit 1 d)) ∧
    (modes.topMode = true → badValue environ "SHADOWHEAP_DISABLE_TOPCHECKS".toList = true →
      ∃ d, ModeReader.ensure_initialized lib environ false modes size = .error (.exit 1 d)) ∧
    (modes.leakMode = true → badValue environ "SHADOWHEAP_DISABLE_LEAKCHECKS".toList = true →
      ∃ d, ModeReader.ensure_initialized lib environ false modes size = .error (.exit 1 d)) ∧
    (modes.tcaMode = true → badValue environ "SHADOWHEAP_DISABLE_TCACHECKS".toList = true →
      ∃ d, ModeReader.ensure_initialized lib environ false modes size = .error (.exit 1 d)) ∧
    ((modes.ptrMode = true →
        badValue environ "SHADOWHEAP_DISABLE_PTRCHECKS".toList = false) →
      (modes.usbMode = true →
        badValue environ "SHADOWHEAP_DISABLE_USBCHECKS".toList = false) →
      (modes.topMode = true →
        badValue environ "SHADOWHEAP_DISABLE_TOPCHECKS".toList = false) →
      (modes.leakMode = true →
        badValue environ "SHADOWHEAP_DISABLE_LEAKCHECKS".toList = false) →
      (modes.tcaMode = true →
        badValue environ "SHADOWHEAP_DISABLE_TCACHECKS".toList = false) →
      (getenv_parsed_unsigned_long lib environ
        "SHADOWHEAP_SIZE_INITIAL".toList size).1 = none →
      (∀ kv ∈ environ, ModeReader.is_allowed_env_var kv = true) →
      ∃ r, ModeReader.ensure_initialized lib environ false modes size = .ok r) := by
  have hbad : ∀ (P : ModeReader × Nat → Prop),
      (∀ r, ModeReader.read_variables lib environ modes size = .ok r → P r → False) →
      (∀ r, ModeReader.read_variables lib environ modes size = .ok r → P r) →
      ∃ d, ModeReader.ensure_initialized lib environ false modes size = .error (.exit 1 d) := by
    intro P h1 h2
    unfold ModeReader.ensure_initialized
    simp only [Bool.false_eq_true, if_false]
    cases hr : ModeReader.read_variables lib environ modes size with
    | error e =>
      obtain ⟨d, hd⟩ := ModeReader.read_variables_error hr
      exact ⟨d, by rw [hd]⟩
    | ok r => exact (h1 r hr (h2 r hr)).elim
  refine ⟨fun name => ⟨?_, (ModeReader.disable_via_env_cases environ name).1,
    (ModeReader.disable_via_env_cases environ name).2⟩, fun hm hb => ?_, fun hm hb => ?_,
    fun hm hb => ?_, fun hm hb => ?_, fun hm hb => ?_, fun g1 g2 g3 g4 g5 hsize hall => ?_⟩
  · unfold badValue
    cases hg : getenv environ name with
    | none => simp
    | some v =>
      simp only [Option.some.injEq, false_or, reduceCtorEq]
      by_cases h0 : v = []
      · simp [h0]
      · by_cases h1 : v = ['0']
        · simp [h1]
        · by_cases h2 : v = ['1']
          · simp [h2]
          · simp [h0, h1, h2]
  · exact hbad (fun _ => badValue environ "SHADOWHEAP_DISABLE_PTRCHECKS".toList = false)
      (fun r _ h => by rw [hb] at h; cases h)
      (fun r hr => (ModeReader.read_variables_ok hr).2.2.2.2.2.1 hm)
  · exact hbad (fun _ => badValue environ "SHADOWHEAP_DISABLE_USBCHECKS".toList = false)
      (fun r _ h => by rw [hb] at h; cases h)
      (fun r hr => (ModeReader.read_variables_ok hr).2.2.2.2.2.2.1 hm)
  · exact hbad (fun _ => badValue environ "SHADOWHEAP_DISABLE_TOPCHECKS".toList = false)
      (fun r _ h => by rw [hb] at h; cases h)
      (fun r hr => (ModeReader.read_variables_ok hr).2.2.2.2.2.2.2.1 hm)
  · exact hbad (fun _ => badValue environ "SHADOWHEAP_DISABLE_LEAKCHECKS".toList = false)
      (fun r _ h => by rw [hb] at h; cases h)
      (fun r hr => (ModeReader.read_variables_ok hr).2.2.2.2.2.2.2.2.1 hm)
  · exact hbad (fun _ => badValue environ "SHADOWHEAP_DISABLE_TCACHECKS".toList = false)
      (fun r _ h => by rw [hb] at h; cases h)
      (fun r hr => (ModeReader.read_variables_ok hr).2.2.2.2.2.2.2.2.2.1 hm)
  · obtain ⟨r, hr⟩ := ModeReader.read_variables_returns lib environ modes size g1 g2 g3 g4 g5
      hsize
    refine ⟨r, ?_⟩
    unfold ModeReader.ensure_initialized
    have hf : environ.find? (fun kv => !ModeReader.is_allowed_env_var kv) = none := by
      rw [List.find?_eq_none]
      intro kv hkv
      simp [hall kv hkv]
    simp only [Bool.false_eq_true, if_false, hr, hf]

/-- Witness for C27: with every check compiled in, `SHADOWHEAP_DISABLE_TOPCHECKS=yes` ends
the start with `exit(1)`. -/
theorem C27_witness :
    exampleBuild.topMode = true ∧
    badValue ["SHADOWHEAP_DISABLE_TOPCHECKS=yes".toList]
      "SHADOWHEAP_DISABLE_TOPCHECKS".toList = true ∧
    ∃ d, ModeReader.ensure_initialized exampleLibrary
      ["SHADOWHEAP_DISABLE_TOPCHECKS=yes".toList] false exampleBuild 0 = .error (.exit 1 d) :=
  ⟨rfl, by decide,
    (C27_bad_values_end_startup exampleLibrary ["SHADOWHEAP_DISABLE_TOPCHECKS=yes".toList]
      exampleBuild 0).2.2.2.1 rfl (by decide)⟩

/-- C28 (counterexample). Every check is compiled in and only
`SHADOWHEAP_DISABLE_LEAKCHECKS` is set to `1`: after the facade is initialised the flag
`tca` is off as well, although its own variable is not set. -/
theorem C28_counterexample :
    exampleBuild.tcaMode = true ∧
    isOne ["SHADOWHEAP_DISABLE_LEAKCHECKS=1".toList]
      "SHADOWHEAP_DISABLE_TCACHECKS".toList = false ∧
    (ShadowHeapFacade.ensure_initialized exampleLibrary
      ["SHADOWHEAP_DISABLE_LEAKCHECKS=1".toList] exampleBuild (.cached CachedMetaStore.init)
      exampleProbe).toOption.map
        (fun r => (r.facade.isInitialized, r.facade.modes.ptrMode, r.facade.modes.usbMode,
          r.facade.modes.topMode, r.facade.modes.leakMode, r.facade.modes.tcaMode)) =
      some (true, true, true, true, false, false) ∧
    (ShadowHeapFacade.ensure_initialized exampleLibrary [] exampleBuild
      (.cached CachedMetaStore.init) exampleProbe).toOption.map
        (fun r => (r.facade.isInitialized, r.facade.modes.ptrMode, r.facade.modes.usbMode,
          r.facade.modes.topMode, r.facade.modes.leakMode, r.facade.modes.tcaMode)) =
      some (true, true, true, true, true, true) :=
  ⟨rfl, by decide, by decide, by decide⟩

/-- C28 (amended). After a facade initialisation that returns, the flags `ptr`, `usb`,
`top` and `leak` are true exactly when their category is compiled in and their own
`SHADOWHEAP_DISABLE_*` variable is not `1`; the flag `tca` is true exactly when its
category is compiled in, its own variable is not `1`, and the flag `leak` is true. The
environment never turns on a flag that is not compiled in. -/
theorem C28_mode_flags_after_initialisation (lib : CLibrary) (environ : List (List Char))
    (build : ModeReader) (fresh : IMetaStore) (probe : LeakProbe) (r : InitializedFacade)
    (h : ShadowHeapFacade.ensure_initialized lib environ build fresh probe = .ok r) :
    r.facade.isInitialized = true ∧
    r.facade.modes.ptrMode =
      (build.ptrMode && !isOne environ "SHADOWHEAP_DISABLE_PTRCHECKS".toList) ∧
    r.facade.modes.usbMode =
      (build.usbMode && !isOne environ "SHADOWHEAP_DISABLE_USBCHECKS".toList) ∧
    r.facade.modes.topMode =
      (build.topMode && !isOne environ "SHADOWHEAP_DISABLE_TOPCHECKS".toList) ∧
    r.facade.modes.leakMode =
      (build.leakMode && !isOne environ "SHADOWHEAP_DISABLE_LEAKCHECKS".toList) ∧
    r.facade.modes.tcaMode =
      ((build.tcaMode && !isOne environ "SHADOWHEAP_DISABLE_TCACHECKS".toList) &&
        r.facade.modes.leakMode) ∧
    (r.facade.modes.ptrMode = true → build.ptrMode = true) ∧
    (r.facade.modes.usbMode = true → build.usbMode = true) ∧
    (r.facade.modes.topMode = true → build.topMode = true) ∧
    (r.facade.modes.leakMode = true → build.leakMode = true) ∧
    (r.facade.modes.tcaMode = true → build.tcaMode = true) := by
  obtain ⟨modes, size, info, hm, _, _, _, hi, hmodes⟩ :=
    ShadowHeapFacade.facade_initialized_ok h
  obtain ⟨g1, g2, g3, g4, g5, _⟩ :=
    ModeReader.read_variables_ok (ModeReader.modes_initialized_ok hm)
  simp only at g1 g2 g3 g4 g5
  have e1 : r.facade.modes.ptrMode = modes.ptrMode := by rw [hmodes]
  have e2 : r.facade.modes.usbMode = modes.usbMode := by rw [hmodes]
  have e3 : r.facade.modes.topMode = modes.topMode := by rw [hmodes]
  have e4 : r.facade.modes.leakMode = modes.leakMode := by rw [hmodes]
  have e5 : r.facade.modes.tcaMode = (modes.tcaMode && modes.leakMode) := by rw [hmodes]
  rw [e1, e2, e3, e4, e5, g1, g2, g3, g4, g5]
  refine ⟨hi, rfl, rfl, rfl, rfl, rfl, ?_, ?_, ?_, ?_, ?_⟩ <;> intro hx <;>
    simp only [Bool.and_eq_true] at hx
  · exact hx.1
  · exact hx.1
  · exact hx.1
  · exact hx.1
  · exact hx.1.1

/-- Witness for C28: every check compiled in, `SHADOWHEAP_DISABLE_USBCHECKS=1` in the
environment, the cached store, and the example probe under 2.27. -/
theorem C28_witness :
    ∃ r, ShadowHeapFacade.ensure_initialized exampleLibrary
        ["SHADOWHEAP_DISABLE_USBCHECKS=1".toList] exampleBuild (.cached CachedMetaStore.init)
        exampleProbe = .ok r ∧
      r.facade.isInitialized = true ∧ r.facade.modes.ptrMode = true ∧
      r.facade.modes.usbMode = false ∧ r.facade.modes.tcaMode = true := by
  cases hrun : ShadowHeapFacade.ensure_initialized exampleLibrary
      ["SHADOWHEAP_DISABLE_USBCHECKS=1".toList] exampleBuild (.cached CachedMetaStore.init)
      exampleProbe with
  | error e =>
    have hsome : (ShadowHeapFacade.ensure_initialized exampleLibrary
      ["SHADOWHEAP_DISABLE_USBCHECKS=1".toList] exampleBuild (.cached CachedMetaStore.init)
      exampleProbe).toOption.isSome = true := by decide
    rw [hrun] at hsome
    cases hsome
  | ok r =>
    have hc := C28_mode_flags_after_initialisation exampleLibrary
      ["SHADOWHEAP_DISABLE_USBCHECKS=1".toList] exampleBuild (.cached CachedMetaStore.init)
      exampleProbe r hrun
    refine ⟨r, rfl, hc.1, ?_, ?_, ?_⟩
    · rw [hc.2.1]; decide
    · rw [hc.2.2.1]; decide
    · rw [hc.2.2.2.2.2.1, hc.2.2.2.2.1]; decide

set_option maxRecDepth 1000000 in
/-- Claim C29 (contradicted by the code). The constructor compares the first four characters
of the version string with `strncmp`, bytewise, not the version numbers. The version 2.3 is
older than 2.24, yet its version string `2.3` lies between `2.28` and `2.30`: the record is
valid with the offsets 8 and `0x70`, and the same holds for `2.3.6`. Among the one-digit
minors this happens for 3 alone (the others give an invalid record, as the claim says);
among the three-digit minors, all newer than 2.30, exactly 240 to 309 give a valid record.
For every version `2.minor` with a two-digit minor, whatever follows it in the string, the
claim holds: the minors 24 and 25 give `offset_adjust_references = 0` and
`offset_sb0_to_main_arena = 0x68`; the minors 26 to 30 give 8 and `0x70`; every other
two-digit minor gives an invalid record. Every version string that does not begin with
`2.` gives an invalid record. -/
theorem C29_version_strings_are_compared_bytewise (minor : Nat) (suffix : List Char)
    (t : Nat) (h10 : 10 ≤ minor) (h100 : minor < 100) :
    (versionString 2 3 = "2.3".toList ∧ (3 : Nat) < 24 ∧
      (GLIBC_INFO.construct (versionString 2 3) 0).valid = true ∧
      (GLIBC_INFO.construct (versionString 2 3) 0).offset_adjust_references = some 8 ∧
      (GLIBC_INFO.construct (versionString 2 3) 0).offset_sb0_to_main_arena = some 0x70 ∧
      (GLIBC_INFO.construct "2.3.6".toList 0).valid = true) ∧
    (∀ m : Fin 10, (GLIBC_INFO.construct (versionString 2 m.val) 0).valid = true ↔
      m.val = 3) ∧
    (∀ m : Fin 1000, 100 ≤ m.val →
      ((GLIBC_INFO.construct (versionString 2 m.val) 0).valid = true ↔
        240 ≤ m.val ∧ m.val ≤ 309)) ∧
    (24 ≤ minor ∧ minor ≤ 25 →
      (GLIBC_INFO.construct (versionString 2 minor ++ suffix) t).valid = true ∧
      (GLIBC_INFO.construct (versionString 2 minor ++ suffix) t).offset_adjust_references
        = some 0 ∧
      (GLIBC_INFO.construct (versionString 2 minor ++ suffix) t).offset_sb0_to_main_arena
        = some 0x68) ∧
    (26 ≤ minor ∧ minor ≤ 30 →
      (GLIBC_INFO.construct (versionString 2 minor ++ suffix) t).valid = true ∧
      (GLIBC_INFO.construct (versionString 2 minor ++ suffix) t).offset_adjust_references
        = some 8 ∧
      (GLIBC_INFO.construct (versionString 2 minor ++ suffix) t).offset_sb0_to_main_arena
        = some 0x70) ∧
    ((minor < 24 ∨ 30 < minor) →
      (GLIBC_INFO.construct (versionString 2 minor ++ suffix) t).valid = false) ∧
    (∀ v : List Char, v.take 2 ≠ "2.".toList → (GLIBC_INFO.construct v t).valid = false) := by
  have key : ∀ m : Fin 100, 10 ≤ m.val →
      (versionString 2 m.val).length = 4 ∧
      (24 ≤ m.val ∧ m.val ≤ 25 →
        (GLIBC_INFO.construct (versionString 2 m.val) 0).valid = true ∧
        (GLIBC_INFO.construct (versionString 2 m.val) 0).offset_adjust_references = some 0 ∧
        (GLIBC_INFO.construct (versionString 2 m.val) 0).offset_sb0_to_main_arena
          = some 0x68) ∧
      (26 ≤ m.val ∧ m.val ≤ 30 →
        (GLIBC_INFO.construct (versionString 2 m.val) 0).valid = true ∧
        (GLIBC_INFO.construct (versionString 2 m.val) 0).offset_adjust_references = some 8 ∧
        (GLIBC_INFO.construct (versionString 2 m.val) 0).offset_sb0_to_main_arena
          = some 0x70) ∧
      ((m.val < 24 ∨ 30 < m.val) →
        (GLIBC_INFO.construct (versionString 2 m.val) 0).valid = false) := by
    decide
  obtain ⟨k0, k1, k2, k3⟩ := key ⟨minor, h100⟩ h10
  simp only at k0 k1 k2 k3
  obtain ⟨a1, a2, a3⟩ := GLIBC_INFO.construct_append (versionString 2 minor) suffix t k0
  rw [a1, a2, a3]
  refine ⟨by decide, by decide, by decide, k1, k2, k3, fun v hv => ?_⟩
  cases v with
  | nil => exact GLIBC_INFO.construct_invalid [] t (-50) (by decide) rfl rfl rfl rfl rfl
  | cons c1 v1 =>
    by_cases hc1 : c1 = '2'
    · subst hc1
      cases v1 with
      | nil =>
        exact GLIBC_INFO.construct_invalid ['2'] t (-46) (by decide) rfl rfl rfl rfl rfl
      | cons c2 v2 =>
        have hc2 : c2 ≠ '.' := by
          intro h
          apply hv
          rw [h]
          rfl
        refine GLIBC_INFO.construct_invalid _ t _ (char_sub_ne_zero hc2) ?_ ?_ ?_ ?_ ?_ <;>
          simp [strncmp, hc2]
    · refine GLIBC_INFO.construct_invalid _ t _ (char_sub_ne_zero hc1) ?_ ?_ ?_ ?_ ?_ <;>
        simp [strncmp, hc1]

/-- Witness for C29: the version strings `2.27`, `2.31` and `2.3`. -/
theorem C29_witness :
    (10 : Nat) ≤ 27 ∧ (27 : Nat) < 100 ∧ versionString 2 27 = "2.27".toList ∧
    (GLIBC_INFO.construct "2.31".toList 0).valid = false ∧
    (GLIBC_INFO.construct "2.3".toList 0).valid = true ∧
    (26 ≤ 27 ∧ 27 ≤ 30 →
      (GLIBC_INFO.construct (versionString 2 27 ++ []) 1).valid = true ∧
      (GLIBC_INFO.construct (versionString 2 27 ++ []) 1).offset_adjust_references
        = some 8 ∧
      (GLIBC_INFO.construct (versionString 2 27 ++ []) 1).offset_sb0_to_main_arena
        = some 0x70) :=
  ⟨by decide, by decide, by decide, by decide, by decide,
    (C29_version_strings_are_compared_bytewise 27 [] 1 (by decide) (by decide)).2.2.2.2.1⟩

/-- C30 (counterexample). Under the unknown version 2.31 the version record is invalid and
`get_arenainfo` returns null; `ArenaLeak::ensure_initialized` then ends the process with
`std::abort()`, and so does the initialisation of the facade. -/
theorem C30_counterexample :
    (GLIBC_INFO.construct "2.31".toList 1).valid = false ∧
    (malloc_leak.get_arenainfo true { exampleProbe with version := "2.31".toList }).isNone
      = true ∧
    ArenaLeak.ensure_initialized true { exampleProbe with version := "2.31".toList }
        ArenaLeak.init =
      .error (.abort
        "ShadowHeap: Error: ArenaLeak was not initialized correctly!\nAborting...\n") ∧
    ShadowHeapFacade.ensure_initialized exampleLibrary [] exampleBuild
        (.cached CachedMetaStore.init) { exampleProbe with version := "2.31".toList } =
      .error (.abort
        "ShadowHeap: Error: ArenaLeak was not initialized correctly!\nAborting...\n") :=
  ⟨by decide, by decide, rfl, rfl⟩

/-- C30 (amended). When the allocator version is unknown (the version record is invalid),
or `get_arenainfo` returns null for another reason, or the arena record it returns is not
valid: `ArenaLeak::ensure_initialized` ends the process with `std::abort()` after its
diagnostic, and the initialisation of the facade never returns: it ends in that abort
whenever the modes and the store were set up before. An invalid version record makes
`get_arenainfo` return null. -/
theorem C30_failed_probe_aborts (lib : CLibrary) (environ : List (List Char))
    (build : ModeReader) (fresh : IMetaStore) (probe : LeakProbe)
    (hfail : (GLIBC_INFO.construct probe.version probe.test_tcache).valid = false ∨
      malloc_leak.get_arenainfo build.leakMode probe = none ∨
      ∃ info, malloc_leak.get_arenainfo build.leakMode probe = some info ∧
        info.valid = false) :
    ArenaLeak.ensure_initialized build.leakMode probe ArenaLeak.init =
      .error (.abort
        "ShadowHeap: Error: ArenaLeak was not initialized correctly!\nAborting...\n") ∧
    (∀ r, ShadowHeapFacade.ensure_initialized lib environ build fresh probe ≠ .ok r) ∧
    (∀ modes size store,
      ModeReader.ensure_initialized lib environ false build 0 = .ok (modes, size) →
      (if build.ptrMode then ShadowHeapData.ensure_initialized fresh size else some fresh)
        = some store →
      ShadowHeapFacade.ensure_initialized lib environ build fresh probe =
        .error (.abort
          "ShadowHeap: Error: ArenaLeak was not initialized correctly!\nAborting...\n")) ∧
    ((GLIBC_INFO.construct probe.version probe.test_tcache).valid = false →
      malloc_leak.get_arenainfo build.leakMode probe = none) := by
  have hnull : (GLIBC_INFO.construct probe.version probe.test_tcache).valid = false →
      malloc_leak.get_arenainfo build.leakMode probe = none := by
    intro hv
    unfold malloc_leak.get_arenainfo
    simp [hv]
  have habort : ArenaLeak.ensure_initialized build.leakMode probe ArenaLeak.init =
      .error (.abort
        "ShadowHeap: Error: ArenaLeak was not initialized correctly!\nAborting...\n") := by
    unfold ArenaLeak.ensure_initialized
    simp only [ArenaLeak.init, Bool.false_eq_true, if_false]
    rcases hfail with h | h | ⟨info, h, hv⟩
    · rw [hnull h]
    · rw [h]
    · rw [h]
      simp [hv]
  refine ⟨habort, fun r hr => ?_, fun modes size store hm hs => ?_, hnull⟩
  · obtain ⟨_, _, info, _, hg, hv, _⟩ := ShadowHeapFacade.facade_initialized_ok hr
    rcases hfail with h | h | ⟨info2, h, hv2⟩
    · rw [hnull h] at hg; cases hg
    · rw [h] at hg; cases hg
    · rw [h] at hg
      cases hg
      rw [hv] at hv2
      cases hv2
  · unfold ShadowHeapFacade.ensure_initialized
    simp only [hm, hs, habort]

/-- Witness for C30: the probe under the unknown version 2.31. -/
theorem C30_witness :
    (GLIBC_INFO.construct ({ exampleProbe with version := "2.31".toList } : LeakProbe).version
      ({ exampleProbe with version := "2.31".toList } : LeakProbe).test_tcache).valid
      = false ∧
    ArenaLeak.ensure_initialized exampleBuild.leakMode
        { exampleProbe with version := "2.31".toList } ArenaLeak.init =
      .error (.abort
        "ShadowHeap: Error: ArenaLeak was not initialized correctly!\nAborting...\n") :=
  ⟨by decide,
    (C30_failed_probe_aborts exampleLibrary [] exampleBuild (.cached CachedMetaStore.init)
      { exampleProbe with version := "2.31".toList } (Or.inl (by decide))).1⟩

/-! ## The whole store interface on the cached store and on the map store -/

namespace details.ResizeableHashMap

theorem cells_clear (m : ResizeableHashMap) : ∀ x ∈ m.clear.cells, x = MALLOC_META.empty := by
  intro x hx
  unfold cells clear at hx
  obtain ⟨bn, hbn, hxb⟩ := List.mem_flatMap.1 hx
  obtain ⟨_, _, rfl⟩ := List.mem_map.1 hbn
  obtain ⟨i, _, hxi⟩ := Bin.mem_toList.1 hxb
  rw [← hxi, Bin.get_empty]

theorem entries_clear (m : ResizeableHashMap) : m.clear.entries = [] := by
  unfold entries
  rw [List.filter_eq_nil_iff]
  intro x hx
  rw [cells_clear m x hx]
  simp [MALLOC_META.empty]

theorem length_clear (m : ResizeableHashMap) : m.clear.bins.length = m.bins.length := by
  simp [clear]

theorem WF_clear {m : ResizeableHashMap} (hm : m.WF) : m.clear.WF := by
  refine ⟨by rw [length_clear]; exact hm.1, fun b i hb hi => ?_⟩
  have hc : m.clear.cell (b, i) = MALLOC_META.empty :=
    cells_clear m _ (mem_cells.2 ⟨b, i, hb, hi, rfl⟩)
  rw [hc]
  exact ⟨fun h => absurd rfl h, fun _ => rfl⟩

end details.ResizeableHashMap

namespace CachedMetaStore

/-- After `clear` the cached store is well formed and holds nothing. -/
theorem cached_clear_spec {s : CachedMetaStore} (hs : s.WF) :
    s.clear.WF ∧ s.clear.entries = [] := by
  obtain ⟨h1, _, _, _, _, h6⟩ := hs
  have hent : s.clear.entries = [] := by
    unfold entries clear
    simp only [details.ResizeableHashMap.entries_clear]
    rfl
  refine ⟨⟨details.ResizeableHashMap.WF_clear h1, ?_, ?_, ?_, ?_, ?_⟩, hent⟩
  · exact MapMetaStore.map_WF_init
  · rw [hent]; exact ⟨List.nodup_nil, fun e he => by cases he⟩
  · show (0 : Nat) = (s.cache.clear).entries.length
    rw [details.ResizeableHashMap.entries_clear]; rfl
  · rw [hent]; exact Nat.zero_le _
  · rw [capacity_clear]; exact h6

theorem capacity_update (s : CachedMetaStore) (e : MALLOC_META) :
    (s.update e).2.capacity = s.capacity := by
  unfold update
  cases s.cache.get_entry e.ptr with
  | none => rfl
  | some c =>
    simp only [capacity, details.ResizeableHashMap.capacity,
      details.ResizeableHashMap.length_setCell]

/-- After `reserve` of at most `2^32` entries the capacity is at most `2^32` if it was. -/
theorem reserve_bounded {s s' : CachedMetaStore} {n : Nat} (hs : s.WF)
    (hcap : s.capacity ≤ 2 ^ 32) (hn : n ≤ 2 ^ 32) (hr : s.reserve n = some s') :
    s'.capacity ≤ 2 ^ 32 := by
  have hpos := capacity_pos hs.inv_cached
  have hw : 2 ^ 31 * s.capacity < WORD := by unfold WORD; omega
  have hn30 : n ≤ 2 ^ 30 * s.capacity := by omega
  obtain ⟨s'', h1, h2, h3⟩ := reserve_capacity s n hn30 hw
  rw [hr] at h1
  cases h1
  by_cases hle : n ≤ s.capacity
  · rw [h2 hle]; exact hcap
  · obtain ⟨k, hk1, hk2, _, hmin⟩ := h3 (by omega)
    obtain ⟨j, hj⟩ := capacity_pow_two hs
    have hj32 : j < 32 := by
      by_contra hc
      have : 2 ^ 32 ≤ 2 ^ j := Nat.pow_le_pow_right (by decide) (by omega)
      omega
    have hk' := hmin (32 - j) (by omega) (by
      rw [hj, ← pow_add]
      have : j + (32 - j) = 32 := by omega
      rw [this]; exact hn)
    rw [hk2, hj, ← pow_add]
    exact Nat.pow_le_pow_right (by decide) (by omega)

end CachedMetaStore

theorem StoresAgree.agree_initial : StoresAgree CachedMetaStore.init MapMetaStore.init := by
  refine ⟨CachedMetaStore.cached_WF_init, MapMetaStore.map_WF_init, ?_,
    (fun x hx => by cases hx), by decide⟩
  have h1 : CachedMetaStore.init.entries = [] := by decide
  have h2 : MapMetaStore.init.entries = [] := rfl
  rw [h1, h2]

/-- One admissible call returns the same on the cached store and on the plain map store,
and keeps the invariant of the comparison. -/
theorem StoresAgree.agree_perform {s : CachedMetaStore} {m : MapMetaStore} (h : StoresAgree s m)
    (c : StoreCall) (hadm : c.admissible m.entries = true) (hmod : c.moderate = true)
    (hlen : m.entries.length < 2 ^ 31) :
    ∃ r s' m', (IMetaStore.cached s).perform c = some (r, .cached s') ∧
      (IMetaStore.map m).perform c = some (r, .map m') ∧ StoresAgree s' m' ∧
      m'.entries.length ≤ m.entries.length + 1 := by
  obtain ⟨hs, hm, hperm, hsz, hcap⟩ := h
  have hnodup : (s.entries.map MALLOC_META.ptr).Nodup := hs.2.2.1.1
  cases c with
  | put e =>
    simp only [StoreCall.admissible, Bool.and_eq_true, bne_iff_ne, ne_eq,
      List.all_eq_true] at hadm
    obtain ⟨⟨he, hes⟩, hfresh⟩ := hadm
    have hfresh_s : ∀ x ∈ s.entries, x.ptr ≠ e.ptr := fun x hx => hfresh x (hperm.mem_iff.1 hx)
    have hg : s.Growable := by unfold CachedMetaStore.Growable WORD; omega
    obtain ⟨r, s', hput, _, _, hcap', hwf⟩ := CachedMetaStore.put_spec hs.inv_cached hg he
    obtain ⟨hr, hs', hperm'⟩ := hwf hs hfresh_s
    obtain ⟨m1, m2, m3⟩ := MapMetaStore.map_put_ok hm he hfresh
    refine ⟨.flag true, s', (m.put e).2, ?_, ?_, ⟨hs', m2, ?_, ?_, ?_⟩, ?_⟩
    · simp [IMetaStore.perform, IMetaStore.put, hput, hr]
    · simp [IMetaStore.perform, IMetaStore.put, m1]
    · exact hperm'.trans ((hperm.cons e).trans m3.symm)
    · intro x hx
      rcases List.mem_cons.1 (m3.mem_iff.1 hx) with hxe | hxm
      · rw [hxe]; exact hes
      · exact hsz x hxm
    · rcases hcap' with hc | ⟨hc, hfull⟩
      · rw [hc]; exact hcap
      · rw [hc, ← hfull, hperm.length_eq]
        omega
    · rw [m3.length_eq]; simp
  | get key =>
    refine ⟨.entry (s.get key), s, m, rfl, ?_, ⟨hs, hm, hperm, hsz, hcap⟩, by omega⟩
    simp only [IMetaStore.perform, IMetaStore.get]
    rw [CachedMetaStore.cached_get_eq_lookup hs, MapMetaStore.map_get_eq_lookup hm,
      lookup_perm hperm hnodup]
  | remove e =>
    simp only [StoreCall.admissible, Bool.and_eq_true, bne_iff_ne, ne_eq] at hadm
    obtain ⟨he, _⟩ := hadm
    by_cases hex : ∃ x ∈ m.entries, x.ptr = e.ptr ∧ x.chunksize = e.chunksize
    · obtain ⟨x, hx, hxp, hxc⟩ := hex
      obtain ⟨c1, c2, c3⟩ := CachedMetaStore.cached_remove_ok hs (hperm.mem_iff.2 hx) hxp hxc
      obtain ⟨m1, m2, m3⟩ := MapMetaStore.map_remove_ok hm hx hxp hxc
      have hp' : (s.remove e).2.entries.Perm (m.remove e).2.entries :=
        List.Perm.cons_inv ((c3.symm.trans hperm).trans m3)
      refine ⟨.flag true, (s.remove e).2, (m.remove e).2, ?_, ?_, ⟨c2, m2, hp', ?_, ?_⟩, ?_⟩
      · simp [IMetaStore.perform, IMetaStore.remove, c1]
      · simp [IMetaStore.perform, IMetaStore.remove, m1]
      · intro y hy
        exact hsz y (m3.mem_iff.2 (List.mem_cons_of_mem _ hy))
      · rw [CachedMetaStore.capacity_remove]; exact hcap
      · have := m3.length_eq
        simp only [List.length_cons] at this
        omega
    · have hno : ∀ x ∈ m.entries, x.ptr = e.ptr → x.chunksize ≠ e.chunksize :=
        fun x hx hxp hxc => hex ⟨x, hx, hxp, hxc⟩
      have c1 := CachedMetaStore.cached_remove_rej hs he
        (fun x hx => hno x (hperm.mem_iff.1 hx))
      have m1 := MapMetaStore.map_remove_rej hm hno
      refine ⟨.flag false, s, m, ?_, ?_, ⟨hs, hm, hperm, hsz, hcap⟩, by omega⟩
      · simp [IMetaStore.perform, IMetaStore.remove, c1]
      · simp [IMetaStore.perform, IMetaStore.remove, m1]
  | update e =>
    simp only [StoreCall.admissible, Bool.and_eq_true, bne_iff_ne, ne_eq] at hadm
    obtain ⟨he, hes⟩ := hadm
    by_cases hex : ∃ x ∈ m.entries, x.ptr = e.ptr
    · obtain ⟨x, hx, hxp⟩ := hex
      obtain ⟨c1, c2, rc, c3, c4⟩ := CachedMetaStore.cached_update_ok hs
        (hperm.mem_iff.2 hx) hxp (fun _ => hsz x hx)
      obtain ⟨m1, m2, rm, m3, m4⟩ := MapMetaStore.map_update_ok hm hx hxp (hsz x hx)
      have hr : rc.Perm rm := List.Perm.cons_inv ((c3.symm.trans hperm).trans m3)
      refine ⟨.flag true, (s.update e).2, (m.update e).2, ?_, ?_, ⟨c2, m2, ?_, ?_, ?_⟩, ?_⟩
      · simp [IMetaStore.perform, IMetaStore.update, c1]
      · simp [IMetaStore.perform, IMetaStore.update, m1]
      · exact c4.trans ((hr.cons e).trans m4.symm)
      · intro y hy
        rcases List.mem_cons.1 (m4.mem_iff.1 hy) with hye | hyr
        · rw [hye]; exact hes
        · exact hsz y (m3.mem_iff.2 (List.mem_cons_of_mem _ hyr))
      · rw [CachedMetaStore.capacity_update]; exact hcap
      · have h1 := m3.length_eq
        have h2 := m4.length_eq
        simp only [List.length_cons] at h1 h2
        omega
    · have hno : ∀ x ∈ m.entries, x.ptr ≠ e.ptr := fun x hx hxp => hex ⟨x, hx, hxp⟩
      have c1 := CachedMetaStore.cached_update_rej hs he
        (fun x hx => hno x (hperm.mem_iff.1 hx))
      have m1 := MapMetaStore.map_update_rej hm hno
      refine ⟨.flag false, s, m, ?_, ?_, ⟨hs, hm, hperm, hsz, hcap⟩, by omega⟩
      · simp [IMetaStore.perform, IMetaStore.update, c1]
      · simp [IMetaStore.perform, IMetaStore.update, m1]
  | size =>
    refine ⟨.count s.size, s, m, rfl, ?_, ⟨hs, hm, hperm, hsz, hcap⟩, by omega⟩
    simp only [IMetaStore.perform, IMetaStore.size]
    rw [CachedMetaStore.cached_size_eq hs.inv_cached, MapMetaStore.map_size_eq,
      hperm.length_eq]
  | reserve n =>
    have hn : n ≤ 2 ^ 32 := by simpa [StoreCall.moderate] using hmod
    have hpos := CachedMetaStore.capacity_pos hs.inv_cached
    have hw : 2 ^ 31 * s.capacity < WORD := by unfold WORD; omega
    obtain ⟨s', h1, h2, h3, _⟩ := CachedMetaStore.reserve_total n hs (by omega) hw
    refine ⟨.done, s', m, ?_, rfl, ⟨h2, hm, h3.trans hperm, hsz,
      CachedMetaStore.reserve_bounded hs hcap hn h1⟩, by omega⟩
    simp [IMetaStore.perform, IMetaStore.reserve, h1]
  | clear =>
    obtain ⟨c1, c2⟩ := CachedMetaStore.cached_clear_spec hs
    refine ⟨.done, s.clear, m.clear, rfl, rfl, ⟨c1, ?_, ?_, ?_, ?_⟩, ?_⟩
    · exact MapMetaStore.map_WF_init
    · rw [c2]; exact List.Perm.refl _
    · intro x hx; cases hx
    · rw [CachedMetaStore.capacity_clear]; exact hcap
    · show (0 : Nat) ≤ _
      exact Nat.zero_le _

/-- A sequence of admissible calls returns the same on the cached store and on the plain
map store. -/
theorem StoresAgree.agree_performAll :
    ∀ (cs : List StoreCall) (s : CachedMetaStore) (m : MapMetaStore), StoresAgree s m →
      Admissible (.map m) cs = true → cs.all StoreCall.moderate = true →
      m.entries.length + cs.length ≤ 2 ^ 31 →
      ∃ rs s' m', (IMetaStore.cached s).performAll cs = some (rs, .cached s') ∧
        (IMetaStore.map m).performAll cs = some (rs, .map m') ∧ StoresAgree s' m' := by
  intro cs
  induction cs with
  | nil => intro s m h _ _ _; exact ⟨[], s, m, rfl, rfl, h⟩
  | cons c cs ih =>
    intro s m h hadm hmod hlen
    simp only [List.length_cons] at hlen
    simp only [List.all_cons, Bool.and_eq_true] at hmod
    unfold Admissible at hadm
    simp only [Bool.and_eq_true] at hadm
    obtain ⟨r, s', m', h1, h2, h3, h4⟩ := h.agree_perform c hadm.1 hmod.1 (by omega)
    have hadm2 := hadm.2
    rw [h2] at hadm2
    simp only at hadm2
    obtain ⟨rs, s'', m'', g1, g2, g3⟩ := ih s' m' h3 hadm2 hmod.2 (by omega)
    refine ⟨r :: rs, s'', m'', ?_, ?_, g3⟩
    · unfold IMetaStore.performAll
      rw [h1]
      simp only [g1]
    · unfold IMetaStore.performAll
      rw [h2]
      simp only [g2]

/-! ## The table during `reserve_double` -/

namespace details.ResizeableHashMap

/-- The invariant of `reserve_double` holds after `bins.resize(newsize)`. -/
theorem rehashInv_resize {m : ResizeableHashMap} (hm : m.WF) {M : Nat}
    (hle : m.bins.length ≤ M) :
    RehashInv m.bins.length M 0 0 { bins := resize m.bins M } := by
  obtain ⟨n, hn⟩ := hm.1
  have hmask : ∀ x, x &&& (m.bins.length - 1) = x % m.bins.length := by
    intro x; rw [hn]; exact Nat.and_pow_two_sub_one_eq_mod x _
  refine ⟨length_resize hle, fun t j ht hj => ?_⟩
  rw [cell_resize hle]
  by_cases htN : t < m.bins.length
  · rw [if_pos htN]
    obtain ⟨w1, w2⟩ := hm.2 t j htN hj
    refine ⟨w2, fun h0 => ?_, fun _ hcase => ?_, fun hNt _ => ?_⟩
    · have := w1 h0
      unfold get_bin at this
      rw [hmask] at this
      rw [this, Nat.mod_eq_of_lt htN]
    · omega
    · omega
  · rw [if_neg htN]
    exact ⟨fun _ => rfl, fun h0 => absurd rfl h0, fun h0 => absurd rfl h0, fun _ _ => rfl⟩

/-- Where the entry of the cell `(b, i)` goes while the invariant of `reserve_double`
holds: either it stays, or its target bin is a new bin, the cells of the target bin from
index `i` on are empty, the search for an empty cell succeeds, and the entry is swapped
with an empty cell. -/
theorem rehash_entry_target {N M : Nat} {n k : Nat} (hN : N = 2 ^ n) (hM : M = 2 ^ (n + k))
    (hk : 0 < k) {b i : Nat} (hb : b < N) (hi : i < 4) {m : ResizeableHashMap}
    (h : RehashInv N M b i m) (he : (m.cell (b, i)).ptr ≠ 0)
    (hne : hash (m.cell (b, i)).ptr &&& (M - 1) ≠ b) :
    N ≤ hash (m.cell (b, i)).ptr &&& (M - 1) ∧
    hash (m.cell (b, i)).ptr &&& (M - 1) < M ∧
    (∀ j, i ≤ j → j < 4 → (m.cell (hash (m.cell (b, i)).ptr &&& (M - 1), j)).ptr = 0) ∧
    (∃ j0, (m.bin (hash (m.cell (b, i)).ptr &&& (M - 1))).findIdx
        (fun target => target.ptr == 0) = some j0 ∧ j0 ≤ i ∧
      (i ≠ 0 → m.rehash_entry (M - 1) b i =
        m.swapCells (b, i) (hash (m.cell (b, i)).ptr &&& (M - 1), j0))) ∧
    (i = 0 → m.rehash_entry (M - 1) b i =
      m.swapCells (b, i) (hash (m.cell (b, i)).ptr &&& (M - 1), 0)) := by
  have hNM : N ∣ M := by rw [hN, hM, pow_add]; exact Dvd.intro _ rfl
  have hNltM : N < M := by
    rw [hN, hM]; exact Nat.pow_lt_pow_right (by omega) (by omega)
  have hbM : b < M := by omega
  have hmask : ∀ x, x &&& (M - 1) = x % M := by
    intro x; rw [hM]; exact Nat.and_pow_two_sub_one_eq_mod x _
  have hnb : hash (m.cell (b, i)).ptr &&& (M - 1) = hash (m.cell (b, i)).ptr % M := hmask _
  rw [hnb] at hne ⊢
  have hnbM : hash (m.cell (b, i)).ptr % M < M := Nat.mod_lt _ (by omega)
  have hold := (h.2 b i hbM hi).2.1 he
  have hnbN : hash (m.cell (b, i)).ptr % M % N = b := by
    rw [Nat.mod_mod_of_dvd _ hNM, hold, Nat.mod_eq_of_lt hb]
  have hNnb : N ≤ hash (m.cell (b, i)).ptr % M := by
    by_contra hc
    rw [Nat.mod_eq_of_lt (by omega)] at hnbN
    exact hne hnbN
  have hempty : ∀ j, i ≤ j → j < 4 → (m.cell (hash (m.cell (b, i)).ptr % M, j)).ptr = 0 :=
    fun j hij hj => (h.2 _ j hnbM hj).2.2.2 hNnb (Or.inr ⟨hnbN, hij⟩)
  have hsame2 : ¬ b = hash (m.cell (b, i)).ptr % M := fun hc => hne hc.symm
  have hex := Bin.findIdx_isSome (p := fun target => target.ptr == 0)
    (b := m.bin (hash (m.cell (b, i)).ptr % M)) hi (by
      have := hempty i (le_refl _) hi
      simpa [cell] using this)
  obtain ⟨j0, hj0, hj0i⟩ := hex
  refine ⟨hNnb, hnbM, hempty, ⟨j0, hj0, hj0i, fun hi0 => ?_⟩, fun hi0 => ?_⟩
  · unfold rehash_entry
    simp only [he, hnb, hsame2, hi0, if_false, hj0]
  · subst hi0
    unfold rehash_entry
    simp only [he, hnb, hsame2, if_false, if_true]

/-- The step of the inner loop of `reserve_double` leaves the cells alone that the loops
have yet to reach. -/
theorem rehash_entry_later_cells {N M : Nat} {n k : Nat} (hN : N = 2 ^ n)
    (hM : M = 2 ^ (n + k)) (hk : 0 < k) {b i : Nat} (hb : b < N) (hi : i < 4)
    {m : ResizeableHashMap} (h : RehashInv N M b i m) (b' j' : Nat) (hb' : b' < N)
    (hj' : j' < 4) (hlater : b < b' ∨ (b' = b ∧ i + 1 ≤ j')) :
    (m.rehash_entry (M - 1) b i).cell (b', j') = m.cell (b', j') := by
  have hNltM : N < M := by
    rw [hN, hM]; exact Nat.pow_lt_pow_right (by omega) (by omega)
  by_cases he : (m.cell (b, i)).ptr = 0
  · unfold rehash_entry; simp only [he, if_true]
  by_cases hsame : b = hash (m.cell (b, i)).ptr &&& (M - 1)
  · unfold rehash_entry; simp only [he, if_false, ← hsame, if_true]
  obtain ⟨t1, t2, _, ⟨j0, hj0, hj0i, t4⟩, t5⟩ :=
    rehash_entry_target hN hM hk hb hi h he (fun hc => hsame hc.symm)
  have hbl : b < m.bins.length := by rw [h.1]; omega
  have hnbl : hash (m.cell (b, i)).ptr &&& (M - 1) < m.bins.length := by rw [h.1]; exact t2
  have hswap : ∀ j1, j1 < 4 →
      (m.swapCells (b, i) (hash (m.cell (b, i)).ptr &&& (M - 1), j1)).cell (b', j') =
        m.cell (b', j') := by
    intro j1 hj1
    rw [cell_swapCells (c := (b, i)) (d := (hash (m.cell (b, i)).ptr &&& (M - 1), j1))
      hbl hi hnbl hj1 hj']
    have hx1 : ¬ (b', j') = (hash (m.cell (b, i)).ptr &&& (M - 1), j1) := by
      intro hc
      have := congrArg Prod.fst hc
      simp only at this
      omega
    have hx2 : ¬ (b', j') = (b, i) := by
      intro hc
      have h1 := congrArg Prod.fst hc
      have h2 := congrArg Prod.snd hc
      simp only at h1 h2
      omega
    rw [if_neg hx1, if_neg hx2]
  by_cases hi0 : i = 0
  · rw [t5 hi0]
    exact hswap 0 (by omega)
  · rw [t4 hi0]
    exact hswap j0 (by omega)

/-- The inner loop of `reserve_double` up to the cell `i` of the bin `b`. -/
theorem rehash_entries_inv {N M : Nat} {n k : Nat} (hN : N = 2 ^ n) (hM : M = 2 ^ (n + k))
    (hk : 0 < k) {b : Nat} (hb : b < N) (orig : ResizeableHashMap) {s : ResizeableHashMap}
    (hs : RehashInv N M b 0 s)
    (hcells : ∀ b' j', b' < N → j' < 4 → b ≤ b' → s.cell (b', j') = orig.cell (b', j')) :
    ∀ i, i ≤ 4 →
      RehashInv N M b i (forLoop (rehash_entry (M - 1) b) i s) ∧
      ∀ b' j', b' < N → j' < 4 → (b < b' ∨ (b' = b ∧ i ≤ j')) →
        (forLoop (rehash_entry (M - 1) b) i s).cell (b', j') = orig.cell (b', j') := by
  intro i
  induction i with
  | zero =>
    intro _
    exact ⟨hs, fun b' j' hb' hj' hl => hcells b' j' hb' hj' (by omega)⟩
  | succ i ih =>
    intro hi4
    obtain ⟨I1, I2⟩ := ih (by omega)
    have hstep : forLoop (rehash_entry (M - 1) b) (i + 1) s =
        rehash_entry (M - 1) b i (forLoop (rehash_entry (M - 1) b) i s) := rfl
    rw [hstep]
    refine ⟨(rehash_entry_inv hN hM hk hb (by omega) I1).1, fun b' j' hb' hj' hl => ?_⟩
    rw [rehash_entry_later_cells hN hM hk hb (by omega) I1 b' j' hb' hj' hl]
    exact I2 b' j' hb' hj' (by omega)

/-- The outer loop of `reserve_double` up to the bin `b`. -/
theorem rehash_bins_inv {N M : Nat} {n k : Nat} (hN : N = 2 ^ n) (hM : M = 2 ^ (n + k))
    (hk : 0 < k) (orig : ResizeableHashMap) {s : ResizeableHashMap}
    (hs : RehashInv N M 0 0 s)
    (hcells : ∀ b' j', b' < N → j' < 4 → s.cell (b', j') = orig.cell (b', j')) :
    ∀ b, b ≤ N →
      RehashInv N M b 0 (forLoop (rehash_bin (M - 1)) b s) ∧
      ∀ b' j', b' < N → j' < 4 → b ≤ b' →
        (forLoop (rehash_bin (M - 1)) b s).cell (b', j') = orig.cell (b', j') := by
  intro b
  induction b with
  | zero =>
    intro _
    exact ⟨hs, fun b' j' hb' hj' _ => hcells b' j' hb' hj'⟩
  | succ b ih =>
    intro hbl
    obtain ⟨I1, I2⟩ := ih (by omega)
    have hb1 : b < N := by omega
    have hbin : rehash_bin (M - 1) b (forLoop (rehash_bin (M - 1)) b s) =
        forLoop (rehash_entry (M - 1) b) 4 (forLoop (rehash_bin (M - 1)) b s) := rfl
    have hstep : forLoop (rehash_bin (M - 1)) (b + 1) s =
        forLoop (rehash_entry (M - 1) b) 4 (forLoop (rehash_bin (M - 1)) b s) := by
      rw [← hbin]
      conv => lhs; unfold forLoop
    refine ⟨?_, fun b' j' hb' hj' hl => ?_⟩
    · rw [hstep, ← hbin]
      exact (rehash_bin_inv hN hM hk hb1 I1).1
    · rw [hstep]
      exact (rehash_entries_inv hN hM hk hb1 orig I1 I2 4 (le_refl _)).2 b' j' hb' hj'
        (Or.inl (by omega))

/-- The table when `reserve_double` reaches the cell `(b, i)`: the invariant of the loops
holds, and the cells of the old bins that the loops have yet to reach are as before the
call. -/
theorem reserve_double_at_inv {m : ResizeableHashMap} (hm : m.WF) {k : Nat} (hk : 0 < k)
    (hfit : 2 ^ k * m.bins.length < WORD) {b i : Nat} (hb : b < m.bins.length)
    (hi : i ≤ 4) :
    RehashInv m.bins.length (2 ^ k * m.bins.length) b i (m.reserve_double_at (2 ^ k) b i) ∧
    ∀ b' j', b' < m.bins.length → j' < 4 → (b < b' ∨ (b' = b ∧ i ≤ j')) →
      (m.reserve_double_at (2 ^ k) b i).cell (b', j') = m.cell (b', j') := by
  obtain ⟨n, hn⟩ := hm.1
  have hN : m.bins.length = 2 ^ n := hn
  have hM : 2 ^ k * m.bins.length = 2 ^ (n + k) := by rw [hn, pow_add, Nat.mul_comm]
  have hle : m.bins.length ≤ 2 ^ k * m.bins.length :=
    Nat.le_mul_of_pos_left _ (Nat.two_pow_pos k)
  have hat : m.reserve_double_at (2 ^ k) b i =
      forLoop (rehash_entry (2 ^ k * m.bins.length - 1) b) i
        (forLoop (rehash_bin (2 ^ k * m.bins.length - 1)) b
          { bins := resize m.bins (2 ^ k * m.bins.length) }) := by
    unfold reserve_double_at
    simp only [Nat.mod_eq_of_lt hfit]
  rw [hat]
  have h0cells : ∀ b' j', b' < m.bins.length → j' < 4 →
      ({ bins := resize m.bins (2 ^ k * m.bins.length) } : ResizeableHashMap).cell (b', j') =
        m.cell (b', j') := by
    intro b' j' hb' _
    rw [cell_resize hle, if_pos hb']
  obtain ⟨O1, O2⟩ := rehash_bins_inv hN hM hk m (rehashInv_resize hm hle) h0cells b
    (by omega)
  exact rehash_entries_inv hN hM hk hb m O1 O2 i hi

end details.ResizeableHashMap

/-! ## The snapshot of the thread cache, cell by cell -/

theorem TcacheMetaEntry.not_mismatch_record (mem : Memory) (entry : Nat) :
    ¬ TcacheMetaEntry.mismatch mem (TcacheMetaEntry.record mem entry) entry := by
  unfold TcacheMetaEntry.mismatch TcacheMetaEntry.record
  simp

namespace ShadowHeapFacade

/-- The walk of `_store_tcache_impl` over a bin records every cell it traverses. -/
theorem store_tcache_bin_walk (mem : Memory) (i : Nat) :
    ∀ (n b entry : Nat) (d : ShadowHeapData) (j : Nat),
      j < tcache_walk_length mem n entry →
      (store_tcache_bin mem i n b entry d).tcache i (b + j) =
        TcacheMetaEntry.record mem (next_entry mem entry j) := by
  intro n
  induction n with
  | zero => intro b entry d j hj; simp [tcache_walk_length] at hj
  | succ n ih =>
    intro b entry d j hj
    unfold store_tcache_bin
    simp only
    by_cases hnext : mem entry ≠ 0
    · rw [if_pos hnext]
      rw [tcache_walk_length, if_pos hnext] at hj
      cases j with
      | zero =>
        have e0 : b + 0 = b := rfl
        rw [e0]
        rw [(store_tcache_bin_spec mem i n (b + 1) (mem entry) _).2.1 b (by omega)]
        simp [Function.update, TcacheMetaEntry.record, next_entry]
      | succ j =>
        have := ih (b + 1) (mem entry)
          { d with
            tcache := Function.update d.tcache i (Function.update (d.tcache i) b
              { orig_ptr := entry,
                size := (CHUNK_HEADER.read mem (CHUNK_HEADER.from_memory entry)).chunksize,
                next := (CHUNK_HEADER.read mem (CHUNK_HEADER.from_memory entry)).fd }),
            tcacheHasData := true } j (by omega)
        rw [next_entry_shift] at this
        have he : b + (j + 1) = b + 1 + j := by omega
        rw [he]
        exact this
    · rw [if_neg hnext]
      rw [tcache_walk_length, if_neg hnext] at hj
      have : j = 0 := by omega
      subst this
      simp [Function.update, TcacheMetaEntry.record, next_entry]

/-- What `_store_tcache_impl` leaves with the check enabled and the thread cache located:
the cells of every walked bin are recorded, the rows of the other bins are untouched, and a
snapshot is present exactly if one was present or a bin was walked. -/
theorem store_tcache_spec (v230 : Bool) (modes : ModeReader) (info : ARENA_INFO)
    (mem : Memory) (data : ShadowHeapData) (ht : modes.tcaMode = true)
    (hp : info.tcache ≠ 0) :
    (∀ i, i < TCACHE_ENTRIES → tcache_bin_active v230 mem info.tcache i →
      ∀ j, j < tcache_walk_length mem TCA_BIN_SIZE (tcache_entries v230 mem info.tcache i) →
        (_store_tcache_impl v230 true modes info mem data).tcache i j =
          TcacheMetaEntry.record mem
            (next_entry mem (tcache_entries v230 mem info.tcache i) j)) ∧
    (∀ i, ¬ (i < TCACHE_ENTRIES ∧ tcache_bin_active v230 mem info.tcache i) →
      (_store_tcache_impl v230 true modes info mem data).tcache i = data.tcache i) ∧
    ((_store_tcache_impl v230 true modes info mem data).tcacheHasData = true ↔
      data.tcacheHasData = true ∨
        ∃ i, i < TCACHE_ENTRIES ∧ tcache_bin_active v230 mem info.tcache i) := by
  unfold _store_tcache_impl
  simp only [ht, hp, Bool.true_eq_false, if_false]
  have hloop := details.forLoop_inv
    (fun i d =>
      if tcache_entries v230 mem info.tcache i = 0 then d
      else if tcache_counts v230 mem info.tcache i ≤ 0 then d
      else store_tcache_bin mem i TCA_BIN_SIZE 0 (tcache_entries v230 mem info.tcache i) d)
    (fun N d =>
      (∀ i, i < N → tcache_bin_active v230 mem info.tcache i →
        ∀ j, j < tcache_walk_length mem TCA_BIN_SIZE
            (tcache_entries v230 mem info.tcache i) →
          d.tcache i j = TcacheMetaEntry.record mem
            (next_entry mem (tcache_entries v230 mem info.tcache i) j)) ∧
      (∀ i, ¬ (i < N ∧ tcache_bin_active v230 mem info.tcache i) →
        d.tcache i = data.tcache i) ∧
      (d.tcacheHasData = true ↔ data.tcacheHasData = true ∨
        ∃ i, i < N ∧ tcache_bin_active v230 mem info.tcache i))
    TCACHE_ENTRIES data
    ⟨fun i hi => absurd hi (Nat.not_lt_zero i), fun _ _ => rfl,
      ⟨fun h => Or.inl h, fun h => h.elim id (fun ⟨i, hi, _⟩ => absurd hi (Nat.not_lt_zero i))⟩⟩
    (fun N d _ hI => by
      obtain ⟨I1, I2, I3⟩ := hI
      simp only
      by_cases hact : tcache_bin_active v230 mem info.tcache N
      · have h1 : ¬ tcache_entries v230 mem info.tcache N = 0 := hact.1
        have h2 : ¬ tcache_counts v230 mem info.tcache N ≤ 0 := by
          have := hact.2
          omega
        rw [if_neg h1, if_neg h2]
        obtain ⟨g1, _, g3, g4, _⟩ := store_tcache_bin_spec mem N TCA_BIN_SIZE 0
          (tcache_entries v230 mem info.tcache N) d
        refine ⟨fun i hi hia j hj => ?_, fun i hi => ?_, ?_⟩
        · by_cases hiN : i = N
          · subst hiN
            have := store_tcache_bin_walk mem i TCA_BIN_SIZE 0
              (tcache_entries v230 mem info.tcache i) d j hj
            rw [Nat.zero_add] at this
            exact this
          · rw [g1 i hiN]
            exact I1 i (by omega) hia j hj
        · have hiN : i ≠ N := fun h => hi ⟨by omega, h ▸ hact⟩
          rw [g1 i hiN]
          exact I2 i (fun h => hi ⟨by omega, h.2⟩)
        · exact ⟨fun _ => Or.inr ⟨N, by omega, hact⟩, fun _ => (g3 (by decide)).2⟩
      · have hskip : (if tcache_entries v230 mem info.tcache N = 0 then d
            else if tcache_counts v230 mem info.tcache N ≤ 0 then d
            else store_tcache_bin mem N TCA_BIN_SIZE 0
              (tcache_entries v230 mem info.tcache N) d) = d := by
          by_cases h1 : tcache_entries v230 mem info.tcache N = 0
          · rw [if_pos h1]
          · rw [if_neg h1]
            by_cases h2 : tcache_counts v230 mem info.tcache N ≤ 0
            · rw [if_pos h2]
            · exact absurd ⟨h1, by omega⟩ hact
        rw [hskip]
        refine ⟨fun i hi hia j hj => ?_, fun i hi => ?_, ?_⟩
        · have hiN : i ≠ N := fun h => hact (h ▸ hia)
          exact I1 i (by omega) hia j hj
        · exact I2 i (fun h => hi ⟨by omega, h.2⟩)
        · rw [I3]
          constructor
          · rintro (h | ⟨i, hi, hia⟩)
            · exact Or.inl h
            · exact Or.inr ⟨i, by omega, hia⟩
          · rintro (h | ⟨i, hi, hia⟩)
            · exact Or.inl h
            · have hiN : i ≠ N := fun h => hact (h ▸ hia)
              exact Or.inr ⟨i, by omega, hia⟩)
  exact hloop

end ShadowHeapFacade

/-- A walk over cells that read the same in two memories traverses the same cells. -/
theorem tcache_walk_same (mem0 mem : Memory) :
    ∀ (n e : Nat),
      (∀ b, b < tcache_walk_length mem0 n e → tcache_cell_same mem0 mem (next_entry mem0 e b)) →
      tcache_walk_length mem n e = tcache_walk_length mem0 n e ∧
      ∀ b, b < tcache_walk_length mem0 n e → next_entry mem e b = next_entry mem0 e b := by
  intro n
  induction n with
  | zero => intro e _; exact ⟨rfl, fun b hb => by simp [tcache_walk_length] at hb⟩
  | succ n ih =>
    intro e h
    have h0 : mem e = mem0 e := (h 0 (tcache_walk_length_pos mem0 n e)).1
    by_cases hnext : mem0 e ≠ 0
    · have hlen0 : tcache_walk_length mem0 (n + 1) e =
          tcache_walk_length mem0 n (mem0 e) + 1 := by
        rw [tcache_walk_length, if_pos hnext]
      have hlen : tcache_walk_length mem (n + 1) e =
          tcache_walk_length mem n (mem e) + 1 := by
        rw [tcache_walk_length, if_pos (by rw [h0]; exact hnext)]
      have hrec := ih (mem0 e) (fun b hb => by
        have := h (b + 1) (by omega)
        rw [← next_entry_shift] at this
        exact this)
      rw [hlen, hlen0, h0]
      refine ⟨by rw [hrec.1], fun b hb => ?_⟩
      cases b with
      | zero => rfl
      | succ b =>
        rw [← next_entry_shift, ← next_entry_shift, h0]
        exact hrec.2 b (by omega)
    · have hlen0 : tcache_walk_length mem0 (n + 1) e = 1 := by
        rw [tcache_walk_length, if_neg hnext]
      have hlen : tcache_walk_length mem (n + 1) e = 1 := by
        rw [tcache_walk_length, if_neg (by rw [h0]; exact hnext)]
      rw [hlen, hlen0]
      refine ⟨rfl, fun b hb => ?_⟩
      have : b = 0 := by omega
      subst this
      rfl

/-! ## Claims on the refinement, on the rehash and on what the checks let pass -/

set_option maxRecDepth 1000000 in
/-- Claim C31 (contradicted by the code). The sequence `reserve(2^37 + 1)`, `size()` meets
the conditions of the claim; the plain map store returns from both calls, the cached store
does not return from `reserve`: the growth factor of `ensure_capacity`, an `int`,
overflows. Where that cannot happen the claim holds: for every sequence of at most `2^31`
calls of `put`, `get`, `remove`, `update`, `size`, `reserve` and `clear` in which keys are
non-null, size words are non-zero, `put` is applied to keys that are not stored, and
`reserve` asks for at most `2^32` entries (bounds that suffice to keep the factor in
range), the freshly constructed `CachedMetaStore` (with `MapMetaStore` as fallback) and the
freshly constructed `MapMetaStore` both return from every call, with the same results, and
hold the same entries afterwards. -/
theorem C31_cached_store_agrees_until_reserve_overflows (cs : List StoreCall)
    (hadm : Admissible (.map MapMetaStore.init) cs = true)
    (hmod : cs.all StoreCall.moderate = true) (hlen : cs.length ≤ 2 ^ 31) :
    (Admissible (.map MapMetaStore.init) [.reserve (2 ^ 37 + 1), .size] = true ∧
      (IMetaStore.cached CachedMetaStore.init).performAll [.reserve (2 ^ 37 + 1), .size]
        = none ∧
      ((IMetaStore.map MapMetaStore.init).performAll [.reserve (2 ^ 37 + 1), .size]).map
        Prod.fst = some [.done, .count 0]) ∧
    ∃ rs s m,
      (IMetaStore.cached CachedMetaStore.init).performAll cs = some (rs, .cached s) ∧
      (IMetaStore.map MapMetaStore.init).performAll cs = some (rs, .map m) ∧
      s.entries.Perm m.entries := by
  have h0 : MapMetaStore.init.entries.length + cs.length ≤ 2 ^ 31 := by
    have : MapMetaStore.init.entries.length = 0 := rfl
    omega
  obtain ⟨rs, s, m, h1, h2, h3⟩ :=
    StoresAgree.agree_performAll cs _ _ StoresAgree.agree_initial hadm hmod h0
  exact ⟨⟨by decide, by decide, by decide⟩, rs, s, m, h1, h2, h3.2.2.1⟩

set_option maxRecDepth 1000000 in
/-- Witness for C31: the example sequence of calls, with its results on both stores, and
the sequence on which the cached store does not return. -/
theorem C31_witness :
    Admissible (.map MapMetaStore.init) exampleStoreCalls = true ∧
    exampleStoreCalls.all StoreCall.moderate = true ∧
    exampleStoreCalls.length ≤ 2 ^ 31 ∧
    ((IMetaStore.cached CachedMetaStore.init).performAll exampleStoreCalls).map Prod.fst =
      some [.flag true, .flag true, .count 2, .entry ⟨4096, 33⟩, .flag true,
        .entry ⟨4096, 65⟩, .flag true, .flag false, .done, .entry ⟨0, 0⟩, .flag false,
        .count 1, .done, .count 0, .flag true, .entry ⟨4096, 33⟩] ∧
    (IMetaStore.cached CachedMetaStore.init).performAll [.reserve (2 ^ 37 + 1), .size]
      = none ∧
    (∃ rs s m,
      (IMetaStore.cached CachedMetaStore.init).performAll exampleStoreCalls =
        some (rs, .cached s) ∧
      (IMetaStore.map MapMetaStore.init).performAll exampleStoreCalls = some (rs, .map m) ∧
      s.entries.Perm m.entries) :=
  ⟨by decide, by decide, by decide, by decide,
   (C31_cached_store_agrees_until_reserve_overflows exampleStoreCalls (by decide)
     (by decide) (by decide)).1.2.1,
   (C31_cached_store_agrees_until_reserve_overflows exampleStoreCalls (by decide)
     (by decide) (by decide)).2⟩

theorem exampleTable_WF : exampleTable.WF := by
  refine ⟨⟨0, rfl⟩, fun b i hb hi => ?_⟩
  have hb0 : b = 0 := by
    have : exampleTable.bins.length = 1 := rfl
    omega
  subst hb0
  have hi4 : i < 4 := hi
  have hmask : ∀ key, exampleTable.get_bin key = 0 := by
    intro key
    unfold details.ResizeableHashMap.get_bin
    have : exampleTable.bins.length - 1 = 0 := rfl
    rw [this]
    exact Nat.and_zero _
  refine ⟨fun _ => hmask _, ?_⟩
  interval_cases i <;> decide

/-- Claim C32. `reserve_double` with a power-of-two factor `2^k` on a well-formed table of
`n` bins (`2^k * n` a `size_t`): the table has `2^k * n` bins afterwards, its occupied cells
are those of the old table (none is overwritten or dropped), and every one lies in the bin
selected by its hash. An occupied cell of bin `b` ends up in the bin `hash(ptr) & (2^k n - 1)`,
which is congruent to `b` modulo `n`, for the factor 2 the bin `b` or the bin `b + n`. When
the loops reach a cell, it still holds what it held before the call; if its entry has to
move, the target bin is a new bin whose cells from the index of the entry on are empty: the
unconditional swap into cell 0 hits an empty cell, and the search for an empty cell
succeeds. -/
theorem C32_reserve_double_places_every_entry (m : details.ResizeableHashMap) (k : Nat)
    (hm : m.WF) (hk : 0 < k) (hfit : 2 ^ k * m.bins.length < WORD) :
    (m.reserve_double (2 ^ k)).bins.length = 2 ^ k * m.bins.length ∧
    (m.reserve_double (2 ^ k)).entries.Perm m.entries ∧
    (m.reserve_double (2 ^ k)).WF ∧
    (∀ b i, b < m.bins.length → i < 4 → (m.cell (b, i)).ptr ≠ 0 →
      (details.hash (m.cell (b, i)).ptr &&& (2 ^ k * m.bins.length - 1)) % m.bins.length = b ∧
      (k = 1 →
        details.hash (m.cell (b, i)).ptr &&& (2 ^ k * m.bins.length - 1) = b ∨
        details.hash (m.cell (b, i)).ptr &&& (2 ^ k * m.bins.length - 1) =
          b + m.bins.length) ∧
      ∃ j, j < 4 ∧
        (m.reserve_double (2 ^ k)).cell
          (details.hash (m.cell (b, i)).ptr &&& (2 ^ k * m.bins.length - 1), j) =
        m.cell (b, i)) ∧
    (∀ b i, b < m.bins.length → i < 4 →
      (m.reserve_double_at (2 ^ k) b i).cell (b, i) = m.cell (b, i) ∧
      m.reserve_double_at (2 ^ k) b (i + 1) =
        (m.reserve_double_at (2 ^ k) b i).rehash_entry (2 ^ k * m.bins.length - 1) b i ∧
      ((m.cell (b, i)).ptr ≠ 0 →
        details.hash (m.cell (b, i)).ptr &&& (2 ^ k * m.bins.length - 1) ≠ b →
        m.bins.length ≤ details.hash (m.cell (b, i)).ptr &&& (2 ^ k * m.bins.length - 1) ∧
        (∀ j, i ≤ j → j < 4 →
          ((m.reserve_double_at (2 ^ k) b i).cell
            (details.hash (m.cell (b, i)).ptr &&& (2 ^ k * m.bins.length - 1), j)).ptr = 0) ∧
        ∃ j0, ((m.reserve_double_at (2 ^ k) b i).bin
            (details.hash (m.cell (b, i)).ptr &&& (2 ^ k * m.bins.length - 1))).findIdx
              (fun target => target.ptr == 0) = some j0)) ∧
    m.reserve_double (2 ^ k) = m.reserve_double_at (2 ^ k) m.bins.length 0 := by
  obtain ⟨hwf, hlen, hperm⟩ := details.ResizeableHashMap.reserve_double_spec hm hk hfit
  obtain ⟨n, hn⟩ := hm.1
  have hN : m.bins.length = 2 ^ n := hn
  have hM : 2 ^ k * m.bins.length = 2 ^ (n + k) := by rw [hn, pow_add, Nat.mul_comm]
  have hNpos : 0 < m.bins.length := by rw [hn]; exact Nat.two_pow_pos n
  have hNM : m.bins.length ∣ 2 ^ k * m.bins.length := Dvd.intro_left _ rfl
  have hmaskM : ∀ x, x &&& (2 ^ k * m.bins.length - 1) = x % (2 ^ k * m.bins.length) := by
    intro x; rw [hM]; exact Nat.and_pow_two_sub_one_eq_mod x _
  have hmaskN : ∀ x, x &&& (m.bins.length - 1) = x % m.bins.length := by
    intro x; rw [hn]; exact Nat.and_pow_two_sub_one_eq_mod x _
  have hplace : ∀ b i, b < m.bins.length → i < 4 → (m.cell (b, i)).ptr ≠ 0 →
      details.hash (m.cell (b, i)).ptr % m.bins.length = b := by
    intro b i hb hi he
    have := (hm.2 b i hb hi).1 he
    unfold details.ResizeableHashMap.get_bin at this
    rw [hmaskN] at this
    exact this
  refine ⟨hlen, hperm, hwf, fun b i hb hi he => ⟨?_, fun hk1 => ?_, ?_⟩,
    fun b i hb hi => ⟨?_, ?_, fun he hne => ?_⟩, ?_⟩
  · rw [hmaskM, Nat.mod_mod_of_dvd _ hNM]
    exact hplace b i hb hi he
  · subst hk1
    have h1 : (details.hash (m.cell (b, i)).ptr &&& (2 ^ 1 * m.bins.length - 1)) %
        m.bins.length = b := by
      rw [hmaskM, Nat.mod_mod_of_dvd _ hNM]
      exact hplace b i hb hi he
    have h2 : details.hash (m.cell (b, i)).ptr &&& (2 ^ 1 * m.bins.length - 1) <
        2 ^ 1 * m.bins.length := by
      rw [hmaskM]; exact Nat.mod_lt _ (by omega)
    generalize details.hash (m.cell (b, i)).ptr &&& (2 ^ 1 * m.bins.length - 1) = t at h1 h2
    by_cases ht : t < m.bins.length
    · left
      rw [Nat.mod_eq_of_lt ht] at h1
      exact h1
    · right
      rw [Nat.mod_eq_sub_mod (by omega), Nat.mod_eq_of_lt (by omega)] at h1
      omega
  · have hmem : m.cell (b, i) ∈ m.entries :=
      details.ResizeableHashMap.mem_entries.2 ⟨he, b, i, hb, hi, rfl⟩
    have hmem2 : m.cell (b, i) ∈ (m.reserve_double (2 ^ k)).entries := hperm.mem_iff.2 hmem
    obtain ⟨_, b2, i2, hb2, hi2, hc2⟩ := details.ResizeableHashMap.mem_entries.1 hmem2
    have hpl := (hwf.2 b2 i2 hb2 hi2).1 (by rw [hc2]; exact he)
    unfold details.ResizeableHashMap.get_bin at hpl
    rw [hc2, hlen] at hpl
    exact ⟨i2, hi2, by rw [hpl]; exact hc2⟩
  · exact (details.ResizeableHashMap.reserve_double_at_inv hm hk hfit hb (by omega)).2 b i hb
      hi (Or.inr ⟨rfl, le_refl _⟩)
  · unfold details.ResizeableHashMap.reserve_double_at
    simp only [Nat.mod_eq_of_lt hfit]
    rfl
  · obtain ⟨hinv, hcells⟩ :=
      details.ResizeableHashMap.reserve_double_at_inv hm hk hfit hb (Nat.le_of_lt hi)
    have hcell := hcells b i hb hi (Or.inr ⟨rfl, le_refl _⟩)
    have he' : ((m.reserve_double_at (2 ^ k) b i).cell (b, i)).ptr ≠ 0 := by
      rw [hcell]; exact he
    have hne' : details.hash ((m.reserve_double_at (2 ^ k) b i).cell (b, i)).ptr &&&
        (2 ^ k * m.bins.length - 1) ≠ b := by rw [hcell]; exact hne
    obtain ⟨t1, _, t3, ⟨j0, hj0, _, _⟩, _⟩ :=
      details.ResizeableHashMap.rehash_entry_target hN hM hk hb hi hinv he' hne'
    rw [hcell] at t1 t3 hj0
    exact ⟨t1, t3, j0, hj0⟩
  · simp only [details.ResizeableHashMap.reserve_double,
      details.ResizeableHashMap.reserve_double_at, details.forLoop]

set_option maxRecDepth 1000000 in
/-- Witness for C32: the example table of one bin is doubled; the chunk 48 stays in bin 0,
the chunk 32 is swapped into cell 0 of the new bin 1, and the search finds cell 1 of that
bin for the chunk 40. -/
theorem C32_witness :
    exampleTable.WF ∧ 0 < 1 ∧ 2 ^ 1 * exampleTable.bins.length < WORD ∧
    exampleTable.reserve_double (2 ^ 1) =
      { bins := [{ e0 := MALLOC_META.empty, e1 := MALLOC_META.empty, e2 := ⟨48, 15⟩,
                   e3 := MALLOC_META.empty },
                 { e0 := ⟨32, 13⟩, e1 := ⟨40, 14⟩, e2 := MALLOC_META.empty,
                   e3 := MALLOC_META.empty }] } ∧
    (exampleTable.reserve_double (2 ^ 1)).entries.Perm exampleTable.entries :=
  ⟨exampleTable_WF, by decide, by decide, by decide,
   (C32_reserve_double_places_every_entry exampleTable 1 exampleTable_WF (by decide)
      (by decide)).2.1⟩

namespace ShadowHeapFacade

/-- The check of the thread cache passes on the memory that its snapshot was taken on. -/
theorem check_tcache_after_store (v230 : Bool) (isInitialized : Bool) (modes : ModeReader)
    (info : ARENA_INFO) (mem : Memory) (data : ShadowHeapData) :
    ∃ d, _check_tcache_impl v230 isInitialized modes info mem
      (_store_tcache_impl v230 isInitialized modes info mem data) = some d := by
  cases isInitialized with
  | false => exact ⟨_, rfl⟩
  | true =>
    by_cases ht : modes.tcaMode = true
    · by_cases hp : info.tcache = 0
      · refine ⟨_store_tcache_impl v230 true modes info mem data, ?_⟩
        unfold _check_tcache_impl
        simp [hp]
      · by_cases hd : (_store_tcache_impl v230 true modes info mem data).tcacheHasData = true
        · obtain ⟨hiff, hor⟩ := check_tcache_spec v230 modes info mem
            (_store_tcache_impl v230 true modes info mem data) ht hd hp
          rcases hor with h | h
          · exfalso
            obtain ⟨i, hi, hact, b, hb, hmis⟩ := hiff.1 h
            rw [(store_tcache_spec v230 modes info mem data ht hp).1 i hi hact b hb] at hmis
            exact TcacheMetaEntry.not_mismatch_record mem _ hmis
          · exact ⟨_, h⟩
        · refine ⟨_store_tcache_impl v230 true modes info mem data, ?_⟩
          have hd' : (_store_tcache_impl v230 true modes info mem data).tcacheHasData =
              false := by simpa using hd
          unfold _check_tcache_impl
          simp [hd']
    · refine ⟨_store_tcache_impl v230 true modes info mem data, ?_⟩
      have ht' : modes.tcaMode = false := by simpa using ht
      unfold _check_tcache_impl
      simp [ht']

end ShadowHeapFacade

/-- Claim C33. For each of the three snapshots and every memory, shadow data and mode
flags: the snapshot half followed by the matching check on the same memory does not abort.
The top chunk check and the unsorted bin check return the shadow data as the snapshot left
it; the snapshot of the unsorted bin itself returns (with fuel for `USB_ENTRIES_MAX`
iterations). -/
theorem C33_check_after_snapshot_passes (fuel : Nat) (v230 isInitialized : Bool)
    (modes : ModeReader) (info : ARENA_INFO) (mem : Memory) (data : ShadowHeapData)
    (hfuel : USB_ENTRIES_MAX ≤ fuel) :
    ShadowHeapFacade._check_topchunk_impl isInitialized modes info mem
        (ShadowHeapFacade._store_topchunk_impl isInitialized modes info mem data) =
      some (ShadowHeapFacade._store_topchunk_impl isInitialized modes info mem data) ∧
    (∃ d, ShadowHeapFacade._store_unsorted_impl fuel isInitialized modes info mem data =
        some d ∧
      ShadowHeapFacade._check_unsorted_impl isInitialized modes info mem d = some d) ∧
    (∃ d, ShadowHeapFacade._check_tcache_impl v230 isInitialized modes info mem
        (ShadowHeapFacade._store_tcache_impl v230 isInitialized modes info mem data) =
      some d) := by
  refine ⟨?_, ?_, ShadowHeapFacade.check_tcache_after_store v230 isInitialized modes info
    mem data⟩
  · unfold ShadowHeapFacade._check_topchunk_impl ShadowHeapFacade._store_topchunk_impl
    cases isInitialized <;> cases htm : modes.topMode <;> simp [htm]
  · cases isInitialized with
    | false => exact ⟨data, rfl, rfl⟩
    | true =>
      by_cases hu : modes.usbMode = true
      · obtain ⟨d, n, hs, h1, h2, h3, h4, _⟩ :=
          ShadowHeapFacade.store_unsorted_spec fuel modes info mem data hu hfuel
        refine ⟨d, hs, ?_⟩
        have hsize : d.unsorted_size ≤ (USB_ENTRIES_MAX : Int) := by
          rw [h3]; exact_mod_cast h2
        obtain ⟨hiff, hor⟩ := ShadowHeapFacade.check_unsorted_spec modes info mem d hu hsize
        rcases hor with h | h
        · exfalso
          obtain ⟨i, hi, hne⟩ := hiff.1 h
          rw [h3] at hi
          exact hne (h4 i (by exact_mod_cast hi)).symm
        · exact h
      · have hu' : modes.usbMode = false := by simpa using hu
        refine ⟨data, ?_, ?_⟩
        · unfold ShadowHeapFacade._store_unsorted_impl; simp [hu']
        · unfold ShadowHeapFacade._check_unsorted_impl; simp [hu']

set_option maxRecDepth 1000000 in
/-- Witness for C33: the three snapshots of the example heap, checked against it. -/
theorem C33_witness :
    USB_ENTRIES_MAX ≤ 128 ∧
    (ShadowHeapFacade._check_topchunk_impl true exampleModes exampleInfo exampleHeap
        (ShadowHeapFacade._store_topchunk_impl true exampleModes exampleInfo exampleHeap
          ShadowHeapData.init)).isSome = true ∧
    (ShadowHeapFacade._check_tcache_impl false true exampleModes exampleInfo exampleHeap
        (ShadowHeapFacade._store_tcache_impl false true exampleModes exampleInfo exampleHeap
          ShadowHeapData.init)).isSome = true ∧
    (∃ d, ShadowHeapFacade._store_unsorted_impl 128 true exampleModes exampleInfo exampleHeap
        ShadowHeapData.init = some d ∧
      ShadowHeapFacade._check_unsorted_impl true exampleModes exampleInfo exampleHeap d =
        some d) :=
  ⟨by decide, by decide, by decide,
   (C33_check_after_snapshot_passes 128 false true exampleModes exampleInfo exampleHeap
      ShadowHeapData.init (by decide)).2.1⟩

/-- Claim C34. On every back-end and in every state of the store: if `get(p)`, for a non-null
pointer `p`, is ptr-size-equal to an entry `m` of `p`, then `remove(m)` returns true. Hence
`check_pointer_before_free(p)`, which builds `m` from the chunk header of `p`, returns
with the entry removed once the equality check has passed: its second failure branch is
not taken. -/
theorem C34_remove_succeeds_after_equal_get (s : IMetaStore) (p : Nat) (m : MALLOC_META)
    (hp : p ≠ 0) (hm : m.ptr = p) (h : (s.get p).equals_ptr_size m = true) :
    (s.remove m).1 = true ∧
    ∀ (σ : Type) (f : ShadowHeapFacade σ) (mem : Memory), f.store = s →
      f.modes.ptrMode = true → p < WORD →
      m = MALLOC_META.from_chunk_header mem (CHUNK_HEADER.from_memory p) →
      f.check_pointer_before_free mem p = some { f with store := (s.remove m).2 } := by
  subst hm
  refine ⟨IMetaStore.remove_of_get s hp h, ?_⟩
  intro σ f mem hf hmode hw hmeta
  subst hf
  have hm2 := MALLOC_META.from_chunk_header_eq mem hp hw
  have hcases := (ShadowHeapFacade.check_pointer_cases f mem hmode hp hw).2
  rw [hmeta, hm2] at h ⊢
  exact (hcases h).1

/-- Witness for C34: a vector store that holds the chunk 4096 with size word `0x21`, and the
entry that the header gives when its flag bits changed to `0x23`. -/
theorem C34_witness :
    (4096 : Nat) ≠ 0 ∧
    ((IMetaStore.vector { elements := [⟨4096, 33⟩] }).get 4096).equals_ptr_size ⟨4096, 35⟩
      = true ∧
    ((IMetaStore.vector { elements := [⟨4096, 33⟩] }).remove ⟨4096, 35⟩).1 = true :=
  ⟨by decide, by decide,
   (C34_remove_succeeds_after_equal_get (IMetaStore.vector { elements := [⟨4096, 33⟩] })
      4096 ⟨4096, 35⟩ (by decide) rfl (by decide)).1⟩

namespace ShadowHeapWrapper

variable {σ : Type}

/-- A call that returns `r` leaves a pointer `p ≠ r` untracked if it was untracked. -/
theorem trackCall_not_mem {S : Snapshots σ} {f f' : ShadowHeapFacade σ}
    {acc : List MALLOC_META} {c : Call × Env} {r p : Nat}
    (hcall : call S f c = some (r, f')) (hr : r ≠ p) (hp : p ≠ 0)
    (hacc : ∀ x ∈ acc, x.ptr ≠ p) : ∀ x ∈ trackCall acc c, x.ptr ≠ p := by
  have hfilter : ∀ (q : Nat) (l : List MALLOC_META), (∀ x ∈ l, x.ptr ≠ p) →
      ∀ x ∈ l.filter (fun x => x.ptr != q), x.ptr ≠ p :=
    fun q l hl x hx => hl x (List.mem_of_mem_filter hx)
  have hcons : ∀ (env : Env), env.ret ≠ p → ∀ x ∈ recorded env :: acc, x.ptr ≠ p := by
    intro env he x hx
    rcases List.mem_cons.1 hx with h | h
    · rw [h]; exact he
    · exact hacc x h
  have hmalloc : ∀ (env : Env) (len : Nat), malloc S f env len = some (r, f') →
      r = env.ret := by
    intro env len h
    unfold malloc at h
    cases h1 : f.malloc_pre S env.memPre with
    | none => rw [h1] at h; cases h
    | some f1 =>
      rw [h1] at h
      simp only at h
      cases h2 : f1.malloc_post S env.memRet env.memPost env.ret with
      | none => rw [h2] at h; cases h
      | some f2 =>
        rw [h2] at h
        simp only [Option.some.injEq, Prod.mk.injEq] at h
        exact h.1.symm
  obtain ⟨c, env⟩ := c
  cases c with
  | malloc len =>
    have := hmalloc env len hcall
    simp only [trackCall]
    split_ifs
    · exact hacc
    · exact hcons env (by omega)
  | calloc cnt len =>
    have : r = env.ret := hmalloc env len hcall
    simp only [trackCall]
    split_ifs
    · exact hacc
    · exact hcons env (by omega)
  | free ptr => exact hfilter ptr acc hacc
  | realloc ptr len =>
    simp only [trackCall]
    by_cases h0 : ptr = 0
    · rw [if_pos h0]
      have hc : malloc S f env len = some (r, f') := by
        have : call S f (Call.realloc ptr len, env) = realloc S f env ptr len := rfl
        rw [this] at hcall
        unfold realloc at hcall
        rw [if_pos h0] at hcall
        exact hcall
      have := hmalloc env len hc
      split_ifs
      · exact hacc
      · exact hcons env (by omega)
    · rw [if_neg h0]
      by_cases hl : len = 0
      · rw [if_pos hl]
        exact hfilter ptr acc hacc
      · rw [if_neg hl]
        have hres := realloc_result h0 hl hcall
        exact hfilter ptr _ (hcons env (by omega))

/-- A pointer that is not live and that no call of a sequence returns is not live
afterwards. -/
theorem tracked_not_mem {S : Snapshots σ} (p : Nat) (hp : p ≠ 0) :
    ∀ (cs : List (Call × Env)) (f f' : ShadowHeapFacade σ) (acc : List MALLOC_META)
      (rs : List Nat), run S f cs = some (rs, f') → p ∉ rs →
      (∀ x ∈ acc, x.ptr ≠ p) → ∀ x ∈ tracked acc cs, x.ptr ≠ p := by
  intro cs
  induction cs with
  | nil => intro f f' acc rs _ _ hacc; exact hacc
  | cons c cs ih =>
    intro f f' acc rs hrun hnot hacc
    unfold run at hrun
    cases hc : call S f c with
    | none => rw [hc] at hrun; cases hrun
    | some r =>
      rw [hc] at hrun
      simp only at hrun
      cases hrest : run S r.2 cs with
      | none => rw [hrest] at hrun; cases hrun
      | some rest =>
        rw [hrest] at hrun
        simp only [Option.some.injEq, Prod.mk.injEq] at hrun
        obtain ⟨h1, h2⟩ := hrun
        subst h1
        have hr : r.1 ≠ p := fun h => hnot (by rw [← h]; exact List.mem_cons_self _ _)
        have hn2 : p ∉ rest.1 := fun h => hnot (List.mem_cons_of_mem _ h)
        have hcall : call S f c = some (r.1, r.2) := hc
        exact ih r.2 rest.2 (trackCall acc c) rest.1 (by rw [hrest]) hn2
          (trackCall_not_mem hcall hr hp hacc)

end ShadowHeapWrapper

/-- The pre-free check of a pointer that is not live ends the call. -/
theorem ShadowHeapFacade.free_pre_not_tracked {σ : Type} (S : Snapshots σ)
    {f : ShadowHeapFacade σ} {acc : List MALLOC_META} {n : Nat} (ht : f.Tracks acc n)
    {p : Nat} (hp : p ≠ 0) (hw : p < WORD) (hacc : ∀ x ∈ acc, x.ptr ≠ p) (mem : Memory) :
    f.free_pre S mem p = none := by
  unfold ShadowHeapFacade.free_pre
  have hinit : f.isInitialized = true := ht.1
  simp only [hinit, Bool.true_eq_false, if_false]
  cases hv : f.verify_snapshots S mem with
  | none => rfl
  | some f1 =>
    simp only
    have ht1 := ShadowHeapFacade.Tracks.verify ht hv
    obtain ⟨_, hmode, hwf, _, hperm⟩ := ht1
    rw [(ShadowHeapFacade.check_pointer_spec f1 mem hmode hwf hp hw).1]
    have hnh : ¬ f1.store.holds p := by
      rintro ⟨e, he, hep⟩
      exact hacc e (hperm.mem_iff.1 he) hep
    rw [IMetaStore.get_of_not_holds hwf hnh]
    simp [MALLOC_META.equals_ptr_size, MALLOC_META.empty]
    intro h
    exact absurd h.symm hp

/-- Claim C35. With pointer checks enabled and the facade initialised, after a sequence of
intercepted calls that returned and whose raw allocations never returned a live pointer:
`free(p)` of a non-null pointer `p` that no call of the sequence returned aborts in
`free_pre`, before the raw `free`, both when `p` was not live before the sequence (in
particular right after initialisation, when nothing is live) and when the sequence starts
with `free(p)` (a double free). -/
theorem C35_double_free_aborts {σ : Type} (S : Snapshots σ) (f f' : ShadowHeapFacade σ)
    (acc : List MALLOC_META) (n : Nat) (cs : List (Call × Env)) (rs : List Nat)
    (p : Nat) (env : Env) (ht : f.Tracks acc n) (hn : n + 2 * cs.length < 2 ^ 61)
    (hfresh : Fresh acc cs) (hrun : ShadowHeapWrapper.run S f cs = some (rs, f'))
    (hp : p ≠ 0) (hw : p < WORD) (hnot : p ∉ rs)
    (hdead : (∀ x ∈ acc, x.ptr ≠ p) ∨ ∃ e0 cs', cs = (Call.free p, e0) :: cs') :
    f'.free_pre S env.memPre p = none ∧
    ShadowHeapWrapper.free S f' env p = none ∧
    ShadowHeapWrapper.free_steps true p =
      [.check_topchunk, .check_unsorted, .check_tcache, .check_pointer_before_free,
       .call_free_raw, .store_tcache, .store_unsorted, .store_topchunk] := by
  have ht' := ShadowHeapWrapper.run_tracks cs f f' acc n rs ht hn hfresh hrun
  have hdead' : ∀ x ∈ tracked acc cs, x.ptr ≠ p := by
    rcases hdead with h | ⟨e0, cs', hcs⟩
    · exact ShadowHeapWrapper.tracked_not_mem p hp cs f f' acc rs hrun hnot h
    · subst hcs
      unfold ShadowHeapWrapper.run at hrun
      cases hc : ShadowHeapWrapper.call S f (Call.free p, e0) with
      | none => rw [hc] at hrun; cases hrun
      | some r =>
        rw [hc] at hrun
        simp only at hrun
        cases hrest : ShadowHeapWrapper.run S r.2 cs' with
        | none => rw [hrest] at hrun; cases hrun
        | some rest =>
          rw [hrest] at hrun
          simp only [Option.some.injEq, Prod.mk.injEq] at hrun
          obtain ⟨h1, h2⟩ := hrun
          subst h1
          have hn2 : p ∉ rest.1 := fun h => hnot (List.mem_cons_of_mem _ h)
          have hfil : ∀ x ∈ trackCall acc (Call.free p, e0), x.ptr ≠ p := by
            intro x hx
            have := (List.mem_filter.1 hx).2
            simpa using this
          exact ShadowHeapWrapper.tracked_not_mem p hp cs' r.2 rest.2 _ rest.1
            (by rw [hrest]) hn2 hfil
  have hpre := ShadowHeapFacade.free_pre_not_tracked S ht' hp hw hdead' env.memPre
  refine ⟨hpre, ?_, ?_⟩
  · unfold ShadowHeapWrapper.free
    rw [if_neg hp, hpre]
  · simp [ShadowHeapWrapper.free_steps, hp, ShadowHeapFacade.free_pre_steps,
      ShadowHeapFacade.free_post_steps]

/-- Witness for C35: the chunk 4096 is live; `free(4096)` returns, and a second
`free(4096)` aborts in `free_pre`. -/
theorem C35_witness :
    (exampleFacade (.vector ⟨[⟨4096, 33⟩]⟩)).Tracks [⟨4096, 33⟩] 1 ∧
    ShadowHeapWrapper.run Snapshots.none (exampleFacade (.vector ⟨[⟨4096, 33⟩]⟩))
      [(Call.free 4096, exampleEnv 0)] = some ([0], exampleFacade (.vector ⟨[]⟩)) ∧
    (4096 : Nat) ≠ 0 ∧ 4096 < WORD ∧ 4096 ∉ [0] ∧
    ShadowHeapWrapper.free Snapshots.none (exampleFacade (.vector ⟨[]⟩)) (exampleEnv 0) 4096
      = none :=
  ⟨⟨rfl, rfl, ⟨by decide, by decide⟩, ⟨by decide, by decide⟩, List.Perm.refl _⟩,
   rfl, by decide, by decide, by decide,
   (C35_double_free_aborts Snapshots.none (exampleFacade (.vector ⟨[⟨4096, 33⟩]⟩))
      (exampleFacade (.vector ⟨[]⟩)) [⟨4096, 33⟩] 1 [(Call.free 4096, exampleEnv 0)] [0]
      4096 (exampleEnv 0)
      ⟨rfl, rfl, ⟨by decide, by decide⟩, ⟨by decide, by decide⟩, List.Perm.refl _⟩
      (by decide) ⟨(by decide : (4096 : Nat) < WORD), trivial⟩ rfl (by decide) (by decide) (by decide)
      (Or.inr ⟨exampleEnv 0, [], rfl⟩)).2.1⟩

/-- Claim C36 (contradicted by the code). When the raw `malloc` inside `realloc(p, n)`, with
`p` non-null and `n > 0`, returns null, the call has no branch for it: only
`realloc_mallochandler` skips its `store_pointer`; then `memcpy` is called with the null
destination, which is undefined behaviour, so that `realloc` does not return null, and the
steps that follow are the pre-free check of `p`, which removes the entry of `p`, and the
raw `free` of `p`. -/
theorem C36_realloc_with_failed_malloc {σ : Type} (S : Snapshots σ) (f : ShadowHeapFacade σ)
    (env : Env) (bytes : Bytes) (p n : Nat) (hp : p ≠ 0) (hn : n ≠ 0) (hret : env.ret = 0) :
    ShadowHeapWrapper.realloc S f env p n = none ∧
    ShadowHeapWrapper.malloc_memcpy_free_approach f env p n = none ∧
    memcpy bytes env.ret p (ShadowHeapWrapper.copy_this_much (wordsOf bytes) p n) = none ∧
    ShadowHeapWrapper.malloc_memcpy_free_approach_bytes f env bytes p n = none ∧
    ShadowHeapWrapper.call_steps true (.realloc p n) env.ret =
      [.check_topchunk, .check_unsorted, .check_tcache, .call_malloc_raw, .memcpy,
       .check_pointer_before_free, .call_free_raw, .store_tcache, .store_unsorted,
       .store_topchunk] := by
  have hmm : ∀ g : ShadowHeapFacade σ,
      ShadowHeapWrapper.malloc_memcpy_free_approach g env p n = none := by
    intro g
    unfold ShadowHeapWrapper.malloc_memcpy_free_approach
    simp only [hret]
    cases g.realloc_mallochandler env.memRet 0 <;> simp
  have hcpy : ∀ k, memcpy bytes env.ret p k = none := by
    intro k
    unfold memcpy
    simp [hret]
  refine ⟨?_, hmm f, hcpy _, ?_, ?_⟩
  · unfold ShadowHeapWrapper.realloc
    rw [if_neg hp, if_neg hn]
    cases f.malloc_pre S env.memPre with
    | none => rfl
    | some f1 => simp only [hmm f1]
  · unfold ShadowHeapWrapper.malloc_memcpy_free_approach_bytes
    simp only [hcpy]
    cases f.realloc_mallochandler env.memRet env.ret <;> rfl
  · simp [ShadowHeapWrapper.call_steps, ShadowHeapWrapper.realloc_steps, hp, hn, hret,
      ShadowHeapWrapper.malloc_memcpy_free_approach_steps,
      ShadowHeapFacade.realloc_pre_steps, ShadowHeapFacade.realloc_post_steps,
      ShadowHeapFacade.realloc_mallochandler_steps, ShadowHeapFacade.realloc_freehandler_steps]

/-- Witness for C36: `realloc(4096, 40)` on the example facade that holds the chunk 4096,
with a raw `malloc` that returns null. -/
theorem C36_witness :
    (4096 : Nat) ≠ 0 ∧ (40 : Nat) ≠ 0 ∧ (exampleEnv 0).ret = 0 ∧
    ShadowHeapWrapper.realloc Snapshots.none
      (exampleFacade (.vector { elements := [⟨4096, 33⟩] })) (exampleEnv 0) 4096 40 = none :=
  ⟨by decide, by decide, rfl,
   (C36_realloc_with_failed_malloc Snapshots.none
      (exampleFacade (.vector { elements := [⟨4096, 33⟩] })) (exampleEnv 0) exampleBytes
      4096 40 (by decide) (by decide) rfl).1⟩

namespace ShadowHeapFacade

/-- The check of the thread cache is decided by the rows of the bins that are walked. -/
theorem check_tcache_congr (v230 : Bool) (isInitialized : Bool) (modes : ModeReader)
    (info : ARENA_INFO) (mem : Memory) (d1 d2 : ShadowHeapData)
    (hd : d1.tcacheHasData = d2.tcacheHasData)
    (hrows : ∀ i, i < TCACHE_ENTRIES → tcache_bin_active v230 mem info.tcache i →
      d1.tcache i = d2.tcache i) :
    (_check_tcache_impl v230 isInitialized modes info mem d1 = none ↔
      _check_tcache_impl v230 isInitialized modes info mem d2 = none) := by
  cases isInitialized with
  | false => simp [_check_tcache_impl]
  | true =>
    by_cases ht : modes.tcaMode = true
    · by_cases hp : info.tcache = 0
      · unfold _check_tcache_impl
        simp only [hp, if_true]
        split_ifs <;> simp
      · by_cases h1 : d1.tcacheHasData = true
        · have h2 : d2.tcacheHasData = true := hd ▸ h1
          rw [(check_tcache_spec v230 modes info mem d1 ht h1 hp).1,
            (check_tcache_spec v230 modes info mem d2 ht h2 hp).1]
          constructor
          · rintro ⟨i, hi, hact, b, hb, hm⟩
            exact ⟨i, hi, hact, b, hb, by rw [← hrows i hi hact]; exact hm⟩
          · rintro ⟨i, hi, hact, b, hb, hm⟩
            exact ⟨i, hi, hact, b, hb, by rw [hrows i hi hact]; exact hm⟩
        · have h1' : d1.tcacheHasData = false := by simpa using h1
          have h2' : d2.tcacheHasData = false := hd ▸ h1'
          unfold _check_tcache_impl
          simp [h1', h2']
    · have ht' : modes.tcaMode = false := by simpa using ht
      unfold _check_tcache_impl
      simp [ht']

/-- Without a snapshot the check of the thread cache compares nothing. -/
theorem check_tcache_no_data (v230 : Bool) (isInitialized : Bool) (modes : ModeReader)
    (info : ARENA_INFO) (mem : Memory) (d : ShadowHeapData) (hd : d.tcacheHasData = false) :
    _check_tcache_impl v230 isInitialized modes info mem d = some d := by
  unfold _check_tcache_impl
  simp [hd]

end ShadowHeapFacade

/-- Claim C37. `check_tcache` looks at the bins whose head is non-null and whose count is
positive at check time only: its verdict depends on the recorded rows of these bins alone.
For every snapshot, taken on a memory `mem0`, and every memory `mem` in which a bin `i0`
has a null head or a non-positive count while every other bin reads as in `mem0`, the check
on `mem` does not abort. When no snapshot was pending and every bin was empty as the
snapshot was taken, no snapshot is present afterwards and the next check returns without
a comparison, whatever the memory holds. -/
theorem C37_check_tcache_skips_emptied_bins (v230 isInitialized : Bool) (modes : ModeReader)
    (info : ARENA_INFO) (mem0 mem : Memory) (data : ShadowHeapData) (i0 : Nat)
    (hempty : ¬ tcache_bin_active v230 mem info.tcache i0)
    (hsame : ∀ i, i < TCACHE_ENTRIES → i ≠ i0 → tcache_bin_same v230 mem0 mem info.tcache i) :
    (∃ d, ShadowHeapFacade._check_tcache_impl v230 isInitialized modes info mem
        (ShadowHeapFacade._store_tcache_impl v230 isInitialized modes info mem0 data) =
      some d) ∧
    (∀ d1 d2 : ShadowHeapData, d1.tcacheHasData = d2.tcacheHasData →
      (∀ i, i < TCACHE_ENTRIES → tcache_bin_active v230 mem info.tcache i →
        d1.tcache i = d2.tcache i) →
      (ShadowHeapFacade._check_tcache_impl v230 isInitialized modes info mem d1 = none ↔
        ShadowHeapFacade._check_tcache_impl v230 isInitialized modes info mem d2 = none)) ∧
    (data.tcacheHasData = false →
      (∀ i, i < TCACHE_ENTRIES → ¬ tcache_bin_active v230 mem0 info.tcache i) →
      (ShadowHeapFacade._store_tcache_impl v230 isInitialized modes info mem0
        data).tcacheHasData = false ∧
      ∀ mem' : Memory,
        ShadowHeapFacade._check_tcache_impl v230 isInitialized modes info mem'
          (ShadowHeapFacade._store_tcache_impl v230 isInitialized modes info mem0 data) =
        some (ShadowHeapFacade._store_tcache_impl v230 isInitialized modes info mem0
          data)) := by
  refine ⟨?_, fun d1 d2 hd hrows =>
    ShadowHeapFacade.check_tcache_congr v230 isInitialized modes info mem d1 d2 hd hrows, ?_⟩
  · cases isInitialized with
    | false => exact ⟨_, rfl⟩
    | true =>
      by_cases ht : modes.tcaMode = true
      · by_cases hp : info.tcache = 0
        · refine ⟨ShadowHeapFacade._store_tcache_impl v230 true modes info mem0 data, ?_⟩
          unfold ShadowHeapFacade._check_tcache_impl
          simp [hp]
        · by_cases hd : (ShadowHeapFacade._store_tcache_impl v230 true modes info mem0
              data).tcacheHasData = true
          · obtain ⟨hiff, hor⟩ := ShadowHeapFacade.check_tcache_spec v230 modes info mem
              (ShadowHeapFacade._store_tcache_impl v230 true modes info mem0 data) ht hd hp
            rcases hor with h | h
            · exfalso
              obtain ⟨i, hi, hact, b, hb, hmis⟩ := hiff.1 h
              have hi0 : i ≠ i0 := fun h => hempty (h ▸ hact)
              obtain ⟨s1, s2, s3⟩ := hsame i hi hi0
              obtain ⟨w1, w2⟩ := tcache_walk_same mem0 mem TCA_BIN_SIZE
                (tcache_entries v230 mem0 info.tcache i) s3
              have hact0 : tcache_bin_active v230 mem0 info.tcache i := by
                unfold tcache_bin_active at hact ⊢
                rw [← s1, ← s2]
                exact hact
              rw [s1, w1] at hb
              rw [s1, w2 b hb,
                (ShadowHeapFacade.store_tcache_spec v230 modes info mem0 data ht hp).1 i hi
                  hact0 b hb] at hmis
              obtain ⟨_, c2, c3⟩ := s3 b hb
              unfold TcacheMetaEntry.mismatch TcacheMetaEntry.record at hmis
              simp only [c2, c3, ne_eq, not_true_eq_false, or_self] at hmis
            · exact ⟨_, h⟩
          · refine ⟨ShadowHeapFacade._store_tcache_impl v230 true modes info mem0 data, ?_⟩
            exact ShadowHeapFacade.check_tcache_no_data v230 true modes info mem _
              (by simpa using hd)
      · refine ⟨ShadowHeapFacade._store_tcache_impl v230 true modes info mem0 data, ?_⟩
        have ht' : modes.tcaMode = false := by simpa using ht
        unfold ShadowHeapFacade._check_tcache_impl
        simp [ht']
  · intro hd hall
    have hno : (ShadowHeapFacade._store_tcache_impl v230 isInitialized modes info mem0
        data).tcacheHasData = false := by
      cases isInitialized with
      | false => exact hd
      | true =>
        by_cases ht : modes.tcaMode = true
        · by_cases hp : info.tcache = 0
          · unfold ShadowHeapFacade._store_tcache_impl
            simp [hp, hd]
          · have h3 := (ShadowHeapFacade.store_tcache_spec v230 modes info mem0 data ht hp).2.2
            by_contra hc
            have hc' : (ShadowHeapFacade._store_tcache_impl v230 true modes info mem0
                data).tcacheHasData = true := by simpa using hc
            rcases h3.1 hc' with h | ⟨i, hi, hact⟩
            · rw [hd] at h; cases h
            · exact hall i hi hact
        · have ht' : modes.tcaMode = false := by simpa using ht
          unfold ShadowHeapFacade._store_tcache_impl
          simp [ht', hd]
    exact ⟨hno, fun mem' =>
      ShadowHeapFacade.check_tcache_no_data v230 isInitialized modes info mem' _ hno⟩

set_option maxRecDepth 1000000 in
/-- Witness for C37: the snapshot of the example heap records tcache bin 0; the application
then empties the bin (count 0, null head), and the check passes. -/
theorem C37_witness :
    tcache_bin_active false exampleHeap exampleInfo.tcache 0 ∧
    ¬ tcache_bin_active false exampleHeapEmptied exampleInfo.tcache 0 ∧
    (ShadowHeapFacade._store_tcache_impl false true exampleModes exampleInfo exampleHeap
      ShadowHeapData.init).tcacheHasData = true ∧
    (∃ d, ShadowHeapFacade._check_tcache_impl false true exampleModes exampleInfo
        exampleHeapEmptied
        (ShadowHeapFacade._store_tcache_impl false true exampleModes exampleInfo exampleHeap
          ShadowHeapData.init) = some d) :=
  ⟨by unfold tcache_bin_active; decide, by unfold tcache_bin_active; decide, by decide,
   (C37_check_tcache_skips_emptied_bins false true exampleModes exampleInfo exampleHeap
      exampleHeapEmptied ShadowHeapData.init 0 (by unfold tcache_bin_active; decide)
      (by unfold tcache_bin_same tcache_cell_same; decide)).1⟩

namespace details.ResizeableHashMap

/-- Beyond `2^30` times the capacity the loop of `ensure_capacity` doubles `factor` until
the `int` overflows. -/
theorem grow_factor_overflow (required cap : Nat) (hreq : 2 ^ 30 * cap < required)
    (hw : 2 ^ 31 * cap < WORD) :
    ∀ (fuel k : Nat), 1 ≤ k → k ≤ 30 →
      grow_factor required fuel (2 ^ k) (2 ^ k * cap) = none := by
  intro fuel
  induction fuel with
  | zero => intro k _ _; rfl
  | succ fuel ih =>
    intro k hk1 hk30
    unfold grow_factor
    have hle : 2 ^ k * cap ≤ 2 ^ 30 * cap :=
      Nat.mul_le_mul_right _ (Nat.pow_le_pow_right (by decide) hk30)
    have hgt : required > 2 ^ k * cap := by omega
    rw [if_pos hgt]
    by_cases hk : k < 30
    · have h2 : 2 ^ k * 2 < 2 ^ 31 := by
        have : 2 ^ (k + 1) ≤ 2 ^ 30 := Nat.pow_le_pow_right (by decide) (by omega)
        rw [Nat.pow_succ] at this
        omega
      rw [if_pos h2]
      have hle2 : 2 ^ (k + 1) * cap ≤ 2 ^ 30 * cap :=
        Nat.mul_le_mul_right _ (Nat.pow_le_pow_right (by decide) (by omega))
      have hlt : 2 ^ 30 * cap < WORD := by
        have : 2 ^ 30 * cap ≤ 2 ^ 31 * cap := Nat.mul_le_mul_right _ (by decide)
        omega
      have e1 : 2 ^ k * 2 = 2 ^ (k + 1) := (Nat.pow_succ 2 k).symm
      have e2 : 2 ^ k * cap * 2 % WORD = 2 ^ (k + 1) * cap := by
        have : 2 ^ k * cap * 2 = 2 ^ (k + 1) * cap := by rw [Nat.pow_succ]; ring
        rw [this]
        exact Nat.mod_eq_of_lt (by omega)
      rw [e1, e2]
      exact ih (k + 1) (by omega) (by omega)
    · have hk' : k = 30 := by omega
      subst hk'
      rw [if_neg (by decide)]

end details.ResizeableHashMap

set_option maxRecDepth 1000000 in
/-- Claim C38 (contradicted by the code). `ensure_capacity(n)` returns, with a capacity of
at least `n`, exactly for the requests up to `2^30` times the current capacity: beyond that
its loop doubles the `int factor` to `2^31`, which is undefined behaviour, before
`newcap` reaches `n`. For the freshly constructed store of capacity 128 this happens for
`SHADOWHEAP_SIZE_INITIAL=137438953473` (`2^37 + 1`): the initialisation of the facade does
not return. -/
theorem C38_ensure_capacity_overflows (m : details.ResizeableHashMap) (n : Nat)
    (hw : 2 ^ 31 * m.capacity < WORD) :
    ((m.ensure_capacity n).isSome = true ↔ n ≤ 2 ^ 30 * m.capacity) ∧
    (∀ m', m.ensure_capacity n = some m' → n ≤ m'.capacity) ∧
    (2 ^ 30 * m.capacity < n → m.ensure_capacity n = none) ∧
    (details.ResizeableHashMap.init 128).ensure_capacity (2 ^ 37 + 1) = none ∧
    CachedMetaStore.init.reserve (2 ^ 37 + 1) = none ∧
    ShadowHeapFacade.ensure_initialized exampleLibrary
      ["SHADOWHEAP_SIZE_INITIAL=137438953473".toList] exampleBuild
      (.cached CachedMetaStore.init) exampleProbe = .error .undefined := by
  have hnone : 2 ^ 30 * m.capacity < n → m.ensure_capacity n = none := by
    intro hn
    unfold details.ResizeableHashMap.ensure_capacity
    simp only
    have h1 : ¬ n ≤ m.capacity := by
      have : m.capacity ≤ 2 ^ 30 * m.capacity := Nat.le_mul_of_pos_left _ (by decide)
      omega
    rw [if_neg h1]
    have h2 : 2 * m.capacity % WORD = 2 ^ 1 * m.capacity := by
      rw [Nat.pow_one]
      apply Nat.mod_eq_of_lt
      have : 2 * m.capacity ≤ 2 ^ 31 * m.capacity := Nat.mul_le_mul_right _ (by decide)
      omega
    have h3 := details.ResizeableHashMap.grow_factor_overflow n m.capacity hn hw 31 1
      (by decide) (by decide)
    rw [h2]
    rw [show (2 : Nat) = 2 ^ 1 from rfl] at *
    simp only [Nat.pow_one] at h3 ⊢
    rw [h3]
  have hsome : n ≤ 2 ^ 30 * m.capacity →
      ∃ m', m.ensure_capacity n = some m' ∧ n ≤ m'.capacity := by
    intro hn
    rcases details.ResizeableHashMap.ensure_capacity_rule m n hn hw with
      ⟨h1, h2⟩ | ⟨_, j, _, _, h2, h3, _, h4, _, _⟩
    · exact ⟨m, h2, h1⟩
    · exact ⟨_, h2, by rw [h4]; exact h3⟩
  refine ⟨⟨fun h => ?_, fun h => ?_⟩, fun m' hm' => ?_, hnone, ?_, ?_, ?_⟩
  · by_contra hc
    rw [hnone (by omega)] at h
    cases h
  · obtain ⟨m', h1, _⟩ := hsome h
    rw [h1]; rfl
  · by_cases hn : n ≤ 2 ^ 30 * m.capacity
    · obtain ⟨m'', h1, h2⟩ := hsome hn
      rw [h1] at hm'
      cases hm'
      exact h2
    · rw [hnone (by omega)] at hm'
      cases hm'
  · decide
  · decide
  · rfl

/-- Witness for C38: the table of the freshly constructed store and the request `2^37 + 1`. -/
theorem C38_witness :
    2 ^ 31 * (details.ResizeableHashMap.init 128).capacity < WORD ∧
    2 ^ 30 * (details.ResizeableHashMap.init 128).capacity < 2 ^ 37 + 1 ∧
    (details.ResizeableHashMap.init 128).ensure_capacity (2 ^ 37 + 1) = none :=
  ⟨by decide, by decide,
   (C38_ensure_capacity_overflows (details.ResizeableHashMap.init 128) (2 ^ 37 + 1)
      (by decide)).2.2.1 (by decide)⟩

/-- Claim C39. `call_calloc_recursive_checked(cnt, n)`: with a non-zero nesting counter it
makes no raw `calloc` call and leaves the counter and the rest of the state as they are,
and it returns the address of the static buffer `callocbase` while the symbols are not
resolved and null once they are; with the counter at zero it makes exactly one raw `calloc`
call, which runs with the counter at one, leaves the counter at zero again (and the symbols
resolved), and returns the result of the raw call. -/
theorem C39_calloc_recursive_checked (env : HookEnv) (h : HookInfo) (cnt n : Nat) :
    (h.recursive ≠ 0 →
      (HookInfo.call_calloc_recursive_checked env h cnt n).2 = h ∧
      (h.isInitialized = false →
        (HookInfo.call_calloc_recursive_checked env h cnt n).1 = env.callocbase) ∧
      (h.isInitialized = true →
        (HookInfo.call_calloc_recursive_checked env h cnt n).1 = 0)) ∧
    (h.recursive = 0 →
      (HookInfo.call_calloc_recursive_checked env h cnt n).1 = env.callocp cnt n ∧
      (HookInfo.call_calloc_recursive_checked env h cnt n).2.callocs =
        h.callocs ++ [{ cnt := cnt, len := n, recursive := 1 }] ∧
      (HookInfo.call_calloc_recursive_checked env h cnt n).2.recursive = 0 ∧
      (HookInfo.call_calloc_recursive_checked env h cnt n).2.isInitialized = true) := by
  constructor
  · intro hr
    unfold HookInfo.call_calloc_recursive_checked
    rw [if_pos hr]
    refine ⟨?_, ?_, ?_⟩
    · split_ifs <;> rfl
    · intro hi; rw [if_pos hi]
    · intro hi
      have : ¬ h.isInitialized = false := by simp [hi]
      rw [if_neg this]
  · intro hr
    unfold HookInfo.call_calloc_recursive_checked
    rw [if_neg (not_not.2 hr)]
    unfold HookInfo.call_calloc_recursive HookInfo.call_calloc_raw HookInfo.setupPointers
    cases hi : h.isInitialized <;> simp [hi, hr]

/-- Witness for C39: a nested call before and after the resolution of the symbols, and a
call outside every region. -/
theorem C39_witness :
    ((1 : Int) ≠ 0 ∧ (0 : Int) = 0) ∧
    HookInfo.call_calloc_recursive_checked exampleHookEnv
      { isInitialized := false, recursive := 1, callocs := [] } 3 8 =
      (24576, { isInitialized := false, recursive := 1, callocs := [] }) ∧
    HookInfo.call_calloc_recursive_checked exampleHookEnv
      { isInitialized := true, recursive := 1, callocs := [] } 3 8 =
      (0, { isInitialized := true, recursive := 1, callocs := [] }) ∧
    HookInfo.call_calloc_recursive_checked exampleHookEnv HookInfo.init 3 8 =
      (4096, { isInitialized := true, recursive := 0,
               callocs := [{ cnt := 3, len := 8, recursive := 1 }] }) ∧
    ((HookInfo.call_calloc_recursive_checked exampleHookEnv
        { isInitialized := false, recursive := 1, callocs := [] } 3 8).2 =
      { isInitialized := false, recursive := 1, callocs := [] }) :=
  ⟨⟨by decide, rfl⟩, by decide, by decide, by decide,
   ((C39_calloc_recursive_checked exampleHookEnv
      { isInitialized := false, recursive := 1, callocs := [] } 3 8).1 (by decide)).1⟩


end ShadowHeap
